import Mathlib

/-! # gettext-arma: the Arma (SQF / config) backend of xgettext

A shallow embedding of `gettext-tools/src/format-arma.c` (the `%<number>`
format-string parser and checker) and of `gettext-tools/src/x-arma.c` (the
layered scanner and the call extractor), followed by theorems about them.

Conventions of the embedding.
* A C string is a `List Char`; one `Char` stands for one `char` of the C
  program.  A read past the last element of the list reads the terminating
  NUL, and `xstrdup` keeps the characters before the first NUL.
* An `int` that holds a character or `EOF` is an `Option Char` (`none` is `EOF`).
* `unsigned int` arithmetic is `Nat` arithmetic reduced modulo `2 ^ 32`.
* Static and global variables of the C program are fields of an explicit state.
* A `for (;;)` loop is a function recursive on a fuel counter; the fuel that a
  loop starts with is computed from the state (the number of pending input
  characters and pushed-back items), and a loop that would run out of it
  raises the `out_of_fuel` flag of the state.
-/

namespace Arma

/-! ## format-arma.c -/

/-- The `c_isdigit` of `c-ctype.h`: the ten ASCII decimal digits. -/
def c_isdigit (c : Char) : Bool :=
  decide ('0' ≤ c) && decide (c ≤ '9')

/-- The value read by `*format` on the C string held in a list: the first
character, or NUL at the end of the list. -/
def cpeek (format : List Char) : Char :=
  match format with
  | [] => Char.ofNat 0
  | c :: _ => c

/-- The `struct spec` of format-arma.c.  `args_used` is the array of 8192 flags;
entries at or above `arg_count` were never written. -/
structure spec where
  directives : Nat
  arg_count : Nat
  args_used : Nat → Bool

/-- What `format_parse` stores in `*invalid_reason`: which of the two macros of
`format-invalid.h` was invoked, and with which arguments. -/
inductive invalid_reason_ty where
  | INVALID_UNTERMINATED_DIRECTIVE : invalid_reason_ty
  | INVALID_CONVERSION_SPECIFIER (dirno : Nat) (c : Char) : invalid_reason_ty
  deriving DecidableEq, Repr

/-- The inner `while` loop of `format_parse` (lines 82-86): extends `number`
by the following digits as long as the extended value stays below 8192.
Returns the final `number` and the rest of the string. -/
def format_parse_number (number : Nat) : List Char → Nat × List Char
  | [] => (number, [])
  | c :: rest =>
    if c_isdigit c && decide ((10 * number + (c.toNat &&& 0x0F)) % 2 ^ 32 < 8192) then
      format_parse_number ((10 * number + (c.toNat &&& 0x0F)) % 2 ^ 32) rest
    else (number, c :: rest)

/-- The loop `while (ss_spec.arg_count <= number) ss_spec.args_used[ss_spec.arg_count++] = false;`
(lines 88-89), on fuel. -/
def format_parse_grow : Nat → spec → Nat → spec
  | 0, ss_spec, _ => ss_spec
  | fuel + 1, ss_spec, number =>
    if ss_spec.arg_count ≤ number then
      format_parse_grow fuel
        { ss_spec with
          args_used := Function.update ss_spec.args_used ss_spec.arg_count false
          arg_count := (ss_spec.arg_count + 1) % 2 ^ 32 }
        number
    else ss_spec

/-- The state of the main loop of `format_parse`: the descriptor under
construction and the current content of `*invalid_reason`. -/
structure format_parse_state where
  ss_spec : spec
  invalid_reason : Option invalid_reason_ty

/-- The main loop of `format_parse` (lines 68-109), on fuel; `format` is the
text from the current position of the pointer to the end of the list. -/
def format_parse_loop : Nat → List Char → format_parse_state → format_parse_state
  | 0, _, st => st
  | fuel + 1, format, st =>
    match format with
    | [] => st
    | c :: format =>
      if c = Char.ofNat 0 then st
      else if c = '%' then
        if c_isdigit (cpeek format) then
          -- A directive.
          let ss_spec := { st.ss_spec with directives := (st.ss_spec.directives + 1) % 2 ^ 32 }
          let r := format_parse_number ((cpeek format).toNat &&& 0x0F) (format.drop 1)
          let number := r.1
          let ss_spec := format_parse_grow (number + 1) ss_spec number
          let ss_spec := { ss_spec with args_used := Function.update ss_spec.args_used number true }
          format_parse_loop fuel r.2 { st with ss_spec := ss_spec }
        else if cpeek format = Char.ofNat 0 then
          format_parse_loop fuel format
            { st with invalid_reason := some invalid_reason_ty.INVALID_UNTERMINATED_DIRECTIVE }
        else
          let dirno := (st.ss_spec.arg_count + 1) % 2 ^ 32
          let reason := invalid_reason_ty.INVALID_CONVERSION_SPECIFIER dirno (cpeek format)
          format_parse_loop fuel format { st with invalid_reason := some reason }
      else format_parse_loop fuel format st

/-- The function `format_parse`.  `garbage` is the indeterminate initial content
of the stack array `ss_spec.args_used`; the result is the returned descriptor
together with the final content of `*invalid_reason` (`none`: never written).
The arguments `translated` and `fdi` do not influence either. -/
def format_parse (format : List Char) (garbage : Nat → Bool) :
    spec × Option invalid_reason_ty :=
  let st := format_parse_loop (format.length + 1) format
    { ss_spec := { directives := 0, arg_count := 0, args_used := garbage }, invalid_reason := none }
  (st.ss_spec, st.invalid_reason)

/-- The function `format_get_number_of_directives`. -/
def format_get_number_of_directives (descr : spec) : Nat :=
  descr.directives

/-- The two messages `format_check` can hand to `error_logger`, with the
argument number they are formatted with. -/
inductive format_check_error where
  | doesnt_exist_in_msgstr (i : Nat) : format_check_error
  | doesnt_exist_in_msgid (i : Nat) : format_check_error
  deriving DecidableEq, Repr

/-- The `for` loop of `format_check` (lines 142-163) from index `i` on; `fuel`
bounds the number of iterations.  Returns `err` and the calls made to
`error_logger`. -/
def format_check_loop (spec1 spec2 : spec) (error_logger : Bool) :
    Nat → Nat → Bool × List format_check_error
  | 0, _ => (false, [])
  | fuel + 1, i =>
    if i < spec1.arg_count ∨ i < spec2.arg_count then
      let arg_used1 := decide (i < spec1.arg_count) && spec1.args_used i
      let arg_used2 := decide (i < spec2.arg_count) && spec2.args_used i
      if arg_used1 ≠ arg_used2 then
        (true,
          if error_logger then
            (if arg_used1 then [format_check_error.doesnt_exist_in_msgstr i]
             else [format_check_error.doesnt_exist_in_msgid i])
          else [])
      else format_check_loop spec1 spec2 error_logger fuel (i + 1)
    else (false, [])

/-- The function `format_check`: the returned flag (true: the pair is invalid)
and the calls made to `error_logger` (`error_logger = false`: a null logger). -/
def format_check (msgid_descr msgstr_descr : spec) (_equality : Bool) (error_logger : Bool) :
    Bool × List format_check_error :=
  format_check_loop msgid_descr msgstr_descr error_logger
    (max msgid_descr.arg_count msgstr_descr.arg_count) 0

/-- The argument numbers a descriptor references: `i` is referenced when it is
below `arg_count` and its flag is set. -/
def spec.referenced (d : spec) (i : Nat) : Bool :=
  decide (i < d.arg_count) && d.args_used i

/-- For the last `%` of the string that is not followed by a digit, the
character after it (`none` when the string ends there); `none` when every
`%` is followed by a digit. -/
def last_bad_percent : List Char → Option (Option Char)
  | [] => none
  | c :: rest =>
    match last_bad_percent rest with
    | some r => some r
    | none => if c = '%' ∧ c_isdigit (cpeek rest) = false then some rest.head? else none

/-- Which macro produced an invalid reason, and for the conversion-specifier one
the character it names. -/
def reason_kind : Option invalid_reason_ty → Option (Option Char)
  | none => none
  | some invalid_reason_ty.INVALID_UNTERMINATED_DIRECTIVE => some none
  | some (invalid_reason_ty.INVALID_CONVERSION_SPECIFIER _ c) => some (some c)

/-- Position `i` of the string holds a `%` that is not immediately followed by
a decimal digit (it is followed by another character or by the end of the string). -/
def percent_without_digit_at (format : List Char) (i : Nat) : Bool :=
  format[i]? == some '%' &&
    (match format[i + 1]? with
     | some d => !c_isdigit d
     | none => true)

/-- The positions of the string that hold a `%` not immediately followed by a
decimal digit, in increasing order. -/
def bad_percent_positions (format : List Char) : List Nat :=
  (List.range format.length).filter (percent_without_digit_at format)

/-! ## x-arma.c: reading of characters -/

/-- The `xstrdup` of a buffer that was terminated by a NUL written after its last
element: the characters before the first NUL. -/
def xstrdup (buffer : List Char) : List Char :=
  buffer.takeWhile (fun c => c != Char.ofNat 0)

/-- The `enum token_type_ty`. -/
inductive token_type_ty where
  | token_type_eof
  | token_type_eoln
  | token_type_eoln_explicit
  | token_type_hash
  | token_type_lparen
  | token_type_rparen
  | token_type_lsqbr
  | token_type_rsqbr
  | token_type_comma
  | token_type_colon
  | token_type_name
  | token_type_number
  | token_type_string_literal
  | token_type_dollar_literal
  | token_type_symbol
  | token_type_white_space
  deriving DecidableEq, Repr

open token_type_ty

/-- The `struct token_ty`.  A null `string` is the empty list, a null or unset
`comment` is `none`; the field `escape` only ever holds `LET_NONE` and is left out. -/
structure token_ty where
  type : token_type_ty
  string : List Char
  comment : Option (List (List Char))
  number : Int
  line_number : Int
  deriving DecidableEq, Repr

/-- The file-scope and function-static variables of the scanner.  Every pushback
array is a list whose head is the element that is read back first. -/
structure scan_state where
  /-- The unread rest of the input stream `fp`. -/
  fp : List Char
  phase1_pushback : List Char
  phase2_pushback : List Char
  phase3_pushback : List Char
  line_number : Int
  logical_file_name : List Char
  /-- The comment accumulator `buffer[0 .. buflen)`. -/
  buffer : List Char
  /-- The comment snapshot `savable_comment` of xgettext.c (`none`: null). -/
  savable_comment : Option (List (List Char))
  last_comment_line : Int
  last_non_comment_line : Int
  newline_count : Int
  phase5_pushback : List token_ty
  /-- The static `middle` of `phaseX_get`. -/
  middle : Bool
  phase6_pushback : List token_ty
  /-- The line numbers printed by the "unterminated string literal" warnings. -/
  warnings : List Int
  /-- Set when `abort ()` is reached. -/
  aborted : Bool
  /-- Set when a loop of the embedding exhausts its fuel. -/
  out_of_fuel : Bool
  deriving DecidableEq, Repr

/-- The fuel every loop of the scanner starts with: one more than the number of
pending input characters and pushed-back characters and tokens. -/
def scan_state.fuel (s : scan_state) : Nat :=
  s.fp.length + s.phase1_pushback.length + s.phase2_pushback.length
    + s.phase3_pushback.length + s.phase5_pushback.length + s.phase6_pushback.length + 1

/-- The call `getc (fp)`. -/
def getc (s : scan_state) : Option Char × scan_state :=
  match s.fp with
  | [] => (none, s)
  | c :: rest => (some c, { s with fp := rest })

/-- The call `ungetc (c, fp)`. -/
def ungetc (c : Char) (s : scan_state) : scan_state :=
  { s with fp := c :: s.fp }

/-- The function `phase0_getc` (lines 171-197); a read error is not modelled. -/
def phase0_getc (s : scan_state) : Option Char × scan_state :=
  let r := getc s
  match r.1 with
  | none => (none, r.2)
  | some c =>
    if c = '\r' then
      let r1 := getc r.2
      match r1.1 with
      | none => (some '\n', r1.2)
      | some c1 => if c1 ≠ '\n' then (some '\n', ungetc c1 r1.2) else (some '\n', r1.2)
    else (some c, r.2)

/-- The function `phase0_ungetc`. -/
def phase0_ungetc (c : Option Char) (s : scan_state) : scan_state :=
  match c with
  | none => s
  | some c => ungetc c s

/-- The `for (;;)` loop of `phase1_getc` (lines 227-249). -/
def phase1_getc_loop : Nat → scan_state → Option Char × scan_state
  | 0, s => (none, { s with out_of_fuel := true })
  | fuel + 1, s =>
    let r := phase0_getc s
    if r.1 = some '\n' then (some '\n', { r.2 with line_number := r.2.line_number + 1 })
    else if r.1 = some '\\' then
      let r1 := phase0_getc r.2
      if r1.1 ≠ some '\n' then (some '\\', phase0_ungetc r1.1 r1.2)
      else phase1_getc_loop fuel { r1.2 with line_number := r1.2.line_number + 1 }
    else r

/-- The function `phase1_getc`. -/
def phase1_getc (s : scan_state) : Option Char × scan_state :=
  match s.phase1_pushback with
  | c :: rest =>
    (some c, { s with phase1_pushback := rest,
                      line_number := if c = '\n' then s.line_number + 1 else s.line_number })
  | [] => phase1_getc_loop s.fuel s

/-- The function `phase1_ungetc`. -/
def phase1_ungetc (c : Option Char) (s : scan_state) : scan_state :=
  match c with
  | none => s
  | some c =>
    let s1 := if c = '\n' then { s with line_number := s.line_number - 1 } else s
    if s1.phase1_pushback.length = 2 then { s1 with aborted := true }
    else { s1 with phase1_pushback := c :: s1.phase1_pushback }

/-- The function `phase2_getc`. -/
def phase2_getc (s : scan_state) : Option Char × scan_state :=
  match s.phase2_pushback with
  | c :: rest => (some c, { s with phase2_pushback := rest })
  | [] => phase1_getc s

/-- The function `phase2_ungetc`. -/
def phase2_ungetc (c : Option Char) (s : scan_state) : scan_state :=
  match c with
  | none => s
  | some c =>
    if s.phase2_pushback.length = 1 then { s with aborted := true }
    else { s with phase2_pushback := c :: s.phase2_pushback }

/-- The `for (;;)` loop of `phase3_getc` (lines 321-332). -/
def phase3_getc_loop : Nat → scan_state → Option Char × scan_state
  | 0, s => (none, { s with out_of_fuel := true })
  | fuel + 1, s =>
    let r := phase2_getc s
    if r.1 ≠ some '\\' then r
    else
      let r1 := phase2_getc r.2
      if r1.1 ≠ some '\n' then (some '\\', phase2_ungetc r1.1 r1.2)
      else phase3_getc_loop fuel r1.2

/-- The function `phase3_getc`. -/
def phase3_getc (s : scan_state) : Option Char × scan_state :=
  match s.phase3_pushback with
  | c :: rest => (some c, { s with phase3_pushback := rest })
  | [] => phase3_getc_loop s.fuel s

/-- The function `phase3_ungetc`. -/
def phase3_ungetc (c : Option Char) (s : scan_state) : scan_state :=
  match c with
  | none => s
  | some c =>
    if s.phase3_pushback.length = 2 then { s with aborted := true }
    else { s with phase3_pushback := c :: s.phase3_pushback }

/-! ## x-arma.c: accumulating comments -/

/-- The function `comment_start`. -/
def comment_start (s : scan_state) : scan_state :=
  { s with buffer := [] }

/-- The function `comment_add`. -/
def comment_add (c : Char) (s : scan_state) : scan_state :=
  { s with buffer := s.buffer ++ [c] }

/-- Modelled from the spec: `savable_comment_add` of xgettext.c, which is not
under src/.  It appends one fragment (a copy of the NUL-terminated buffer) to
the comment snapshot, creating the snapshot when there is none. -/
def savable_comment_add (fragment : List Char) (s : scan_state) : scan_state :=
  { s with savable_comment := some (s.savable_comment.getD [] ++ [xstrdup fragment]) }

/-- Modelled from the spec: `savable_comment_reset` of xgettext.c, which is not
under src/.  It drops the comment snapshot. -/
def savable_comment_reset (s : scan_state) : scan_state :=
  { s with savable_comment := none }

/-- The function `comment_line_end`. -/
def comment_line_end (chars_to_remove : Nat) (s : scan_state) : scan_state :=
  let kept := s.buffer.take (s.buffer.length - chars_to_remove)
  let trimmed := kept.rdropWhile (fun c => c = ' ' ∨ c = '\t')
  savable_comment_add trimmed { s with buffer := trimmed }

/-- The statement `if (!(buflen == 0 && (c == ' ' || c == '\t'))) comment_add (c);`
of both comment loops (lines 427-428 and 467-468). -/
def comment_add_unless_leading_blank (c : Char) (s : scan_state) : scan_state :=
  if ¬ (s.buffer.length = 0 ∧ (c = ' ' ∨ c = '\t')) then comment_add c s else s

/-- The loop of `phase4_getc` that reads a C comment (lines 421-454). -/
def phase4_getc_c_comment : Nat → Bool → scan_state → scan_state
  | 0, _, s => { s with out_of_fuel := true }
  | fuel + 1, last_was_star, s =>
    let r := phase3_getc s
    match r.1 with
    | none => r.2
    | some c =>
      let s1 := comment_add_unless_leading_blank c r.2
      if c = '\n' then
        phase4_getc_c_comment fuel false (comment_start (comment_line_end 1 s1))
      else if c = '*' then phase4_getc_c_comment fuel true s1
      else if c = '/' ∧ last_was_star = true then comment_line_end 2 s1
      else phase4_getc_c_comment fuel false s1

/-- The loop of `phase4_getc` that reads a C++ comment (lines 461-469). -/
def phase4_getc_cxx_comment : Nat → scan_state → scan_state
  | 0, s => { s with out_of_fuel := true }
  | fuel + 1, s =>
    let r := phase3_getc s
    match r.1 with
    | none => r.2
    | some c =>
      if c = '\n' then r.2
      else phase4_getc_cxx_comment fuel (comment_add_unless_leading_blank c r.2)

/-- The function `phase4_getc` (lines 401-474). -/
def phase4_getc (s : scan_state) : Option Char × scan_state :=
  let r := phase3_getc s
  if r.1 ≠ some '/' then r
  else
    let r1 := phase3_getc r.2
    if r1.1 = some '*' then
      let s1 := phase4_getc_c_comment r1.2.fuel false (comment_start r1.2)
      (some ' ', { s1 with last_comment_line := s1.newline_count })
    else if r1.1 = some '/' then
      let s1 := comment_line_end 0 (phase4_getc_cxx_comment r1.2.fuel (comment_start r1.2))
      (some '\n', { s1 with last_comment_line := s1.newline_count })
    else (some '/', phase3_ungetc r1.1 r1.2)

/-- The function `phase4_ungetc`. -/
def phase4_ungetc (c : Option Char) (s : scan_state) : scan_state :=
  phase3_ungetc c s

/-! ## x-arma.c: reading of tokens -/

/-- The case labels `A` ... `Z`, `_`, `a` ... `z` of `phase5_get`. -/
def is_name_start (c : Char) : Bool :=
  (decide ('A' ≤ c) && decide (c ≤ 'Z')) || decide (c = '_') || (decide ('a' ≤ c) && decide (c ≤ 'z'))

/-- The case labels of the characters that continue a name: letters, `_` and digits. -/
def is_name_char (c : Char) : Bool :=
  is_name_start c || c_isdigit c

/-- The case labels that continue a number without further ado (lines 809-821):
letters other than `e` and `E`, digits and `.`. -/
def is_number_char (c : Char) : Bool :=
  ((decide ('A' ≤ c) && decide (c ≤ 'Z') && decide (c ≠ 'E'))
    || (decide ('a' ≤ c) && decide (c ≤ 'z') && decide (c ≠ 'e'))
    || c_isdigit c || decide (c = '.'))

/-- The ASCII lower-case form of a character, as `strncasecmp` compares. -/
def c_tolower (c : Char) : Char :=
  if 'A' ≤ c ∧ c ≤ 'Z' then Char.ofNat (c.toNat + 32) else c

/-- The largest value of a `long`, which has 64 bits. -/
def LONG_MAX : Int := 2 ^ 63 - 1

/-- The value `atol (buffer)` for a buffer that starts with a digit or a `.`:
the decimal value of its leading digits, and `LONG_MAX` when that value does
not fit a `long`, as `strtol` of the C library returns it. -/
def atol (buffer : List Char) : Int :=
  min (((buffer.takeWhile c_isdigit).foldl (fun n c => 10 * n + (c.toNat - 48)) 0 : Nat) : Int)
    LONG_MAX

/-- The conversion of a `long` to the 32 bits of an `int`, as in the assignment
`line_number = buf[1].number`: the value modulo 2^32 in the range of `int`. -/
def long_to_int (n : Int) : Int :=
  (n + 2 ^ 31) % 2 ^ 32 - 2 ^ 31

/-- The token `phase5_get` starts from: no string, number 0, the current line. -/
def token_init (s : scan_state) : token_ty :=
  { type := token_type_eof, string := [], comment := none, number := 0,
    line_number := s.line_number }

/-- The white-space loop of `phase5_get` (lines 604-619). -/
def phase5_get_white_space : Nat → scan_state → scan_state
  | 0, s => { s with out_of_fuel := true }
  | fuel + 1, s =>
    let r := phase4_getc s
    if r.1 = some ' ' ∨ r.1 = some '\x0c' ∨ r.1 = some '\t' then phase5_get_white_space fuel r.2
    else phase4_ungetc r.1 r.2

/-- The name loop of `phase5_get` (lines 633-664), entered with the character `c`
that is stored next; returns the buffer and the state. -/
def phase5_get_name : Nat → List Char → Char → scan_state → List Char × scan_state
  | 0, buffer, _, s => (buffer, { s with out_of_fuel := true })
  | fuel + 1, buffer, c, s =>
    let r := phase4_getc s
    match r.1 with
    | some c1 =>
      if is_name_char c1 then phase5_get_name fuel (buffer ++ [c]) c1 r.2
      else (buffer ++ [c], phase4_ungetc (some c1) r.2)
    | none => (buffer ++ [c], phase4_ungetc none r.2)

/-- The inner loop of the `$` case of `phase5_get` (lines 697-728). -/
def phase5_get_dollar : Nat → List Char → scan_state → List Char × scan_state
  | 0, buffer, s => (buffer, { s with out_of_fuel := true })
  | fuel + 1, buffer, s =>
    let r := phase4_getc s
    match r.1 with
    | some c1 =>
      if is_name_char c1 then phase5_get_dollar fuel (buffer ++ [c1]) r.2
      else (buffer, phase4_ungetc (some c1) r.2)
    | none => (buffer, phase4_ungetc none r.2)

/-- The `$` case of `phase5_get` up to the test of `bufpos` (lines 676-734): the
identifier that follows the `$`, empty when there is none. -/
def phase5_get_dollar_start (s : scan_state) : List Char × scan_state :=
  let r1 := phase4_getc s
  match r1.1 with
  | some c1 =>
    if is_name_start c1 then phase5_get_dollar r1.2.fuel [c1] r1.2
    else ([], phase4_ungetc (some c1) r1.2)
  | none => ([], phase4_ungetc none r1.2)

/-- The number loop of `phase5_get` (lines 782-829), entered with the character
`c` that is stored next. -/
def phase5_get_number : Nat → List Char → Char → scan_state → List Char × scan_state
  | 0, buffer, _, s => (buffer, { s with out_of_fuel := true })
  | fuel + 1, buffer, c, s =>
    let r := phase4_getc s
    match r.1 with
    | some c1 =>
      if c1 = 'e' ∨ c1 = 'E' then
        let r1 := phase4_getc r.2
        match r1.1 with
        | some c2 =>
          if c2 ≠ '+' ∧ c2 ≠ '-' then (buffer ++ [c, c1], phase4_ungetc (some c2) r1.2)
          else phase5_get_number fuel (buffer ++ [c, c1]) c2 r1.2
        | none => (buffer ++ [c, c1], phase4_ungetc none r1.2)
      else if is_number_char c1 then phase5_get_number fuel (buffer ++ [c]) c1 r.2
      else (buffer ++ [c], phase4_ungetc (some c1) r.2)
    | none => (buffer ++ [c], phase4_ungetc none r.2)

/-- The string loop of `phase5_get` (lines 845-897) for the quote `cquot`. -/
def phase5_get_string : Nat → Char → List Char → scan_state → List Char × scan_state
  | 0, _, buffer, s => (buffer, { s with out_of_fuel := true })
  | fuel + 1, cquot, buffer, s =>
    let r := phase3_getc s
    if r.1 = some cquot then
      let r1 := phase3_getc r.2
      if r1.1 = some cquot then phase5_get_string fuel cquot (buffer ++ [cquot]) r1.2
      else (buffer, phase3_ungetc r1.1 r1.2)
    else
      match r.1 with
      | none => (buffer, r.2)
      | some c =>
        if c = '\n' then
          (buffer,
            phase3_ungetc (some '\n') { r.2 with warnings := r.2.warnings ++ [r.2.line_number - 1] })
        else phase5_get_string fuel cquot (buffer ++ [c]) r.2

/-- The function `phase5_get` (lines 573-963). -/
def phase5_get (s : scan_state) : token_ty × scan_state :=
  match s.phase5_pushback with
  | t :: rest => (t, { s with phase5_pushback := rest })
  | [] =>
    let tp := token_init s
    let r := phase4_getc s
    match r.1 with
    | none => ({ tp with type := token_type_eof }, r.2)
    | some c =>
      if c = '\n' then ({ tp with type := token_type_eoln }, r.2)
      else if c = ' ' ∨ c = '\x0c' ∨ c = '\t' then
        ({ tp with type := token_type_white_space }, phase5_get_white_space r.2.fuel r.2)
      else if is_name_start c then
        let b := phase5_get_name r.2.fuel [] c r.2
        ({ tp with string := xstrdup b.1, type := token_type_name }, b.2)
      else if c = '$' then
        let b := phase5_get_dollar_start r.2
        if b.1.length > 0 then
          let buffer :=
            if b.1.length > 2 ∧ (b.1.take 3).map c_tolower = ['s', 't', 'r'] then
              ['s', 't', 'r'] ++ b.1.drop 3
            else b.1
          ({ tp with string := xstrdup buffer, type := token_type_dollar_literal,
                     comment := b.2.savable_comment }, b.2)
        else ({ tp with type := token_type_symbol }, b.2)
      else if c = '.' then
        let r1 := phase4_getc r.2
        let s1 := phase4_ungetc r1.1 r1.2
        if (match r1.1 with
            | some d => c_isdigit d
            | none => false) then
          let b := phase5_get_number s1.fuel [] '.' s1
          ({ tp with type := token_type_number, number := atol b.1 }, b.2)
        else ({ tp with type := token_type_symbol }, s1)
      else if c_isdigit c then
        let b := phase5_get_number r.2.fuel [] c r.2
        ({ tp with type := token_type_number, number := atol b.1 }, b.2)
      else if c = '"' ∨ c = '\'' then
        let b := phase5_get_string r.2.fuel c [] r.2
        ({ tp with type := token_type_string_literal, string := xstrdup b.1,
                   comment := b.2.savable_comment }, b.2)
      else if c = '(' then ({ tp with type := token_type_lparen }, r.2)
      else if c = ')' then ({ tp with type := token_type_rparen }, r.2)
      else if c = '[' then ({ tp with type := token_type_lsqbr }, r.2)
      else if c = ']' then ({ tp with type := token_type_rsqbr }, r.2)
      else if c = ',' then ({ tp with type := token_type_comma }, r.2)
      else if c = '#' then ({ tp with type := token_type_hash }, r.2)
      else if c = ':' then ({ tp with type := token_type_colon }, r.2)
      else if c = '\\' then
        let r1 := phase4_getc r.2
        if r1.1 = some 'n' then
          ({ tp with string := xstrdup ['\n'], type := token_type_eoln_explicit,
                     comment := r1.2.savable_comment }, r1.2)
        else ({ tp with type := token_type_symbol }, phase4_ungetc r1.1 r1.2)
      else ({ tp with type := token_type_symbol }, r.2)

/-- The function `phase5_unget`. -/
def phase5_unget (tp : token_ty) (s : scan_state) : scan_state :=
  if tp.type ≠ token_type_eof then
    if s.phase5_pushback.length = 1 then { s with aborted := true }
    else { s with phase5_pushback := tp :: s.phase5_pushback }
  else s

/-- The function `phaseX_get` (lines 983-1018). -/
def phaseX_get (s : scan_state) : token_ty × scan_state :=
  let r := phase5_get s
  if r.1.type = token_type_eoln ∨ r.1.type = token_type_eof then
    (r.1, { r.2 with middle := false })
  else if r.2.middle then
    (if r.1.type = token_type_hash then { r.1 with type := token_type_symbol } else r.1, r.2)
  else if r.1.type = token_type_white_space then
    let next := phase5_get r.2
    if next.1.type = token_type_hash then (next.1, { next.2 with middle := true })
    else (r.1, { phase5_unget next.1 next.2 with middle := true })
  else (r.1, { r.2 with middle := true })

/-- The inner loop of `phase6_get` (lines 1063-1089) that accumulates a directive
in `buf`.  The first component is the token of an early `return` (the name
`define` as first token of the directive), the second the accumulated tokens. -/
def phase6_get_directive : Nat → List token_ty → scan_state →
    Option token_ty × List token_ty × scan_state
  | 0, buf, s => (none, buf, { s with out_of_fuel := true })
  | fuel + 1, buf, s =>
    let r := phaseX_get s
    if r.1.type = token_type_eoln ∨ r.1.type = token_type_eof then (none, buf, r.2)
    else if r.1.type ≠ token_type_white_space then
      if buf.length = 0 ∧ r.1.type = token_type_name ∧ r.1.string = "define".toList then
        (some r.1, buf, r.2)
      else phase6_get_directive fuel (buf ++ [r.1]) r.2
    else phase6_get_directive fuel buf r.2

/-- The first `if` after the directive loop of `phase6_get` (lines 1093-1100): a
directive `line <number> <string>`.  The `long` of the number token is stored
into the `int` variable `line_number`. -/
def phase6_apply_line (buf : List token_ty) (s : scan_state) : scan_state :=
  match buf with
  | b0 :: b1 :: b2 :: _ =>
    if b0.type = token_type_name ∧ b0.string = "line".toList
        ∧ b1.type = token_type_number ∧ b2.type = token_type_string_literal then
      { s with logical_file_name := xstrdup b2.string, line_number := long_to_int b1.number }
    else s
  | _ => s

/-- The second `if` after the directive loop of `phase6_get` (lines 1101-1106): a
directive `<number> <string>`, with the same conversion to `int`. -/
def phase6_apply_number (buf : List token_ty) (s : scan_state) : scan_state :=
  match buf with
  | b0 :: b1 :: _ =>
    if b0.type = token_type_number ∧ b1.type = token_type_string_literal then
      { s with logical_file_name := xstrdup b1.string, line_number := long_to_int b0.number }
    else s
  | _ => s

/-- The effect of a completed directive line on the logical position
(lines 1093-1106). -/
def phase6_apply_directive (buf : List token_ty) (s : scan_state) : scan_state :=
  phase6_apply_number buf (phase6_apply_line buf s)

/-- The outer loop of `phase6_get` (lines 1052-1114). -/
def phase6_get_loop : Nat → scan_state → token_ty × scan_state
  | 0, s => (token_init s, { s with out_of_fuel := true })
  | fuel + 1, s =>
    let r := phaseX_get s
    if r.1.type ≠ token_type_hash then r
    else
      let d := phase6_get_directive r.2.fuel [] r.2
      match d.1 with
      | some tp => (tp, d.2.2)
      | none => phase6_get_loop fuel (savable_comment_reset (phase6_apply_directive d.2.1 d.2.2))

/-- The function `phase6_get`. -/
def phase6_get (s : scan_state) : token_ty × scan_state :=
  match s.phase6_pushback with
  | t :: rest => (t, { s with phase6_pushback := rest })
  | [] => phase6_get_loop s.fuel s

/-- The function `phase6_unget`. -/
def phase6_unget (tp : token_ty) (s : scan_state) : scan_state :=
  if tp.type ≠ token_type_eof then
    if s.phase6_pushback.length = 2 then { s with aborted := true }
    else { s with phase6_pushback := tp :: s.phase6_pushback }
  else s

/-- The loop of `phase8a_get` (lines 1134-1156). -/
def phase8a_get_loop : Nat → scan_state → token_ty × scan_state
  | 0, s => (token_init s, { s with out_of_fuel := true })
  | fuel + 1, s =>
    let r := phase6_get s
    if r.1.type = token_type_white_space then phase8a_get_loop fuel r.2
    else if r.1.type = token_type_eoln then
      let s1 : scan_state := { r.2 with newline_count := r.2.newline_count + 1 }
      phase8a_get_loop fuel
        (if s1.last_non_comment_line > s1.last_comment_line then savable_comment_reset s1 else s1)
    else r

/-- The function `phase8a_get`. -/
def phase8a_get (s : scan_state) : token_ty × scan_state :=
  phase8a_get_loop s.fuel s

/-- The function `phase8a_unget`. -/
def phase8a_unget (tp : token_ty) (s : scan_state) : scan_state :=
  phase6_unget tp s

/-- The loop of `phase8_get` (lines 1177-1200) that appends the following
literals to the token `tp`. -/
def phase8_get_loop : Nat → token_ty → scan_state → token_ty × scan_state
  | 0, tp, s => (tp, { s with out_of_fuel := true })
  | fuel + 1, tp, s =>
    let tmp := phase8a_get s
    if tmp.1.type ≠ token_type_string_literal ∧ tmp.1.type ≠ token_type_eoln_explicit then
      (if tp.type = token_type_eoln_explicit then { tp with type := token_type_string_literal }
        else tp,
        phase8a_unget tmp.1 tmp.2)
    else
      phase8_get_loop fuel
        { tp with string := xstrdup tp.string ++ xstrdup tmp.1.string,
                  type := token_type_string_literal }
        tmp.2

/-- The function `phase8_get` (lines 1170-1201). -/
def phase8_get (s : scan_state) : token_ty × scan_state :=
  let r := phase8a_get s
  if r.1.type ≠ token_type_string_literal ∧ r.1.type ≠ token_type_eoln_explicit then r
  else phase8_get_loop r.2.fuel r.1 r.2

/-! ## x-arma.c: keyword set customization -/

/-- Modelled from the spec: the `struct callshape` of xgettext.h, which is not
under src/: which argument position is message-bearing (`argnum1`), which one
holds the plural form (`argnum2`, 0 for none) and the total number of
arguments the call must have (`argtotal`, 0 for any). -/
structure callshape where
  argnum1 : Nat
  argnum2 : Nat
  argtotal : Nat
  deriving DecidableEq, Repr

/-- Modelled from the spec: the `struct callshapes` of xgettext.h, which is not
under src/: the call shapes registered for one keyword. -/
structure callshapes where
  keyword : List Char
  shapes : List callshape
  deriving DecidableEq, Repr

/-- The globals of the keyword set customization: `extract_all`, the hash table
`arma_keywords` (as an association list) and `default_keywords`. -/
structure keyword_state where
  extract_all : Bool
  arma_keywords : List (List Char × callshapes)
  default_keywords : Bool
  deriving DecidableEq, Repr

/-- The initial values of the globals (lines 85-88). -/
def keyword_state.initial : keyword_state :=
  { extract_all := false, arma_keywords := [], default_keywords := true }

/-- The function `x_arma_extract_all`. -/
def x_arma_extract_all (k : keyword_state) : keyword_state :=
  { k with extract_all := true }

/-- The decimal value of a list of digits. -/
def decimal_value (ds : List Char) : Nat :=
  ds.foldl (fun n c => 10 * n + (c.toNat - 48)) 0

/-- One argument specification of a keyword specification: digits, optionally
followed by `t`. -/
def parse_argspec (a : List Char) (shape : callshape × Nat) : Option (callshape × Nat) :=
  let ds := a.takeWhile c_isdigit
  let suffix := a.dropWhile c_isdigit
  if ds = [] then none
  else if suffix = ['t'] then some ({ shape.1 with argtotal := decimal_value ds }, shape.2)
  else if suffix = [] then
    if shape.2 = 0 then some ({ shape.1 with argnum1 := decimal_value ds }, 1)
    else if shape.2 = 1 then some ({ shape.1 with argnum2 := decimal_value ds }, 2)
    else none
  else none

/-- Modelled from the spec: `split_keywordspec` of xgettext.c, which is not
under src/.  A specification has the form `name[:argspec][,argspec...]`; the
result is the length of the name and the call shape.  A specification without
argument specifications, or with ones that do not parse, is a name as a whole,
with a single message-bearing argument at position 1. -/
def split_keywordspec (spec : List Char) : Nat × callshape :=
  let name := spec.takeWhile (fun c => c != ':')
  let dflt : Nat × callshape := (spec.length, { argnum1 := 1, argnum2 := 0, argtotal := 0 })
  match spec.dropWhile (fun c => c != ':') with
  | [] => dflt
  | _ :: args =>
    let parsed := (args.splitOn ',').foldl
      (fun acc a => acc.bind (parse_argspec a))
      (some (({ argnum1 := 0, argnum2 := 0, argtotal := 0 } : callshape), 0))
    match parsed with
    | some (shape, n) =>
      if n = 0 then dflt
      else (name.length, shape)
    | none => dflt

/-- Modelled from the spec: `insert_keyword_callshape` of xgettext.c, which is not
under src/.  It registers the shape for the keyword, next to the shapes the
keyword already has. -/
def insert_keyword_callshape (keywords : List (List Char × callshapes)) (keyword : List Char)
    (shape : callshape) : List (List Char × callshapes) :=
  match keywords.lookup keyword with
  | none => keywords ++ [(keyword, { keyword := keyword, shapes := [shape] })]
  | some old =>
    if shape ∈ old.shapes then keywords
    else
      keywords.map (fun e =>
        if e.1 = keyword then (e.1, { e.2 with shapes := e.2.shapes ++ [shape] }) else e)

/-- The function `add_keyword` (lines 98-120); `name = none` is a null pointer. -/
def add_keyword (name : Option (List Char)) (k : keyword_state) : keyword_state :=
  match name with
  | none => { k with default_keywords := false }
  | some name =>
    let r := split_keywordspec name
    let colon := name.takeWhile (fun c => c != ':')
    if colon.length = name.length ∨ colon.length ≥ r.1 then
      { k with arma_keywords := insert_keyword_callshape k.arma_keywords (name.take r.1) r.2 }
    else k

/-- The function `x_arma_keyword`. -/
def x_arma_keyword (name : Option (List Char)) (k : keyword_state) : keyword_state :=
  add_keyword name k

/-- The function `init_keywords` (lines 130-140). -/
def init_keywords (k : keyword_state) : keyword_state :=
  if k.default_keywords then
    { x_arma_keyword (some "localize".toList) k with default_keywords := false }
  else k

/-! ## x-arma.c: reading of high-level tokens -/

/-- The `enum xgettext_token_type_ty`. -/
inductive xgettext_token_type_ty where
  | xgettext_token_type_eof
  | xgettext_token_type_keyword
  | xgettext_token_type_symbol
  | xgettext_token_type_lparen
  | xgettext_token_type_rparen
  | xgettext_token_type_lsqbr
  | xgettext_token_type_rsqbr
  | xgettext_token_type_comma
  | xgettext_token_type_colon
  | xgettext_token_type_string_literal
  | xgettext_token_type_dollar_literal
  | xgettext_token_type_other
  deriving DecidableEq, Repr

open xgettext_token_type_ty

/-- The `lex_pos_ty` of xgettext: a logical file name and a line number. -/
structure lex_pos_ty where
  file_name : List Char
  line_number : Int
  deriving DecidableEq, Repr

/-- The `struct xgettext_token_ty`; a field the lexer does not set for a token
type holds `none`, the empty list or the zero position. -/
structure xgettext_token_ty where
  type : xgettext_token_type_ty
  shapes : Option callshapes
  string : List Char
  comment : Option (List (List Char))
  pos : lex_pos_ty
  deriving DecidableEq, Repr

/-- A high-level token with nothing set but its type. -/
def xgettext_token_of_type (t : xgettext_token_type_ty) : xgettext_token_ty :=
  { type := t, shapes := none, string := [], comment := none,
    pos := { file_name := [], line_number := 0 } }

/-- The function `x_arma_lex` (lines 1254-1353). -/
def x_arma_lex (k : keyword_state) (s : scan_state) : xgettext_token_ty × scan_state :=
  let r := phase8_get s
  let token := r.1
  let s1 : scan_state := { r.2 with last_non_comment_line := r.2.newline_count }
  match token.type with
  | token_type_eof => (xgettext_token_of_type xgettext_token_type_eof, r.2)
  | token_type_name =>
    match k.arma_keywords.lookup token.string with
    | some keyword_value =>
      ({ type := xgettext_token_type_keyword, shapes := some keyword_value,
         string := token.string, comment := none,
         pos := { file_name := s1.logical_file_name, line_number := token.line_number } }, s1)
    | none => ({ xgettext_token_of_type xgettext_token_type_symbol with string := token.string }, s1)
  | token_type_lparen => (xgettext_token_of_type xgettext_token_type_lparen, s1)
  | token_type_rparen => (xgettext_token_of_type xgettext_token_type_rparen, s1)
  | token_type_lsqbr => (xgettext_token_of_type xgettext_token_type_lsqbr, s1)
  | token_type_rsqbr => (xgettext_token_of_type xgettext_token_type_rsqbr, s1)
  | token_type_comma => (xgettext_token_of_type xgettext_token_type_comma, s1)
  | token_type_colon => (xgettext_token_of_type xgettext_token_type_colon, s1)
  | token_type_string_literal =>
    ({ type := xgettext_token_type_string_literal, shapes := none, string := token.string,
       comment := token.comment,
       pos := { file_name := s1.logical_file_name, line_number := token.line_number } }, s1)
  | token_type_dollar_literal =>
    ({ type := xgettext_token_type_dollar_literal, shapes := none, string := token.string,
       comment := token.comment,
       pos := { file_name := s1.logical_file_name, line_number := token.line_number } }, s1)
  | _ => (xgettext_token_of_type xgettext_token_type_other, s1)

/-! ## x-arma.c: extracting strings -/

/-- The calls the extractor makes into the message collector of xgettext: the
message sink `remember_a_message` and the operations of the argument-binding
accumulator (`arglist_parser_*`).  An accumulator is named by the number it was
allocated as.  The flag-context arguments of the calls are left out. -/
inductive extractor_call where
  | remember_a_message (string : List Char) (pos : lex_pos_ty)
      (comment : Option (List (List Char)))
  | arglist_parser_alloc (ap : Nat) (shapes : Option callshapes)
  | arglist_parser_remember (ap : Nat) (argnum : Int) (string : List Char) (pos : lex_pos_ty)
      (comment : Option (List (List Char)))
  | arglist_parser_remember_literal (ap : Nat) (argnum : Int) (string : List Char)
      (pos : lex_pos_ty) (comment : Option (List (List Char)))
  | arglist_parser_done (ap : Nat) (argnum : Int)
  deriving DecidableEq, Repr

/-- The state of an extraction: the scanner, the calls made so far (oldest
first) and the number of accumulators allocated so far. -/
structure extract_state where
  scan : scan_state
  calls : List extractor_call
  allocated : Nat
  deriving DecidableEq, Repr

/-- Records one call. -/
def extract_state.call (e : extract_state) (c : extractor_call) : extract_state :=
  { e with calls := e.calls ++ [c] }

/-- The call `arglist_parser_alloc (mlp, shapes)`: records it and returns the new
accumulator. -/
def arglist_parser_alloc (shapes : Option callshapes) (e : extract_state) : Nat × extract_state :=
  (e.allocated,
    { e with calls := e.calls ++ [extractor_call.arglist_parser_alloc e.allocated shapes],
             allocated := e.allocated + 1 })

/-- The function `literalstring_parse` (lines 535-558): copies the characters of
the C string. -/
def literalstring_parse (string : List Char) : List Char :=
  xstrdup string

/-- The loop of `extract_parenthesized` (lines 1404-1542), with the local
variables `arg`, `state` and `next_shapes` as arguments; `argparser` is the
accumulator of the frame.  Returns true upon eof, false upon a closing
parenthesis or bracket.  The flag-context variables are left out. -/
def extract_parenthesized_loop (k : keyword_state) :
    Nat → Nat → Int → Bool → Option callshapes → extract_state → Bool × extract_state
  | 0, _, _, _, _, e => (true, { e with scan := { e.scan with out_of_fuel := true } })
  | fuel + 1, argparser, arg, state, next_shapes, e =>
    let r := x_arma_lex k e.scan
    let token := r.1
    let e1 : extract_state := { e with scan := r.2 }
    match token.type with
    | xgettext_token_type_keyword =>
      extract_parenthesized_loop k fuel argparser arg true token.shapes e1
    | xgettext_token_type_symbol =>
      extract_parenthesized_loop k fuel argparser arg false next_shapes e1
    | xgettext_token_type_lparen | xgettext_token_type_lsqbr =>
      let a := arglist_parser_alloc (if state then next_shapes else none) e1
      let inner := extract_parenthesized_loop k fuel a.1 1 false none a.2
      if inner.1 then (true, inner.2.call (extractor_call.arglist_parser_done argparser arg))
      else extract_parenthesized_loop k fuel argparser arg false next_shapes inner.2
    | xgettext_token_type_rparen | xgettext_token_type_rsqbr =>
      (false, e1.call (extractor_call.arglist_parser_done argparser arg))
    | xgettext_token_type_comma =>
      extract_parenthesized_loop k fuel argparser (arg + 1) false next_shapes e1
    | xgettext_token_type_colon =>
      extract_parenthesized_loop k fuel argparser arg false next_shapes e1
    | xgettext_token_type_string_literal =>
      if k.extract_all then
        extract_parenthesized_loop k fuel argparser arg false next_shapes
          (e1.call (extractor_call.remember_a_message (literalstring_parse token.string)
            token.pos token.comment))
      else if state then
        let a := arglist_parser_alloc next_shapes e1
        let e2 := a.2.call
          (extractor_call.arglist_parser_remember a.1 1 token.string token.pos token.comment)
        let e3 := e2.call (extractor_call.arglist_parser_done a.1 1)
        extract_parenthesized_loop k fuel argparser arg false next_shapes e3
      else
        extract_parenthesized_loop k fuel argparser arg false next_shapes
          (e1.call (extractor_call.arglist_parser_remember_literal argparser arg token.string
            token.pos token.comment))
    | xgettext_token_type_dollar_literal =>
      extract_parenthesized_loop k fuel argparser arg false next_shapes
        (e1.call (extractor_call.remember_a_message token.string token.pos token.comment))
    | xgettext_token_type_other =>
      extract_parenthesized_loop k fuel argparser arg false next_shapes e1
    | xgettext_token_type_eof =>
      (true, e1.call (extractor_call.arglist_parser_done argparser arg))

/-- The function `extract_parenthesized` (lines 1381-1543): a new frame, with
`arg = 1`, `state = 0` and no pending call shape. -/
def extract_parenthesized (k : keyword_state) (fuel : Nat) (argparser : Nat)
    (e : extract_state) : Bool × extract_state :=
  extract_parenthesized_loop k fuel argparser 1 false none e

/-- The loop `while (!extract_parenthesized (...));` of `extract_whole_file`. -/
def extract_whole_file_loop (k : keyword_state) : Nat → extract_state → extract_state
  | 0, e => { e with scan := { e.scan with out_of_fuel := true } }
  | fuel + 1, e =>
    let a := arglist_parser_alloc none e
    let r := extract_parenthesized k a.2.scan.fuel a.1 a.2
    if r.1 then r.2 else extract_whole_file_loop k fuel r.2

/-- The scanner state that `extract_whole_file` sets up (lines 1554-1561); the
pushback buffers and `middle` have their initial values. -/
def scan_state.initial (f : List Char) (logical_filename : List Char) : scan_state :=
  { fp := f, phase1_pushback := [], phase2_pushback := [], phase3_pushback := [],
    line_number := 1, logical_file_name := logical_filename, buffer := [],
    savable_comment := none, last_comment_line := -1, last_non_comment_line := -1,
    newline_count := 0, phase5_pushback := [], middle := false, phase6_pushback := [],
    warnings := [], aborted := false, out_of_fuel := false }

/-- The function `extract_whole_file` (lines 1546-1578) on the content `f` of
the file: the globals of the keyword set after `init_keywords`, and the final
extraction state. -/
def extract_whole_file (k : keyword_state) (f : List Char) (logical_filename : List Char) :
    keyword_state × extract_state :=
  let k1 := init_keywords k
  let e : extract_state :=
    { scan := scan_state.initial f logical_filename, calls := [], allocated := 0 }
  (k1, extract_whole_file_loop k1 e.scan.fuel e)

/-- The function `extract_arma`. -/
def extract_arma (k : keyword_state) (f : List Char) (logical_filename : List Char) :
    keyword_state × extract_state :=
  extract_whole_file k f logical_filename

/-! ## The message collector -/

/-- A message handed to the message sink: text, position, comment snapshot. -/
structure message_ty where
  msgid : List Char
  pos : lex_pos_ty
  comment : Option (List (List Char))
  deriving DecidableEq, Repr

/-- Modelled from the spec: the argument-binding accumulator of xgettext
(`struct arglist_parser`), which is not under src/: the call shapes it was
allocated with and the literals bound so far, with their argument index. -/
structure arglist_binding where
  ap : Nat
  shapes : Option callshapes
  bound : List (Int × message_ty)
  deriving DecidableEq, Repr

/-- Modelled from the spec: the literal an accumulator forwards when its frame is
complete with `argnum` arguments.  It is the literal first bound at the
message-bearing position of the first of its call shapes that accepts `argnum`
as the number of arguments and has such a literal; without call shapes nothing
is forwarded. -/
def arglist_binding.forwarded (b : arglist_binding) (argnum : Int) : List message_ty :=
  match b.shapes with
  | none => []
  | some sh =>
    (sh.shapes.filterMap (fun shape =>
      if shape.argtotal = 0 ∨ (shape.argtotal : Int) = argnum then
        (b.bound.find? (fun x => x.1 = (shape.argnum1 : Int))).map (fun x => x.2)
      else none)).take 1

/-- Modelled from the spec: the message collector of xgettext, which is not
under src/ (`remember_a_message` and `arglist_parser_alloc`, `_remember`,
`_remember_literal`, `_done`).  It replays the calls of the extractor: a direct
call of the sink adds a message; a literal bound to an accumulator is kept
when one of the accumulator's call shapes marks that argument index as
message-bearing; a completed accumulator hands its literal to the sink.
Returns the messages handed to the sink, oldest first. -/
def message_sink : List extractor_call → List arglist_binding → List message_ty
  | [], _ => []
  | extractor_call.remember_a_message string pos comment :: rest, aps =>
    { msgid := string, pos := pos, comment := comment } :: message_sink rest aps
  | extractor_call.arglist_parser_alloc ap shapes :: rest, aps =>
    message_sink rest ({ ap := ap, shapes := shapes, bound := [] } :: aps)
  | extractor_call.arglist_parser_remember ap argnum string pos comment :: rest, aps =>
    message_sink rest (aps.map (fun b =>
      if b.ap = ap then
        { b with bound := b.bound ++ [(argnum, { msgid := string, pos := pos, comment := comment })] }
      else b))
  | extractor_call.arglist_parser_remember_literal ap argnum string pos comment :: rest, aps =>
    message_sink rest (aps.map (fun b =>
      if b.ap = ap then
        { b with bound := b.bound ++ [(argnum, { msgid := string, pos := pos, comment := comment })] }
      else b))
  | extractor_call.arglist_parser_done ap argnum :: rest, aps =>
    ((aps.find? (fun b => b.ap = ap)).map (fun b => b.forwarded argnum)).getD []
      ++ message_sink rest aps

/-- The messages a whole-file scan hands to the message sink. -/
def extracted_messages (k : keyword_state) (f : List Char) (logical_filename : List Char) :
    List message_ty :=
  message_sink (extract_whole_file k f logical_filename).2.calls []

/-! ## Definitions used in the statements -/

/-- The text ahead starts with a character other than CR and LF, and when that
character is a backslash so does the text after it. -/
def safe_next (L : List Char) : Prop :=
  ∃ d L2, L = d :: L2 ∧ d ≠ '\r' ∧ d ≠ '\n' ∧
    (d = '\\' → ∃ d2 L3, L2 = d2 :: L3 ∧ d2 ≠ '\r' ∧ d2 ≠ '\n')

/-- The text `t` with every occurrence of the quote `q` doubled. -/
def quote_doubled (q : Char) : List Char → List Char
  | [] => []
  | c :: t => if c = q then q :: q :: quote_doubled q t else c :: quote_doubled q t

/-- The text a tagged literal stores for the identifier `id`: a leading `str` in
any case becomes lower-case `str`. -/
def dollar_text (id : List Char) : List Char :=
  if id.length ≥ 3 ∧ (id.take 3).map c_tolower = ['s', 't', 'r'] then
    ['s', 't', 'r'] ++ id.drop 3
  else id

/-- The tokens that `n` successive calls of `phase8a_get` deliver, and the state
after them. -/
def phase8a_get_many : Nat → scan_state → List token_ty × scan_state
  | 0, s => ([], s)
  | n + 1, s =>
    ((phase8a_get s).1 :: (phase8a_get_many n (phase8a_get s).2).1,
      (phase8a_get_many n (phase8a_get s).2).2)

/-- A token that the literal concatenator merges: a string literal or an
explicit newline. -/
def is_literal_token (t : token_ty) : Bool :=
  decide (t.type = token_type_string_literal) || decide (t.type = token_type_eoln_explicit)

/-- The token that the loop of `phase8_get` builds from `tp` and the literals
that follow it. -/
def phase8_merge (tp : token_ty) (more : List token_ty) : token_ty :=
  more.foldl (fun tp tmp =>
    { tp with string := xstrdup tp.string ++ xstrdup tmp.string,
              type := token_type_string_literal }) tp

/-- The keyword set after `x_arma_keyword ("foo")` and `x_arma_keyword ("bar")`:
`foo` and `bar` are keywords whose argument 1 is message-bearing. -/
def keywords_foo_bar : keyword_state :=
  x_arma_keyword (some "bar".toList) (x_arma_keyword (some "foo".toList) keyword_state.initial)

/-- The texts of the messages a whole-file scan hands to the message sink. -/
def extracted_texts (k : keyword_state) (f : List Char) : List (List Char) :=
  (extracted_messages k f []).map (fun m => m.msgid)

/-- The calls of the message sink itself among the calls of the extractor. -/
def sink_calls (calls : List extractor_call) : List extractor_call :=
  calls.filter (fun c =>
    match c with
    | extractor_call.remember_a_message _ _ _ => true
    | _ => false)

/-! ## Further definitions used by the statements -/

/-- The number of `%` characters of the string that are immediately followed
by a decimal digit. -/
def percent_digit_count : List Char → Nat
  | [] => 0
  | c :: rest =>
    (if c = '%' ∧ c_isdigit (cpeek rest) = true then 1 else 0) + percent_digit_count rest

/-- The keyword set after `x_arma_keyword ("foo")`: `foo` is a keyword whose
argument 1 is message-bearing. -/
def keywords_foo : keyword_state :=
  x_arma_keyword (some "foo".toList) keyword_state.initial

/-- The keyword set after `x_arma_keyword ("foo:2")`: `foo` is a keyword whose
argument 2 is message-bearing. -/
def keywords_foo_2 : keyword_state :=
  x_arma_keyword (some "foo:2".toList) keyword_state.initial
/-- Line-ending unification as the specification words it: each CR LF pair,
each lone CR and each lone LF becomes one LF, every other character is kept. -/
def unify_line_endings : List Char → List Char
  | [] => []
  | [c] => [if c = '\r' then '\n' else c]
  | c :: c1 :: rest =>
    if c = '\r' then
      (if c1 = '\n' then '\n' :: unify_line_endings rest
       else '\n' :: unify_line_endings (c1 :: rest))
    else c :: unify_line_endings (c1 :: rest)

/-- Line splicing as the specification words it: one pass from left to right
that deletes each backslash immediately followed by a newline and keeps every
other character. -/
def splice_lines : List Char → List Char
  | [] => []
  | [c] => [c]
  | c :: c1 :: rest =>
    if c = '\\' ∧ c1 = '\n' then splice_lines rest
    else c :: splice_lines (c1 :: rest)

/-- The characters that successive calls of `phase0_getc` deliver until it
returns `EOF`, at most `fuel` of them. -/
def phase0_stream : Nat → scan_state → List Char
  | 0, _ => []
  | fuel + 1, s =>
    match (phase0_getc s).1 with
    | none => []
    | some c => c :: phase0_stream fuel (phase0_getc s).2

/-- The characters that successive calls of `phase3_getc` deliver, to
`phase4_getc`, until it returns `EOF`, at most `fuel` of them. -/
def phase3_stream : Nat → scan_state → List Char
  | 0, _ => []
  | fuel + 1, s =>
    match (phase3_getc s).1 with
    | none => []
    | some c => c :: phase3_stream fuel (phase3_getc s).2

/-- The number of line terminators (CR LF, CR or LF) in a raw text. -/
def line_terminators (f : List Char) : Nat :=
  (unify_line_endings f).count '\n'

/-- The line number a state accounts for in all: its `line_number` plus the
line terminators still pending below `phase1_getc` (in its pushback and in the
unread input). -/
def scan_state.line_total (s : scan_state) : Int :=
  s.line_number + ((s.phase1_pushback.count '\n' + line_terminators s.fp : Nat) : Int)

/-- From the state `s` to the state `s1` every line terminator taken from the
input was counted in `line_number`, and `line_number` did not decrease. -/
def line_kept (s s1 : scan_state) : Prop :=
  s1.line_total = s.line_total ∧ s.line_number ≤ s1.line_number

/-- The tokens that `n` successive calls of `phaseX_get` deliver, and the state
after them. -/
def phaseX_get_many : Nat → scan_state → List token_ty × scan_state
  | 0, s => ([], s)
  | n + 1, s =>
    ((phaseX_get s).1 :: (phaseX_get_many n (phaseX_get s).2).1,
      (phaseX_get_many n (phaseX_get s).2).2)

/-- The token is the name `define`. -/
def is_define (t : token_ty) : Bool :=
  decide (t.type = token_type_name ∧ t.string = "define".toList)

/-- The tokens of a directive other than white space. -/
def directive_tokens (ts : List token_ty) : List token_ty :=
  ts.filter (fun t => decide (t.type ≠ token_type_white_space))

/-- The argument numbers of the directives of a string, in order: for each `%`
that is immediately followed by a digit, the number that the digit loop of
`format_parse` yields for the digits after it. -/
def directive_numbers : List Char → List Nat
  | [] => []
  | c :: rest =>
    if c = '%' ∧ c_isdigit (cpeek rest) = true then
      (format_parse_number ((cpeek rest).toNat &&& 0x0F) (rest.drop 1)).1 :: directive_numbers rest
    else directive_numbers rest

/-- The pushback buffers of phases 2, 3, 5 and 6 hold at most `n2`, `n3`, `n5`
and `n6` elements and no `abort ()` was reached. -/
def pushback_within (n2 n3 n5 n6 : Nat) (s : scan_state) : Prop :=
  s.phase2_pushback.length ≤ n2 ∧ s.phase3_pushback.length ≤ n3 ∧
    s.phase5_pushback.length ≤ n5 ∧ s.phase6_pushback.length ≤ n6 ∧ s.aborted = false

instance (n2 n3 n5 n6 : Nat) (s : scan_state) : Decidable (pushback_within n2 n3 n5 n6 s) := by
  unfold pushback_within
  infer_instance

/-- The pending text of the character layers: the characters that successive
calls of `phase3_getc` are going to deliver, which are the pushback of phase 3
followed by the rest of the input after line-ending unification and the
splicing of phases 1 and 3. -/
def scan_state.pending (s : scan_state) : List Char :=
  s.phase3_pushback ++
    splice_lines (s.phase2_pushback ++ splice_lines (unify_line_endings s.fp))

/-- The pushback of phase 1 is empty, the one of phase 2 holds at most one
character and the one of phase 3 at most `n3` characters. -/
def scan_state.ready (n3 : Nat) (s : scan_state) : Prop :=
  s.phase1_pushback = [] ∧ s.phase2_pushback.length ≤ 1 ∧ s.phase3_pushback.length ≤ n3

/-- The rest of a text after the block comment it starts in; `last_was_star`
tells whether the character before was a `*` of the comment. -/
def skip_block : Bool → List Char → List Char
  | _, [] => []
  | last_was_star, c :: rest =>
    if c = '*' then skip_block true rest
    else if c = '/' ∧ last_was_star = true then rest
    else skip_block false rest

/-- The rest of a text after the line comment it starts in: what follows the
first newline. -/
def skip_line : List Char → List Char
  | [] => []
  | c :: rest => if c = '\n' then rest else skip_line rest

/-- What `phase4_getc` makes of a pending text: the character it delivers and
the text that is pending afterwards. -/
def phase4_view : List Char → Option Char × List Char
  | [] => (none, [])
  | c :: rest =>
    if c ≠ '/' then (some c, rest)
    else if rest.head? = some '*' then (some ' ', skip_block false rest.tail)
    else if rest.head? = some '/' then (some '\n', skip_line rest.tail)
    else (some '/', rest)

/-- Where a reader who replaces the comments of a text by hand is: in code, after
a `/` in code, in a block comment (`last_was_star` as in `skip_block`), in a
line comment, in a string literal opened by `q`, or after a `q` in such a
string literal, which closes it unless another `q` follows. -/
inductive comment_mode where
  | code
  | slash
  | block (last_was_star : Bool)
  | line
  | string (q : Char)
  | string_quote (q : Char)
  deriving DecidableEq, Repr

/-- The mode in code after the character `c`: a quote opens a string literal. -/
def code_after (c : Char) : comment_mode :=
  if c = '"' ∨ c = '\'' then comment_mode.string c else comment_mode.code

/-- Worded after the specification: the text in which every comment recognised
outside string literals has been replaced by hand, a block comment (closed, or
running to the end of the text) by one space and a line comment up to but
excluding its newline by nothing.  A line comment that runs to the end of the
text is replaced by a newline.  A string literal ends at its closing quote (a
doubled quote does not close it) or before the newline of its line. -/
def replace_comments : comment_mode → List Char → List Char
  | comment_mode.line, [] => ['\n']
  | comment_mode.slash, [] => ['/']
  | comment_mode.code, [] => []
  | comment_mode.block _, [] => []
  | comment_mode.string _, [] => []
  | comment_mode.string_quote _, [] => []
  | comment_mode.code, c :: rest =>
    if c = '/' then replace_comments comment_mode.slash rest
    else c :: replace_comments (code_after c) rest
  | comment_mode.slash, c :: rest =>
    if c = '*' then ' ' :: replace_comments (comment_mode.block false) rest
    else if c = '/' then replace_comments comment_mode.line rest
    else '/' :: c :: replace_comments (code_after c) rest
  | comment_mode.block last_was_star, c :: rest =>
    if c = '*' then replace_comments (comment_mode.block true) rest
    else if c = '/' ∧ last_was_star = true then replace_comments comment_mode.code rest
    else replace_comments (comment_mode.block false) rest
  | comment_mode.line, c :: rest =>
    if c = '\n' then '\n' :: replace_comments comment_mode.code rest
    else replace_comments comment_mode.line rest
  | comment_mode.string q, c :: rest =>
    if c = q then q :: replace_comments (comment_mode.string_quote q) rest
    else if c = '\n' then '\n' :: replace_comments comment_mode.code rest
    else c :: replace_comments (comment_mode.string q) rest
  | comment_mode.string_quote q, c :: rest =>
    if c = q then q :: replace_comments (comment_mode.string q) rest
    else if c = '/' then replace_comments comment_mode.slash rest
    else c :: replace_comments (code_after c) rest

/-- The mode of the reader after `phase4_getc` has delivered `c` in code. -/
def mode_after : Option Char → comment_mode
  | none => comment_mode.code
  | some c => code_after c

/-- What the tokenizer says of a token apart from its position and its comment:
type, text and number. -/
def token_text (t : token_ty) : token_type_ty × List Char × Int :=
  (t.type, t.string, t.number)

/-- The tokens that successive calls of `phase5_get` deliver, up to and
including the token for the end of the file, at most `n` of them. -/
def phase5_tokens : Nat → scan_state → List token_ty
  | 0, _ => []
  | n + 1, s =>
    if (phase5_get s).1.type = token_type_eof then [(phase5_get s).1]
    else (phase5_get s).1 :: phase5_tokens n (phase5_get s).2

/-- The pending text of the state `s1` is the pending text of `s` with its
comments replaced, the reader being in mode `m`; both states are between two
calls of the character layers, with at most `n3` characters in the pushback of
phase 3. -/
def comments_replaced (m : comment_mode) (n3 : Nat) (s s1 : scan_state) : Prop :=
  s.ready n3 ∧ s1.ready n3 ∧ s1.pending = replace_comments m s.pending

/-- The tokens that successive calls of `x_arma_lex` deliver, up to and
including the token for the end of the file, at most `n` of them. -/
def lex_tokens (k : keyword_state) : Nat → scan_state → List xgettext_token_ty
  | 0, _ => []
  | n + 1, s =>
    if (x_arma_lex k s).1.type = xgettext_token_type_eof then [(x_arma_lex k s).1]
    else (x_arma_lex k s).1 :: lex_tokens k n (x_arma_lex k s).2

/-- The high-level tokens that are still to come in a scan: those of `s.fuel`
calls of `x_arma_lex`, which reach the end of the file. -/
def scan_tokens (k : keyword_state) (s : scan_state) : List xgettext_token_ty :=
  lex_tokens k s.fuel s

/-- Worded after the specification: what follows the group that a token list
starts in, that is what follows the first closing token, `)` or `]` whichever,
at the nesting level of the start; `none` when the end of the file comes
first.  `depth` is the number of groups opened inside and not yet closed. -/
def frame_rest : Nat → List xgettext_token_ty → Option (List xgettext_token_ty)
  | _, [] => none
  | depth, t :: rest =>
    if t.type = xgettext_token_type_eof then none
    else if t.type = xgettext_token_type_lparen ∨ t.type = xgettext_token_type_lsqbr then
      frame_rest (depth + 1) rest
    else if t.type = xgettext_token_type_rparen ∨ t.type = xgettext_token_type_rsqbr then
      (if depth = 0 then some rest else frame_rest (depth - 1) rest)
    else frame_rest depth rest

/-- Worded after the specification: the string literals of the group that a
token list starts in which do not directly follow a keyword, each with its
argument index, 1 plus the number of commas before it at the nesting level of
the group.  `depth` is the number of groups opened inside and not yet closed,
`commas` the number of commas seen at the level of the group and
`after_keyword` tells whether the token before was a keyword. -/
def frame_literals : Nat → Nat → Bool → List xgettext_token_ty → List (Int × List Char)
  | _, _, _, [] => []
  | depth, commas, after_keyword, t :: rest =>
    if t.type = xgettext_token_type_eof then []
    else if t.type = xgettext_token_type_lparen ∨ t.type = xgettext_token_type_lsqbr then
      frame_literals (depth + 1) commas false rest
    else if t.type = xgettext_token_type_rparen ∨ t.type = xgettext_token_type_rsqbr then
      (if depth = 0 then [] else frame_literals (depth - 1) commas false rest)
    else if t.type = xgettext_token_type_comma then
      frame_literals depth (if depth = 0 then commas + 1 else commas) false rest
    else if t.type = xgettext_token_type_string_literal then
      (if depth = 0 ∧ after_keyword = false then [(1 + (commas : Int), t.string)] else [])
        ++ frame_literals depth commas false rest
    else if t.type = xgettext_token_type_keyword then frame_literals depth commas true rest
    else frame_literals depth commas false rest

/-- The literals that the calls bind to the accumulator `ap` by
`arglist_parser_remember_literal`, with their argument index. -/
def bound_literals (ap : Nat) (calls : List extractor_call) : List (Int × List Char) :=
  calls.filterMap (fun c =>
    match c with
    | extractor_call.arglist_parser_remember_literal a argnum string _ _ =>
      if a = ap then some (argnum, string) else none
    | _ => none)

/-- The number of opening tokens, `(` and `[`, of a token list. -/
def opening_tokens (ts : List xgettext_token_ty) : Nat :=
  ts.countP (fun t =>
    decide (t.type = xgettext_token_type_lparen) || decide (t.type = xgettext_token_type_lsqbr))

/-- The depth of the recursion of `extract_parenthesized`: the largest number of
activations that are nested at a time inside the activation which
`extract_parenthesized_loop` stands for.  It follows the loop token by token:
an opening token starts an activation inside, and the loop goes on after it
unless the end of the file was reached. -/
def extract_parenthesized_depth (k : keyword_state) :
    Nat → Nat → Int → Bool → Option callshapes → extract_state → Nat
  | 0, _, _, _, _, _ => 0
  | fuel + 1, argparser, arg, state, next_shapes, e =>
    let r := x_arma_lex k e.scan
    let token := r.1
    let e1 : extract_state := { e with scan := r.2 }
    match token.type with
    | xgettext_token_type_keyword =>
      extract_parenthesized_depth k fuel argparser arg true token.shapes e1
    | xgettext_token_type_symbol =>
      extract_parenthesized_depth k fuel argparser arg false next_shapes e1
    | xgettext_token_type_lparen | xgettext_token_type_lsqbr =>
      let a := arglist_parser_alloc (if state then next_shapes else none) e1
      let inner := extract_parenthesized_loop k fuel a.1 1 false none a.2
      max (1 + extract_parenthesized_depth k fuel a.1 1 false none a.2)
        (if inner.1 then 0
         else extract_parenthesized_depth k fuel argparser arg false next_shapes inner.2)
    | xgettext_token_type_rparen | xgettext_token_type_rsqbr => 0
    | xgettext_token_type_comma =>
      extract_parenthesized_depth k fuel argparser (arg + 1) false next_shapes e1
    | xgettext_token_type_colon =>
      extract_parenthesized_depth k fuel argparser arg false next_shapes e1
    | xgettext_token_type_string_literal =>
      if k.extract_all then
        extract_parenthesized_depth k fuel argparser arg false next_shapes
          (e1.call (extractor_call.remember_a_message (literalstring_parse token.string)
            token.pos token.comment))
      else if state then
        let a := arglist_parser_alloc next_shapes e1
        let e2 := a.2.call
          (extractor_call.arglist_parser_remember a.1 1 token.string token.pos token.comment)
        let e3 := e2.call (extractor_call.arglist_parser_done a.1 1)
        extract_parenthesized_depth k fuel argparser arg false next_shapes e3
      else
        extract_parenthesized_depth k fuel argparser arg false next_shapes
          (e1.call (extractor_call.arglist_parser_remember_literal argparser arg token.string
            token.pos token.comment))
    | xgettext_token_type_dollar_literal =>
      extract_parenthesized_depth k fuel argparser arg false next_shapes
        (e1.call (extractor_call.remember_a_message token.string token.pos token.comment))
    | xgettext_token_type_other =>
      extract_parenthesized_depth k fuel argparser arg false next_shapes e1
    | xgettext_token_type_eof => 0

/-- The character layers are ready for a token to be read, the pushback of
phase 5 holds at most one token, which is not the end of the file, and the one
of phase 6 at most `n6` tokens: what holds between two calls of `phaseX_get`. -/
def scan_state.settled (n6 : Nat) (s : scan_state) : Prop :=
  s.ready 2 ∧ pushback_within 1 2 1 n6 s ∧
    ∀ t ∈ s.phase5_pushback, t.type ≠ token_type_eof

/-- Nothing is left to read below phase 6: no pending text and no token pushed
back to phase 5. -/
def scan_state.at_end (s : scan_state) : Prop :=
  s.pending = [] ∧ s.phase5_pushback = []

/-- A token as `phase8_get` pushes it back: neither the end of the file, nor
white space, an end of line or a leading hash, and not a literal that
`phase8_get` would have merged. -/
def token_ty.plain (t : token_ty) : Prop :=
  t.type ≠ token_type_eof ∧ t.type ≠ token_type_white_space ∧ t.type ≠ token_type_eoln ∧
    t.type ≠ token_type_hash ∧ t.type ≠ token_type_string_literal ∧
    t.type ≠ token_type_eoln_explicit

/-- What holds between two calls of `phase8_get`: the scanner is settled and the
pushback of phase 6 holds at most one token, a plain one. -/
def scan_state.concat_ready (s : scan_state) : Prop :=
  s.settled 1 ∧ ∀ t ∈ s.phase6_pushback, t.plain

/-- What holds after `phase8_get` has delivered a string literal: the token it
read ahead is pushed back, or it was the end of the file and nothing is left. -/
def scan_state.after_literal (s : scan_state) : Prop :=
  s.concat_ready ∧ (s.phase6_pushback = [] → s.at_end)

/-- The tokens that `n` successive calls of `phase8_get` deliver. -/
def phase8_get_many : Nat → scan_state → List token_ty
  | 0, _ => []
  | n + 1, s => (phase8_get s).1 :: phase8_get_many n (phase8_get s).2

/-- The tokens that `n` successive calls of `x_arma_lex` deliver. -/
def x_arma_lex_many (k : keyword_state) : Nat → scan_state → List xgettext_token_ty
  | 0, _ => []
  | n + 1, s => (x_arma_lex k s).1 :: x_arma_lex_many k n (x_arma_lex k s).2

/-! # Theorems -/

/-! ### Lemmas on format_check -/

theorem format_check_loop_true_iff (spec1 spec2 : spec) (error_logger : Bool) :
    ∀ (fuel i : Nat), max spec1.arg_count spec2.arg_count ≤ i + fuel →
      ((format_check_loop spec1 spec2 error_logger fuel i).1 = true ↔
        ∃ j, i ≤ j ∧ spec1.referenced j ≠ spec2.referenced j) := by
  intro fuel
  induction fuel with
  | zero =>
    intro i h
    simp only [format_check_loop, Bool.false_eq_true, false_iff, not_exists, not_and]
    intro j hj
    have h1 : ¬ j < spec1.arg_count := by omega
    have h2 : ¬ j < spec2.arg_count := by omega
    simp [spec.referenced, h1, h2]
  | succ fuel ih =>
    intro i h
    unfold format_check_loop
    by_cases hlt : i < spec1.arg_count ∨ i < spec2.arg_count
    · rw [if_pos hlt]
      by_cases hne : (decide (i < spec1.arg_count) && spec1.args_used i)
          ≠ (decide (i < spec2.arg_count) && spec2.args_used i)
      · simp only [if_pos hne, true_iff]
        exact ⟨i, le_refl i, hne⟩
      · simp only [if_neg hne]
        rw [ih (i + 1) (by omega)]
        constructor
        · rintro ⟨j, hj, hjne⟩
          exact ⟨j, by omega, hjne⟩
        · rintro ⟨j, hj, hjne⟩
          rcases Nat.eq_or_lt_of_le hj with heq | hlt2
          · subst heq
            exact absurd hjne hne
          · exact ⟨j, hlt2, hjne⟩
    · rw [if_neg hlt]
      simp only [Bool.false_eq_true, false_iff, not_exists, not_and]
      intro j hj
      have h1 : ¬ j < spec1.arg_count := by omega
      have h2 : ¬ j < spec2.arg_count := by omega
      simp [spec.referenced, h1, h2]

theorem format_check_true_iff (d1 d2 : spec) (equality error_logger : Bool) :
    (format_check d1 d2 equality error_logger).1 = true ↔
      ∃ j, d1.referenced j ≠ d2.referenced j := by
  unfold format_check
  rw [format_check_loop_true_iff d1 d2 error_logger _ 0 (by omega)]
  constructor
  · rintro ⟨j, _, h⟩
    exact ⟨j, h⟩
  · rintro ⟨j, h⟩
    exact ⟨j, Nat.zero_le j, h⟩

/-- C1: `format_check` returns true exactly when the set of argument numbers
referenced by the template descriptor differs from the set referenced by the
translation descriptor, whatever `equality` and the logger are; and the
descriptors parsed from "%0 and %1" and "%1 and %0" are a valid pair. -/
theorem C1_format_check_iff_referenced_sets_differ :
    (∀ (d1 d2 : spec) (equality error_logger : Bool),
      (format_check d1 d2 equality error_logger).1 = true ↔
        {i : Nat | d1.referenced i = true} ≠ {i : Nat | d2.referenced i = true}) ∧
    (∀ (garbage1 garbage2 : Nat → Bool) (equality error_logger : Bool),
      (format_check (format_parse "%0 and %1".toList garbage1).1
        (format_parse "%1 and %0".toList garbage2).1 equality error_logger).1 = false) := by
  have key : ∀ (d1 d2 : spec) (equality error_logger : Bool),
      (format_check d1 d2 equality error_logger).1 = true ↔
        {i : Nat | d1.referenced i = true} ≠ {i : Nat | d2.referenced i = true} := by
    intro d1 d2 equality error_logger
    rw [format_check_true_iff]
    constructor
    · rintro ⟨j, hj⟩ heq
      have : (j ∈ {i : Nat | d1.referenced i = true}) ↔ (j ∈ {i : Nat | d2.referenced i = true}) := by
        rw [heq]
      simp only [Set.mem_setOf_eq] at this
      apply hj
      cases h1 : d1.referenced j <;> cases h2 : d2.referenced j <;> simp_all
    · intro hne
      by_contra hall
      push_neg at hall
      apply hne
      ext j
      simp only [Set.mem_setOf_eq, hall j]
  refine ⟨key, ?_⟩
  intro garbage1 garbage2 equality error_logger
  rw [← Bool.not_eq_true, format_check_true_iff]
  push_neg
  intro j
  have a0 : (48 &&& 15 : Nat) = 0 := by decide
  have a1 : (49 &&& 15 : Nat) = 1 := by decide
  have hj : j < 2 ∨ 2 ≤ j := by omega
  rcases hj with hj | hj
  · have : j = 0 ∨ j = 1 := by omega
    rcases this with rfl | rfl <;>
      simp [spec.referenced, format_parse, format_parse_loop, format_parse_number,
        format_parse_grow, cpeek, c_isdigit, Function.update, a0, a1]
  · have e1 : (format_parse "%0 and %1".toList garbage1).1.arg_count = 2 := by
      simp [format_parse, format_parse_loop, format_parse_number,
        format_parse_grow, cpeek, c_isdigit, a0, a1]
    have e2 : (format_parse "%1 and %0".toList garbage2).1.arg_count = 2 := by
      simp [format_parse, format_parse_loop, format_parse_number,
        format_parse_grow, cpeek, c_isdigit, a0, a1]
    have h1 : ¬ j < 2 := by omega
    unfold spec.referenced
    rw [e1, e2]
    simp [h1]

/-! ### Lemmas on format_parse -/

theorem c_isdigit_ne_percent {c : Char} (h : c_isdigit c = true) : c ≠ '%' := by
  rintro rfl
  exact absurd h (by decide)

theorem c_isdigit_ne_nul {c : Char} (h : c_isdigit c = true) : c ≠ Char.ofNat 0 := by
  rintro rfl
  exact absurd h (by decide)

/-- The digit loop consumes a run of digits: the input is that run followed by
what the loop leaves. -/
theorem format_parse_number_consumes (number : Nat) (l : List Char) :
    ∃ ds, l = ds ++ (format_parse_number number l).2 ∧ ∀ c ∈ ds, c_isdigit c = true := by
  induction l generalizing number with
  | nil => exact ⟨[], by simp [format_parse_number]⟩
  | cons c rest ih =>
    unfold format_parse_number
    by_cases h : (c_isdigit c && decide ((10 * number + (c.toNat &&& 0x0F)) % 2 ^ 32 < 8192)) = true
    · rw [if_pos h]
      obtain ⟨ds, hds, hdig⟩ := ih ((10 * number + (c.toNat &&& 0x0F)) % 2 ^ 32)
      refine ⟨c :: ds, ?_, ?_⟩
      · rw [List.cons_append, ← hds]
      · intro x hx
        rcases List.mem_cons.mp hx with rfl | hx
        · simp only [Bool.and_eq_true] at h
          exact h.1
        · exact hdig x hx
    · rw [if_neg h]
      exact ⟨[], by simp⟩

theorem cpeek_eq_nul_iff {l : List Char} (h : Char.ofNat 0 ∉ l) : cpeek l = Char.ofNat 0 ↔ l = [] := by
  cases l with
  | nil => simp [cpeek]
  | cons c rest =>
    simp only [cpeek, reduceCtorEq, iff_false]
    intro hc
    exact h (by simp [hc])

theorem last_bad_percent_digits (ds l : List Char) (h : ∀ c ∈ ds, c_isdigit c = true) :
    last_bad_percent (ds ++ l) = last_bad_percent l := by
  induction ds with
  | nil => rfl
  | cons d ds ih =>
    have hd : d ≠ '%' := c_isdigit_ne_percent (h d (by simp))
    rw [List.cons_append, last_bad_percent, ih (fun c hc => h c (by simp [hc]))]
    cases last_bad_percent l <;> simp [hd]

/-- The main loop of `format_parse` leaves the reason of the last `%` that is not
followed by a digit, or the reason it started with when there is none. -/
theorem format_parse_loop_reason_kind :
    ∀ (fuel : Nat) (format : List Char) (st : format_parse_state),
      format.length < fuel → Char.ofNat 0 ∉ format →
      reason_kind (format_parse_loop fuel format st).invalid_reason =
        (match last_bad_percent format with
         | some r => some r
         | none => reason_kind st.invalid_reason) := by
  intro fuel
  induction fuel with
  | zero => intro format st h; omega
  | succ fuel ih =>
    intro format st hlen hnul
    cases format with
    | nil => simp [format_parse_loop, last_bad_percent]
    | cons c rest =>
      have hc0 : c ≠ Char.ofNat 0 := fun hc => hnul (by simp [hc])
      have hrest : Char.ofNat 0 ∉ rest := fun hc => hnul (by simp [hc])
      have hlen2 : rest.length < fuel := by
        simp only [List.length_cons] at hlen
        omega
      unfold format_parse_loop
      simp only [if_neg hc0]
      by_cases hp : c = '%'
      · subst hp
        simp only [if_true]
        by_cases hd : c_isdigit (cpeek rest) = true
        · simp only [hd, if_true]
          cases rest with
          | nil => exact absurd hd (by decide)
          | cons d rest2 =>
            simp only [cpeek] at hd
            simp only [cpeek, List.drop_succ_cons, List.drop_zero]
            obtain ⟨ds, hds, hdig⟩ :=
              format_parse_number_consumes (d.toNat &&& 0x0F) rest2
            have hsuf_len : (format_parse_number (d.toNat &&& 0x0F) rest2).2.length ≤ rest2.length := by
              conv_rhs => rw [hds]
              simp
            have hsuf_nul : Char.ofNat 0 ∉ (format_parse_number (d.toNat &&& 0x0F) rest2).2 := by
              intro hmem
              apply hrest
              rw [hds]
              simp [hmem]
            rw [ih _ _ (by simp only [List.length_cons] at hlen2; omega) hsuf_nul]
            have e : last_bad_percent ('%' :: d :: rest2)
                = last_bad_percent (format_parse_number (d.toNat &&& 0x0F) rest2).2 := by
              have h1 : last_bad_percent (d :: rest2)
                  = last_bad_percent (format_parse_number (d.toNat &&& 0x0F) rest2).2 := by
                conv_lhs => rw [hds]
                rw [← List.cons_append]
                apply last_bad_percent_digits
                intro x hx
                rcases List.mem_cons.mp hx with rfl | hx
                · exact hd
                · exact hdig x hx
              rw [last_bad_percent, h1]
              cases last_bad_percent (format_parse_number (d.toNat &&& 0x0F) rest2).2 <;>
                simp [cpeek, hd]
            rw [e]
        · have hd2 : c_isdigit (cpeek rest) = false := by simpa using hd
          simp only [hd2, Bool.false_eq_true, if_false]
          by_cases hz : cpeek rest = Char.ofNat 0
          · have hnil : rest = [] := (cpeek_eq_nul_iff hrest).mp hz
            subst hnil
            simp only [hz, if_true]
            rw [ih _ _ hlen2 hrest]
            simp [last_bad_percent, cpeek, reason_kind, c_isdigit]
          · simp only [hz, if_false]
            rw [ih _ _ hlen2 hrest]
            cases rest with
            | nil => exact absurd rfl hz
            | cons d rest2 =>
              have hd3 : c_isdigit d = false := by simpa [cpeek] using hd2
              rw [last_bad_percent.eq_2 '%' (d :: rest2)]
              cases last_bad_percent (d :: rest2) <;>
                simp [cpeek, reason_kind, hd3]
      · simp only [if_neg hp]
        rw [ih _ _ hlen2 hrest, last_bad_percent]
        cases last_bad_percent rest <;> simp [hp]

theorem format_parse_reason_kind (format : List Char) (garbage : Nat → Bool)
    (hnul : Char.ofNat 0 ∉ format) :
    reason_kind (format_parse format garbage).2 = last_bad_percent format := by
  unfold format_parse
  simp only
  rw [format_parse_loop_reason_kind _ _ _ (Nat.lt_succ_self _) hnul]
  cases last_bad_percent format <;> simp [reason_kind]

theorem percent_without_digit_at_zero (c : Char) (rest : List Char) :
    percent_without_digit_at (c :: rest) 0 = (decide (c = '%') && !c_isdigit (cpeek rest)) := by
  cases rest with
  | nil => by_cases h : c = '%' <;> simp [percent_without_digit_at, cpeek, h, c_isdigit]
  | cons d rest2 => by_cases h : c = '%' <;> simp [percent_without_digit_at, cpeek, h]

theorem percent_without_digit_at_succ (c : Char) (rest : List Char) (i : Nat) :
    percent_without_digit_at (c :: rest) (i + 1) = percent_without_digit_at rest i := by
  simp [percent_without_digit_at]

theorem last_bad_percent_eq_none_iff (format : List Char) :
    last_bad_percent format = none ↔ ∀ i, percent_without_digit_at format i = false := by
  induction format with
  | nil => simp [last_bad_percent, percent_without_digit_at]
  | cons c rest ih =>
    rw [last_bad_percent]
    constructor
    · intro h i
      cases hl : last_bad_percent rest with
      | some r => rw [hl] at h; simp at h
      | none =>
        rw [hl] at h
        cases i with
        | zero =>
          rw [percent_without_digit_at_zero]
          by_cases hc : c = '%'
          · by_cases hd : c_isdigit (cpeek rest) = false
            · simp [hc, hd] at h
            · simp at hd
              simp [hd]
          · simp [hc]
        | succ i =>
          rw [percent_without_digit_at_succ]
          exact (ih.mp hl) i
    · intro h
      have hr : last_bad_percent rest = none :=
        ih.mpr (fun i => by rw [← percent_without_digit_at_succ c rest i]; exact h (i + 1))
      rw [hr]
      have h0 := h 0
      rw [percent_without_digit_at_zero] at h0
      by_cases hc : c = '%'
      · by_cases hd : c_isdigit (cpeek rest) = false
        · simp [hc, hd] at h0
        · simp [hd]
      · simp [hc]

theorem last_bad_percent_of_last (format : List Char) :
    ∀ i, percent_without_digit_at format i = true →
      (∀ j, percent_without_digit_at format j = true → j ≤ i) →
      last_bad_percent format = some format[i + 1]? := by
  induction format with
  | nil => intro i h; simp [percent_without_digit_at] at h
  | cons c rest ih =>
    intro i hi hmax
    rw [last_bad_percent]
    cases i with
    | zero =>
      have hr : last_bad_percent rest = none := by
        rw [last_bad_percent_eq_none_iff]
        intro j
        by_contra hj
        have hj2 : percent_without_digit_at (c :: rest) (j + 1) = true := by
          rw [percent_without_digit_at_succ]
          simpa using hj
        have := hmax (j + 1) hj2
        omega
      rw [hr]
      rw [percent_without_digit_at_zero] at hi
      simp only [Bool.and_eq_true, decide_eq_true_eq, Bool.not_eq_true'] at hi
      simp only [hi.1, hi.2, and_self, if_true]
      cases rest <;> simp
    | succ i =>
      rw [percent_without_digit_at_succ] at hi
      have := ih i hi (fun j hj => by
        have := hmax (j + 1) (by rw [percent_without_digit_at_succ]; exact hj)
        omega)
      rw [this]
      simp

theorem percent_without_digit_at_lt {format : List Char} {i : Nat}
    (h : percent_without_digit_at format i = true) : i < format.length := by
  unfold percent_without_digit_at at h
  simp only [Bool.and_eq_true, beq_iff_eq] at h
  by_contra hlt
  have : format[i]? = none := by
    rw [List.getElem?_eq_none_iff]
    omega
  rw [this] at h
  simp at h

/-- C5: on a string without an embedded NUL, `format_parse` leaves an invalid
reason exactly when the string holds a `%` that is not immediately followed by
a decimal digit; so a string in which every `%` is followed by a digit is
parsed without an invalid reason. -/
theorem C5_format_parse_invalid_iff_percent_without_digit (format : List Char)
    (garbage : Nat → Bool) (hnul : Char.ofNat 0 ∉ format) :
    (format_parse format garbage).2.isSome = true ↔
      ∃ i, percent_without_digit_at format i = true := by
  have hk := format_parse_reason_kind format garbage hnul
  have hiff : (format_parse format garbage).2.isSome = true ↔ last_bad_percent format ≠ none := by
    rw [← hk]
    cases h : (format_parse format garbage).2 with
    | none => simp [reason_kind]
    | some r => cases r <;> simp [reason_kind]
  rw [hiff, Ne, last_bad_percent_eq_none_iff]
  push_neg
  constructor
  · rintro ⟨i, hi⟩
    exact ⟨i, by simpa using hi⟩
  · rintro ⟨i, hi⟩
    exact ⟨i, by simp [hi]⟩

theorem C5_format_parse_invalid_iff_percent_without_digit_witness :
    Char.ofNat 0 ∉ "ab%x1%2".toList ∧
    ((format_parse "ab%x1%2".toList (fun _ => false)).2.isSome = true ↔
      ∃ i, percent_without_digit_at "ab%x1%2".toList i = true) :=
  ⟨by decide,
    C5_format_parse_invalid_iff_percent_without_digit "ab%x1%2".toList (fun _ => false) (by decide)⟩

/-- C6: on a string without an embedded NUL that holds exactly one `%` not
immediately followed by a digit, at position `i`: when that `%` is the last
character, `format_parse` leaves the unterminated-directive reason; otherwise
it leaves the invalid-conversion-specifier reason naming the character at
position `i + 1`. -/
theorem C6_format_parse_reason_of_single_bad_percent (format : List Char)
    (garbage : Nat → Bool) (hnul : Char.ofNat 0 ∉ format) (i : Nat)
    (hone : bad_percent_positions format = [i]) :
    (i + 1 = format.length →
      (format_parse format garbage).2 = some invalid_reason_ty.INVALID_UNTERMINATED_DIRECTIVE) ∧
    (∀ c, format[i + 1]? = some c →
      ∃ dirno, (format_parse format garbage).2 =
        some (invalid_reason_ty.INVALID_CONVERSION_SPECIFIER dirno c)) := by
  have hmem : ∀ j, percent_without_digit_at format j = true ↔ j = i := by
    intro j
    have : j ∈ bad_percent_positions format ↔ j = i := by rw [hone]; simp
    rw [← this]
    unfold bad_percent_positions
    rw [List.mem_filter, List.mem_range]
    constructor
    · intro h
      exact ⟨percent_without_digit_at_lt h, h⟩
    · intro h
      exact h.2
  have hk := format_parse_reason_kind format garbage hnul
  rw [last_bad_percent_of_last format i ((hmem i).mpr rfl)
    (fun j hj => le_of_eq ((hmem j).mp hj))] at hk
  constructor
  · intro hlen
    have hnone : format[i + 1]? = none := by
      rw [List.getElem?_eq_none_iff]
      omega
    rw [hnone] at hk
    cases h : (format_parse format garbage).2 with
    | none => rw [h] at hk; simp [reason_kind] at hk
    | some r =>
      rw [h] at hk
      cases r with
      | INVALID_UNTERMINATED_DIRECTIVE => rfl
      | INVALID_CONVERSION_SPECIFIER dirno c => simp [reason_kind] at hk
  · intro c hc
    rw [hc] at hk
    cases h : (format_parse format garbage).2 with
    | none => rw [h] at hk; simp [reason_kind] at hk
    | some r =>
      rw [h] at hk
      cases r with
      | INVALID_UNTERMINATED_DIRECTIVE => simp [reason_kind] at hk
      | INVALID_CONVERSION_SPECIFIER dirno c2 =>
        simp only [reason_kind, Option.some.injEq] at hk
        exact ⟨dirno, by rw [hk]⟩

theorem C6_format_parse_reason_of_single_bad_percent_witness :
    (Char.ofNat 0 ∉ "abc%".toList ∧ bad_percent_positions "abc%".toList = [3] ∧
      (format_parse "abc%".toList (fun _ => false)).2
        = some invalid_reason_ty.INVALID_UNTERMINATED_DIRECTIVE) ∧
    (Char.ofNat 0 ∉ "ab%x".toList ∧ bad_percent_positions "ab%x".toList = [2] ∧
      ∃ dirno, (format_parse "ab%x".toList (fun _ => false)).2
        = some (invalid_reason_ty.INVALID_CONVERSION_SPECIFIER dirno 'x')) :=
  ⟨⟨by decide, by decide,
      (C6_format_parse_reason_of_single_bad_percent "abc%".toList (fun _ => false)
        (by decide) 3 (by decide)).1 (by decide)⟩,
    ⟨by decide, by decide,
      (C6_format_parse_reason_of_single_bad_percent "ab%x".toList (fun _ => false)
        (by decide) 2 (by decide)).2 'x' (by decide)⟩⟩

/-! ### The error that format_check reports -/

theorem referenced_lt_arg_count {d : spec} {m : Nat} (h : d.referenced m = true) :
    m < d.arg_count := by
  unfold spec.referenced at h
  simp only [Bool.and_eq_true, decide_eq_true_eq] at h
  exact h.1

theorem referenced_ne_lt {d1 d2 : spec} {m : Nat} (h : d1.referenced m ≠ d2.referenced m) :
    m < d1.arg_count ∨ m < d2.arg_count := by
  cases h1 : d1.referenced m with
  | true => exact Or.inl (referenced_lt_arg_count h1)
  | false =>
    cases h2 : d2.referenced m with
    | true => exact Or.inr (referenced_lt_arg_count h2)
    | false => rw [h1, h2] at h; exact absurd rfl h

theorem format_check_loop_first (spec1 spec2 : spec) (error_logger : Bool) (m : Nat)
    (hm : spec1.referenced m ≠ spec2.referenced m) :
    ∀ (fuel i : Nat), max spec1.arg_count spec2.arg_count ≤ i + fuel → i ≤ m →
      (∀ j, i ≤ j → j < m → spec1.referenced j = spec2.referenced j) →
      format_check_loop spec1 spec2 error_logger fuel i =
        (true,
          if error_logger then
            (if spec1.referenced m then [format_check_error.doesnt_exist_in_msgstr m]
             else [format_check_error.doesnt_exist_in_msgid m])
          else []) := by
  have hlt := referenced_ne_lt hm
  intro fuel
  induction fuel with
  | zero =>
    intro i h him _
    exfalso
    rcases hlt with h1 | h1 <;> omega
  | succ fuel ih =>
    intro i h him hall
    unfold format_check_loop
    have hi : i < spec1.arg_count ∨ i < spec2.arg_count := by
      rcases hlt with h1 | h1
      · exact Or.inl (by omega)
      · exact Or.inr (by omega)
    rw [if_pos hi]
    rcases Nat.eq_or_lt_of_le him with heq | hlt2
    · subst heq
      have hne : (decide (i < spec1.arg_count) && spec1.args_used i)
          ≠ (decide (i < spec2.arg_count) && spec2.args_used i) := hm
      simp only [if_pos hne]
      rfl
    · have heq : (decide (i < spec1.arg_count) && spec1.args_used i)
          = (decide (i < spec2.arg_count) && spec2.args_used i) := hall i (le_refl i) hlt2
      have hne : ¬ ((decide (i < spec1.arg_count) && spec1.args_used i)
          ≠ (decide (i < spec2.arg_count) && spec2.args_used i)) := fun h => h heq
      simp only [if_neg hne]
      exact ih (i + 1) (by omega) hlt2 (fun j hj hjm => hall j (by omega) hjm)

theorem format_check_loop_valid_silent (spec1 spec2 : spec) (error_logger : Bool) :
    ∀ (fuel i : Nat), (format_check_loop spec1 spec2 error_logger fuel i).1 = false →
      (format_check_loop spec1 spec2 error_logger fuel i).2 = [] := by
  intro fuel
  induction fuel with
  | zero => intro i _; rfl
  | succ fuel ih =>
    intro i
    unfold format_check_loop
    by_cases hi : i < spec1.arg_count ∨ i < spec2.arg_count
    · rw [if_pos hi]
      by_cases hne : (decide (i < spec1.arg_count) && spec1.args_used i)
          ≠ (decide (i < spec2.arg_count) && spec2.args_used i)
      · simp only [if_pos hne]
        intro h
        exact absurd h (by simp)
      · simp only [if_neg hne]
        exact ih (i + 1)
    · rw [if_neg hi]
      intro _
      rfl

/-- C12: when the descriptors disagree and `m` is the smallest argument number on
which they disagree, `format_check` returns true and, with a logger, makes
exactly one call of it, for `m`: with the "doesn't exist in msgstr" message
when the template references `m`, with the "as in msgstr, doesn't exist in
msgid" message otherwise; without a logger it makes no call.  A pair found
invalid has such a smallest `m`, and for a pair found valid the logger is not
called.  The template "%0" with the translation "%0 and %1" reports argument 1
as missing from the template. -/
theorem C12_format_check_reports_first_mismatch :
    (∀ (d1 d2 : spec) (equality error_logger : Bool) (m : Nat),
      d1.referenced m ≠ d2.referenced m →
      (∀ j, j < m → d1.referenced j = d2.referenced j) →
      format_check d1 d2 equality error_logger =
        (true,
          if error_logger then
            (if d1.referenced m then [format_check_error.doesnt_exist_in_msgstr m]
             else [format_check_error.doesnt_exist_in_msgid m])
          else [])) ∧
    (∀ (d1 d2 : spec) (equality error_logger : Bool),
      (format_check d1 d2 equality error_logger).1 = true →
      ∃ m, d1.referenced m ≠ d2.referenced m ∧ ∀ j, j < m → d1.referenced j = d2.referenced j) ∧
    (∀ (d1 d2 : spec) (equality error_logger : Bool),
      (format_check d1 d2 equality error_logger).1 = false →
      (format_check d1 d2 equality error_logger).2 = []) ∧
    (∀ (garbage1 garbage2 : Nat → Bool) (equality : Bool),
      format_check (format_parse "%0".toList garbage1).1
        (format_parse "%0 and %1".toList garbage2).1 equality true =
        (true, [format_check_error.doesnt_exist_in_msgid 1])) := by
  have first : ∀ (d1 d2 : spec) (equality error_logger : Bool) (m : Nat),
      d1.referenced m ≠ d2.referenced m →
      (∀ j, j < m → d1.referenced j = d2.referenced j) →
      format_check d1 d2 equality error_logger =
        (true,
          if error_logger then
            (if d1.referenced m then [format_check_error.doesnt_exist_in_msgstr m]
             else [format_check_error.doesnt_exist_in_msgid m])
          else []) := by
    intro d1 d2 equality error_logger m hm hall
    unfold format_check
    exact format_check_loop_first d1 d2 error_logger m hm _ 0 (by omega) (Nat.zero_le m)
      (fun j _ hj => hall j hj)
  refine ⟨first, ?_, ?_, ?_⟩
  · intro d1 d2 equality error_logger h
    have hex : ∃ j, d1.referenced j ≠ d2.referenced j :=
      (format_check_true_iff d1 d2 equality error_logger).mp h
    classical
    refine ⟨Nat.find hex, Nat.find_spec hex, ?_⟩
    intro j hj
    by_contra hne
    exact Nat.find_min hex hj hne
  · intro d1 d2 equality error_logger h
    unfold format_check at h ⊢
    exact format_check_loop_valid_silent d1 d2 error_logger _ 0 h
  · intro garbage1 garbage2 equality
    have a0 : (48 &&& 15 : Nat) = 0 := by decide
    have a1 : (49 &&& 15 : Nat) = 1 := by decide
    have h1 : (format_parse "%0".toList garbage1).1.referenced 1 = false := by
      simp [spec.referenced, format_parse, format_parse_loop, format_parse_number,
        format_parse_grow, cpeek, c_isdigit, Function.update, a0, a1]
    have h2 : (format_parse "%0 and %1".toList garbage2).1.referenced 1 = true := by
      simp [spec.referenced, format_parse, format_parse_loop, format_parse_number,
        format_parse_grow, cpeek, c_isdigit, Function.update, a0, a1]
    have h3 : (format_parse "%0".toList garbage1).1.referenced 0 = true := by
      simp [spec.referenced, format_parse, format_parse_loop, format_parse_number,
        format_parse_grow, cpeek, c_isdigit, Function.update, a0, a1]
    have h4 : (format_parse "%0 and %1".toList garbage2).1.referenced 0 = true := by
      simp [spec.referenced, format_parse, format_parse_loop, format_parse_number,
        format_parse_grow, cpeek, c_isdigit, Function.update, a0, a1]
    rw [first _ _ equality true 1 (by rw [h1, h2]; decide)
      (fun j hj => by
        have : j = 0 := by omega
        subst this
        rw [h3, h4])]
    rw [h1]
    rfl

theorem C12_format_check_reports_first_mismatch_witness :
    format_check { directives := 1, arg_count := 3, args_used := fun i => decide (i = 0 ∨ i = 2) }
        { directives := 1, arg_count := 1, args_used := fun _ => true } false true =
      (true, [format_check_error.doesnt_exist_in_msgstr 2]) ∧
    (format_check { directives := 1, arg_count := 1, args_used := fun _ => true }
        { directives := 1, arg_count := 1, args_used := fun _ => true } false true).2 = [] :=
  ⟨C12_format_check_reports_first_mismatch.1
      { directives := 1, arg_count := 3, args_used := fun i => decide (i = 0 ∨ i = 2) }
      { directives := 1, arg_count := 1, args_used := fun _ => true } false true 2
      (by decide) (by decide),
    C12_format_check_reports_first_mismatch.2.2.1 _ _ false true (by decide)⟩

/-! ### The argument number of a directive -/

theorem c_isdigit_and_mask {c : Char} (h : c_isdigit c = true) :
    c.toNat &&& 0x0F = c.toNat - 48 ∧ c.toNat - 48 ≤ 9 := by
  unfold c_isdigit at h
  simp only [Bool.and_eq_true, decide_eq_true_eq] at h
  have h1 : 48 ≤ c.toNat := by
    have := h.1
    rw [Char.le_def] at this
    exact this
  have h2 : c.toNat ≤ 57 := by
    have := h.2
    rw [Char.le_def] at this
    exact this
  generalize c.toNat = n at h1 h2
  interval_cases n <;> decide

theorem decimal_fold_ge (ds : List Char) (number : Nat) :
    number ≤ ds.foldl (fun n c => 10 * n + (c.toNat - 48)) number := by
  induction ds generalizing number with
  | nil => exact le_refl _
  | cons c ds ih =>
    rw [List.foldl_cons]
    exact le_trans (by omega) (ih _)

theorem format_parse_number_value (ds rest : List Char) (hds : ∀ c ∈ ds, c_isdigit c = true)
    (hrest : c_isdigit (cpeek rest) = false) :
    ∀ number : Nat, ds.foldl (fun n c => 10 * n + (c.toNat - 48)) number < 8192 →
      format_parse_number number (ds ++ rest) =
        (ds.foldl (fun n c => 10 * n + (c.toNat - 48)) number, rest) := by
  induction ds with
  | nil =>
    intro number _
    cases rest with
    | nil => rfl
    | cons c r =>
      simp only [cpeek] at hrest
      simp [format_parse_number, hrest]
  | cons c ds ih =>
    intro number hlt
    rw [List.foldl_cons] at hlt ⊢
    have hc := hds c (by simp)
    have hm := (c_isdigit_and_mask hc).1
    have hge := decimal_fold_ge ds (10 * number + (c.toNat - 48))
    have hsmall : 10 * number + (c.toNat - 48) < 8192 := by omega
    rw [List.cons_append, format_parse_number, hm, Nat.mod_eq_of_lt (by omega)]
    simp only [hc, hsmall, decide_True, Bool.and_self, if_true]
    exact ih (fun x hx => hds x (by simp [hx])) _ hlt

theorem format_parse_number_lt (l : List Char) :
    ∀ number : Nat, number < 8192 → (format_parse_number number l).1 < 8192 := by
  induction l with
  | nil => intro number h; exact h
  | cons c rest ih =>
    intro number h
    unfold format_parse_number
    split
    · rename_i hc
      simp only [Bool.and_eq_true, decide_eq_true_eq] at hc
      exact ih _ hc.2
    · exact h

theorem format_parse_number_stops_at_percent (p X : List Char) :
    ∀ number : Nat, ∃ p1, (format_parse_number number (p ++ '%' :: X)).2 = p1 ++ '%' :: X
      ∧ p1.length ≤ p.length ∧ (Char.ofNat 0 ∉ p → Char.ofNat 0 ∉ p1) := by
  induction p with
  | nil =>
    intro number
    refine ⟨[], ?_, le_refl _, fun h => h⟩
    simp [format_parse_number, c_isdigit]
  | cons c p ih =>
    intro number
    rw [List.cons_append, format_parse_number]
    split
    · obtain ⟨p1, h1, h2, h3⟩ := ih ((10 * number + (c.toNat &&& 0x0F)) % 2 ^ 32)
      refine ⟨p1, h1, by simp only [List.length_cons]; omega, ?_⟩
      intro hn
      exact h3 (fun h => hn (by simp [h]))
    · exact ⟨c :: p, rfl, le_refl _, fun h => h⟩

theorem format_parse_grow_spec :
    ∀ (fuel : Nat) (ss : spec) (number : Nat), number < 8192 → ss.arg_count ≤ 8192 →
      number + 1 ≤ ss.arg_count + fuel →
      (format_parse_grow fuel ss number).arg_count = max ss.arg_count (number + 1) ∧
      (∀ i, i < ss.arg_count →
        (format_parse_grow fuel ss number).args_used i = ss.args_used i) := by
  intro fuel
  induction fuel with
  | zero =>
    intro ss number _ _ h
    unfold format_parse_grow
    exact ⟨by omega, fun _ _ => rfl⟩
  | succ fuel ih =>
    intro ss number hn hac h
    unfold format_parse_grow
    by_cases hle : ss.arg_count ≤ number
    · rw [if_pos hle]
      have hmod : (ss.arg_count + 1) % 2 ^ 32 = ss.arg_count + 1 := Nat.mod_eq_of_lt (by omega)
      obtain ⟨h1, h2⟩ := ih
        { ss with
          args_used := Function.update ss.args_used ss.arg_count false
          arg_count := (ss.arg_count + 1) % 2 ^ 32 } number hn
        (by simp only [hmod]; omega) (by simp only [hmod]; omega)
      simp only [hmod] at h1 h2 ⊢
      refine ⟨by rw [h1]; omega, ?_⟩
      intro i hi
      rw [h2 i (by omega)]
      exact Function.update_noteq (by omega) _ _
    · rw [if_neg hle]
      exact ⟨by omega, fun _ _ => rfl⟩

/-- One directive leaves the argument numbers referenced so far referenced, and
references its own. -/
theorem format_parse_record (ss : spec) (number : Nat) (hn : number < 8192)
    (hac : ss.arg_count ≤ 8192) (d : Nat) :
    let g := format_parse_grow (number + 1) { ss with directives := d } number
    let ss1 : spec := { g with args_used := Function.update g.args_used number true }
    ss1.arg_count ≤ 8192 ∧ ss1.referenced number = true ∧
      ∀ n, ss.referenced n = true → ss1.referenced n = true := by
  obtain ⟨h1, h2⟩ := format_parse_grow_spec (number + 1) { ss with directives := d } number hn hac
    (by omega)
  dsimp only at h1 h2 ⊢
  refine ⟨by rw [h1]; omega, ?_, ?_⟩
  · simp only [spec.referenced, h1, Function.update_same, Bool.and_true, decide_eq_true_eq]
    omega
  · intro n hr
    have hlt := referenced_lt_arg_count hr
    simp only [spec.referenced, Bool.and_eq_true, decide_eq_true_eq] at hr ⊢
    refine ⟨by rw [h1]; omega, ?_⟩
    by_cases hnn : n = number
    · subst hnn
      exact Function.update_same _ _ _
    · rw [Function.update_noteq hnn, h2 n hlt]
      exact hr.2

theorem format_parse_loop_keeps :
    ∀ (fuel : Nat) (format : List Char) (st : format_parse_state),
      st.ss_spec.arg_count ≤ 8192 →
      (format_parse_loop fuel format st).ss_spec.arg_count ≤ 8192 ∧
      ∀ n, st.ss_spec.referenced n = true →
        (format_parse_loop fuel format st).ss_spec.referenced n = true := by
  intro fuel
  induction fuel with
  | zero => intro format st h; exact ⟨h, fun _ hn => hn⟩
  | succ fuel ih =>
    intro format st h
    unfold format_parse_loop
    cases format with
    | nil => exact ⟨h, fun _ hn => hn⟩
    | cons c rest =>
      dsimp only
      split
      · exact ⟨h, fun _ hn => hn⟩
      · split
        · split
          · rename_i hd
            have hnum : (format_parse_number ((cpeek rest).toNat &&& 0x0F) (rest.drop 1)).1 < 8192 := by
              apply format_parse_number_lt
              have := (c_isdigit_and_mask hd)
              omega
            obtain ⟨r1, r2, r3⟩ := format_parse_record st.ss_spec _ hnum h
              ((st.ss_spec.directives + 1) % 2 ^ 32)
            obtain ⟨i1, i2⟩ := ih
              (format_parse_number ((cpeek rest).toNat &&& 0x0F) (rest.drop 1)).2
              { st with ss_spec :=
                { format_parse_grow
                    ((format_parse_number ((cpeek rest).toNat &&& 0x0F) (rest.drop 1)).1 + 1)
                    { st.ss_spec with directives := (st.ss_spec.directives + 1) % 2 ^ 32 }
                    (format_parse_number ((cpeek rest).toNat &&& 0x0F) (rest.drop 1)).1 with
                  args_used := Function.update
                    (format_parse_grow
                      ((format_parse_number ((cpeek rest).toNat &&& 0x0F) (rest.drop 1)).1 + 1)
                      { st.ss_spec with directives := (st.ss_spec.directives + 1) % 2 ^ 32 }
                      (format_parse_number ((cpeek rest).toNat &&& 0x0F)
                        (rest.drop 1)).1).args_used
                    (format_parse_number ((cpeek rest).toNat &&& 0x0F) (rest.drop 1)).1 true } }
              r1
            exact ⟨i1, fun n hn => i2 n (r3 n hn)⟩
          · split
            · exact ih _ _ h
            · exact ih _ _ h
        · exact ih _ _ h

/-- The main loop reaches every `%` of the string: from a position before a `%`
it arrives at that `%` with enough fuel left. -/
theorem format_parse_loop_reaches (X : List Char) :
    ∀ (fuel : Nat) (pre : List Char) (st : format_parse_state),
      Char.ofNat 0 ∉ pre → pre.length + X.length + 1 < fuel →
      st.ss_spec.arg_count ≤ 8192 →
      ∃ (fuel1 : Nat) (st1 : format_parse_state),
        format_parse_loop fuel (pre ++ '%' :: X) st = format_parse_loop fuel1 ('%' :: X) st1 ∧
        X.length + 1 < fuel1 ∧ st1.ss_spec.arg_count ≤ 8192 := by
  intro fuel
  induction fuel with
  | zero => intro pre st _ h; omega
  | succ fuel ih =>
    intro pre st hnul hlen hac
    cases pre with
    | nil => exact ⟨fuel + 1, st, rfl, by simpa using hlen, hac⟩
    | cons c rest =>
      have hc0 : c ≠ Char.ofNat 0 := fun hc => hnul (by simp [hc])
      have hrest : Char.ofNat 0 ∉ rest := fun hc => hnul (by simp [hc])
      have hlen2 : rest.length + X.length + 1 < fuel := by
        simp only [List.length_cons] at hlen
        omega
      rw [List.cons_append]
      by_cases hp : c = '%'
      · subst hp
        by_cases hd : c_isdigit (cpeek (rest ++ '%' :: X)) = true
        · cases rest with
          | nil =>
            simp [cpeek, c_isdigit] at hd
          | cons d rest2 =>
            simp only [List.cons_append, cpeek] at hd
            obtain ⟨p1, e1, e2, e3⟩ :=
              format_parse_number_stops_at_percent rest2 X (d.toNat &&& 0x0F)
            have hnum : (format_parse_number (d.toNat &&& 0x0F) (rest2 ++ '%' :: X)).1 < 8192 := by
              apply format_parse_number_lt
              have := (c_isdigit_and_mask hd)
              omega
            obtain ⟨r1, _, _⟩ := format_parse_record st.ss_spec _ hnum hac
              ((st.ss_spec.directives + 1) % 2 ^ 32)
            obtain ⟨fuel1, st1, f1, f2, f3⟩ := ih p1
              { st with ss_spec :=
                { format_parse_grow
                    ((format_parse_number (d.toNat &&& 0x0F) (rest2 ++ '%' :: X)).1 + 1)
                    { st.ss_spec with directives := (st.ss_spec.directives + 1) % 2 ^ 32 }
                    (format_parse_number (d.toNat &&& 0x0F) (rest2 ++ '%' :: X)).1 with
                  args_used := Function.update
                    (format_parse_grow
                      ((format_parse_number (d.toNat &&& 0x0F) (rest2 ++ '%' :: X)).1 + 1)
                      { st.ss_spec with directives := (st.ss_spec.directives + 1) % 2 ^ 32 }
                      (format_parse_number (d.toNat &&& 0x0F) (rest2 ++ '%' :: X)).1).args_used
                    (format_parse_number (d.toNat &&& 0x0F) (rest2 ++ '%' :: X)).1 true } }
              (e3 (fun h => hrest (by simp [h])))
              (by simp only [List.length_cons] at hlen2; omega) r1
            refine ⟨fuel1, st1, ?_, f2, f3⟩
            rw [← f1, ← e1, format_parse_loop]
            simp only [if_neg hc0, if_true, List.cons_append, cpeek, hd, List.drop_succ_cons,
              List.drop_zero]
        · have hd2 : c_isdigit (cpeek (rest ++ '%' :: X)) = false := by simpa using hd
          by_cases hz : cpeek (rest ++ '%' :: X) = Char.ofNat 0
          · obtain ⟨fuel1, st1, f1, f2, f3⟩ := ih rest
              { st with invalid_reason := some invalid_reason_ty.INVALID_UNTERMINATED_DIRECTIVE }
              hrest hlen2 hac
            refine ⟨fuel1, st1, ?_, f2, f3⟩
            rw [← f1, format_parse_loop]
            simp only [if_neg hc0, if_true, hd2, Bool.false_eq_true, if_false]
            rw [if_pos hz]
          · obtain ⟨fuel1, st1, f1, f2, f3⟩ := ih rest
              { st with invalid_reason := some (invalid_reason_ty.INVALID_CONVERSION_SPECIFIER
                  ((st.ss_spec.arg_count + 1) % 2 ^ 32) (cpeek (rest ++ '%' :: X))) }
              hrest hlen2 hac
            refine ⟨fuel1, st1, ?_, f2, f3⟩
            rw [← f1, format_parse_loop]
            simp only [if_neg hc0, if_true, hd2, Bool.false_eq_true, if_false]
            rw [if_neg hz]
      · obtain ⟨fuel1, st1, f1, f2, f3⟩ := ih rest st hrest hlen2 hac
        refine ⟨fuel1, st1, ?_, f2, f3⟩
        rw [← f1, format_parse_loop]
        simp only [if_neg hc0, if_neg hp]

/-- C13 (as amended): for a `%` of a string followed by a maximal run of decimal
digits whose decimal value is below 8192, the digit loop of `format_parse`
yields that value and stops after the run, the main loop records the value for
the directive and goes on after the run, and the parsed descriptor references
the value. -/
theorem C13_directive_number_is_digit_run_value (pre : List Char) (d : Char)
    (ds rest : List Char) (garbage : Nat → Bool)
    (hpre : Char.ofNat 0 ∉ pre) (hd : c_isdigit d = true)
    (hds : ∀ c ∈ ds, c_isdigit c = true) (hrest : c_isdigit (cpeek rest) = false)
    (hval : decimal_value (d :: ds) < 8192) :
    format_parse_number (d.toNat &&& 0x0F) (ds ++ rest) = (decimal_value (d :: ds), rest) ∧
    (∀ (fuel : Nat) (st : format_parse_state),
      format_parse_loop (fuel + 1) ('%' :: d :: (ds ++ rest)) st =
        format_parse_loop fuel rest
          { st with ss_spec :=
            { format_parse_grow (decimal_value (d :: ds) + 1)
                { st.ss_spec with directives := (st.ss_spec.directives + 1) % 2 ^ 32 }
                (decimal_value (d :: ds)) with
              args_used := Function.update
                (format_parse_grow (decimal_value (d :: ds) + 1)
                  { st.ss_spec with directives := (st.ss_spec.directives + 1) % 2 ^ 32 }
                  (decimal_value (d :: ds))).args_used
                (decimal_value (d :: ds)) true } }) ∧
    (format_parse (pre ++ '%' :: d :: (ds ++ rest)) garbage).1.referenced
      (decimal_value (d :: ds)) = true := by
  have hm := (c_isdigit_and_mask hd).1
  have hv : decimal_value (d :: ds)
      = ds.foldl (fun n c => 10 * n + (c.toNat - 48)) (d.toNat - 48) := by
    simp [decimal_value]
  have hnum : format_parse_number (d.toNat &&& 0x0F) (ds ++ rest)
      = (decimal_value (d :: ds), rest) := by
    rw [hm, hv]
    exact format_parse_number_value ds rest hds hrest _ (by rw [← hv]; exact hval)
  have hd0 : d ≠ Char.ofNat 0 := c_isdigit_ne_nul hd
  have hstep : ∀ (fuel : Nat) (st : format_parse_state),
      format_parse_loop (fuel + 1) ('%' :: d :: (ds ++ rest)) st =
        format_parse_loop fuel rest
          { st with ss_spec :=
            { format_parse_grow (decimal_value (d :: ds) + 1)
                { st.ss_spec with directives := (st.ss_spec.directives + 1) % 2 ^ 32 }
                (decimal_value (d :: ds)) with
              args_used := Function.update
                (format_parse_grow (decimal_value (d :: ds) + 1)
                  { st.ss_spec with directives := (st.ss_spec.directives + 1) % 2 ^ 32 }
                  (decimal_value (d :: ds))).args_used
                (decimal_value (d :: ds)) true } } := by
    intro fuel st
    rw [format_parse_loop]
    have hp : ('%' : Char) ≠ Char.ofNat 0 := by decide
    simp only [if_neg hp, if_true, cpeek, hd, List.drop_succ_cons, List.drop_zero, hnum]
  refine ⟨hnum, hstep, ?_⟩
  unfold format_parse
  simp only
  obtain ⟨fuel1, st1, e1, e2, e3⟩ := format_parse_loop_reaches (d :: (ds ++ rest))
    ((pre ++ '%' :: d :: (ds ++ rest)).length + 1) pre
    { ss_spec := { directives := 0, arg_count := 0, args_used := garbage }, invalid_reason := none }
    hpre (by simp only [List.length_append, List.length_cons]; omega) (Nat.zero_le _)
  rw [e1]
  obtain ⟨n, rfl⟩ : ∃ n, fuel1 = n + 1 := ⟨fuel1 - 1, by omega⟩
  rw [hstep]
  obtain ⟨r1, r2, _⟩ := format_parse_record st1.ss_spec _ hval e3
    ((st1.ss_spec.directives + 1) % 2 ^ 32)
  exact (format_parse_loop_keeps n rest _ r1).2 _ r2

theorem C13_directive_number_is_digit_run_value_witness :
    format_parse_number ('1'.toNat &&& 0x0F) ("23".toList ++ " %4".toList)
      = (123, " %4".toList) ∧
    (format_parse ("a%0 ".toList ++ '%' :: '1' :: ("23".toList ++ " %4".toList))
      (fun _ => false)).1.referenced 123 = true :=
  ⟨(C13_directive_number_is_digit_run_value "a%0 ".toList '1' "23".toList " %4".toList
      (fun _ => false) (by decide) (by decide) (by decide) (by decide) (by decide)).1,
    (C13_directive_number_is_digit_run_value "a%0 ".toList '1' "23".toList " %4".toList
      (fun _ => false) (by decide) (by decide) (by decide) (by decide) (by decide)).2.2⟩

set_option maxRecDepth 100000 in
/-- C13, counterexample: in "%8192" the `%` is followed by the digit run 8192,
but the directive records argument number 819: the digit loop stops before the
digit that would take the number to 8192 or above, and 8192 is not referenced. -/
theorem C13_counterexample :
    decimal_value "8192".toList = 8192 ∧
    format_parse_number ('8'.toNat &&& 0x0F) "192".toList = (819, ['2']) ∧
    (format_parse "%8192".toList (fun _ => false)).1.referenced 819 = true ∧
    (format_parse "%8192".toList (fun _ => false)).1.referenced 8192 = false := by
  refine ⟨by decide, by decide, ?_, ?_⟩ <;> decide

/-! ### The number of directives -/

theorem percent_digit_count_digits (ds l : List Char) (h : ∀ c ∈ ds, c_isdigit c = true) :
    percent_digit_count (ds ++ l) = percent_digit_count l := by
  induction ds with
  | nil => rfl
  | cons d ds ih =>
    have hd : d ≠ '%' := c_isdigit_ne_percent (h d (by simp))
    rw [List.cons_append, percent_digit_count, ih (fun c hc => h c (by simp [hc]))]
    simp [hd]

theorem percent_digit_count_le (l : List Char) : percent_digit_count l ≤ l.length := by
  induction l with
  | nil => simp [percent_digit_count]
  | cons c rest ih =>
    rw [percent_digit_count, List.length_cons]
    split <;> omega

theorem format_parse_loop_directives :
    ∀ (fuel : Nat) (format : List Char) (st : format_parse_state),
      format.length < fuel → Char.ofNat 0 ∉ format →
      (format_parse_loop fuel format st).ss_spec.directives % 2 ^ 32 =
        (st.ss_spec.directives + percent_digit_count format) % 2 ^ 32 := by
  intro fuel
  induction fuel with
  | zero => intro format st h; omega
  | succ fuel ih =>
    intro format st hlen hnul
    cases format with
    | nil => simp [format_parse_loop, percent_digit_count]
    | cons c rest =>
      have hc0 : c ≠ Char.ofNat 0 := fun hc => hnul (by simp [hc])
      have hrest : Char.ofNat 0 ∉ rest := fun hc => hnul (by simp [hc])
      have hlen2 : rest.length < fuel := by
        simp only [List.length_cons] at hlen
        omega
      unfold format_parse_loop
      simp only [if_neg hc0]
      by_cases hp : c = '%'
      · subst hp
        simp only [if_true]
        by_cases hd : c_isdigit (cpeek rest) = true
        · simp only [hd, if_true]
          cases rest with
          | nil => exact absurd hd (by decide)
          | cons d rest2 =>
            simp only [cpeek] at hd
            simp only [cpeek, List.drop_succ_cons, List.drop_zero]
            obtain ⟨ds, hds, hdig⟩ :=
              format_parse_number_consumes (d.toNat &&& 0x0F) rest2
            have hsuf_len : (format_parse_number (d.toNat &&& 0x0F) rest2).2.length ≤ rest2.length := by
              conv_rhs => rw [hds]
              simp
            have hsuf_nul : Char.ofNat 0 ∉ (format_parse_number (d.toNat &&& 0x0F) rest2).2 := by
              intro hmem
              apply hrest
              rw [hds]
              simp [hmem]
            rw [ih _ _ (by simp only [List.length_cons] at hlen2; omega) hsuf_nul]
            have e : percent_digit_count ('%' :: d :: rest2)
                = 1 + percent_digit_count (format_parse_number (d.toNat &&& 0x0F) rest2).2 := by
              have h1 : percent_digit_count (d :: rest2)
                  = percent_digit_count (format_parse_number (d.toNat &&& 0x0F) rest2).2 := by
                conv_lhs => rw [hds]
                rw [← List.cons_append]
                apply percent_digit_count_digits
                intro x hx
                rcases List.mem_cons.mp hx with rfl | hx
                · exact hd
                · exact hdig x hx
              rw [percent_digit_count, h1]
              simp [cpeek, hd]
            rw [e]
            have hgrow : ∀ (n : Nat) (ss : spec) (number : Nat),
                (format_parse_grow n ss number).directives = ss.directives := by
              intro n
              induction n with
              | zero => intro ss number; rfl
              | succ n ihn =>
                intro ss number
                unfold format_parse_grow
                split
                · rw [ihn]
                · rfl
            simp only [hgrow]
            omega
        · have hd2 : c_isdigit (cpeek rest) = false := by simpa using hd
          simp only [hd2, Bool.false_eq_true, if_false]
          have e : percent_digit_count ('%' :: rest) = percent_digit_count rest := by
            rw [percent_digit_count]
            simp [hd2]
          rw [e]
          by_cases hz : cpeek rest = Char.ofNat 0
          · simp only [hz, if_true]
            rw [ih _ _ hlen2 hrest]
          · simp only [hz, if_false]
            rw [ih _ _ hlen2 hrest]
      · simp only [if_neg hp]
        rw [ih _ _ hlen2 hrest, percent_digit_count]
        simp [hp]

theorem format_parse_loop_directives_lt :
    ∀ (fuel : Nat) (format : List Char) (st : format_parse_state),
      st.ss_spec.directives < 2 ^ 32 →
      (format_parse_loop fuel format st).ss_spec.directives < 2 ^ 32 := by
  intro fuel
  induction fuel with
  | zero => intro format st h; exact h
  | succ fuel ih =>
    intro format st h
    unfold format_parse_loop
    cases format with
    | nil => exact h
    | cons c rest =>
      dsimp only
      split
      · exact h
      · split
        · split
          · apply ih
            have hgrow : ∀ (n : Nat) (ss : spec) (number : Nat),
                (format_parse_grow n ss number).directives = ss.directives := by
              intro n
              induction n with
              | zero => intro ss number; rfl
              | succ n ihn =>
                intro ss number
                unfold format_parse_grow
                split
                · rw [ihn]
                · rfl
            simp only [hgrow]
            exact Nat.mod_lt _ (by decide)
          · split
            · exact ih _ _ h
            · exact ih _ _ h
        · exact ih _ _ h

/-- C14: for a string without an embedded NUL and shorter than `2 ^ 31`
characters, the number of directives that `format_get_number_of_directives`
returns for the parsed string is the number of `%` characters of the string
that are immediately followed by a decimal digit; "%0 %0" has 2 directives. -/
theorem C14_number_of_directives (format : List Char) (garbage : Nat → Bool)
    (hnul : Char.ofNat 0 ∉ format) (hlen : format.length < 2 ^ 31) :
    format_get_number_of_directives (format_parse format garbage).1 =
      percent_digit_count format := by
  unfold format_get_number_of_directives format_parse
  simp only
  have h1 := format_parse_loop_directives (format.length + 1) format
    { ss_spec := { directives := 0, arg_count := 0, args_used := garbage }, invalid_reason := none }
    (Nat.lt_succ_self _) hnul
  have h2 := format_parse_loop_directives_lt (format.length + 1) format
    { ss_spec := { directives := 0, arg_count := 0, args_used := garbage }, invalid_reason := none }
    (Nat.two_pow_pos 32)
  have h3 := percent_digit_count_le format
  simp only [Nat.zero_add] at h1
  rw [Nat.mod_eq_of_lt h2, Nat.mod_eq_of_lt (by omega)] at h1
  exact h1

theorem C14_number_of_directives_witness :
    format_get_number_of_directives (format_parse "%0 %0".toList (fun _ => false)).1 = 2 ∧
    percent_digit_count "%0 %0".toList = 2 ∧
    format_get_number_of_directives (format_parse "5% of %1%2, %x".toList (fun _ => false)).1
      = 2 :=
  ⟨by rw [C14_number_of_directives "%0 %0".toList (fun _ => false) (by decide) (by decide)]; decide,
    by decide,
    by rw [C14_number_of_directives "5% of %1%2, %x".toList (fun _ => false) (by decide)
        (by decide)]; decide⟩

/-! ### The result of format_check and the position in the error of format_parse -/

/-- C25: the boolean that `format_check` returns is the same with and without a
logger and for both values of `equality`. -/
theorem C25_format_check_result_independent (d1 d2 : spec)
    (equality1 equality2 error_logger1 error_logger2 : Bool) :
    (format_check d1 d2 equality1 error_logger1).1 =
      (format_check d1 d2 equality2 error_logger2).1 := by
  rw [Bool.eq_iff_iff, format_check_true_iff, format_check_true_iff]

/-- C24, evaluated: for "%5%x" `format_parse` reports the invalid conversion
specifier `x` with the number 7, which is `arg_count + 1` (argument 5 was seen,
so `arg_count` is 6), while one directive was parsed before the offending `%`;
for "%0%0%x" it reports the number 2 after two directives. -/
theorem C24_position_is_arg_count_plus_one :
    (format_parse "%5%x".toList (fun _ => false)).2 =
      some (invalid_reason_ty.INVALID_CONVERSION_SPECIFIER 7 'x') ∧
    (format_parse "%5%x".toList (fun _ => false)).1.directives = 1 ∧
    (format_parse "%5%x".toList (fun _ => false)).1.arg_count = 6 ∧
    (format_parse "%0%0%x".toList (fun _ => false)).2 =
      some (invalid_reason_ty.INVALID_CONVERSION_SPECIFIER 2 'x') ∧
    (format_parse "%0%0%x".toList (fun _ => false)).1.directives = 2 ∧
    (format_parse "%0%0%x".toList (fun _ => false)).1.arg_count = 1 := by
  decide

/-! ### The digit loop takes the longest prefix below 8192 -/

theorem format_parse_number_taken (rest : List Char) (hrest : c_isdigit (cpeek rest) = false) :
    ∀ (ds : List Char) (number : Nat), (∀ c ∈ ds, c_isdigit c = true) → number < 8192 →
      ∃ taken left, ds = taken ++ left ∧
        format_parse_number number (ds ++ rest) =
          (taken.foldl (fun n c => 10 * n + (c.toNat - 48)) number, left ++ rest) ∧
        taken.foldl (fun n c => 10 * n + (c.toNat - 48)) number < 8192 ∧
        (∀ c left1, left = c :: left1 →
          8192 ≤ (taken ++ [c]).foldl (fun n c => 10 * n + (c.toNat - 48)) number) := by
  intro ds
  induction ds with
  | nil =>
    intro number _ hn
    refine ⟨[], [], rfl, ?_, hn, fun c left1 h => by simp at h⟩
    cases rest with
    | nil => rfl
    | cons c r =>
      simp only [cpeek] at hrest
      simp [format_parse_number, hrest]
  | cons c ds ih =>
    intro number hds hn
    have hc := hds c (by simp)
    have hm := (c_isdigit_and_mask hc).1
    have hm2 := (c_isdigit_and_mask hc).2
    by_cases hsmall : 10 * number + (c.toNat - 48) < 8192
    · obtain ⟨taken, left, e1, e2, e3, e4⟩ := ih (10 * number + (c.toNat - 48))
        (fun x hx => hds x (by simp [hx])) hsmall
      refine ⟨c :: taken, left, by rw [e1]; rfl, ?_, e3, ?_⟩
      · rw [List.cons_append, format_parse_number, hm, Nat.mod_eq_of_lt (by omega)]
        simp only [hc, hsmall, decide_True, Bool.and_self, if_true]
        exact e2
      · intro x left1 hx
        exact e4 x left1 hx
    · refine ⟨[], c :: ds, rfl, ?_, hn, ?_⟩
      · rw [List.cons_append, format_parse_number, hm, Nat.mod_eq_of_lt (by omega)]
        simp only [hc, hsmall, decide_False, Bool.and_false, Bool.false_eq_true, if_false]
        rfl
      · intro x left1 hx
        simp only [List.cons.injEq] at hx
        rw [← hx.1]
        simp only [List.nil_append, List.foldl_cons, List.foldl_nil]
        omega

theorem format_parse_loop_digit_step (fuel : Nat) (d : Char) (tail : List Char)
    (st : format_parse_state) (hd : c_isdigit d = true) :
    format_parse_loop (fuel + 1) ('%' :: d :: tail) st =
      format_parse_loop fuel (format_parse_number (d.toNat &&& 0x0F) tail).2
        { st with ss_spec :=
          { format_parse_grow ((format_parse_number (d.toNat &&& 0x0F) tail).1 + 1)
              { st.ss_spec with directives := (st.ss_spec.directives + 1) % 2 ^ 32 }
              (format_parse_number (d.toNat &&& 0x0F) tail).1 with
            args_used := Function.update
              (format_parse_grow ((format_parse_number (d.toNat &&& 0x0F) tail).1 + 1)
                { st.ss_spec with directives := (st.ss_spec.directives + 1) % 2 ^ 32 }
                (format_parse_number (d.toNat &&& 0x0F) tail).1).args_used
              (format_parse_number (d.toNat &&& 0x0F) tail).1 true } } := by
  rw [format_parse_loop]
  have hp : ('%' : Char) ≠ Char.ofNat 0 := by decide
  simp only [if_neg hp, if_true, cpeek, hd, List.drop_succ_cons, List.drop_zero]

theorem format_parse_loop_skip_digits : ∀ (left : List Char) (fuel : Nat) (rest : List Char)
    (st : format_parse_state), (∀ c ∈ left, c_isdigit c = true) →
    format_parse_loop (fuel + left.length) (left ++ rest) st = format_parse_loop fuel rest st := by
  intro left
  induction left with
  | nil => intro fuel rest st _; rfl
  | cons c left ih =>
    intro fuel rest st h
    have hc := h c (List.mem_cons_self c left)
    rw [List.length_cons, ← Nat.add_assoc, List.cons_append, format_parse_loop]
    simp only [if_neg (c_isdigit_ne_nul hc), if_neg (c_isdigit_ne_percent hc)]
    exact ih fuel rest st (fun x hx => h x (List.mem_cons_of_mem c hx))

/-- The descriptor that `format_parse` returns references the number that the
digit loop yields for a `%` followed by a digit, wherever the `%` stands. -/
theorem format_parse_references (pre : List Char) (d : Char) (tail : List Char)
    (garbage : Nat → Bool) (hpre : Char.ofNat 0 ∉ pre) (hd : c_isdigit d = true) :
    (format_parse (pre ++ '%' :: d :: tail) garbage).1.referenced
      (format_parse_number (d.toNat &&& 0x0F) tail).1 = true := by
  have hnum : (format_parse_number (d.toNat &&& 0x0F) tail).1 < 8192 := by
    apply format_parse_number_lt
    have := c_isdigit_and_mask hd
    omega
  unfold format_parse
  simp only
  obtain ⟨fuel1, st1, e1, e2, e3⟩ := format_parse_loop_reaches (d :: tail)
    ((pre ++ '%' :: d :: tail).length + 1) pre
    { ss_spec := { directives := 0, arg_count := 0, args_used := garbage }, invalid_reason := none }
    hpre (by simp only [List.length_append, List.length_cons]; omega) (Nat.zero_le _)
  rw [e1]
  obtain ⟨n, rfl⟩ : ∃ n, fuel1 = n + 1 := ⟨fuel1 - 1, by omega⟩
  rw [format_parse_loop_digit_step n d tail st1 hd]
  obtain ⟨r1, r2, _⟩ := format_parse_record st1.ss_spec _ hnum e3
    ((st1.ss_spec.directives + 1) % 2 ^ 32)
  exact (format_parse_loop_keeps n _ _ r1).2 _ r2

/-- C27: for every `%` of a format string followed by the digit run `d :: ds`
(and then by no further digit), `format_parse` takes as argument number the
value of the longest prefix `d :: taken` of the run whose decimal value is
below 8192, at least the first digit: the main loop records that number in
`args_used` and goes on after the other digits `left` of the run, over which
it passes as over ordinary text, and the descriptor that `format_parse`
returns references that number.  So every argument number that a descriptor
of `format_parse` references is below 8192, a run whose value is below 8192
is taken whole, also with leading zeros, and "%8192" references argument 819
and not 8192. -/
theorem C27_digit_run_taken_below_8192 :
    (∀ (pre : List Char) (d : Char) (ds rest : List Char) (garbage : Nat → Bool),
      Char.ofNat 0 ∉ pre → c_isdigit d = true → (∀ c ∈ ds, c_isdigit c = true) →
      c_isdigit (cpeek rest) = false →
      ∃ taken left, ds = taken ++ left ∧ decimal_value (d :: taken) < 8192 ∧
        (∀ c left1, left = c :: left1 → 8192 ≤ decimal_value (d :: (taken ++ [c]))) ∧
        (∀ (fuel : Nat) (st : format_parse_state),
          format_parse_loop (fuel + left.length + 1) ('%' :: d :: (ds ++ rest)) st =
            format_parse_loop fuel rest
              { st with ss_spec :=
                { format_parse_grow (decimal_value (d :: taken) + 1)
                    { st.ss_spec with directives := (st.ss_spec.directives + 1) % 2 ^ 32 }
                    (decimal_value (d :: taken)) with
                  args_used := Function.update
                    (format_parse_grow (decimal_value (d :: taken) + 1)
                      { st.ss_spec with directives := (st.ss_spec.directives + 1) % 2 ^ 32 }
                      (decimal_value (d :: taken))).args_used
                    (decimal_value (d :: taken)) true } }) ∧
        (format_parse (pre ++ '%' :: d :: (ds ++ rest)) garbage).1.referenced
          (decimal_value (d :: taken)) = true) ∧
    (∀ (pre : List Char) (d : Char) (ds rest : List Char) (garbage : Nat → Bool),
      Char.ofNat 0 ∉ pre → c_isdigit d = true → (∀ c ∈ ds, c_isdigit c = true) →
      c_isdigit (cpeek rest) = false → decimal_value (d :: ds) < 8192 →
      (format_parse (pre ++ '%' :: d :: (ds ++ rest)) garbage).1.referenced
        (decimal_value (d :: ds)) = true) ∧
    (∀ (format : List Char) (garbage : Nat → Bool) (i : Nat),
      (format_parse format garbage).1.referenced i = true → i < 8192) ∧
    (∀ (garbage : Nat → Bool),
      (format_parse "%8192".toList garbage).1.referenced 819 = true ∧
      (format_parse "%8192".toList garbage).1.referenced 8192 = false) ∧
    (∀ (garbage : Nat → Bool),
      (format_parse "%0007 apples".toList garbage).1.referenced 7 = true) := by
  refine ⟨?_, ?_, ?_, ?_, ?_⟩
  · intro pre d ds rest garbage hpre hd hds hrest
    have hm := c_isdigit_and_mask hd
    obtain ⟨taken, left, e1, e2, e3, e4⟩ :=
      format_parse_number_taken rest hrest ds (d.toNat - 48) hds (by omega)
    have hv : ∀ l : List Char, decimal_value (d :: l)
        = l.foldl (fun n c => 10 * n + (c.toNat - 48)) (d.toNat - 48) := by
      intro l
      simp [decimal_value]
    have hnum : format_parse_number (d.toNat &&& 0x0F) (ds ++ rest) =
        (decimal_value (d :: taken), left ++ rest) := by
      rw [hm.1, e2, hv]
    have hleft : ∀ c ∈ left, c_isdigit c = true := by
      intro c hc
      exact hds c (by rw [e1]; exact List.mem_append_right taken hc)
    refine ⟨taken, left, e1, by rw [hv]; exact e3, ?_, ?_, ?_⟩
    · intro c left1 h
      rw [hv]
      exact e4 c left1 h
    · intro fuel st
      rw [format_parse_loop_digit_step (fuel + left.length) d (ds ++ rest) st hd, hnum]
      exact format_parse_loop_skip_digits left fuel rest _ hleft
    · have r := format_parse_references pre d (ds ++ rest) garbage hpre hd
      rw [hnum] at r
      exact r
  · intro pre d ds rest garbage hpre hd hds hrest hval
    have hm := c_isdigit_and_mask hd
    have hv : decimal_value (d :: ds)
        = ds.foldl (fun n c => 10 * n + (c.toNat - 48)) (d.toNat - 48) := by
      simp [decimal_value]
    have hnum : format_parse_number (d.toNat &&& 0x0F) (ds ++ rest)
        = (decimal_value (d :: ds), rest) := by
      rw [hm.1, hv]
      exact format_parse_number_value ds rest hds hrest _ (by rw [← hv]; exact hval)
    have r := format_parse_references pre d (ds ++ rest) garbage hpre hd
    rw [hnum] at r
    exact r
  · intro format garbage i h
    have a := (format_parse_loop_keeps (format.length + 1) format
      { ss_spec := { directives := 0, arg_count := 0, args_used := garbage },
        invalid_reason := none } (Nat.zero_le _)).1
    have b := referenced_lt_arg_count h
    have c : (format_parse format garbage).1.arg_count ≤ 8192 := a
    omega
  · intro garbage
    have r := format_parse_references [] '8' "192".toList garbage (by simp) (by decide)
    have e : (format_parse_number ('8'.toNat &&& 0x0F) "192".toList).1 = 819 := by decide
    rw [e] at r
    refine ⟨r, ?_⟩
    have a : (format_parse "%8192".toList garbage).1.arg_count ≤ 8192 :=
      (format_parse_loop_keeps _ _ _ (Nat.zero_le _)).1
    simp only [spec.referenced, Bool.and_eq_false_imp, decide_eq_true_eq]
    intro h
    omega
  · intro garbage
    have r := format_parse_references [] '0' "007 apples".toList garbage (by simp) (by decide)
    have e : (format_parse_number ('0'.toNat &&& 0x0F) "007 apples".toList).1 = 7 := by decide
    rw [e] at r
    exact r

theorem C27_digit_run_taken_below_8192_witness :
    ∃ taken left, "192".toList = taken ++ left ∧ decimal_value ('8' :: taken) < 8192 ∧
      (∀ c left1, left = c :: left1 → 8192 ≤ decimal_value ('8' :: (taken ++ [c]))) ∧
      (format_parse ("a%1 ".toList ++ '%' :: '8' :: ("192".toList ++ "x".toList))
        (fun _ => false)).1.referenced (decimal_value ('8' :: taken)) = true := by
  obtain ⟨taken, left, e1, e2, e3, _, e5⟩ := C27_digit_run_taken_below_8192.1 "a%1 ".toList '8' "192".toList "x".toList
    (fun _ => false) (by decide) (by decide) (by decide) (by decide)
  exact ⟨taken, left, e1, e2, e3, e5⟩

/-! ### The bounds of the table of flags -/

theorem format_parse_grow_above :
    ∀ (fuel : Nat) (ss : spec) (number i : Nat), number < i →
      (format_parse_grow fuel ss number).args_used i = ss.args_used i := by
  intro fuel
  induction fuel with
  | zero => intro ss number i _; rfl
  | succ fuel ih =>
    intro ss number i hi
    unfold format_parse_grow
    by_cases hle : ss.arg_count ≤ number
    · rw [if_pos hle, ih _ _ _ hi]
      exact Function.update_noteq (by omega) _ _
    · rw [if_neg hle]

theorem format_parse_loop_above :
    ∀ (fuel : Nat) (format : List Char) (st : format_parse_state) (i : Nat), 8192 ≤ i →
      (format_parse_loop fuel format st).ss_spec.args_used i = st.ss_spec.args_used i := by
  intro fuel
  induction fuel with
  | zero => intro format st i _; rfl
  | succ fuel ih =>
    intro format st i hi
    unfold format_parse_loop
    cases format with
    | nil => rfl
    | cons c rest =>
      dsimp only
      split
      · rfl
      · split
        · split
          · rename_i hd
            have hnum : (format_parse_number ((cpeek rest).toNat &&& 0x0F) (rest.drop 1)).1 < 8192 := by
              apply format_parse_number_lt
              have := (c_isdigit_and_mask hd)
              omega
            rw [ih _ _ i hi]
            dsimp only
            rw [Function.update_noteq (by omega), format_parse_grow_above _ _ _ _ (by omega)]
          · split
            · rw [ih _ _ i hi]
            · rw [ih _ _ i hi]
        · rw [ih _ _ i hi]

theorem format_check_loop_congr (d1 d2 e1 e2 : spec) (error_logger : Bool)
    (h1 : d1.arg_count = e1.arg_count) (h2 : d2.arg_count = e2.arg_count)
    (a1 : ∀ i, i < d1.arg_count → d1.args_used i = e1.args_used i)
    (a2 : ∀ i, i < d2.arg_count → d2.args_used i = e2.args_used i) :
    ∀ (fuel i : Nat), format_check_loop d1 d2 error_logger fuel i =
      format_check_loop e1 e2 error_logger fuel i := by
  intro fuel
  induction fuel with
  | zero => intro i; rfl
  | succ fuel ih =>
    intro i
    have u1 : (decide (i < d1.arg_count) && d1.args_used i)
        = (decide (i < e1.arg_count) && e1.args_used i) := by
      rw [← h1]
      by_cases h : i < d1.arg_count
      · rw [a1 i h]
      · simp [h]
    have u2 : (decide (i < d2.arg_count) && d2.args_used i)
        = (decide (i < e2.arg_count) && e2.args_used i) := by
      rw [← h2]
      by_cases h : i < d2.arg_count
      · rw [a2 i h]
      · simp [h]
    rw [format_check_loop, format_check_loop]
    simp only [u1, u2, ← h1, ← h2, ih]

/-- C28: `format_parse` never lets `arg_count` exceed 8192 and never writes a
flag at an index of 8192 or above (the flags there keep their initial
content); `format_check` reads a flag only below the `arg_count` of its
descriptor (its result is the same for descriptors with the same `arg_count`
and the same flags below it).  The digit loop starts from a number below 16,
keeps the number below 8192, and for such a number `10 * number + digit` is
below `2 ^ 32`, so that the unsigned arithmetic does not wrap. -/
theorem C28_table_bounds :
    (∀ (format : List Char) (garbage : Nat → Bool),
      (format_parse format garbage).1.arg_count ≤ 8192) ∧
    (∀ (format : List Char) (garbage : Nat → Bool) (i : Nat), 8192 ≤ i →
      (format_parse format garbage).1.args_used i = garbage i) ∧
    (∀ (d1 d2 e1 e2 : spec) (equality error_logger : Bool),
      d1.arg_count = e1.arg_count → d2.arg_count = e2.arg_count →
      (∀ i, i < d1.arg_count → d1.args_used i = e1.args_used i) →
      (∀ i, i < d2.arg_count → d2.args_used i = e2.args_used i) →
      format_check d1 d2 equality error_logger = format_check e1 e2 equality error_logger) ∧
    (∀ c : Char, c.toNat &&& 0x0F < 16) ∧
    (∀ (number : Nat) (l : List Char), number < 8192 →
      (format_parse_number number l).1 < 8192) ∧
    (∀ (number : Nat) (c : Char), number < 8192 →
      10 * number + (c.toNat &&& 0x0F) < 2 ^ 32 ∧
      (10 * number + (c.toNat &&& 0x0F)) % 2 ^ 32 = 10 * number + (c.toNat &&& 0x0F)) := by
  have hand : ∀ c : Char, c.toNat &&& 0x0F < 16 := by
    intro c
    have := @Nat.and_le_right c.toNat 0x0F
    omega
  refine ⟨?_, ?_, ?_, hand, fun number l h => format_parse_number_lt l number h, ?_⟩
  · intro format garbage
    exact (format_parse_loop_keeps _ format _ (Nat.zero_le _)).1
  · intro format garbage i hi
    exact format_parse_loop_above _ format _ i hi
  · intro d1 d2 e1 e2 equality error_logger h1 h2 a1 a2
    unfold format_check
    rw [← h1, ← h2]
    exact format_check_loop_congr d1 d2 e1 e2 error_logger h1 h2 a1 a2 _ 0
  · intro number c h
    have := hand c
    have h2 : 10 * number + (c.toNat &&& 0x0F) < 2 ^ 32 := by omega
    exact ⟨h2, Nat.mod_eq_of_lt h2⟩

theorem C28_table_bounds_witness :
    (format_parse "%8191%9999".toList (fun i => decide (i = 9000))).1.args_used 9000 = true ∧
    (format_parse_number 819 "2".toList).1 < 8192 ∧
    10 * 8191 + ('9'.toNat &&& 0x0F) < 2 ^ 32 := by
  refine ⟨?_, C28_table_bounds.2.2.2.2.1 819 "2".toList (by decide),
    (C28_table_bounds.2.2.2.2.2 8191 '9' (by decide)).1⟩
  rw [C28_table_bounds.2.1 _ _ 9000 (by decide)]
  decide

/-! ### The table of flags after format_parse -/

theorem directive_numbers_digits (ds l : List Char) (h : ∀ c ∈ ds, c_isdigit c = true) :
    directive_numbers (ds ++ l) = directive_numbers l := by
  induction ds with
  | nil => rfl
  | cons d ds ih =>
    have hd : d ≠ '%' := c_isdigit_ne_percent (h d (by simp))
    rw [List.cons_append, directive_numbers, ih (fun c hc => h c (by simp [hc]))]
    simp [hd]

theorem format_parse_grow_gap :
    ∀ (fuel : Nat) (ss : spec) (number i : Nat), number < 8192 → ss.arg_count ≤ 8192 →
      number + 1 ≤ ss.arg_count + fuel → ss.arg_count ≤ i → i ≤ number →
      (format_parse_grow fuel ss number).args_used i = false := by
  intro fuel
  induction fuel with
  | zero => intro ss number i _ _ h h1 h2; omega
  | succ fuel ih =>
    intro ss number i hn hac h h1 h2
    unfold format_parse_grow
    have hle : ss.arg_count ≤ number := by omega
    rw [if_pos hle]
    have hmod : (ss.arg_count + 1) % 2 ^ 32 = ss.arg_count + 1 := Nat.mod_eq_of_lt (by omega)
    simp only [hmod]
    rcases Nat.eq_or_lt_of_le h1 with heq | hlt
    · subst heq
      obtain ⟨_, k2⟩ := format_parse_grow_spec fuel
        { ss with
          args_used := Function.update ss.args_used ss.arg_count false
          arg_count := ss.arg_count + 1 } number hn (by dsimp only; omega) (by dsimp only; omega)
      rw [k2 ss.arg_count (by dsimp only; omega)]
      exact Function.update_same _ _ _
    · exact ih _ number i hn (by dsimp only; omega) (by dsimp only; omega) (by dsimp only; omega) h2

theorem foldl_max_succ_mem (seen : List Nat) :
    ∀ (a : Nat), (∀ x ∈ seen, x + 1 ≤ (seen.map (· + 1)).foldl max a) ∧
      a ≤ (seen.map (· + 1)).foldl max a := by
  induction seen with
  | nil => intro a; simp
  | cons y seen ih =>
    intro a
    simp only [List.map_cons, List.foldl_cons, List.mem_cons, forall_eq_or_imp]
    obtain ⟨i1, i2⟩ := ih (max a (y + 1))
    exact ⟨⟨by omega, i1⟩, by omega⟩

/-- The main loop keeps the table in step with the directives it has passed:
`arg_count` is the largest argument number seen plus 1 (0 when there is none)
and, below it, exactly the flags of the numbers seen are set. -/
theorem format_parse_loop_table :
    ∀ (fuel : Nat) (format : List Char) (st : format_parse_state) (seen : List Nat),
      format.length < fuel → Char.ofNat 0 ∉ format → st.ss_spec.arg_count ≤ 8192 →
      st.ss_spec.arg_count = (seen.map (· + 1)).foldl max 0 →
      (∀ i, i < st.ss_spec.arg_count → (st.ss_spec.args_used i = true ↔ i ∈ seen)) →
      (format_parse_loop fuel format st).ss_spec.arg_count =
          ((seen ++ directive_numbers format).map (· + 1)).foldl max 0 ∧
        (∀ i, i < (format_parse_loop fuel format st).ss_spec.arg_count →
          ((format_parse_loop fuel format st).ss_spec.args_used i = true ↔
            i ∈ seen ++ directive_numbers format)) := by
  intro fuel
  induction fuel with
  | zero => intro format st seen h; omega
  | succ fuel ih =>
    intro format st seen hlen hnul hac hcount htab
    cases format with
    | nil =>
      simp only [format_parse_loop, directive_numbers, List.append_nil]
      exact ⟨hcount, htab⟩
    | cons c rest =>
      have hc0 : c ≠ Char.ofNat 0 := fun hc => hnul (by simp [hc])
      have hrest : Char.ofNat 0 ∉ rest := fun hc => hnul (by simp [hc])
      have hlen2 : rest.length < fuel := by
        simp only [List.length_cons] at hlen
        omega
      unfold format_parse_loop
      simp only [if_neg hc0]
      by_cases hp : c = '%'
      · subst hp
        simp only [if_true]
        by_cases hd : c_isdigit (cpeek rest) = true
        · simp only [hd, if_true]
          cases rest with
          | nil => exact absurd hd (by decide)
          | cons d rest2 =>
            simp only [cpeek] at hd
            simp only [cpeek, List.drop_succ_cons, List.drop_zero]
            obtain ⟨ds, hds, hdig⟩ :=
              format_parse_number_consumes (d.toNat &&& 0x0F) rest2
            have hsuf_len : (format_parse_number (d.toNat &&& 0x0F) rest2).2.length ≤ rest2.length := by
              conv_rhs => rw [hds]
              simp
            have hsuf_nul : Char.ofNat 0 ∉ (format_parse_number (d.toNat &&& 0x0F) rest2).2 := by
              intro hmem
              apply hrest
              rw [hds]
              simp [hmem]
            have hnum : (format_parse_number (d.toNat &&& 0x0F) rest2).1 < 8192 := by
              apply format_parse_number_lt
              have := (c_isdigit_and_mask hd)
              omega
            have e : directive_numbers ('%' :: d :: rest2)
                = (format_parse_number (d.toNat &&& 0x0F) rest2).1 ::
                    directive_numbers (format_parse_number (d.toNat &&& 0x0F) rest2).2 := by
              have h1 : directive_numbers (d :: rest2)
                  = directive_numbers (format_parse_number (d.toNat &&& 0x0F) rest2).2 := by
                conv_lhs => rw [hds]
                rw [← List.cons_append]
                apply directive_numbers_digits
                intro x hx
                rcases List.mem_cons.mp hx with rfl | hx
                · exact hd
                · exact hdig x hx
              rw [directive_numbers, h1]
              simp [cpeek, hd]
            rw [e]
            generalize hN : (format_parse_number (d.toNat &&& 0x0F) rest2).1 = N at hnum ⊢
            generalize (format_parse_number (d.toNat &&& 0x0F) rest2).2 = R at hsuf_len hsuf_nul ⊢
            obtain ⟨g1, g2⟩ := format_parse_grow_spec (N + 1)
              { st.ss_spec with directives := (st.ss_spec.directives + 1) % 2 ^ 32 } N hnum hac
              (by dsimp only; omega)
            have g3 := fun i h1 h2 => format_parse_grow_gap (N + 1)
              { st.ss_spec with directives := (st.ss_spec.directives + 1) % 2 ^ 32 } N i hnum hac
              (by dsimp only; omega) h1 h2
            dsimp only at g1 g2 g3
            have hmem := foldl_max_succ_mem seen 0
            have key := ih R
              { st with ss_spec :=
                { format_parse_grow (N + 1)
                    { st.ss_spec with directives := (st.ss_spec.directives + 1) % 2 ^ 32 } N with
                  args_used := Function.update
                    (format_parse_grow (N + 1)
                      { st.ss_spec with directives := (st.ss_spec.directives + 1) % 2 ^ 32 }
                      N).args_used N true } }
              (seen ++ [N])
              (by simp only [List.length_cons] at hlen2; omega) hsuf_nul
              (by dsimp only; rw [g1]; omega)
              (by
                dsimp only
                rw [g1, hcount, List.map_append, List.foldl_append]
                simp)
              (by
                dsimp only
                intro i hi
                rw [g1] at hi
                by_cases hiN : i = N
                · subst hiN
                  simp
                · rw [Function.update_noteq hiN]
                  by_cases hlt : i < st.ss_spec.arg_count
                  · rw [g2 i hlt, htab i hlt]
                    simp [hiN]
                  · rw [g3 i (by omega) (by omega)]
                    simp only [Bool.false_eq_true, List.mem_append, List.mem_singleton, hiN,
                      or_false, false_iff]
                    intro hm
                    have := hmem.1 i hm
                    omega)
            simpa [List.append_assoc] using key
        · have hd2 : c_isdigit (cpeek rest) = false := by simpa using hd
          simp only [hd2, Bool.false_eq_true, if_false]
          have e : directive_numbers ('%' :: rest) = directive_numbers rest := by
            rw [directive_numbers]
            simp [hd2]
          rw [e]
          split
          · exact ih rest _ seen hlen2 hrest hac hcount htab
          · exact ih rest _ seen hlen2 hrest hac hcount htab
      · simp only [if_neg hp]
        have e : directive_numbers (c :: rest) = directive_numbers rest := by
          rw [directive_numbers]
          simp [hp]
        rw [e]
        exact ih rest _ seen hlen2 hrest hac hcount htab

theorem format_parse_table (format : List Char) (garbage : Nat → Bool)
    (hnul : Char.ofNat 0 ∉ format) :
    (format_parse format garbage).1.arg_count =
        ((directive_numbers format).map (· + 1)).foldl max 0 ∧
      (∀ i, i < (format_parse format garbage).1.arg_count →
        ((format_parse format garbage).1.args_used i = true ↔ i ∈ directive_numbers format)) := by
  have h := format_parse_loop_table (format.length + 1) format
    { ss_spec := { directives := 0, arg_count := 0, args_used := garbage }, invalid_reason := none }
    [] (Nat.lt_succ_self _) hnul (Nat.zero_le _) rfl (fun i hi => absurd hi (Nat.not_lt_zero i))
  simpa [format_parse] using h

/-- C30: `format_parse` goes on after a `%` that is not followed by a digit: for
a string without an embedded NUL the returned descriptor counts every `%`
followed by a digit of the whole string and references the argument number of
each of them, and the invalid reason left at the end is the one of the last
`%` not followed by a digit.  "%x%" is left with the unterminated-directive
reason, and in "%x %1 %" the directive `%1` after the invalid `%x` is
recorded. -/
theorem C30_parse_goes_on_after_invalid :
    (∀ (format : List Char) (garbage : Nat → Bool), Char.ofNat 0 ∉ format →
      format.length < 2 ^ 31 →
      (format_parse format garbage).1.directives = percent_digit_count format) ∧
    (∀ (format : List Char) (garbage : Nat → Bool), Char.ofNat 0 ∉ format →
      ∀ n ∈ directive_numbers format, (format_parse format garbage).1.referenced n = true) ∧
    (∀ (format : List Char) (garbage : Nat → Bool), Char.ofNat 0 ∉ format →
      reason_kind (format_parse format garbage).2 = last_bad_percent format) ∧
    (format_parse "%x%".toList (fun _ => false)).2 =
      some invalid_reason_ty.INVALID_UNTERMINATED_DIRECTIVE ∧
    (format_parse "%x %1 %".toList (fun _ => false)).2 =
      some invalid_reason_ty.INVALID_UNTERMINATED_DIRECTIVE ∧
    (format_parse "%x %1 %".toList (fun _ => false)).1.directives = 1 ∧
    (format_parse "%x %1 %".toList (fun _ => false)).1.referenced 1 = true ∧
    (format_parse "% %y".toList (fun _ => false)).2 =
      some (invalid_reason_ty.INVALID_CONVERSION_SPECIFIER 1 'y') := by
  refine ⟨?_, ?_, ?_, by decide, by decide, by decide, by decide, by decide⟩
  · intro format garbage hnul hlen
    have h1 := format_parse_loop_directives (format.length + 1) format
      { ss_spec := { directives := 0, arg_count := 0, args_used := garbage },
        invalid_reason := none }
      (Nat.lt_succ_self _) hnul
    have h2 := format_parse_loop_directives_lt (format.length + 1) format
      { ss_spec := { directives := 0, arg_count := 0, args_used := garbage },
        invalid_reason := none }
      (Nat.two_pow_pos 32)
    have h3 := percent_digit_count_le format
    simp only [Nat.zero_add] at h1
    rw [Nat.mod_eq_of_lt h2, Nat.mod_eq_of_lt (by omega)] at h1
    exact h1
  · intro format garbage hnul n hn
    obtain ⟨h1, h2⟩ := format_parse_table format garbage hnul
    have hmem := (foldl_max_succ_mem (directive_numbers format) 0).1 n hn
    have hlt : n < (format_parse format garbage).1.arg_count := by
      rw [h1]
      omega
    unfold spec.referenced
    rw [(h2 n hlt).mpr hn]
    simp [hlt]
  · intro format garbage hnul
    exact format_parse_reason_kind format garbage hnul

theorem C30_parse_goes_on_after_invalid_witness :
    (format_parse "%z%2%".toList (fun _ => false)).1.directives = 1 ∧
    (format_parse "%z%2%".toList (fun _ => false)).1.referenced 2 = true ∧
    reason_kind (format_parse "%z%2%".toList (fun _ => false)).2 = some none := by
  refine ⟨?_, ?_, ?_⟩
  · rw [C30_parse_goes_on_after_invalid.1 "%z%2%".toList _ (by decide) (by decide)]
    decide
  · exact C30_parse_goes_on_after_invalid.2.1 "%z%2%".toList _ (by decide) 2 (by decide)
  · rw [C30_parse_goes_on_after_invalid.2.2.1 "%z%2%".toList _ (by decide)]
    decide

/-! ### Reading text through the character layers -/

theorem phase1_getc_plain (s : scan_state) (c : Char) (X : List Char)
    (h1 : s.phase1_pushback = []) (hfp : s.fp = c :: X)
    (hr : c ≠ '\r') (hn : c ≠ '\n') (hb : c ≠ '\\') :
    phase1_getc s = (some c, { s with fp := X }) := by
  obtain ⟨fp, pb1, pb2, pb3, ln, lfn, buf, sc, lcl, lncl, nc, pb5, mid, pb6, w, ab, oof⟩ := s
  simp only at h1 hfp
  subst h1 hfp
  simp [phase1_getc, scan_state.fuel, phase1_getc_loop, phase0_getc, getc, hr, hn, hb]

theorem phase1_getc_backslash (s : scan_state) (d : Char) (X : List Char)
    (h1 : s.phase1_pushback = []) (hfp : s.fp = '\\' :: d :: X)
    (hr : d ≠ '\r') (hn : d ≠ '\n') :
    phase1_getc s = (some '\\', { s with fp := d :: X }) := by
  obtain ⟨fp, pb1, pb2, pb3, ln, lfn, buf, sc, lcl, lncl, nc, pb5, mid, pb6, w, ab, oof⟩ := s
  simp only at h1 hfp
  subst h1 hfp
  simp [phase1_getc, scan_state.fuel, phase1_getc_loop, phase0_getc, getc, hr, hn,
    phase0_ungetc, ungetc]

theorem phase3_getc_text (s : scan_state) (c : Char) (L : List Char)
    (h1 : s.phase1_pushback = []) (h3 : s.phase3_pushback = [])
    (hP : s.phase2_pushback.length ≤ 1) (hL : s.phase2_pushback ++ s.fp = c :: L)
    (hr : c ≠ '\r') (hn : c ≠ '\n') (hsafe : c = '\\' → safe_next L) :
    ∃ P X, phase3_getc s = (some c, { s with phase2_pushback := P, fp := X }) ∧
      P.length ≤ 1 ∧ P ++ X = L ∧ (c ≠ '\\' → P = []) := by
  obtain ⟨fp, pb1, pb2, pb3, ln, lfn, buf, sc, lcl, lncl, nc, pb5, mid, pb6, w, ab, oof⟩ := s
  simp only at h1 h3 hP hL
  subst h1 h3
  by_cases hb : c = '\\'
  · obtain ⟨d, L2, rfl, hdr, hdn, hd⟩ := hsafe hb
    subst hb
    by_cases hdb : d = '\\'
    · obtain ⟨d2, L3, rfl, hd2r, hd2n⟩ := hd hdb
      subst hdb
      cases pb2 with
      | nil =>
        simp only [List.nil_append] at hL
        subst hL
        refine ⟨['\\'], d2 :: L3, ?_, by simp, by simp, by simp⟩
        simp [phase3_getc, scan_state.fuel, phase3_getc_loop, phase2_getc, phase1_getc,
          phase1_getc_loop, phase0_getc, getc, phase0_ungetc, ungetc, phase2_ungetc, hd2r, hd2n]
      | cons h Ptl =>
        cases Ptl with
        | nil =>
          simp only [List.cons_append, List.nil_append, List.cons.injEq] at hL
          obtain ⟨rfl, rfl⟩ := hL
          refine ⟨['\\'], d2 :: L3, ?_, by simp, by simp, by simp⟩
          simp [phase3_getc, scan_state.fuel, phase3_getc_loop, phase2_getc, phase1_getc,
            phase1_getc_loop, phase0_getc, getc, phase0_ungetc, ungetc, phase2_ungetc, hd2r, hd2n]
        | cons h2 Ptl2 => simp at hP
    · cases pb2 with
      | nil =>
        simp only [List.nil_append] at hL
        subst hL
        refine ⟨[d], L2, ?_, by simp, by simp, by simp⟩
        simp [phase3_getc, scan_state.fuel, phase3_getc_loop, phase2_getc, phase1_getc,
          phase1_getc_loop, phase0_getc, getc, phase0_ungetc, ungetc, phase2_ungetc, hdr, hdn, hdb]
      | cons h Ptl =>
        cases Ptl with
        | nil =>
          simp only [List.cons_append, List.nil_append, List.cons.injEq] at hL
          obtain ⟨rfl, rfl⟩ := hL
          refine ⟨[d], L2, ?_, by simp, by simp, by simp⟩
          simp [phase3_getc, scan_state.fuel, phase3_getc_loop, phase2_getc, phase1_getc,
            phase1_getc_loop, phase0_getc, getc, phase0_ungetc, ungetc, phase2_ungetc, hdr, hdn, hdb]
        | cons h2 Ptl2 => simp at hP
  · cases pb2 with
    | nil =>
      simp only [List.nil_append] at hL
      subst hL
      refine ⟨[], L, ?_, by simp, by simp, by simp⟩
      simp [phase3_getc, scan_state.fuel, phase3_getc_loop, phase2_getc, phase1_getc,
        phase1_getc_loop, phase0_getc, getc, hr, hn, hb]
    | cons h Ptl =>
      cases Ptl with
      | nil =>
        simp only [List.cons_append, List.nil_append, List.cons.injEq] at hL
        obtain ⟨rfl, rfl⟩ := hL
        refine ⟨[], fp, ?_, by simp, by simp, by simp⟩
        simp [phase3_getc, scan_state.fuel, phase3_getc_loop, phase2_getc, hb]
      | cons h2 Ptl2 => simp at hP

theorem safe_next_quote_doubled (q : Char) (hqr : q ≠ '\r') (hqn : q ≠ '\n') (hqb : q ≠ '\\')
    (t rest : List Char) (ht : ∀ c ∈ t, c ≠ '\r' ∧ c ≠ '\n') :
    safe_next (quote_doubled q t ++ q :: rest) := by
  cases t with
  | nil => exact ⟨q, rest, rfl, hqr, hqn, fun h => absurd h hqb⟩
  | cons c t2 =>
    have hc := ht c (by simp)
    have ht2 : ∀ x ∈ t2, x ≠ '\r' ∧ x ≠ '\n' := fun x hx => ht x (by simp [hx])
    by_cases hcq : c = q
    · subst hcq
      refine ⟨c, c :: quote_doubled c t2 ++ c :: rest, by simp [quote_doubled], hqr, hqn, ?_⟩
      intro h
      exact absurd h hqb
    · refine ⟨c, quote_doubled q t2 ++ q :: rest, by simp [quote_doubled, hcq], hc.1, hc.2, ?_⟩
      intro _
      cases t2 with
      | nil => exact ⟨q, rest, rfl, hqr, hqn⟩
      | cons c2 t3 =>
        have hc2 := ht2 c2 (by simp)
        by_cases hc2q : c2 = q
        · subst hc2q
          exact ⟨c2, c2 :: quote_doubled c2 t3 ++ c2 :: rest, by simp [quote_doubled], hqr, hqn⟩
        · exact ⟨c2, quote_doubled q t3 ++ q :: rest, by simp [quote_doubled, hc2q], hc2.1, hc2.2⟩

theorem phase5_get_string_text (q : Char) (hqr : q ≠ '\r') (hqn : q ≠ '\n') (hqb : q ≠ '\\')
    (rest : List Char) :
    ∀ (t : List Char), (∀ c ∈ t, c ≠ '\r' ∧ c ≠ '\n') →
    ∀ (fuel : Nat) (buffer : List Char) (s : scan_state),
      s.phase1_pushback = [] → s.phase3_pushback = [] → s.phase2_pushback.length ≤ 1 →
      s.phase2_pushback ++ s.fp = quote_doubled q t ++ q :: rest →
      t.length < fuel →
      (phase3_getc { s with phase2_pushback := [], fp := rest }).1 ≠ some q →
      phase5_get_string fuel q buffer s =
        (buffer ++ t,
          phase3_ungetc (phase3_getc { s with phase2_pushback := [], fp := rest }).1
            (phase3_getc { s with phase2_pushback := [], fp := rest }).2) := by
  intro t
  induction t with
  | nil =>
    intro _ fuel buffer s h1 h3 hP hL hfuel hnext
    obtain ⟨fuel, rfl⟩ : ∃ n, fuel = n + 1 := ⟨fuel - 1, by omega⟩
    simp only [quote_doubled, List.nil_append] at hL
    obtain ⟨P, X, hget, hPl, hPX, hPnil⟩ :=
      phase3_getc_text s q rest h1 h3 hP hL hqr hqn (fun h => absurd h hqb)
    have hP0 := hPnil hqb
    subst hP0
    simp only [List.nil_append] at hPX
    subst hPX
    rw [phase5_get_string, hget]
    simp only [if_true, if_neg hnext, List.append_nil]
  | cons c t ih =>
    intro ht fuel buffer s h1 h3 hP hL hfuel hnext
    obtain ⟨fuel, rfl⟩ : ∃ n, fuel = n + 1 := ⟨fuel - 1, by omega⟩
    have hc := ht c (by simp)
    have ht2 : ∀ x ∈ t, x ≠ '\r' ∧ x ≠ '\n' := fun x hx => ht x (by simp [hx])
    have hfuel2 : t.length < fuel := by simp only [List.length_cons] at hfuel; omega
    by_cases hcq : c = q
    · subst hcq
      have hL2 : s.phase2_pushback ++ s.fp = c :: (c :: (quote_doubled c t ++ c :: rest)) := by
        rw [hL]; simp [quote_doubled]
      obtain ⟨P, X, hget, hPl, hPX, hPnil⟩ :=
        phase3_getc_text s c _ h1 h3 hP hL2 hqr hqn (fun h => absurd h hqb)
      obtain ⟨P2, X2, hget2, hPl2, hPX2, _⟩ :=
        phase3_getc_text { s with phase2_pushback := P, fp := X } c _ h1 h3 hPl hPX hqr hqn
          (fun h => absurd h hqb)
      have hih := ih ht2 fuel (buffer ++ [c])
        { ({ s with phase2_pushback := P, fp := X } : scan_state) with
          phase2_pushback := P2, fp := X2 } h1 h3 hPl2 hPX2 hfuel2 hnext
      rw [phase5_get_string, hget]
      simp only [if_true, hget2]
      rw [hih]
      simp
    · have hL2 : s.phase2_pushback ++ s.fp = c :: (quote_doubled q t ++ q :: rest) := by
        rw [hL]; simp [quote_doubled, hcq]
      obtain ⟨P, X, hget, hPl, hPX, _⟩ :=
        phase3_getc_text s c _ h1 h3 hP hL2 hc.1 hc.2
          (fun _ => safe_next_quote_doubled q hqr hqn hqb t rest ht2)
      rw [phase5_get_string, hget]
      have hne : (some c : Option Char) ≠ some q := by simpa using hcq
      have hih := ih ht2 fuel (buffer ++ [c])
        { s with phase2_pushback := P, fp := X } h1 h3 hPl hPX hfuel2 hnext
      simp only [if_neg hne, if_neg hc.2]
      rw [hih]
      simp

theorem xstrdup_eq_self (t : List Char) (h : ∀ c ∈ t, c ≠ Char.ofNat 0) : xstrdup t = t := by
  unfold xstrdup
  rw [List.takeWhile_eq_self_iff]
  intro c hc
  simpa using h c hc

theorem length_le_quote_doubled (q : Char) (t : List Char) :
    t.length ≤ (quote_doubled q t).length := by
  induction t with
  | nil => simp [quote_doubled]
  | cons c t ih =>
    by_cases h : c = q <;> simp [quote_doubled, h] <;> omega

/-- Tokenizing `q t' q`, where `t'` is `t` with its quotes doubled: the string
literal `t`, and the state in which the character after the closing quote has
been read and pushed back. -/
theorem phase5_get_quoted (q : Char) (hq : q = '"' ∨ q = '\'') (t rest : List Char)
    (ht : ∀ c ∈ t, c ≠ Char.ofNat 0 ∧ c ≠ '\r' ∧ c ≠ '\n') (s : scan_state)
    (h1 : s.phase1_pushback = []) (h2 : s.phase2_pushback = []) (h3 : s.phase3_pushback = [])
    (h5 : s.phase5_pushback = [])
    (hfp : s.fp = q :: (quote_doubled q t ++ q :: rest))
    (hnext : (phase3_getc { s with fp := rest }).1 ≠ some q) :
    phase5_get s =
      ({ type := token_type_string_literal, string := t,
         comment := (phase3_ungetc (phase3_getc { s with fp := rest }).1
            (phase3_getc { s with fp := rest }).2).savable_comment,
         number := 0, line_number := s.line_number },
        phase3_ungetc (phase3_getc { s with fp := rest }).1
          (phase3_getc { s with fp := rest }).2) := by
  have hqr : q ≠ '\r' := by rcases hq with rfl | rfl <;> decide
  have hqn : q ≠ '\n' := by rcases hq with rfl | rfl <;> decide
  have hqb : q ≠ '\\' := by rcases hq with rfl | rfl <;> decide
  have hqs : q ≠ '/' := by rcases hq with rfl | rfl <;> decide
  have ht2 : ∀ c ∈ t, c ≠ '\r' ∧ c ≠ '\n' := fun c hc => (ht c hc).2
  have hx : xstrdup t = t := xstrdup_eq_self t (fun c hc => (ht c hc).1)
  obtain ⟨fp, pb1, pb2, pb3, ln, lfn, buf, sc, lcl, lncl, nc, pb5, mid, pb6, w, ab, oof⟩ := s
  simp only at h1 h2 h3 h5 hfp hnext
  subst h1 h2 h3 h5 hfp
  have h4 : phase4_getc
      { fp := q :: (quote_doubled q t ++ q :: rest), phase1_pushback := [], phase2_pushback := [],
        phase3_pushback := [], line_number := ln, logical_file_name := lfn, buffer := buf,
        savable_comment := sc, last_comment_line := lcl, last_non_comment_line := lncl,
        newline_count := nc, phase5_pushback := [], middle := mid, phase6_pushback := pb6,
        warnings := w, aborted := ab, out_of_fuel := oof }
      = (some q,
        { fp := quote_doubled q t ++ q :: rest, phase1_pushback := [], phase2_pushback := [],
          phase3_pushback := [], line_number := ln, logical_file_name := lfn, buffer := buf,
          savable_comment := sc, last_comment_line := lcl, last_non_comment_line := lncl,
          newline_count := nc, phase5_pushback := [], middle := mid, phase6_pushback := pb6,
          warnings := w, aborted := ab, out_of_fuel := oof }) := by
    simp [phase4_getc, phase3_getc, scan_state.fuel, phase3_getc_loop, phase2_getc, phase1_getc,
      phase1_getc_loop, phase0_getc, getc, hqr, hqn, hqb, hqs]
  have hlen := length_le_quote_doubled q t
  have hstr : ∀ fuel, t.length < fuel → _ := fun fuel hf =>
    phase5_get_string_text q hqr hqn hqb rest t ht2 fuel []
    { fp := quote_doubled q t ++ q :: rest, phase1_pushback := [], phase2_pushback := [],
      phase3_pushback := [], line_number := ln, logical_file_name := lfn, buffer := buf,
      savable_comment := sc, last_comment_line := lcl, last_non_comment_line := lncl,
      newline_count := nc, phase5_pushback := [], middle := mid, phase6_pushback := pb6,
      warnings := w, aborted := ab, out_of_fuel := oof }
    rfl rfl (by simp) (by simp) hf hnext
  simp only [List.nil_append] at hstr
  unfold phase5_get
  simp only [h4, scan_state.fuel, List.length_nil, Nat.add_zero, List.length_append,
    List.length_cons]
  rw [hstr _ (by omega)]
  rcases hq with rfl | rfl
  · simp [hx, is_name_start, c_isdigit, token_init]
  · simp [hx, is_name_start, c_isdigit, token_init]

theorem phase4_getc_plain (s : scan_state) (c : Char) (X : List Char)
    (h1 : s.phase1_pushback = []) (h2 : s.phase2_pushback = []) (h3 : s.phase3_pushback = [])
    (hfp : s.fp = c :: X)
    (hr : c ≠ '\r') (hn : c ≠ '\n') (hb : c ≠ '\\') (hs : c ≠ '/') :
    phase4_getc s = (some c, { s with fp := X }) := by
  obtain ⟨fp, pb1, pb2, pb3, ln, lfn, buf, sc, lcl, lncl, nc, pb5, mid, pb6, w, ab, oof⟩ := s
  simp only at h1 h2 h3 hfp
  subst h1 h2 h3 hfp
  simp [phase4_getc, phase3_getc, scan_state.fuel, phase3_getc_loop, phase2_getc, phase1_getc,
    phase1_getc_loop, phase0_getc, getc, hr, hn, hb, hs]

theorem is_name_char_plain {c : Char} (h : is_name_char c = true) :
    c ≠ '\r' ∧ c ≠ '\n' ∧ c ≠ '\\' ∧ c ≠ '/' ∧ c ≠ Char.ofNat 0 := by
  refine ⟨?_, ?_, ?_, ?_, ?_⟩ <;> (rintro rfl; exact absurd h (by decide))

theorem phase5_get_dollar_text (rest : List Char) :
    ∀ (cs : List Char), (∀ x ∈ cs, is_name_char x = true) →
    ∀ (fuel : Nat) (buffer : List Char) (s : scan_state),
      s.phase1_pushback = [] → s.phase2_pushback = [] → s.phase3_pushback = [] →
      s.fp = cs ++ rest → cs.length < fuel →
      (match (phase4_getc { s with fp := rest }).1 with
        | some x => is_name_char x
        | none => false) = false →
      phase5_get_dollar fuel buffer s =
        (buffer ++ cs,
          phase4_ungetc (phase4_getc { s with fp := rest }).1 (phase4_getc { s with fp := rest }).2) := by
  intro cs
  induction cs with
  | nil =>
    intro _ fuel buffer s h1 h2 h3 hfp hfuel hnext
    obtain ⟨fuel, rfl⟩ : ∃ n, fuel = n + 1 := ⟨fuel - 1, by omega⟩
    simp only [List.nil_append] at hfp
    have e : ({ s with fp := rest } : scan_state) = s := by
      obtain ⟨fp, pb1, pb2, pb3, ln, lfn, buf, sc, lcl, lncl, nc, pb5, mid, pb6, w, ab, oof⟩ := s
      simp only at hfp
      subst hfp
      rfl
    rw [e] at hnext ⊢
    rw [phase5_get_dollar]
    cases h : (phase4_getc s).1 with
    | none => simp
    | some x =>
      rw [h] at hnext
      simp only at hnext
      simp [hnext]
  | cons c cs ih =>
    intro hcs fuel buffer s h1 h2 h3 hfp hfuel hnext
    obtain ⟨fuel, rfl⟩ : ∃ n, fuel = n + 1 := ⟨fuel - 1, by omega⟩
    have hc := hcs c (by simp)
    have hcp := is_name_char_plain hc
    have hcs2 : ∀ x ∈ cs, is_name_char x = true := fun x hx => hcs x (by simp [hx])
    have hget := phase4_getc_plain s c (cs ++ rest) h1 h2 h3 (by simpa using hfp)
      hcp.1 hcp.2.1 hcp.2.2.1 hcp.2.2.2.1
    have hih := ih hcs2 fuel (buffer ++ [c]) { s with fp := cs ++ rest } h1 h2 h3 rfl
      (by simp only [List.length_cons] at hfuel; omega) hnext
    rw [phase5_get_dollar, hget]
    simp only [hc, if_true]
    rw [hih]
    simp

/-- Tokenizing `$` followed by the identifier `c :: cs`: the tagged literal, and
the state in which the character after the identifier has been read and pushed
back. -/
theorem phase5_get_tagged (c : Char) (cs rest : List Char) (hc : is_name_start c = true)
    (hcs : ∀ x ∈ cs, is_name_char x = true) (s : scan_state)
    (h1 : s.phase1_pushback = []) (h2 : s.phase2_pushback = []) (h3 : s.phase3_pushback = [])
    (h5 : s.phase5_pushback = [])
    (hfp : s.fp = '$' :: (c :: cs ++ rest))
    (hnext : (match (phase4_getc { s with fp := rest }).1 with
        | some x => is_name_char x
        | none => false) = false) :
    phase5_get s =
      ({ type := token_type_dollar_literal, string := dollar_text (c :: cs),
         comment := (phase4_ungetc (phase4_getc { s with fp := rest }).1
            (phase4_getc { s with fp := rest }).2).savable_comment,
         number := 0, line_number := s.line_number },
        phase4_ungetc (phase4_getc { s with fp := rest }).1
          (phase4_getc { s with fp := rest }).2) := by
  have hcc : is_name_char c = true := by simp [is_name_char, hc]
  have hcp := is_name_char_plain hcc
  have hall : ∀ x ∈ c :: cs, x ≠ Char.ofNat 0 := by
    intro x hx
    rcases List.mem_cons.mp hx with rfl | hx
    · exact hcp.2.2.2.2
    · exact (is_name_char_plain (hcs x hx)).2.2.2.2
  have hx : xstrdup (dollar_text (c :: cs)) = dollar_text (c :: cs) := by
    apply xstrdup_eq_self
    unfold dollar_text
    split_ifs
    · intro x hx
      rcases List.mem_append.mp hx with hx | hx
      · simp only [List.mem_cons, List.mem_singleton, List.not_mem_nil, or_false] at hx
        rcases hx with rfl | rfl | rfl <;> decide
      · exact hall x (List.mem_of_mem_drop hx)
    · exact hall
  obtain ⟨fp, pb1, pb2, pb3, ln, lfn, buf, sc, lcl, lncl, nc, pb5, mid, pb6, w, ab, oof⟩ := s
  simp only at h1 h2 h3 h5 hfp hnext
  subst h1 h2 h3 h5 hfp
  have hd := phase4_getc_plain
    { fp := '$' :: (c :: cs ++ rest), phase1_pushback := [], phase2_pushback := [],
      phase3_pushback := [], line_number := ln, logical_file_name := lfn, buffer := buf,
      savable_comment := sc, last_comment_line := lcl, last_non_comment_line := lncl,
      newline_count := nc, phase5_pushback := [], middle := mid, phase6_pushback := pb6,
      warnings := w, aborted := ab, out_of_fuel := oof } '$' (c :: cs ++ rest) rfl rfl rfl rfl
    (by decide) (by decide) (by decide) (by decide)
  have hget := phase4_getc_plain
    { fp := c :: cs ++ rest, phase1_pushback := [], phase2_pushback := [],
      phase3_pushback := [], line_number := ln, logical_file_name := lfn, buffer := buf,
      savable_comment := sc, last_comment_line := lcl, last_non_comment_line := lncl,
      newline_count := nc, phase5_pushback := [], middle := mid, phase6_pushback := pb6,
      warnings := w, aborted := ab, out_of_fuel := oof } c (cs ++ rest) rfl rfl rfl rfl
    hcp.1 hcp.2.1 hcp.2.2.1 hcp.2.2.2.1
  have hloop : ∀ fuel, cs.length < fuel → _ := fun fuel hf =>
    phase5_get_dollar_text rest cs hcs fuel [c]
    { fp := cs ++ rest, phase1_pushback := [], phase2_pushback := [],
      phase3_pushback := [], line_number := ln, logical_file_name := lfn, buffer := buf,
      savable_comment := sc, last_comment_line := lcl, last_non_comment_line := lncl,
      newline_count := nc, phase5_pushback := [], middle := mid, phase6_pushback := pb6,
      warnings := w, aborted := ab, out_of_fuel := oof } rfl rfl rfl rfl hf hnext
  simp only [List.singleton_append] at hloop hd hget
  have e1 : ('$' : Char) ≠ '\n' := by decide
  have e2 : ¬ (('$' : Char) = ' ' ∨ ('$' : Char) = '\x0c' ∨ ('$' : Char) = '\t') := by decide
  have e3 : is_name_start '$' = false := by decide
  have hiff : ((c :: cs).length > 2 ∧ List.map c_tolower (List.take 3 (c :: cs)) = ['s', 't', 'r'])
      ↔ ((c :: cs).length ≥ 3 ∧ List.map c_tolower (List.take 3 (c :: cs)) = ['s', 't', 'r']) := by
    constructor <;> (rintro ⟨h, h'⟩; exact ⟨by omega, h'⟩)
  have hd2 : (if (c :: cs).length > 2 ∧ List.map c_tolower (List.take 3 (c :: cs)) = ['s', 't', 'r']
      then ['s', 't', 'r'] ++ List.drop 3 (c :: cs) else c :: cs) = dollar_text (c :: cs) := by
    unfold dollar_text
    by_cases hcond : (c :: cs).length ≥ 3 ∧ List.map c_tolower (List.take 3 (c :: cs)) = ['s', 't', 'r']
    · rw [if_pos (hiff.mpr hcond), if_pos hcond]
    · rw [if_neg (fun h => hcond (hiff.mp h)), if_neg hcond]
  unfold phase5_get phase5_get_dollar_start
  simp only [hd, e1, e2, e3, if_false, Bool.false_eq_true, if_true, hget, hc, scan_state.fuel,
    List.length_nil, Nat.add_zero, List.length_append]
  rw [hloop _ (by omega)]
  simp only [List.length_cons, gt_iff_lt, Nat.zero_lt_succ, if_true, token_init]
  simp only [List.length_cons] at hd2
  rw [hd2, hx]

/-! ### The pending input never grows -/

theorem getc_fuel (s : scan_state) :
    (getc s).2.fuel ≤ s.fuel ∧ ((getc s).1 ≠ none → (getc s).2.fuel < s.fuel) := by
  unfold getc
  cases h : s.fp with
  | nil => simp
  | cons c rest => simp [scan_state.fuel, h]

theorem ungetc_fuel (c : Char) (s : scan_state) : (ungetc c s).fuel = s.fuel + 1 := by
  simp [ungetc, scan_state.fuel]; omega

theorem phase0_getc_fuel (s : scan_state) :
    (phase0_getc s).2.fuel ≤ s.fuel ∧ ((phase0_getc s).1 ≠ none → (phase0_getc s).2.fuel < s.fuel) := by
  have h := getc_fuel s
  have h1 := getc_fuel (getc s).2
  unfold phase0_getc
  cases hc : (getc s).1 with
  | none => simp only [hc] at h ⊢; simp [h.1]
  | some c =>
    simp only [hc, ne_eq, reduceCtorEq, not_false_eq_true, true_implies] at h ⊢
    by_cases hr : c = '\r'
    · simp only [hr, if_true]
      cases hc1 : (getc (getc s).2).1 with
      | none => simp only [hc1] at h1 ⊢; simp; omega
      | some c1 =>
        simp only [hc1, ne_eq, reduceCtorEq, not_false_eq_true, true_implies] at h1 ⊢
        by_cases hn : c1 = '\n'
        · simp [hn]; omega
        · simp [hn, ungetc_fuel]; omega
    · simp [hr]; omega

theorem phase0_ungetc_fuel (c : Option Char) (s : scan_state) :
    (phase0_ungetc c s).fuel ≤ s.fuel + 1 ∧ (c = none → (phase0_ungetc c s).fuel = s.fuel) := by
  cases c with
  | none => simp [phase0_ungetc]
  | some c => simp [phase0_ungetc, ungetc_fuel]

theorem fuel_line_number (s : scan_state) (n : Int) :
    ({ s with line_number := n } : scan_state).fuel = s.fuel := rfl

theorem fuel_out_of_fuel (s : scan_state) (b : Bool) :
    ({ s with out_of_fuel := b } : scan_state).fuel = s.fuel := rfl

theorem phase1_getc_loop_fuel : ∀ (fuel : Nat) (s : scan_state),
    (phase1_getc_loop fuel s).2.fuel ≤ s.fuel ∧
      ((phase1_getc_loop fuel s).1 ≠ none → (phase1_getc_loop fuel s).2.fuel < s.fuel) := by
  intro fuel
  induction fuel with
  | zero => intro s; simp [phase1_getc_loop, scan_state.fuel]
  | succ fuel ih =>
    intro s
    have h := phase0_getc_fuel s
    have h1 := phase0_getc_fuel (phase0_getc s).2
    have hu := phase0_ungetc_fuel (phase0_getc (phase0_getc s).2).1 (phase0_getc (phase0_getc s).2).2
    have hih := ih { (phase0_getc (phase0_getc s).2).2 with
      line_number := (phase0_getc (phase0_getc s).2).2.line_number + 1 }
    unfold phase1_getc_loop
    by_cases hn : (phase0_getc s).1 = some '\n'
    · have hlt := h.2 (by simp [hn])
      simp only [hn, if_true]
      simp only [scan_state.fuel] at hlt ⊢
      constructor
      · omega
      · intro _; omega
    · simp only [hn, if_false]
      by_cases hb : (phase0_getc s).1 = some '\\'
      · simp only [hb, if_true]
        have hlt := h.2 (by simp [hb])
        by_cases hn1 : (phase0_getc (phase0_getc s).2).1 = some '\n'
        · simp only [hn1, ne_eq, not_true_eq_false, if_false]
          have hlt1 := h1.2 (by simp [hn1])
          simp only [scan_state.fuel] at hlt hlt1 hih ⊢
          constructor
          · omega
          · intro _; omega
        · simp only [ne_eq, hn1, not_false_eq_true, if_true, reduceCtorEq, true_implies]
          cases hc1 : (phase0_getc (phase0_getc s).2).1 with
          | none =>
            have := hu.2 hc1
            rw [hc1] at this
            omega
          | some c1 =>
            have hlt1 := h1.2 (by simp [hc1])
            rw [hc1] at hu
            omega
      · simp only [hb, if_false]
        exact h

theorem phase1_getc_fuel (s : scan_state) :
    (phase1_getc s).2.fuel ≤ s.fuel ∧ ((phase1_getc s).1 ≠ none → (phase1_getc s).2.fuel < s.fuel) := by
  unfold phase1_getc
  cases h : s.phase1_pushback with
  | nil => exact phase1_getc_loop_fuel _ s
  | cons c rest => simp [scan_state.fuel, h]

theorem phase2_getc_fuel (s : scan_state) :
    (phase2_getc s).2.fuel ≤ s.fuel ∧ ((phase2_getc s).1 ≠ none → (phase2_getc s).2.fuel < s.fuel) := by
  unfold phase2_getc
  cases h : s.phase2_pushback with
  | nil => exact phase1_getc_fuel s
  | cons c rest => simp [scan_state.fuel, h]

theorem phase2_ungetc_fuel (c : Option Char) (s : scan_state) :
    (phase2_ungetc c s).fuel ≤ s.fuel + 1 ∧ (c = none → (phase2_ungetc c s).fuel = s.fuel) := by
  cases c with
  | none => simp [phase2_ungetc]
  | some c =>
    unfold phase2_ungetc
    by_cases h : s.phase2_pushback.length = 1 <;> simp [h, scan_state.fuel] <;> omega

theorem phase3_getc_loop_fuel : ∀ (fuel : Nat) (s : scan_state),
    (phase3_getc_loop fuel s).2.fuel ≤ s.fuel ∧
      ((phase3_getc_loop fuel s).1 ≠ none → (phase3_getc_loop fuel s).2.fuel < s.fuel) := by
  intro fuel
  induction fuel with
  | zero => intro s; simp [phase3_getc_loop, scan_state.fuel]
  | succ fuel ih =>
    intro s
    have h := phase2_getc_fuel s
    have h1 := phase2_getc_fuel (phase2_getc s).2
    have hu := phase2_ungetc_fuel (phase2_getc (phase2_getc s).2).1 (phase2_getc (phase2_getc s).2).2
    have hih := ih (phase2_getc (phase2_getc s).2).2
    unfold phase3_getc_loop
    by_cases hb : (phase2_getc s).1 = some '\\'
    · simp only [hb, ne_eq, not_true_eq_false, if_false]
      have hlt := h.2 (by simp [hb])
      by_cases hn1 : (phase2_getc (phase2_getc s).2).1 = some '\n'
      · simp only [hn1, not_true_eq_false, if_false]
        have hlt1 := h1.2 (by simp [hn1])
        constructor
        · omega
        · intro _; omega
      · simp only [hn1, not_false_eq_true, if_true, reduceCtorEq, true_implies]
        cases hc1 : (phase2_getc (phase2_getc s).2).1 with
        | none =>
          have := hu.2 hc1
          rw [hc1] at this
          omega
        | some c1 =>
          have hlt1 := h1.2 (by simp [hc1])
          rw [hc1] at hu
          omega
    · simp only [ne_eq, hb, not_false_eq_true, if_true]
      exact h

theorem phase3_getc_fuel (s : scan_state) :
    (phase3_getc s).2.fuel ≤ s.fuel ∧ ((phase3_getc s).1 ≠ none → (phase3_getc s).2.fuel < s.fuel) := by
  unfold phase3_getc
  cases h : s.phase3_pushback with
  | nil => exact phase3_getc_loop_fuel _ s
  | cons c rest => simp [scan_state.fuel, h]

theorem phase3_ungetc_fuel (c : Option Char) (s : scan_state) :
    (phase3_ungetc c s).fuel ≤ s.fuel + 1 ∧ (c = none → (phase3_ungetc c s).fuel = s.fuel) := by
  cases c with
  | none => simp [phase3_ungetc]
  | some c =>
    unfold phase3_ungetc
    by_cases h : s.phase3_pushback.length = 2 <;> simp [h, scan_state.fuel] <;> omega

/-- Reading a character and pushing the result back does not add pending input. -/
theorem phase3_unget_after_get_fuel (s : scan_state) :
    (phase3_ungetc (phase3_getc s).1 (phase3_getc s).2).fuel ≤ s.fuel := by
  have h := phase3_getc_fuel s
  have hu := phase3_ungetc_fuel (phase3_getc s).1 (phase3_getc s).2
  cases hc : (phase3_getc s).1 with
  | none =>
    have := hu.2 hc
    rw [hc] at this
    omega
  | some c =>
    have := h.2 (by simp [hc])
    rw [hc] at hu
    omega

/-! The comment accumulator does not touch the pending input. -/

theorem comment_start_fuel (s : scan_state) : (comment_start s).fuel = s.fuel := rfl

theorem comment_add_fuel (c : Char) (s : scan_state) : (comment_add c s).fuel = s.fuel := rfl

theorem comment_line_end_fuel (n : Nat) (s : scan_state) : (comment_line_end n s).fuel = s.fuel := rfl

theorem savable_comment_reset_fuel (s : scan_state) : (savable_comment_reset s).fuel = s.fuel := rfl

theorem comment_add_unless_leading_blank_fuel (c : Char) (s : scan_state) :
    (comment_add_unless_leading_blank c s).fuel = s.fuel := by
  unfold comment_add_unless_leading_blank
  split_ifs <;> rfl

theorem phase4_getc_c_comment_fuel : ∀ (fuel : Nat) (b : Bool) (s : scan_state),
    (phase4_getc_c_comment fuel b s).fuel ≤ s.fuel := by
  intro fuel
  induction fuel with
  | zero => intro b s; simp [phase4_getc_c_comment, scan_state.fuel]
  | succ fuel ih =>
    intro b s
    have h := phase3_getc_fuel s
    unfold phase4_getc_c_comment
    cases hc : (phase3_getc s).1 with
    | none => simp only [hc]; exact h.1
    | some c =>
      have hlt := h.2 (by simp [hc])
      simp only [hc]
      have hs1 := comment_add_unless_leading_blank_fuel c (phase3_getc s).2
      generalize comment_add_unless_leading_blank c (phase3_getc s).2 = s1 at hs1 ⊢
      have i1 := ih false (comment_start (comment_line_end 1 s1))
      have i2 := ih true s1
      have i3 := ih false s1
      rw [comment_start_fuel, comment_line_end_fuel] at i1
      have i4 := comment_line_end_fuel 2 s1
      split_ifs <;> omega

theorem phase4_getc_cxx_comment_fuel : ∀ (fuel : Nat) (s : scan_state),
    (phase4_getc_cxx_comment fuel s).fuel ≤ s.fuel := by
  intro fuel
  induction fuel with
  | zero => intro s; simp [phase4_getc_cxx_comment, scan_state.fuel]
  | succ fuel ih =>
    intro s
    have h := phase3_getc_fuel s
    unfold phase4_getc_cxx_comment
    cases hc : (phase3_getc s).1 with
    | none => simp only [hc]; exact h.1
    | some c =>
      have hlt := h.2 (by simp [hc])
      simp only [hc]
      have := ih (comment_add_unless_leading_blank c (phase3_getc s).2)
      rw [comment_add_unless_leading_blank_fuel] at this
      split_ifs <;> omega

theorem fuel_last_comment_line (s : scan_state) (n : Int) :
    ({ s with last_comment_line := n } : scan_state).fuel = s.fuel := rfl

theorem phase4_getc_fuel (s : scan_state) :
    (phase4_getc s).2.fuel ≤ s.fuel ∧ ((phase4_getc s).1 ≠ none → (phase4_getc s).2.fuel < s.fuel) := by
  have h := phase3_getc_fuel s
  have h1 := phase3_getc_fuel (phase3_getc s).2
  have hu := phase3_unget_after_get_fuel (phase3_getc s).2
  unfold phase4_getc
  by_cases hs : (phase3_getc s).1 = some '/'
  · have hlt := h.2 (by simp [hs])
    simp only [hs, ne_eq, not_true_eq_false, if_false]
    by_cases hstar : (phase3_getc (phase3_getc s).2).1 = some '*'
    · simp only [hstar, if_true]
      have hlt1 := h1.2 (by simp [hstar])
      have hc := phase4_getc_c_comment_fuel (phase3_getc (phase3_getc s).2).2.fuel false
        (comment_start (phase3_getc (phase3_getc s).2).2)
      rw [comment_start_fuel] at hc
      rw [fuel_last_comment_line]
      constructor
      · omega
      · intro _; omega
    · simp only [hstar, if_false]
      by_cases hsl : (phase3_getc (phase3_getc s).2).1 = some '/'
      · simp only [hsl, if_true]
        have hlt1 := h1.2 (by simp [hsl])
        have hc := phase4_getc_cxx_comment_fuel (phase3_getc (phase3_getc s).2).2.fuel
          (comment_start (phase3_getc (phase3_getc s).2).2)
        rw [comment_start_fuel] at hc
        rw [fuel_last_comment_line, comment_line_end_fuel]
        constructor
        · omega
        · intro _; omega
      · simp only [hsl, if_false]
        constructor
        · omega
        · intro _; omega
  · simp only [ne_eq, hs, not_false_eq_true, if_true]
    exact h

theorem phase4_ungetc_fuel (c : Option Char) (s : scan_state) :
    (phase4_ungetc c s).fuel ≤ s.fuel + 1 ∧ (c = none → (phase4_ungetc c s).fuel = s.fuel) :=
  phase3_ungetc_fuel c s

theorem phase4_unget_after_get_fuel (s : scan_state) :
    (phase4_ungetc (phase4_getc s).1 (phase4_getc s).2).fuel ≤ s.fuel := by
  have h := phase4_getc_fuel s
  have hu := phase4_ungetc_fuel (phase4_getc s).1 (phase4_getc s).2
  cases hc : (phase4_getc s).1 with
  | none =>
    have := hu.2 hc
    rw [hc] at this
    omega
  | some c =>
    have := h.2 (by simp [hc])
    rw [hc] at hu
    omega

/-! The token layers. -/

theorem phase5_get_white_space_fuel : ∀ (fuel : Nat) (s : scan_state),
    (phase5_get_white_space fuel s).fuel ≤ s.fuel := by
  intro fuel
  induction fuel with
  | zero => intro s; simp [phase5_get_white_space, scan_state.fuel]
  | succ fuel ih =>
    intro s
    have h := phase4_getc_fuel s
    have hu := phase4_unget_after_get_fuel s
    have hih := ih (phase4_getc s).2
    unfold phase5_get_white_space
    simp only
    split_ifs
    · omega
    · exact hu

theorem phase5_get_name_fuel : ∀ (fuel : Nat) (buffer : List Char) (c : Char) (s : scan_state),
    (phase5_get_name fuel buffer c s).2.fuel ≤ s.fuel := by
  intro fuel
  induction fuel with
  | zero => intro buffer c s; simp [phase5_get_name, scan_state.fuel]
  | succ fuel ih =>
    intro buffer c s
    have h := phase4_getc_fuel s
    have hu := phase4_unget_after_get_fuel s
    unfold phase5_get_name
    cases hc : (phase4_getc s).1 with
    | none => simp only [hc] at hu ⊢; exact hu
    | some c1 =>
      simp only [hc] at hu ⊢
      have hih := ih (buffer ++ [c]) c1 (phase4_getc s).2
      split_ifs
      · omega
      · exact hu

theorem phase5_get_dollar_fuel : ∀ (fuel : Nat) (buffer : List Char) (s : scan_state),
    (phase5_get_dollar fuel buffer s).2.fuel ≤ s.fuel := by
  intro fuel
  induction fuel with
  | zero => intro buffer s; simp [phase5_get_dollar, scan_state.fuel]
  | succ fuel ih =>
    intro buffer s
    have h := phase4_getc_fuel s
    have hu := phase4_unget_after_get_fuel s
    unfold phase5_get_dollar
    cases hc : (phase4_getc s).1 with
    | none => simp only [hc] at hu ⊢; exact hu
    | some c1 =>
      simp only [hc] at hu ⊢
      have hih := ih (buffer ++ [c1]) (phase4_getc s).2
      split_ifs
      · omega
      · exact hu

theorem phase5_get_number_fuel : ∀ (fuel : Nat) (buffer : List Char) (c : Char) (s : scan_state),
    (phase5_get_number fuel buffer c s).2.fuel ≤ s.fuel := by
  intro fuel
  induction fuel with
  | zero => intro buffer c s; simp [phase5_get_number, scan_state.fuel]
  | succ fuel ih =>
    intro buffer c s
    have h := phase4_getc_fuel s
    have hu := phase4_unget_after_get_fuel s
    have h1 := phase4_getc_fuel (phase4_getc s).2
    have hu1 := phase4_unget_after_get_fuel (phase4_getc s).2
    unfold phase5_get_number
    cases hc : (phase4_getc s).1 with
    | none => simp only [hc] at hu ⊢; exact hu
    | some c1 =>
      simp only [hc] at hu ⊢
      have hih := ih (buffer ++ [c]) c1 (phase4_getc s).2
      split_ifs
      · cases hc2 : (phase4_getc (phase4_getc s).2).1 with
        | none => simp only [hc2] at hu1 ⊢; omega
        | some c2 =>
          simp only [hc2] at hu1 ⊢
          have hih2 := ih (buffer ++ [c, c1]) c2 (phase4_getc (phase4_getc s).2).2
          split_ifs <;> (try dsimp only) <;> omega
      · omega
      · exact hu

theorem fuel_warnings (s : scan_state) (w : List Int) :
    ({ s with warnings := w } : scan_state).fuel = s.fuel := rfl

theorem phase5_get_string_fuel : ∀ (fuel : Nat) (cquot : Char) (buffer : List Char) (s : scan_state),
    (phase5_get_string fuel cquot buffer s).2.fuel ≤ s.fuel := by
  intro fuel
  induction fuel with
  | zero => intro cquot buffer s; simp [phase5_get_string, scan_state.fuel]
  | succ fuel ih =>
    intro cquot buffer s
    have h := phase3_getc_fuel s
    have h1 := phase3_getc_fuel (phase3_getc s).2
    have hu1 := phase3_unget_after_get_fuel (phase3_getc s).2
    unfold phase5_get_string
    simp only
    by_cases hq : (phase3_getc s).1 = some cquot
    · simp only [hq, if_true]
      have hih := ih cquot (buffer ++ [cquot]) (phase3_getc (phase3_getc s).2).2
      split_ifs <;> (try dsimp only) <;> omega
    · simp only [hq, if_false]
      cases hc : (phase3_getc s).1 with
      | none => simp only; exact h.1
      | some c =>
        have hlt := h.2 (by simp [hc])
        simp only
        have hih := ih cquot (buffer ++ [c]) (phase3_getc s).2
        have hw := phase3_ungetc_fuel (some '\n')
          { (phase3_getc s).2 with warnings := (phase3_getc s).2.warnings ++ [(phase3_getc s).2.line_number - 1] }
        have hw2 : ({ (phase3_getc s).2 with warnings := (phase3_getc s).2.warnings ++ [(phase3_getc s).2.line_number - 1] } : scan_state).fuel
            = (phase3_getc s).2.fuel := rfl
        rw [hw2] at hw
        dsimp only at hw
        split_ifs <;> (try dsimp only) <;> omega

theorem phase5_get_dollar_start_fuel (s : scan_state) :
    (phase5_get_dollar_start s).2.fuel ≤ s.fuel := by
  have h := phase4_getc_fuel s
  have hu := phase4_unget_after_get_fuel s
  unfold phase5_get_dollar_start
  cases hc : (phase4_getc s).1 with
  | none => simp only [hc] at hu ⊢; exact hu
  | some c1 =>
    simp only [hc] at hu ⊢
    have hd := phase5_get_dollar_fuel (phase4_getc s).2.fuel [c1] (phase4_getc s).2
    split_ifs
    · omega
    · exact hu

theorem ite_fuel_lt {p : Prop} [Decidable p] {a b : token_ty × scan_state} {n : Nat}
    (ha : a.2.fuel < n) (hb : b.2.fuel < n) : (if p then a else b).2.fuel < n := by
  split_ifs <;> assumption

theorem phase5_get_pushback (s : scan_state) (t : token_ty) (rest : List token_ty)
    (h : s.phase5_pushback = t :: rest) :
    phase5_get s = (t, { s with phase5_pushback := rest }) := by
  unfold phase5_get
  rw [h]

theorem phase5_get_fuel (s : scan_state) :
    (phase5_get s).2.fuel ≤ s.fuel ∧
      ((phase5_get s).1.type ≠ token_type_eof → (phase5_get s).2.fuel < s.fuel) := by
  cases h5 : s.phase5_pushback with
  | cons t rest =>
    rw [phase5_get_pushback s t rest h5]
    simp only [scan_state.fuel, h5, List.length_cons]
    constructor
    · omega
    · intro _; omega
  | nil =>
    have h := phase4_getc_fuel s
    unfold phase5_get
    rw [h5]
    dsimp only
    cases hc : (phase4_getc s).1 with
    | none => exact ⟨h.1, fun hne => absurd rfl hne⟩
    | some c =>
      have hlt := h.2 (by simp [hc])
      have hws := phase5_get_white_space_fuel (phase4_getc s).2.fuel (phase4_getc s).2
      have hname := phase5_get_name_fuel (phase4_getc s).2.fuel [] c (phase4_getc s).2
      have hdol := phase5_get_dollar_start_fuel (phase4_getc s).2
      have hu1 := phase4_unget_after_get_fuel (phase4_getc s).2
      have hnum1 := phase5_get_number_fuel
        (phase4_ungetc (phase4_getc (phase4_getc s).2).1 (phase4_getc (phase4_getc s).2).2).fuel [] '.'
        (phase4_ungetc (phase4_getc (phase4_getc s).2).1 (phase4_getc (phase4_getc s).2).2)
      have hnum2 := phase5_get_number_fuel (phase4_getc s).2.fuel [] c (phase4_getc s).2
      have hstr := phase5_get_string_fuel (phase4_getc s).2.fuel c [] (phase4_getc s).2
      have h1 := phase4_getc_fuel (phase4_getc s).2
      suffices hs : ∀ r : token_ty × scan_state, r.2.fuel < s.fuel →
          r.2.fuel ≤ s.fuel ∧ (r.1.type ≠ token_type_eof → r.2.fuel < s.fuel) by
        apply hs
        dsimp only
        by_cases c1 : c = '\n'
        · rw [if_pos c1]; dsimp only; omega
        rw [if_neg c1]
        by_cases c2 : c = ' ' ∨ c = '\x0c' ∨ c = '\t'
        · rw [if_pos c2]; dsimp only; omega
        rw [if_neg c2]
        by_cases c3 : is_name_start c = true
        · rw [if_pos c3]; dsimp only; omega
        rw [if_neg c3]
        by_cases c4 : c = '$'
        · rw [if_pos c4]
          split_ifs <;> (dsimp only; omega)
        rw [if_neg c4]
        by_cases c5 : c = '.'
        · rw [if_pos c5]
          split_ifs <;> (dsimp only; omega)
        rw [if_neg c5]
        by_cases c6 : c_isdigit c = true
        · rw [if_pos c6]; dsimp only; omega
        rw [if_neg c6]
        by_cases c7 : c = '"' ∨ c = '\''
        · rw [if_pos c7]; dsimp only; omega
        rw [if_neg c7]
        by_cases c8 : c = '('
        · rw [if_pos c8]; dsimp only; omega
        rw [if_neg c8]
        by_cases c9 : c = ')'
        · rw [if_pos c9]; dsimp only; omega
        rw [if_neg c9]
        by_cases c10 : c = '['
        · rw [if_pos c10]; dsimp only; omega
        rw [if_neg c10]
        by_cases c11 : c = ']'
        · rw [if_pos c11]; dsimp only; omega
        rw [if_neg c11]
        by_cases c12 : c = ','
        · rw [if_pos c12]; dsimp only; omega
        rw [if_neg c12]
        by_cases c13 : c = '#'
        · rw [if_pos c13]; dsimp only; omega
        rw [if_neg c13]
        by_cases c14 : c = ':'
        · rw [if_pos c14]; dsimp only; omega
        rw [if_neg c14]
        by_cases c15 : c = '\\'
        · rw [if_pos c15]
          split_ifs <;> (dsimp only; omega)
        rw [if_neg c15]
        dsimp only
        omega
      intro r hr
      exact ⟨le_of_lt hr, fun _ => hr⟩

theorem phase5_unget_fuel (tp : token_ty) (s : scan_state) :
    (phase5_unget tp s).fuel ≤ s.fuel + 1 ∧
      (tp.type = token_type_eof → (phase5_unget tp s).fuel = s.fuel) := by
  unfold phase5_unget
  by_cases h : tp.type = token_type_eof
  · simp [h]
  · by_cases h2 : s.phase5_pushback.length = 1 <;> simp [h, h2, scan_state.fuel] <;> omega

theorem fuel_middle (s : scan_state) (b : Bool) :
    ({ s with middle := b } : scan_state).fuel = s.fuel := rfl

theorem phaseX_get_fuel (s : scan_state) :
    (phaseX_get s).2.fuel ≤ s.fuel ∧
      ((phaseX_get s).1.type ≠ token_type_eof → (phaseX_get s).2.fuel < s.fuel) := by
  have h := phase5_get_fuel s
  have h1 := phase5_get_fuel (phase5_get s).2
  have hu := phase5_unget_fuel (phase5_get (phase5_get s).2).1 (phase5_get (phase5_get s).2).2
  unfold phaseX_get
  simp only
  by_cases he : (phase5_get s).1.type = token_type_eoln ∨ (phase5_get s).1.type = token_type_eof
  · simp only [he, if_true, fuel_middle]
    exact h
  · simp only [he, if_false]
    have hne : (phase5_get s).1.type ≠ token_type_eof := fun hh => he (Or.inr hh)
    have hlt := h.2 hne
    suffices hs : ∀ r : token_ty × scan_state, r.2.fuel < s.fuel →
        r.2.fuel ≤ s.fuel ∧ (r.1.type ≠ token_type_eof → r.2.fuel < s.fuel) by
      apply hs
      by_cases hm : (phase5_get s).2.middle = true
      · simp only [hm, if_true]
        exact hlt
      · simp only [hm, Bool.false_eq_true, if_false]
        by_cases hw : (phase5_get s).1.type = token_type_white_space
        · simp only [hw, if_true]
          by_cases hh : (phase5_get (phase5_get s).2).1.type = token_type_hash
          · simp only [hh, if_true, fuel_middle]
            have hn : (phase5_get (phase5_get s).2).1.type ≠ token_type_eof := by
              rw [hh]; decide
            have := h1.2 hn
            omega
          · simp only [hh, if_false, fuel_middle]
            by_cases hn : (phase5_get (phase5_get s).2).1.type = token_type_eof
            · have := hu.2 hn
              omega
            · have := h1.2 hn
              omega
        · simp only [hw, if_false, fuel_middle]
          exact hlt
    intro r hr
    exact ⟨le_of_lt hr, fun _ => hr⟩

theorem phase6_get_directive_fuel : ∀ (fuel : Nat) (buf : List token_ty) (s : scan_state),
    (phase6_get_directive fuel buf s).2.2.fuel ≤ s.fuel := by
  intro fuel
  induction fuel with
  | zero => intro buf s; simp [phase6_get_directive, scan_state.fuel]
  | succ fuel ih =>
    intro buf s
    have h := phaseX_get_fuel s
    have i1 := ih (buf ++ [(phaseX_get s).1]) (phaseX_get s).2
    have i2 := ih buf (phaseX_get s).2
    unfold phase6_get_directive
    simp only
    split_ifs <;> (try dsimp only) <;> omega

theorem phase6_apply_line_fuel (buf : List token_ty) (s : scan_state) :
    (phase6_apply_line buf s).fuel = s.fuel := by
  unfold phase6_apply_line
  split
  · split_ifs <;> rfl
  · rfl

theorem phase6_apply_number_fuel (buf : List token_ty) (s : scan_state) :
    (phase6_apply_number buf s).fuel = s.fuel := by
  unfold phase6_apply_number
  split
  · split_ifs <;> rfl
  · rfl

theorem phase6_apply_directive_fuel (buf : List token_ty) (s : scan_state) :
    (phase6_apply_directive buf s).fuel = s.fuel := by
  unfold phase6_apply_directive
  rw [phase6_apply_number_fuel, phase6_apply_line_fuel]

theorem phase6_get_loop_fuel : ∀ (fuel : Nat) (s : scan_state),
    (phase6_get_loop fuel s).2.fuel ≤ s.fuel ∧
      ((phase6_get_loop fuel s).1.type ≠ token_type_eof → (phase6_get_loop fuel s).2.fuel < s.fuel) := by
  intro fuel
  induction fuel with
  | zero =>
    intro s
    simp only [phase6_get_loop, token_init]
    exact ⟨le_refl _, fun hne => absurd rfl hne⟩
  | succ fuel ih =>
    intro s
    have h := phaseX_get_fuel s
    have hd := phase6_get_directive_fuel (phaseX_get s).2.fuel [] (phaseX_get s).2
    unfold phase6_get_loop
    simp only
    by_cases hh : (phaseX_get s).1.type = token_type_hash
    · have hlt := h.2 (by rw [hh]; decide)
      simp only [hh, ne_eq, not_true_eq_false, if_false]
      cases hdt : (phase6_get_directive (phaseX_get s).2.fuel [] (phaseX_get s).2).1 with
      | some tp =>
        simp only
        constructor
        · omega
        · intro _; omega
      | none =>
        simp only
        have hih := ih (savable_comment_reset (phase6_apply_directive
          (phase6_get_directive (phaseX_get s).2.fuel [] (phaseX_get s).2).2.1
          (phase6_get_directive (phaseX_get s).2.fuel [] (phaseX_get s).2).2.2))
        rw [savable_comment_reset_fuel, phase6_apply_directive_fuel] at hih
        constructor
        · omega
        · intro _; omega
    · simp only [ne_eq, hh, not_false_eq_true, if_true]
      exact h

theorem phase6_get_fuel (s : scan_state) :
    (phase6_get s).2.fuel ≤ s.fuel ∧
      ((phase6_get s).1.type ≠ token_type_eof → (phase6_get s).2.fuel < s.fuel) := by
  unfold phase6_get
  cases h : s.phase6_pushback with
  | nil => exact phase6_get_loop_fuel _ s
  | cons t rest => simp [scan_state.fuel, h]

theorem fuel_newline_count (s : scan_state) (n : Int) :
    ({ s with newline_count := n } : scan_state).fuel = s.fuel := rfl

theorem phase8a_get_loop_fuel : ∀ (fuel : Nat) (s : scan_state),
    (phase8a_get_loop fuel s).2.fuel ≤ s.fuel ∧
      ((phase8a_get_loop fuel s).1.type ≠ token_type_eof →
        (phase8a_get_loop fuel s).2.fuel < s.fuel) := by
  intro fuel
  induction fuel with
  | zero =>
    intro s
    simp only [phase8a_get_loop, token_init]
    exact ⟨le_refl _, fun hne => absurd rfl hne⟩
  | succ fuel ih =>
    intro s
    have h := phase6_get_fuel s
    unfold phase8a_get_loop
    simp only
    by_cases hw : (phase6_get s).1.type = token_type_white_space
    · have hlt := h.2 (by rw [hw]; decide)
      simp only [hw, if_true]
      have hih := ih (phase6_get s).2
      constructor
      · omega
      · intro hne; have := hih.2 hne; omega
    · simp only [hw, if_false]
      by_cases hn : (phase6_get s).1.type = token_type_eoln
      · have hlt := h.2 (by rw [hn]; decide)
        simp only [hn, if_true]
        have e1 : ({ (phase6_get s).2 with newline_count := (phase6_get s).2.newline_count + 1 } :
            scan_state).fuel = (phase6_get s).2.fuel := rfl
        have e2 := savable_comment_reset_fuel
          { (phase6_get s).2 with newline_count := (phase6_get s).2.newline_count + 1 }
        have hih1 := ih (savable_comment_reset
            { (phase6_get s).2 with newline_count := (phase6_get s).2.newline_count + 1 })
        have hih2 := ih { (phase6_get s).2 with newline_count := (phase6_get s).2.newline_count + 1 }
        dsimp only at e1 e2 hih1 hih2 ⊢
        split_ifs
        · constructor
          · omega
          · intro hne; have := hih1.2 hne; omega
        · constructor
          · omega
          · intro hne; have := hih2.2 hne; omega
      · simp only [hn, if_false]
        exact h

theorem phase8a_get_fuel (s : scan_state) :
    (phase8a_get s).2.fuel ≤ s.fuel ∧
      ((phase8a_get s).1.type ≠ token_type_eof → (phase8a_get s).2.fuel < s.fuel) :=
  phase8a_get_loop_fuel _ s

/-! ### The layers below the directive interpreter leave its pushback alone -/

theorem getc_pb6 (s : scan_state) : (getc s).2.phase6_pushback = s.phase6_pushback := by
  unfold getc
  split <;> rfl

theorem phase0_getc_pb6 (s : scan_state) :
    (phase0_getc s).2.phase6_pushback = s.phase6_pushback := by
  have h := getc_pb6 s
  have h1 := getc_pb6 (getc s).2
  unfold phase0_getc
  dsimp only
  split
  · exact h
  · split_ifs
    · split
      · dsimp only; rw [h1, h]
      · split_ifs
        · dsimp only [ungetc]; rw [h1, h]
        · dsimp only; rw [h1, h]
    · exact h

theorem phase0_ungetc_pb6 (c : Option Char) (s : scan_state) :
    (phase0_ungetc c s).phase6_pushback = s.phase6_pushback := by
  cases c <;> rfl

theorem phase1_getc_loop_pb6 : ∀ (fuel : Nat) (s : scan_state),
    (phase1_getc_loop fuel s).2.phase6_pushback = s.phase6_pushback := by
  intro fuel
  induction fuel with
  | zero => intro s; rfl
  | succ fuel ih =>
    intro s
    have h := phase0_getc_pb6 s
    have h1 := phase0_getc_pb6 (phase0_getc s).2
    have hu := phase0_ungetc_pb6 (phase0_getc (phase0_getc s).2).1 (phase0_getc (phase0_getc s).2).2
    have hih := ih { (phase0_getc (phase0_getc s).2).2 with
      line_number := (phase0_getc (phase0_getc s).2).2.line_number + 1 }
    dsimp only at hih
    unfold phase1_getc_loop
    dsimp only
    split_ifs
    · exact h
    · dsimp only; rw [hu, h1, h]
    · rw [hih, h1, h]
    · exact h

theorem phase1_getc_pb6 (s : scan_state) :
    (phase1_getc s).2.phase6_pushback = s.phase6_pushback := by
  unfold phase1_getc
  split
  · rfl
  · exact phase1_getc_loop_pb6 _ s

theorem phase2_getc_pb6 (s : scan_state) :
    (phase2_getc s).2.phase6_pushback = s.phase6_pushback := by
  unfold phase2_getc
  split
  · rfl
  · exact phase1_getc_pb6 s

theorem phase2_ungetc_pb6 (c : Option Char) (s : scan_state) :
    (phase2_ungetc c s).phase6_pushback = s.phase6_pushback := by
  unfold phase2_ungetc
  split
  · rfl
  · split_ifs <;> rfl

theorem phase3_getc_loop_pb6 : ∀ (fuel : Nat) (s : scan_state),
    (phase3_getc_loop fuel s).2.phase6_pushback = s.phase6_pushback := by
  intro fuel
  induction fuel with
  | zero => intro s; rfl
  | succ fuel ih =>
    intro s
    have h := phase2_getc_pb6 s
    have h1 := phase2_getc_pb6 (phase2_getc s).2
    have hu := phase2_ungetc_pb6 (phase2_getc (phase2_getc s).2).1 (phase2_getc (phase2_getc s).2).2
    have hih := ih (phase2_getc (phase2_getc s).2).2
    unfold phase3_getc_loop
    dsimp only
    split_ifs
    · exact h
    · dsimp only; rw [hu, h1, h]
    · rw [hih, h1, h]

theorem phase3_getc_pb6 (s : scan_state) :
    (phase3_getc s).2.phase6_pushback = s.phase6_pushback := by
  unfold phase3_getc
  split
  · rfl
  · exact phase3_getc_loop_pb6 _ s

theorem phase3_ungetc_pb6 (c : Option Char) (s : scan_state) :
    (phase3_ungetc c s).phase6_pushback = s.phase6_pushback := by
  unfold phase3_ungetc
  split
  · rfl
  · split_ifs <;> rfl

theorem comment_add_unless_leading_blank_pb6 (c : Char) (s : scan_state) :
    (comment_add_unless_leading_blank c s).phase6_pushback = s.phase6_pushback := by
  unfold comment_add_unless_leading_blank
  split_ifs <;> rfl

theorem phase4_getc_c_comment_pb6 : ∀ (fuel : Nat) (b : Bool) (s : scan_state),
    (phase4_getc_c_comment fuel b s).phase6_pushback = s.phase6_pushback := by
  intro fuel
  induction fuel with
  | zero => intro b s; rfl
  | succ fuel ih =>
    intro b s
    have h := phase3_getc_pb6 s
    unfold phase4_getc_c_comment
    dsimp only
    split
    · exact h
    · rename_i c _
      have hs1 := comment_add_unless_leading_blank_pb6 c (phase3_getc s).2
      generalize comment_add_unless_leading_blank c (phase3_getc s).2 = s1 at hs1 ⊢
      have i1 := ih false (comment_start (comment_line_end 1 s1))
      have i2 := ih true s1
      have i3 := ih false s1
      have e1 : (comment_start (comment_line_end 1 s1)).phase6_pushback = s1.phase6_pushback := rfl
      have e2 : (comment_line_end 2 s1).phase6_pushback = s1.phase6_pushback := rfl
      split_ifs
      · rw [i1, e1, hs1, h]
      · rw [i2, hs1, h]
      · rw [e2, hs1, h]
      · rw [i3, hs1, h]

theorem phase4_getc_cxx_comment_pb6 : ∀ (fuel : Nat) (s : scan_state),
    (phase4_getc_cxx_comment fuel s).phase6_pushback = s.phase6_pushback := by
  intro fuel
  induction fuel with
  | zero => intro s; rfl
  | succ fuel ih =>
    intro s
    have h := phase3_getc_pb6 s
    unfold phase4_getc_cxx_comment
    dsimp only
    split
    · exact h
    · rename_i c _
      have hs1 := comment_add_unless_leading_blank_pb6 c (phase3_getc s).2
      have i1 := ih (comment_add_unless_leading_blank c (phase3_getc s).2)
      split_ifs
      · exact h
      · rw [i1, hs1, h]

theorem phase4_getc_pb6 (s : scan_state) :
    (phase4_getc s).2.phase6_pushback = s.phase6_pushback := by
  have h := phase3_getc_pb6 s
  have h1 := phase3_getc_pb6 (phase3_getc s).2
  have hu := phase3_ungetc_pb6 (phase3_getc (phase3_getc s).2).1 (phase3_getc (phase3_getc s).2).2
  have hc := phase4_getc_c_comment_pb6 (phase3_getc (phase3_getc s).2).2.fuel false
    (comment_start (phase3_getc (phase3_getc s).2).2)
  have hx := phase4_getc_cxx_comment_pb6 (phase3_getc (phase3_getc s).2).2.fuel
    (comment_start (phase3_getc (phase3_getc s).2).2)
  have e1 : (comment_start (phase3_getc (phase3_getc s).2).2).phase6_pushback
      = (phase3_getc (phase3_getc s).2).2.phase6_pushback := rfl
  have e2 : ∀ s1 : scan_state, (comment_line_end 0 s1).phase6_pushback = s1.phase6_pushback :=
    fun _ => rfl
  unfold phase4_getc
  dsimp only
  split_ifs
  · exact h
  · dsimp only; rw [hc, e1, h1, h]
  · dsimp only; rw [e2, hx, e1, h1, h]
  · dsimp only; rw [hu, h1, h]

theorem phase4_ungetc_pb6 (c : Option Char) (s : scan_state) :
    (phase4_ungetc c s).phase6_pushback = s.phase6_pushback :=
  phase3_ungetc_pb6 c s

theorem phase5_get_white_space_pb6 : ∀ (fuel : Nat) (s : scan_state),
    (phase5_get_white_space fuel s).phase6_pushback = s.phase6_pushback := by
  intro fuel
  induction fuel with
  | zero => intro s; rfl
  | succ fuel ih =>
    intro s
    have h := phase4_getc_pb6 s
    have hu := phase4_ungetc_pb6 (phase4_getc s).1 (phase4_getc s).2
    have hih := ih (phase4_getc s).2
    unfold phase5_get_white_space
    dsimp only
    split_ifs
    · rw [hih, h]
    · rw [hu, h]

theorem phase5_get_name_pb6 : ∀ (fuel : Nat) (buffer : List Char) (c : Char) (s : scan_state),
    (phase5_get_name fuel buffer c s).2.phase6_pushback = s.phase6_pushback := by
  intro fuel
  induction fuel with
  | zero => intro buffer c s; rfl
  | succ fuel ih =>
    intro buffer c s
    have h := phase4_getc_pb6 s
    unfold phase5_get_name
    dsimp only
    split
    · rename_i c1 _
      have hu := phase4_ungetc_pb6 (some c1) (phase4_getc s).2
      have hih := ih (buffer ++ [c]) c1 (phase4_getc s).2
      split_ifs
      · rw [hih, h]
      · dsimp only; rw [hu, h]
    · dsimp only
      rw [phase4_ungetc_pb6, h]

theorem phase5_get_dollar_pb6 : ∀ (fuel : Nat) (buffer : List Char) (s : scan_state),
    (phase5_get_dollar fuel buffer s).2.phase6_pushback = s.phase6_pushback := by
  intro fuel
  induction fuel with
  | zero => intro buffer s; rfl
  | succ fuel ih =>
    intro buffer s
    have h := phase4_getc_pb6 s
    unfold phase5_get_dollar
    dsimp only
    split
    · rename_i c1 _
      have hu := phase4_ungetc_pb6 (some c1) (phase4_getc s).2
      have hih := ih (buffer ++ [c1]) (phase4_getc s).2
      split_ifs
      · rw [hih, h]
      · dsimp only; rw [hu, h]
    · dsimp only
      rw [phase4_ungetc_pb6, h]

theorem phase5_get_dollar_start_pb6 (s : scan_state) :
    (phase5_get_dollar_start s).2.phase6_pushback = s.phase6_pushback := by
  have h := phase4_getc_pb6 s
  unfold phase5_get_dollar_start
  dsimp only
  split
  · split_ifs
    · rw [phase5_get_dollar_pb6, h]
    · dsimp only; rw [phase4_ungetc_pb6, h]
  · dsimp only
    rw [phase4_ungetc_pb6, h]

theorem phase5_get_number_pb6 : ∀ (fuel : Nat) (buffer : List Char) (c : Char) (s : scan_state),
    (phase5_get_number fuel buffer c s).2.phase6_pushback = s.phase6_pushback := by
  intro fuel
  induction fuel with
  | zero => intro buffer c s; rfl
  | succ fuel ih =>
    intro buffer c s
    have h := phase4_getc_pb6 s
    have h1 := phase4_getc_pb6 (phase4_getc s).2
    unfold phase5_get_number
    dsimp only
    split
    · rename_i c1 _
      have hih := ih (buffer ++ [c]) c1 (phase4_getc s).2
      split_ifs
      · split
        · rename_i c2 _
          have hih2 := ih (buffer ++ [c, c1]) c2 (phase4_getc (phase4_getc s).2).2
          split_ifs
          · dsimp only; rw [phase4_ungetc_pb6, h1, h]
          · rw [hih2, h1, h]
        · dsimp only; rw [phase4_ungetc_pb6, h1, h]
      · rw [hih, h]
      · dsimp only; rw [phase4_ungetc_pb6, h]
    · dsimp only
      rw [phase4_ungetc_pb6, h]

theorem phase5_get_string_pb6 : ∀ (fuel : Nat) (cquot : Char) (buffer : List Char) (s : scan_state),
    (phase5_get_string fuel cquot buffer s).2.phase6_pushback = s.phase6_pushback := by
  intro fuel
  induction fuel with
  | zero => intro cquot buffer s; rfl
  | succ fuel ih =>
    intro cquot buffer s
    have h := phase3_getc_pb6 s
    have h1 := phase3_getc_pb6 (phase3_getc s).2
    unfold phase5_get_string
    dsimp only
    split_ifs
    · rw [ih, h1, h]
    · dsimp only; rw [phase3_ungetc_pb6, h1, h]
    · split
      · exact h
      · split_ifs
        · dsimp only; rw [phase3_ungetc_pb6]; exact h
        · rw [ih, h]

theorem ite_pb6 {p : Prop} [Decidable p] {a b : token_ty × scan_state} {l : List token_ty}
    (ha : a.2.phase6_pushback = l) (hb : b.2.phase6_pushback = l) :
    (if p then a else b).2.phase6_pushback = l := by
  split_ifs <;> assumption

theorem phase5_get_pb6 (s : scan_state) :
    (phase5_get s).2.phase6_pushback = s.phase6_pushback := by
  cases h5 : s.phase5_pushback with
  | cons t rest => rw [phase5_get_pushback s t rest h5]
  | nil =>
    have h := phase4_getc_pb6 s
    have h1 := phase4_getc_pb6 (phase4_getc s).2
    unfold phase5_get
    rw [h5]
    dsimp only
    cases hc : (phase4_getc s).1 with
    | none => exact h
    | some c =>
      dsimp only
      by_cases c1 : c = '\n'
      · rw [if_pos c1]; exact h
      rw [if_neg c1]
      by_cases c2 : c = ' ' ∨ c = '\x0c' ∨ c = '\t'
      · rw [if_pos c2]; dsimp only; rw [phase5_get_white_space_pb6, h]
      rw [if_neg c2]
      by_cases c3 : is_name_start c = true
      · rw [if_pos c3]; dsimp only; rw [phase5_get_name_pb6, h]
      rw [if_neg c3]
      by_cases c4 : c = '$'
      · rw [if_pos c4]
        split_ifs <;> (dsimp only; rw [phase5_get_dollar_start_pb6, h])
      rw [if_neg c4]
      by_cases c5 : c = '.'
      · rw [if_pos c5]
        split_ifs
        · dsimp only; rw [phase5_get_number_pb6, phase4_ungetc_pb6, h1, h]
        · dsimp only; rw [phase4_ungetc_pb6, h1, h]
      rw [if_neg c5]
      by_cases c6 : c_isdigit c = true
      · rw [if_pos c6]; dsimp only; rw [phase5_get_number_pb6, h]
      rw [if_neg c6]
      by_cases c7 : c = '"' ∨ c = '\''
      · rw [if_pos c7]; dsimp only; rw [phase5_get_string_pb6, h]
      rw [if_neg c7]
      by_cases c8 : c = '('
      · rw [if_pos c8]; exact h
      rw [if_neg c8]
      by_cases c9 : c = ')'
      · rw [if_pos c9]; exact h
      rw [if_neg c9]
      by_cases c10 : c = '['
      · rw [if_pos c10]; exact h
      rw [if_neg c10]
      by_cases c11 : c = ']'
      · rw [if_pos c11]; exact h
      rw [if_neg c11]
      by_cases c12 : c = ','
      · rw [if_pos c12]; exact h
      rw [if_neg c12]
      by_cases c13 : c = '#'
      · rw [if_pos c13]; exact h
      rw [if_neg c13]
      by_cases c14 : c = ':'
      · rw [if_pos c14]; exact h
      rw [if_neg c14]
      by_cases c15 : c = '\\'
      · rw [if_pos c15]
        split_ifs
        · dsimp only; rw [h1, h]
        · dsimp only; rw [phase4_ungetc_pb6, h1, h]
      rw [if_neg c15]
      exact h

theorem phase5_unget_pb6 (tp : token_ty) (s : scan_state) :
    (phase5_unget tp s).phase6_pushback = s.phase6_pushback := by
  unfold phase5_unget
  split_ifs <;> rfl

theorem phaseX_get_pb6 (s : scan_state) :
    (phaseX_get s).2.phase6_pushback = s.phase6_pushback := by
  have h := phase5_get_pb6 s
  have h1 := phase5_get_pb6 (phase5_get s).2
  have hu := phase5_unget_pb6 (phase5_get (phase5_get s).2).1 (phase5_get (phase5_get s).2).2
  unfold phaseX_get
  dsimp only
  split_ifs
  · exact h
  · exact h
  · exact h
  · dsimp only; rw [h1, h]
  · dsimp only; rw [hu, h1, h]
  · exact h

theorem phase6_get_directive_pb6 : ∀ (fuel : Nat) (buf : List token_ty) (s : scan_state),
    (phase6_get_directive fuel buf s).2.2.phase6_pushback = s.phase6_pushback := by
  intro fuel
  induction fuel with
  | zero => intro buf s; rfl
  | succ fuel ih =>
    intro buf s
    have h := phaseX_get_pb6 s
    unfold phase6_get_directive
    dsimp only
    split_ifs
    · exact h
    · exact h
    · rw [ih, h]
    · rw [ih, h]

theorem phase6_apply_directive_pb6 (buf : List token_ty) (s : scan_state) :
    (phase6_apply_directive buf s).phase6_pushback = s.phase6_pushback := by
  have e1 : ∀ s1 : scan_state, (phase6_apply_line buf s1).phase6_pushback = s1.phase6_pushback := by
    intro s1
    unfold phase6_apply_line
    split
    · split_ifs <;> rfl
    · rfl
  have e2 : ∀ s1 : scan_state, (phase6_apply_number buf s1).phase6_pushback = s1.phase6_pushback := by
    intro s1
    unfold phase6_apply_number
    split
    · split_ifs <;> rfl
    · rfl
  unfold phase6_apply_directive
  rw [e2, e1]

theorem phase6_get_loop_pb6 : ∀ (fuel : Nat) (s : scan_state),
    (phase6_get_loop fuel s).2.phase6_pushback = s.phase6_pushback := by
  intro fuel
  induction fuel with
  | zero => intro s; rfl
  | succ fuel ih =>
    intro s
    have h := phaseX_get_pb6 s
    have hd := phase6_get_directive_pb6 (phaseX_get s).2.fuel [] (phaseX_get s).2
    unfold phase6_get_loop
    dsimp only
    split_ifs
    · exact h
    · split
      · dsimp only; rw [hd, h]
      · rw [ih]
        show (phase6_apply_directive _ _).phase6_pushback = _
        rw [phase6_apply_directive_pb6, hd, h]

theorem phase6_get_pb6 (s : scan_state) :
    (phase6_get s).2.phase6_pushback = s.phase6_pushback.tail := by
  unfold phase6_get
  split
  · rename_i t rest h
    rw [h]
    rfl
  · rename_i h
    rw [phase6_get_loop_pb6, h]
    rfl

theorem phase6_get_pb6_length (s : scan_state) :
    (phase6_get s).2.phase6_pushback.length = s.phase6_pushback.length - 1 := by
  rw [phase6_get_pb6]
  simp

theorem phase8a_get_loop_pb6_le : ∀ (fuel : Nat) (s : scan_state),
    (phase8a_get_loop fuel s).2.phase6_pushback.length ≤ s.phase6_pushback.length := by
  intro fuel
  induction fuel with
  | zero => intro s; exact le_refl _
  | succ fuel ih =>
    intro s
    have h := phase6_get_pb6_length s
    have i1 := ih (phase6_get s).2
    have i2 := ih (savable_comment_reset
        { (phase6_get s).2 with newline_count := (phase6_get s).2.newline_count + 1 })
    have i3 := ih { (phase6_get s).2 with newline_count := (phase6_get s).2.newline_count + 1 }
    have e : (savable_comment_reset
        { (phase6_get s).2 with newline_count := (phase6_get s).2.newline_count + 1 }).phase6_pushback
          = (phase6_get s).2.phase6_pushback := rfl
    rw [e] at i2
    rw [phase8a_get_loop]
    dsimp only at i2 i3 ⊢
    split_ifs <;> omega

theorem phase8a_get_loop_pb6 (fuel : Nat) (s : scan_state) :
    (phase8a_get_loop (fuel + 1) s).2.phase6_pushback.length ≤ s.phase6_pushback.length - 1 := by
  have h := phase6_get_pb6_length s
  have i1 := phase8a_get_loop_pb6_le fuel (phase6_get s).2
  have i2 := phase8a_get_loop_pb6_le fuel (savable_comment_reset
      { (phase6_get s).2 with newline_count := (phase6_get s).2.newline_count + 1 })
  have i3 := phase8a_get_loop_pb6_le fuel
    { (phase6_get s).2 with newline_count := (phase6_get s).2.newline_count + 1 }
  have e : (savable_comment_reset
      { (phase6_get s).2 with newline_count := (phase6_get s).2.newline_count + 1 }).phase6_pushback
        = (phase6_get s).2.phase6_pushback := rfl
  rw [e] at i2
  rw [phase8a_get_loop]
  dsimp only at i2 i3 ⊢
  split_ifs <;> omega

theorem phase8a_get_pb6 (s : scan_state) :
    (phase8a_get s).2.phase6_pushback.length ≤ s.phase6_pushback.length - 1 :=
  phase8a_get_loop_pb6 _ s

/-! ### The literal concatenator -/

theorem phase8a_get_loop_type : ∀ (fuel : Nat) (s : scan_state),
    (phase8a_get_loop fuel s).1.type ≠ token_type_white_space ∧
      (phase8a_get_loop fuel s).1.type ≠ token_type_eoln := by
  intro fuel
  induction fuel with
  | zero => intro s; simp [phase8a_get_loop, token_init]
  | succ fuel ih =>
    intro s
    rw [phase8a_get_loop]
    dsimp only
    split_ifs with h1 h2 h3
    · exact ih _
    · exact ih _
    · exact ih _
    · exact ⟨h1, h2⟩

theorem phase8a_get_many_pb6 : ∀ (n : Nat) (s : scan_state),
    (phase8a_get_many n s).2.phase6_pushback.length ≤ s.phase6_pushback.length := by
  intro n
  induction n with
  | zero => intro s; exact le_refl _
  | succ n ih =>
    intro s
    have h := phase8a_get_pb6 s
    have := ih (phase8a_get s).2
    simp only [phase8a_get_many]
    omega

theorem phase8_get_loop_many : ∀ (n : Nat) (s : scan_state) (tp : token_ty) (fuel : Nat),
    (∀ t ∈ (phase8a_get_many n s).1, is_literal_token t = true) →
    is_literal_token (phase8a_get (phase8a_get_many n s).2).1 = false →
    s.fuel ≤ fuel →
    phase8_get_loop fuel tp s =
      (if (phase8_merge tp (phase8a_get_many n s).1).type = token_type_eoln_explicit then
          { phase8_merge tp (phase8a_get_many n s).1 with type := token_type_string_literal }
        else phase8_merge tp (phase8a_get_many n s).1,
        phase8a_unget (phase8a_get (phase8a_get_many n s).2).1
          (phase8a_get (phase8a_get_many n s).2).2) := by
  intro n
  induction n with
  | zero =>
    intro s tp fuel _ hnext hfuel
    obtain ⟨fuel, rfl⟩ : ∃ k, fuel = k + 1 := ⟨fuel - 1, by simp only [scan_state.fuel] at hfuel; omega⟩
    simp only [phase8a_get_many, is_literal_token, Bool.or_eq_false_iff, decide_eq_false_iff_not]
      at hnext
    rw [phase8_get_loop]
    simp only [phase8a_get_many, phase8_merge, List.foldl_nil, hnext.1, hnext.2, ne_eq,
      not_false_eq_true, and_self, if_true]
  | succ n ih =>
    intro s tp fuel hlit hnext hfuel
    obtain ⟨fuel, rfl⟩ : ∃ k, fuel = k + 1 := ⟨fuel - 1, by simp only [scan_state.fuel] at hfuel; omega⟩
    simp only [phase8a_get_many, List.mem_cons, forall_eq_or_imp] at hlit hnext
    have h1 := hlit.1
    simp only [is_literal_token, Bool.or_eq_true, decide_eq_true_eq] at h1
    have hne : (phase8a_get s).1.type ≠ token_type_eof := by
      rcases h1 with h | h <;> (rw [h]; decide)
    have hlt := (phase8a_get_fuel s).2 hne
    have hcond : ¬ ((phase8a_get s).1.type ≠ token_type_string_literal ∧
        (phase8a_get s).1.type ≠ token_type_eoln_explicit) := by
      rintro ⟨ha, hb⟩
      rcases h1 with h | h
      · exact ha h
      · exact hb h
    rw [phase8_get_loop]
    simp only [hcond, if_false]
    rw [ih (phase8a_get s).2 _ fuel hlit.2 hnext (by omega)]
    simp only [phase8a_get_many, phase8_merge, List.foldl_cons]

theorem phase8_merge_type (tp : token_ty) (more : List token_ty) (h : more ≠ []) :
    (phase8_merge tp more).type = token_type_string_literal := by
  induction more generalizing tp with
  | nil => exact absurd rfl h
  | cons t rest ih =>
    cases rest with
    | nil => simp [phase8_merge]
    | cons t2 rest2 =>
      have := ih { tp with string := xstrdup tp.string ++ xstrdup t.string,
                            type := token_type_string_literal } (by simp)
      simpa [phase8_merge] using this

theorem phase8_merge_fields (tp : token_ty) (more : List token_ty) :
    (phase8_merge tp more).comment = tp.comment ∧ (phase8_merge tp more).number = tp.number ∧
      (phase8_merge tp more).line_number = tp.line_number := by
  induction more generalizing tp with
  | nil => simp [phase8_merge]
  | cons t rest ih =>
    have := ih { tp with string := xstrdup tp.string ++ xstrdup t.string,
                          type := token_type_string_literal }
    simpa [phase8_merge] using this

theorem phase8_merge_string (tp : token_ty) (more : List token_ty)
    (htp : ∀ c ∈ tp.string, c ≠ Char.ofNat 0)
    (hmore : ∀ t ∈ more, ∀ c ∈ t.string, c ≠ Char.ofNat 0) :
    (phase8_merge tp more).string = tp.string ++ (more.map (fun t => t.string)).flatten := by
  induction more generalizing tp with
  | nil => simp [phase8_merge]
  | cons t rest ih =>
    have ht := hmore t (by simp)
    have := ih { tp with string := xstrdup tp.string ++ xstrdup t.string,
                          type := token_type_string_literal }
      (by
        intro c hc
        simp only [xstrdup_eq_self _ htp, xstrdup_eq_self _ ht, List.mem_append] at hc
        rcases hc with hc | hc
        · exact htp c hc
        · exact ht c hc)
      (fun t2 h2 => hmore t2 (by simp [h2]))
    simp only [phase8_merge, List.foldl_cons] at this ⊢
    rw [this]
    simp [xstrdup_eq_self _ htp, xstrdup_eq_self _ ht]

theorem phase5_get_eoln_explicit (s : scan_state) (h5 : s.phase5_pushback = [])
    (h : (phase5_get s).1.type = token_type_eoln_explicit) :
    (phase5_get s).1.string = ['\n'] := by
  revert h
  unfold phase5_get
  rw [h5]
  dsimp only
  cases hc : (phase4_getc s).1 with
  | none => dsimp only; intro h; simp at h
  | some c =>
    dsimp only
    by_cases c1 : c = '\n'
    · rw [if_pos c1]; intro h; simp at h
    rw [if_neg c1]
    by_cases c2 : c = ' ' ∨ c = '\x0c' ∨ c = '\t'
    · rw [if_pos c2]; intro h; simp at h
    rw [if_neg c2]
    by_cases c3 : is_name_start c = true
    · rw [if_pos c3]; intro h; simp at h
    rw [if_neg c3]
    by_cases c4 : c = '$'
    · rw [if_pos c4]
      split_ifs <;> (intro h; simp at h)
    rw [if_neg c4]
    by_cases c5 : c = '.'
    · rw [if_pos c5]
      split_ifs <;> (intro h; simp at h)
    rw [if_neg c5]
    by_cases c6 : c_isdigit c = true
    · rw [if_pos c6]; intro h; simp at h
    rw [if_neg c6]
    by_cases c7 : c = '"' ∨ c = '\''
    · rw [if_pos c7]; intro h; simp at h
    rw [if_neg c7]
    by_cases c8 : c = '('
    · rw [if_pos c8]; intro h; simp at h
    rw [if_neg c8]
    by_cases c9 : c = ')'
    · rw [if_pos c9]; intro h; simp at h
    rw [if_neg c9]
    by_cases c10 : c = '['
    · rw [if_pos c10]; intro h; simp at h
    rw [if_neg c10]
    by_cases c11 : c = ']'
    · rw [if_pos c11]; intro h; simp at h
    rw [if_neg c11]
    by_cases c12 : c = ','
    · rw [if_pos c12]; intro h; simp at h
    rw [if_neg c12]
    by_cases c13 : c = '#'
    · rw [if_pos c13]; intro h; simp at h
    rw [if_neg c13]
    by_cases c14 : c = ':'
    · rw [if_pos c14]; intro h; simp at h
    rw [if_neg c14]
    by_cases c15 : c = '\\'
    · rw [if_pos c15]
      split_ifs
      · intro _; rfl
      · intro h; simp at h
    rw [if_neg c15]
    intro h; simp at h

theorem phase8_get_concat (s : scan_state) (n : Nat)
    (hlit : ∀ t ∈ (phase8a_get_many (n + 1) s).1, is_literal_token t = true)
    (hnul : ∀ t ∈ (phase8a_get_many (n + 1) s).1, ∀ c ∈ t.string, c ≠ Char.ofNat 0)
    (hnext : is_literal_token (phase8a_get (phase8a_get_many (n + 1) s).2).1 = false) :
    phase8_get s =
      ({ (phase8a_get s).1 with
          type := token_type_string_literal,
          string := ((phase8a_get_many (n + 1) s).1.map (fun t => t.string)).flatten },
        phase8a_unget (phase8a_get (phase8a_get_many (n + 1) s).2).1
          (phase8a_get (phase8a_get_many (n + 1) s).2).2) := by
  simp only [phase8a_get_many, List.mem_cons, forall_eq_or_imp] at hlit hnul hnext
  have h1 := hlit.1
  simp only [is_literal_token, Bool.or_eq_true, decide_eq_true_eq] at h1
  have hcond : ¬ ((phase8a_get s).1.type ≠ token_type_string_literal ∧
      (phase8a_get s).1.type ≠ token_type_eoln_explicit) := by
    rintro ⟨ha, hb⟩
    rcases h1 with h | h
    · exact ha h
    · exact hb h
  unfold phase8_get
  simp only [hcond, if_false]
  rw [phase8_get_loop_many n (phase8a_get s).2 (phase8a_get s).1 _ hlit.2 hnext (le_refl _)]
  have hf := phase8_merge_fields (phase8a_get s).1 (phase8a_get_many n (phase8a_get s).2).1
  have hs := phase8_merge_string (phase8a_get s).1 (phase8a_get_many n (phase8a_get s).2).1
    hnul.1 hnul.2
  have hty : (if (phase8_merge (phase8a_get s).1 (phase8a_get_many n (phase8a_get s).2).1).type
        = token_type_eoln_explicit then
      { phase8_merge (phase8a_get s).1 (phase8a_get_many n (phase8a_get s).2).1 with
        type := token_type_string_literal }
      else phase8_merge (phase8a_get s).1 (phase8a_get_many n (phase8a_get s).2).1).type
      = token_type_string_literal := by
    by_cases hm : (phase8a_get_many n (phase8a_get s).2).1 = []
    · rw [hm]
      simp only [phase8_merge, List.foldl_nil]
      split_ifs with h
      · rfl
      · rcases h1 with h' | h'
        · exact h'
        · exact absurd h' h
    · have := phase8_merge_type (phase8a_get s).1 _ hm
      rw [this]
      simp [this]
  have hrest : ∀ tk : token_ty, tk.comment = (phase8a_get s).1.comment →
      tk.number = (phase8a_get s).1.number → tk.line_number = (phase8a_get s).1.line_number →
      tk.type = token_type_string_literal →
      tk.string = (phase8a_get s).1.string
        ++ ((phase8a_get_many n (phase8a_get s).2).1.map (fun t => t.string)).flatten →
      tk = { (phase8a_get s).1 with
          type := token_type_string_literal,
          string := (phase8a_get s).1.string
            ++ ((phase8a_get_many n (phase8a_get s).2).1.map (fun t => t.string)).flatten } := by
    intro tk e1 e2 e3 e4 e5
    cases tk
    simp only at e1 e2 e3 e4 e5
    subst e1 e2 e3 e4 e5
    rfl
  simp only [phase8a_get_many, List.map_cons, List.flatten_cons]
  congr 1
  apply hrest
  · split_ifs <;> exact hf.1
  · split_ifs <;> exact hf.2.1
  · split_ifs <;> exact hf.2.2
  · exact hty
  · split_ifs <;> exact hs

theorem phase8_get_after_unget (s : scan_state) (n : Nat)
    (hnext : is_literal_token (phase8a_get (phase8a_get_many (n + 1) s).2).1 = false)
    (hne : (phase8a_get (phase8a_get_many (n + 1) s).2).1.type ≠ token_type_eof)
    (hroom : s.phase6_pushback.length ≤ 2) :
    phase8_get (phase8a_unget (phase8a_get (phase8a_get_many (n + 1) s).2).1
        (phase8a_get (phase8a_get_many (n + 1) s).2).2)
      = phase8a_get (phase8a_get_many (n + 1) s).2 := by
  have hty := phase8a_get_loop_type (phase8a_get_many (n + 1) s).2.fuel (phase8a_get_many (n + 1) s).2
  have hpb1 := phase8a_get_pb6 (phase8a_get_many (n + 1) s).2
  have hpb2 : (phase8a_get_many (n + 1) s).2.phase6_pushback.length ≤ 1 := by
    have a := phase8a_get_pb6 s
    have b := phase8a_get_many_pb6 n (phase8a_get s).2
    simp only [phase8a_get_many]
    omega
  change (phase8a_get _).1.type ≠ _ ∧ (phase8a_get _).1.type ≠ _ at hty
  generalize phase8a_get (phase8a_get_many (n + 1) s).2 = next at hnext hne hty hpb1
  obtain ⟨tk, st⟩ := next
  simp only at hnext hne hty hpb1
  simp only [is_literal_token, Bool.or_eq_false_iff, decide_eq_false_iff_not] at hnext
  have hlen : st.phase6_pushback.length ≠ 2 := by omega
  obtain ⟨fp, pb1, pb2, pb3, ln, lfn, buf, sc, lcl, lncl, nc, pb5, mid, pb6, w, ab, oof⟩ := st
  simp only at hlen
  simp [phase8_get, phase8a_get, phase8a_unget, phase6_unget, hne, hlen, scan_state.fuel,
    phase8a_get_loop, phase6_get, hty.1, hty.2, hnext.1, hnext.2]

/-! ### Scanning `localize ("...")` with the default keyword -/

theorem default_keywords_eq :
    init_keywords keyword_state.initial =
      { extract_all := false,
        arma_keywords := [("localize".toList,
          { keyword := "localize".toList,
            shapes := [{ argnum1 := 1, argnum2 := 0, argtotal := 0 }] })],
        default_keywords := false } := by
  decide

theorem lex_localize (k : keyword_state) (sh : callshapes)
    (hk : k.arma_keywords.lookup "localize".toList = some sh) (X f : List Char) :
    x_arma_lex k
      { fp := 'l' :: 'o' :: 'c' :: 'a' :: 'l' :: 'i' :: 'z' :: 'e' :: ' ' :: X,
        phase1_pushback := [], phase2_pushback := [], phase3_pushback := [],
        line_number := 1, logical_file_name := f, buffer := [], savable_comment := none,
        last_comment_line := -1, last_non_comment_line := -1, newline_count := 0,
        phase5_pushback := [], middle := false, phase6_pushback := [], warnings := [],
        aborted := false, out_of_fuel := false } =
    ({ type := xgettext_token_type_keyword, shapes := some sh,
       string := "localize".toList, comment := none,
       pos := { file_name := f, line_number := 1 } },
     { fp := X, phase1_pushback := [], phase2_pushback := [], phase3_pushback := [' '],
       line_number := 1, logical_file_name := f, buffer := [], savable_comment := none,
       last_comment_line := -1, last_non_comment_line := 0, newline_count := 0,
       phase5_pushback := [], middle := true, phase6_pushback := [], warnings := [],
       aborted := false, out_of_fuel := false }) := by
  have hk2 : List.lookup ['l', 'o', 'c', 'a', 'l', 'i', 'z', 'e'] k.arma_keywords = some sh := hk
  simp [x_arma_lex, phase8_get, phase8a_get, phase8a_get_loop, phase6_get, phase6_get_loop,
    phaseX_get, phase5_get, phase5_get_name, phase4_getc, phase4_ungetc, phase3_ungetc,
    phase3_getc, phase3_getc_loop,
    phase2_getc, phase1_getc, phase1_getc_loop, phase0_getc, getc, scan_state.fuel,
    token_init, is_name_start, is_name_char, c_isdigit, xstrdup, hk2]

theorem lex_space_lparen (k : keyword_state) (X f : List Char) :
    x_arma_lex k
      { fp := '(' :: X, phase1_pushback := [], phase2_pushback := [], phase3_pushback := [' '],
        line_number := 1, logical_file_name := f, buffer := [], savable_comment := none,
        last_comment_line := -1, last_non_comment_line := 0, newline_count := 0,
        phase5_pushback := [], middle := true, phase6_pushback := [], warnings := [],
        aborted := false, out_of_fuel := false } =
    (xgettext_token_of_type xgettext_token_type_lparen,
     { fp := X, phase1_pushback := [], phase2_pushback := [], phase3_pushback := [],
       line_number := 1, logical_file_name := f, buffer := [], savable_comment := none,
       last_comment_line := -1, last_non_comment_line := 0, newline_count := 0,
       phase5_pushback := [], middle := true, phase6_pushback := [], warnings := [],
       aborted := false, out_of_fuel := false }) := by
  simp [x_arma_lex, phase8_get, phase8a_get, phase8a_get_loop, phase6_get, phase6_get_loop,
    phaseX_get, phase5_get, phase5_get_white_space, phase4_getc, phase4_ungetc, phase3_ungetc,
    phase3_getc, phase3_getc_loop,
    phase2_getc, phase1_getc, phase1_getc_loop, phase0_getc, getc, scan_state.fuel,
    token_init, is_name_start, is_name_char, c_isdigit, xstrdup]

theorem lex_quoted_rparen (k : keyword_state) (t f : List Char)
    (ht : ∀ c ∈ t, c ≠ Char.ofNat 0 ∧ c ≠ '\r' ∧ c ≠ '\n') :
    x_arma_lex k
      { fp := '"' :: (quote_doubled '"' t ++ ['"', ')']),
        phase1_pushback := [], phase2_pushback := [], phase3_pushback := [],
        line_number := 1, logical_file_name := f, buffer := [], savable_comment := none,
        last_comment_line := -1, last_non_comment_line := 0, newline_count := 0,
        phase5_pushback := [], middle := true, phase6_pushback := [], warnings := [],
        aborted := false, out_of_fuel := false } =
    ({ type := xgettext_token_type_string_literal, shapes := none, string := t, comment := none,
       pos := { file_name := f, line_number := 1 } },
     { fp := [], phase1_pushback := [], phase2_pushback := [], phase3_pushback := [],
       line_number := 1, logical_file_name := f, buffer := [], savable_comment := none,
       last_comment_line := -1, last_non_comment_line := 0, newline_count := 0,
       phase5_pushback := [], middle := true,
       phase6_pushback := [{ type := token_type_rparen, string := [], comment := none,
                             number := 0, line_number := 1 }],
       warnings := [], aborted := false, out_of_fuel := false }) := by
  have h5 := phase5_get_quoted '"' (Or.inl rfl) t [')'] ht
    { fp := '"' :: (quote_doubled '"' t ++ ['"', ')']),
      phase1_pushback := [], phase2_pushback := [], phase3_pushback := [],
      line_number := 1, logical_file_name := f, buffer := [], savable_comment := none,
      last_comment_line := -1, last_non_comment_line := 0, newline_count := 0,
      phase5_pushback := [], middle := true, phase6_pushback := [], warnings := [],
      aborted := false, out_of_fuel := false } rfl rfl rfl rfl rfl
    (by
      simp [phase3_getc, phase3_getc_loop, phase2_getc, phase1_getc, phase1_getc_loop,
        phase0_getc, getc, scan_state.fuel])
  have hr : phase3_getc
      { fp := [')'], phase1_pushback := [], phase2_pushback := [], phase3_pushback := [],
        line_number := 1, logical_file_name := f, buffer := [], savable_comment := none,
        last_comment_line := -1, last_non_comment_line := 0, newline_count := 0,
        phase5_pushback := [], middle := true, phase6_pushback := [], warnings := [],
        aborted := false, out_of_fuel := false } =
      (some ')',
        { fp := [], phase1_pushback := [], phase2_pushback := [], phase3_pushback := [],
          line_number := 1, logical_file_name := f, buffer := [], savable_comment := none,
          last_comment_line := -1, last_non_comment_line := 0, newline_count := 0,
          phase5_pushback := [], middle := true, phase6_pushback := [], warnings := [],
          aborted := false, out_of_fuel := false }) := by
    simp [phase3_getc, phase3_getc_loop, phase2_getc, phase1_getc, phase1_getc_loop,
      phase0_getc, getc, scan_state.fuel]
  simp only [hr, phase3_ungetc, List.length_nil, OfNat.zero_ne_ofNat, if_false] at h5
  have h8a : phase8a_get
      { fp := '"' :: (quote_doubled '"' t ++ ['"', ')']),
        phase1_pushback := [], phase2_pushback := [], phase3_pushback := [],
        line_number := 1, logical_file_name := f, buffer := [], savable_comment := none,
        last_comment_line := -1, last_non_comment_line := 0, newline_count := 0,
        phase5_pushback := [], middle := true, phase6_pushback := [], warnings := [],
        aborted := false, out_of_fuel := false } =
      ({ type := token_type_string_literal, string := t, comment := none, number := 0,
         line_number := 1 },
        { fp := [], phase1_pushback := [], phase2_pushback := [], phase3_pushback := [')'],
          line_number := 1, logical_file_name := f, buffer := [], savable_comment := none,
          last_comment_line := -1, last_non_comment_line := 0, newline_count := 0,
          phase5_pushback := [], middle := true, phase6_pushback := [], warnings := [],
          aborted := false, out_of_fuel := false }) := by
    simp [phase8a_get, phase8a_get_loop, phase6_get, phase6_get_loop, phaseX_get, h5,
      scan_state.fuel]
  have hR : phase8a_get
      { fp := [], phase1_pushback := [], phase2_pushback := [], phase3_pushback := [')'],
        line_number := 1, logical_file_name := f, buffer := [], savable_comment := none,
        last_comment_line := -1, last_non_comment_line := 0, newline_count := 0,
        phase5_pushback := [], middle := true, phase6_pushback := [], warnings := [],
        aborted := false, out_of_fuel := false } =
      ({ type := token_type_rparen, string := [], comment := none, number := 0,
         line_number := 1 },
        { fp := [], phase1_pushback := [], phase2_pushback := [], phase3_pushback := [],
          line_number := 1, logical_file_name := f, buffer := [], savable_comment := none,
          last_comment_line := -1, last_non_comment_line := 0, newline_count := 0,
          phase5_pushback := [], middle := true, phase6_pushback := [], warnings := [],
          aborted := false, out_of_fuel := false }) := by
    simp [phase8a_get, phase8a_get_loop, phase6_get, phase6_get_loop, phaseX_get, phase5_get,
      phase4_getc, phase3_getc, scan_state.fuel, token_init, is_name_start, c_isdigit]
  unfold x_arma_lex phase8_get
  simp [h8a, hR, phase8_get_loop, scan_state.fuel, phase8a_unget, phase6_unget]

theorem lex_pushed_rparen (k : keyword_state) (f : List Char) :
    x_arma_lex k
      { fp := [], phase1_pushback := [], phase2_pushback := [], phase3_pushback := [],
        line_number := 1, logical_file_name := f, buffer := [], savable_comment := none,
        last_comment_line := -1, last_non_comment_line := 0, newline_count := 0,
        phase5_pushback := [], middle := true,
        phase6_pushback := [{ type := token_type_rparen, string := [], comment := none,
                              number := 0, line_number := 1 }],
        warnings := [], aborted := false, out_of_fuel := false } =
    (xgettext_token_of_type xgettext_token_type_rparen,
     { fp := [], phase1_pushback := [], phase2_pushback := [], phase3_pushback := [],
       line_number := 1, logical_file_name := f, buffer := [], savable_comment := none,
       last_comment_line := -1, last_non_comment_line := 0, newline_count := 0,
       phase5_pushback := [], middle := true, phase6_pushback := [],
       warnings := [], aborted := false, out_of_fuel := false }) := by
  simp [x_arma_lex, phase8_get, phase8a_get, phase8a_get_loop, phase6_get, scan_state.fuel]

theorem lex_end_of_file (k : keyword_state) (f : List Char) :
    x_arma_lex k
      { fp := [], phase1_pushback := [], phase2_pushback := [], phase3_pushback := [],
        line_number := 1, logical_file_name := f, buffer := [], savable_comment := none,
        last_comment_line := -1, last_non_comment_line := 0, newline_count := 0,
        phase5_pushback := [], middle := true, phase6_pushback := [],
        warnings := [], aborted := false, out_of_fuel := false } =
    (xgettext_token_of_type xgettext_token_type_eof,
     { fp := [], phase1_pushback := [], phase2_pushback := [], phase3_pushback := [],
       line_number := 1, logical_file_name := f, buffer := [], savable_comment := none,
       last_comment_line := -1, last_non_comment_line := 0, newline_count := 0,
       phase5_pushback := [], middle := false, phase6_pushback := [],
       warnings := [], aborted := false, out_of_fuel := false }) := by
  simp [x_arma_lex, phase8_get, phase8a_get, phase8a_get_loop, phase6_get, phase6_get_loop,
    phaseX_get, phase5_get, phase4_getc, phase3_getc, phase3_getc_loop, phase2_getc,
    phase1_getc, phase1_getc_loop, phase0_getc, getc, scan_state.fuel, token_init]

theorem epl_keyword (k : keyword_state) (fuel ap : Nat) (arg : Int) (st : Bool)
    (ns : Option callshapes) (s : scan_state) (cs : List extractor_call) (al : Nat) (tok : xgettext_token_ty) (s1 : scan_state)
    (h : x_arma_lex k s = (tok, s1))
    (hty : tok.type = xgettext_token_type_keyword) :
    extract_parenthesized_loop k (fuel + 1) ap arg st ns { scan := s, calls := cs, allocated := al } =
      extract_parenthesized_loop k fuel ap arg true tok.shapes { scan := s1, calls := cs, allocated := al } := by
  rw [extract_parenthesized_loop]
  simp only [h, hty]

theorem epl_lparen (k : keyword_state) (fuel ap : Nat) (arg : Int) (st : Bool)
    (ns : Option callshapes) (s : scan_state) (cs : List extractor_call) (al : Nat) (tok : xgettext_token_ty) (s1 : scan_state)
    (h : x_arma_lex k s = (tok, s1))
    (hty : tok.type = xgettext_token_type_lparen) :
    extract_parenthesized_loop k (fuel + 1) ap arg st ns { scan := s, calls := cs, allocated := al } =
      (if (extract_parenthesized_loop k fuel
            (arglist_parser_alloc (if st then ns else none) { scan := s1, calls := cs, allocated := al }).1 1 false none
            (arglist_parser_alloc (if st then ns else none) { scan := s1, calls := cs, allocated := al }).2).1
        then (true, (extract_parenthesized_loop k fuel
            (arglist_parser_alloc (if st then ns else none) { scan := s1, calls := cs, allocated := al }).1 1 false none
            (arglist_parser_alloc (if st then ns else none) { scan := s1, calls := cs, allocated := al }).2).2.call
              (extractor_call.arglist_parser_done ap arg))
        else extract_parenthesized_loop k fuel ap arg false ns
          (extract_parenthesized_loop k fuel
            (arglist_parser_alloc (if st then ns else none) { scan := s1, calls := cs, allocated := al }).1 1 false none
            (arglist_parser_alloc (if st then ns else none) { scan := s1, calls := cs, allocated := al }).2).2) := by
  rw [extract_parenthesized_loop]
  simp only [h, hty]

theorem epl_rparen (k : keyword_state) (fuel ap : Nat) (arg : Int) (st : Bool)
    (ns : Option callshapes) (s : scan_state) (cs : List extractor_call) (al : Nat) (tok : xgettext_token_ty) (s1 : scan_state)
    (h : x_arma_lex k s = (tok, s1))
    (hty : tok.type = xgettext_token_type_rparen) :
    extract_parenthesized_loop k (fuel + 1) ap arg st ns { scan := s, calls := cs, allocated := al } =
      (false, ({ scan := s1, calls := cs, allocated := al } : extract_state).call
        (extractor_call.arglist_parser_done ap arg)) := by
  rw [extract_parenthesized_loop]
  simp only [h, hty]

theorem epl_eof (k : keyword_state) (fuel ap : Nat) (arg : Int) (st : Bool)
    (ns : Option callshapes) (s : scan_state) (cs : List extractor_call) (al : Nat) (tok : xgettext_token_ty) (s1 : scan_state)
    (h : x_arma_lex k s = (tok, s1))
    (hty : tok.type = xgettext_token_type_eof) :
    extract_parenthesized_loop k (fuel + 1) ap arg st ns { scan := s, calls := cs, allocated := al } =
      (true, ({ scan := s1, calls := cs, allocated := al } : extract_state).call
        (extractor_call.arglist_parser_done ap arg)) := by
  rw [extract_parenthesized_loop]
  simp only [h, hty]

theorem epl_string_plain (k : keyword_state) (fuel ap : Nat) (arg : Int)
    (ns : Option callshapes) (s : scan_state) (cs : List extractor_call) (al : Nat) (tok : xgettext_token_ty) (s1 : scan_state)
    (h : x_arma_lex k s = (tok, s1))
    (hty : tok.type = xgettext_token_type_string_literal) (hx : k.extract_all = false) :
    extract_parenthesized_loop k (fuel + 1) ap arg false ns { scan := s, calls := cs, allocated := al } =
      extract_parenthesized_loop k fuel ap arg false ns
        (({ scan := s1, calls := cs, allocated := al } : extract_state).call
          (extractor_call.arglist_parser_remember_literal ap arg tok.string tok.pos
            tok.comment)) := by
  rw [extract_parenthesized_loop]
  simp only [h, hty, hx]
  rfl

theorem scan_localize_paren_frame (k : keyword_state) (sh : callshapes)
    (hk : k.arma_keywords.lookup "localize".toList = some sh) (hx : k.extract_all = false)
    (t f : List Char) (ht : ∀ c ∈ t, c ≠ Char.ofNat 0 ∧ c ≠ '\r' ∧ c ≠ '\n') (fuel : Nat)
    (cs : List extractor_call) :
    extract_parenthesized_loop k (fuel + 1 + 1 + 1 + 1) 0 1 false none
      { scan := scan_state.initial
          ('l' :: 'o' :: 'c' :: 'a' :: 'l' :: 'i' :: 'z' :: 'e' :: ' ' :: '(' :: '"' ::
            (quote_doubled '"' t ++ ['"', ')'])) f,
        calls := cs, allocated := 1 } =
      (true,
        { scan :=
            { fp := [], phase1_pushback := [], phase2_pushback := [], phase3_pushback := [],
              line_number := 1, logical_file_name := f, buffer := [], savable_comment := none,
              last_comment_line := -1, last_non_comment_line := 0, newline_count := 0,
              phase5_pushback := [], middle := false, phase6_pushback := [],
              warnings := [], aborted := false, out_of_fuel := false },
          allocated := 2,
          calls := cs ++
            [extractor_call.arglist_parser_alloc 1 (some sh),
              extractor_call.arglist_parser_remember_literal 1 1 t
                { file_name := f, line_number := 1 } none,
              extractor_call.arglist_parser_done 1 1,
              extractor_call.arglist_parser_done 0 1] }) := by
  have l1 := lex_localize k sh hk ('(' :: '"' :: (quote_doubled '"' t ++ ['"', ')'])) f
  have l2 := lex_space_lparen k ('"' :: (quote_doubled '"' t ++ ['"', ')'])) f
  have l3 := lex_quoted_rparen k t f ht
  have l4 := lex_pushed_rparen k f
  have l5 := lex_end_of_file k f
  simp only [scan_state.initial]
  rw [epl_keyword k (fuel + 1 + 1 + 1) 0 1 false none _ _ _ _ _ l1 rfl]
  rw [epl_lparen k (fuel + 1 + 1) 0 1 true _ _ _ _ _ _ l2 rfl]
  simp only [arglist_parser_alloc, if_true]
  rw [epl_string_plain k (fuel + 1) 1 1 none _ _ _ _ _ l3 rfl hx]
  simp only [extract_state.call]
  rw [epl_rparen k fuel 1 1 false none _ _ _ _ _ l4 rfl]
  simp only [extract_state.call, Bool.false_eq_true, if_false]
  rw [epl_eof k (fuel + 1) 0 1 false _ _ _ _ _ _ l5 rfl]
  simp only [extract_state.call, List.append_assoc, List.cons_append, List.nil_append]

theorem scan_localize_paren_frame_ge (k : keyword_state) (sh : callshapes)
    (hk : k.arma_keywords.lookup "localize".toList = some sh) (hx : k.extract_all = false)
    (t f : List Char) (ht : ∀ c ∈ t, c ≠ Char.ofNat 0 ∧ c ≠ '\r' ∧ c ≠ '\n') (fuel : Nat)
    (hf : 4 ≤ fuel) (cs : List extractor_call) :
    extract_parenthesized_loop k fuel 0 1 false none
      { scan := scan_state.initial
          ('l' :: 'o' :: 'c' :: 'a' :: 'l' :: 'i' :: 'z' :: 'e' :: ' ' :: '(' :: '"' ::
            (quote_doubled '"' t ++ ['"', ')'])) f,
        calls := cs, allocated := 1 } =
      (true,
        { scan :=
            { fp := [], phase1_pushback := [], phase2_pushback := [], phase3_pushback := [],
              line_number := 1, logical_file_name := f, buffer := [], savable_comment := none,
              last_comment_line := -1, last_non_comment_line := 0, newline_count := 0,
              phase5_pushback := [], middle := false, phase6_pushback := [],
              warnings := [], aborted := false, out_of_fuel := false },
          allocated := 2,
          calls := cs ++
            [extractor_call.arglist_parser_alloc 1 (some sh),
              extractor_call.arglist_parser_remember_literal 1 1 t
                { file_name := f, line_number := 1 } none,
              extractor_call.arglist_parser_done 1 1,
              extractor_call.arglist_parser_done 0 1] }) := by
  obtain ⟨n, rfl⟩ : ∃ n, fuel = n + 1 + 1 + 1 + 1 := ⟨fuel - 4, by omega⟩
  exact scan_localize_paren_frame k sh hk hx t f ht n cs

theorem scan_localize_paren_file (k : keyword_state) (sh : callshapes)
    (hk : k.arma_keywords.lookup "localize".toList = some sh) (hx : k.extract_all = false)
    (t f : List Char) (ht : ∀ c ∈ t, c ≠ Char.ofNat 0 ∧ c ≠ '\r' ∧ c ≠ '\n') (fuel : Nat)
    (hf : 0 < fuel) :
    extract_whole_file_loop k fuel
      { scan := scan_state.initial
          ('l' :: 'o' :: 'c' :: 'a' :: 'l' :: 'i' :: 'z' :: 'e' :: ' ' :: '(' :: '"' ::
            (quote_doubled '"' t ++ ['"', ')'])) f,
        calls := [], allocated := 0 } =
      { scan :=
          { fp := [], phase1_pushback := [], phase2_pushback := [], phase3_pushback := [],
            line_number := 1, logical_file_name := f, buffer := [], savable_comment := none,
            last_comment_line := -1, last_non_comment_line := 0, newline_count := 0,
            phase5_pushback := [], middle := false, phase6_pushback := [],
            warnings := [], aborted := false, out_of_fuel := false },
        allocated := 2,
        calls :=
          [extractor_call.arglist_parser_alloc 0 none,
            extractor_call.arglist_parser_alloc 1 (some sh),
            extractor_call.arglist_parser_remember_literal 1 1 t
              { file_name := f, line_number := 1 } none,
            extractor_call.arglist_parser_done 1 1,
            extractor_call.arglist_parser_done 0 1] } := by
  obtain ⟨n, rfl⟩ : ∃ n, fuel = n + 1 := ⟨fuel - 1, by omega⟩
  rw [extract_whole_file_loop]
  simp only [arglist_parser_alloc, extract_parenthesized, List.nil_append, Nat.zero_add]
  rw [scan_localize_paren_frame_ge k sh hk hx t f ht _ _ _]
  · simp only [if_true, List.cons_append, List.nil_append]
  · simp only [scan_state.initial, scan_state.fuel, List.length_cons]
    omega

theorem scan_localize_paren_default (t f : List Char)
    (ht : ∀ c ∈ t, c ≠ Char.ofNat 0 ∧ c ≠ '\r' ∧ c ≠ '\n') :
    (extract_whole_file keyword_state.initial
      ("localize (\"".toList ++ (quote_doubled '"' t ++ "\")".toList)) f).2 =
      { scan :=
          { fp := [], phase1_pushback := [], phase2_pushback := [], phase3_pushback := [],
            line_number := 1, logical_file_name := f, buffer := [], savable_comment := none,
            last_comment_line := -1, last_non_comment_line := 0, newline_count := 0,
            phase5_pushback := [], middle := false, phase6_pushback := [],
            warnings := [], aborted := false, out_of_fuel := false },
        allocated := 2,
        calls :=
          [extractor_call.arglist_parser_alloc 0 none,
            extractor_call.arglist_parser_alloc 1
              (some { keyword := "localize".toList,
                      shapes := [{ argnum1 := 1, argnum2 := 0, argtotal := 0 }] }),
            extractor_call.arglist_parser_remember_literal 1 1 t
              { file_name := f, line_number := 1 } none,
            extractor_call.arglist_parser_done 1 1,
            extractor_call.arglist_parser_done 0 1] } := by
  have e1 : "localize (\"".toList ++ (quote_doubled '"' t ++ "\")".toList) =
      'l' :: 'o' :: 'c' :: 'a' :: 'l' :: 'i' :: 'z' :: 'e' :: ' ' :: '(' :: '"' ::
        (quote_doubled '"' t ++ ['"', ')']) := rfl
  have hk : (init_keywords keyword_state.initial).arma_keywords.lookup "localize".toList =
      some { keyword := "localize".toList,
             shapes := [{ argnum1 := 1, argnum2 := 0, argtotal := 0 }] } := by decide
  have hx : (init_keywords keyword_state.initial).extract_all = false := by decide
  rw [e1]
  simp only [extract_whole_file]
  rw [scan_localize_paren_file (init_keywords keyword_state.initial) _ hk hx t f ht _ _]
  simp only [scan_state.fuel]
  omega

theorem message_sink_one_call (t f : List Char) (sh : callshape) (kw : List Char)
    (h1 : sh.argnum1 = 1) (h0 : sh.argtotal = 0) :
    message_sink
      [extractor_call.arglist_parser_alloc 0 none,
        extractor_call.arglist_parser_alloc 1 (some { keyword := kw, shapes := [sh] }),
        extractor_call.arglist_parser_remember_literal 1 1 t
          { file_name := f, line_number := 1 } none,
        extractor_call.arglist_parser_done 1 1,
        extractor_call.arglist_parser_done 0 1] [] =
      [{ msgid := t, pos := { file_name := f, line_number := 1 }, comment := none }] := by
  simp [message_sink, arglist_binding.forwarded, h1, h0]

/-! ### The claims on the tokenizer -/

/-- C7 (as amended): for a quote character `q` and a text `t` without NUL, CR
and LF, in a state with empty character and token pushback whose input is
`q`, `t` with every `q` doubled, `q` and then `rest`, the tokenizer yields the
string literal with text `t`, provided the character that the line-splicing
layer delivers after the closing quote is not `q`. -/
theorem C7_quoted_string_decodes (q : Char) (hq : q = '"' ∨ q = '\'') (t rest : List Char)
    (ht : ∀ c ∈ t, c ≠ Char.ofNat 0 ∧ c ≠ '\r' ∧ c ≠ '\n') (s : scan_state)
    (h1 : s.phase1_pushback = []) (h2 : s.phase2_pushback = []) (h3 : s.phase3_pushback = [])
    (h5 : s.phase5_pushback = [])
    (hfp : s.fp = q :: (quote_doubled q t ++ q :: rest))
    (hnext : (phase3_getc { s with fp := rest }).1 ≠ some q) :
    (phase5_get s).1.type = token_type_string_literal ∧ (phase5_get s).1.string = t := by
  rw [phase5_get_quoted q hq t rest ht s h1 h2 h3 h5 hfp hnext]
  exact ⟨rfl, rfl⟩

theorem C7_quoted_string_decodes_witness :
    ((phase5_get (scan_state.initial "'it''s'".toList [])).1.type = token_type_string_literal ∧
      (phase5_get (scan_state.initial "'it''s'".toList [])).1.string = "it's".toList) ∧
    ((phase5_get (scan_state.initial "\"she said \"\"hi\"\"\" x".toList [])).1.type
        = token_type_string_literal ∧
      (phase5_get (scan_state.initial "\"she said \"\"hi\"\"\" x".toList [])).1.string
        = "she said \"hi\"".toList) :=
  ⟨C7_quoted_string_decodes '\'' (Or.inr rfl) "it's".toList [] (by decide)
      (scan_state.initial "'it''s'".toList []) rfl rfl rfl rfl (by decide) (by decide),
    C7_quoted_string_decodes '"' (Or.inl rfl) "she said \"hi\"".toList " x".toList (by decide)
      (scan_state.initial "\"she said \"\"hi\"\"\" x".toList []) rfl rfl rfl rfl (by decide)
      (by decide)⟩

/-- C7, counterexample: the quoted text `'a'` followed by a backslash (a
character other than the quote), a line feed and `'b'` is tokenized as one
string literal with text `a'b`, not `a`: the backslash-newline is spliced
away and the two quotes around it count as a doubled quote. -/
theorem C7_counterexample :
    ("'a'\\\n'b'".toList = '\'' :: (quote_doubled '\'' ['a'] ++ '\'' :: "\\\n'b'".toList)) ∧
    ("\\\n'b'".toList.head? = some '\\') ∧
    (phase5_get (scan_state.initial "'a'\\\n'b'".toList [])).1.type = token_type_string_literal ∧
    (phase5_get (scan_state.initial "'a'\\\n'b'".toList [])).1.string = "a'b".toList ∧
    (phase5_get (scan_state.initial "'a'\\\n'b'".toList [])).1.string ≠ ['a'] := by
  decide

/-- C9: in a state with empty character and token pushback whose input is `$`,
an identifier (a letter or underscore `c`, then letters, digits and underscores
`cs`) and then `rest`, where the next character delivered after the
identifier is not an identifier character, the tokenizer yields a tagged
literal whose text is the identifier, with its first three characters replaced
by lower-case `str` when the identifier has at least three characters and they
are `str` in any case. -/
theorem C9_tagged_literal_text (c : Char) (cs rest : List Char) (hc : is_name_start c = true)
    (hcs : ∀ x ∈ cs, is_name_char x = true) (s : scan_state)
    (h1 : s.phase1_pushback = []) (h2 : s.phase2_pushback = []) (h3 : s.phase3_pushback = [])
    (h5 : s.phase5_pushback = [])
    (hfp : s.fp = '$' :: (c :: cs ++ rest))
    (hnext : (match (phase4_getc { s with fp := rest }).1 with
        | some x => is_name_char x
        | none => false) = false) :
    (phase5_get s).1.type = token_type_dollar_literal ∧
    (phase5_get s).1.string =
      (if (c :: cs).length ≥ 3 ∧ ((c :: cs).take 3).map c_tolower = ['s', 't', 'r'] then
        ['s', 't', 'r'] ++ (c :: cs).drop 3
       else c :: cs) := by
  rw [phase5_get_tagged c cs rest hc hcs s h1 h2 h3 h5 hfp hnext]
  exact ⟨rfl, rfl⟩

theorem C9_tagged_literal_text_witness :
    ((phase5_get (scan_state.initial "$STR_foo_bar".toList [])).1.type = token_type_dollar_literal ∧
      (phase5_get (scan_state.initial "$STR_foo_bar".toList [])).1.string = "str_foo_bar".toList) ∧
    ((phase5_get (scan_state.initial "$Str_Foo_Bar".toList [])).1.type = token_type_dollar_literal ∧
      (phase5_get (scan_state.initial "$Str_Foo_Bar".toList [])).1.string = "str_Foo_Bar".toList) ∧
    ((phase5_get (scan_state.initial "$my_Tag".toList [])).1.type = token_type_dollar_literal ∧
      (phase5_get (scan_state.initial "$my_Tag".toList [])).1.string = "my_Tag".toList) :=
  ⟨C9_tagged_literal_text 'S' "TR_foo_bar".toList [] (by decide) (by decide)
      (scan_state.initial "$STR_foo_bar".toList []) rfl rfl rfl rfl (by decide) (by decide),
    C9_tagged_literal_text 'S' "tr_Foo_Bar".toList [] (by decide) (by decide)
      (scan_state.initial "$Str_Foo_Bar".toList []) rfl rfl rfl rfl (by decide) (by decide),
    C9_tagged_literal_text 'm' "y_Tag".toList [] (by decide) (by decide)
      (scan_state.initial "$my_Tag".toList []) rfl rfl rfl rfl (by decide) (by decide)⟩

/-- C8: when `n + 1` successive tokens delivered by the layer that drops white
space and line ends are string literals or explicit newlines (with NUL-free
texts) and the token after them is of another kind, the literal concatenator
delivers one string-literal token, the first token with the concatenation of
the `n + 1` texts as its text, and pushes the following token back; when that
token is not end-of-file the next call delivers it unchanged.  An
explicit-newline token made by the tokenizer has the text of one newline. -/
theorem C8_literal_concatenation (s : scan_state) (n : Nat)
    (hlit : ∀ t ∈ (phase8a_get_many (n + 1) s).1, is_literal_token t = true)
    (hnul : ∀ t ∈ (phase8a_get_many (n + 1) s).1, ∀ c ∈ t.string, c ≠ Char.ofNat 0)
    (hnext : is_literal_token (phase8a_get (phase8a_get_many (n + 1) s).2).1 = false)
    (hroom : s.phase6_pushback.length ≤ 2) :
    phase8_get s =
      ({ (phase8a_get s).1 with
          type := token_type_string_literal,
          string := ((phase8a_get_many (n + 1) s).1.map (fun t => t.string)).flatten },
        phase8a_unget (phase8a_get (phase8a_get_many (n + 1) s).2).1
          (phase8a_get (phase8a_get_many (n + 1) s).2).2) ∧
    ((phase8a_get (phase8a_get_many (n + 1) s).2).1.type ≠ token_type_eof →
      phase8_get (phase8a_unget (phase8a_get (phase8a_get_many (n + 1) s).2).1
          (phase8a_get (phase8a_get_many (n + 1) s).2).2)
        = phase8a_get (phase8a_get_many (n + 1) s).2) ∧
    (∀ s1 : scan_state, s1.phase5_pushback = [] →
      (phase5_get s1).1.type = token_type_eoln_explicit → (phase5_get s1).1.string = ['\n']) :=
  ⟨phase8_get_concat s n hlit hnul hnext,
    fun hne => phase8_get_after_unget s n hnext hne hroom,
    phase5_get_eoln_explicit⟩

theorem C8_literal_concatenation_witness :
    (∀ t ∈ (phase8a_get_many 3 (scan_state.initial "\"a\" \\n \"b\" foo".toList [])).1,
      is_literal_token t = true) ∧
    (is_literal_token (phase8a_get
      (phase8a_get_many 3 (scan_state.initial "\"a\" \\n \"b\" foo".toList [])).2).1 = false) ∧
    (phase8_get (scan_state.initial "\"a\" \\n \"b\" foo".toList [])).1
      = { type := token_type_string_literal, string := ['a', '\n', 'b'], comment := none,
          number := 0, line_number := 1 } ∧
    (phase8_get (phase8_get (scan_state.initial "\"a\" \\n \"b\" foo".toList [])).2).1
      = { type := token_type_name, string := "foo".toList, comment := none,
          number := 0, line_number := 1 } := by
  have h := C8_literal_concatenation (scan_state.initial "\"a\" \\n \"b\" foo".toList []) 2
    (by decide) (by decide) (by decide) (by decide)
  refine ⟨by decide, by decide, ?_, ?_⟩
  · rw [h.1]
    decide
  · rw [h.1, h.2.1 (by decide)]
    decide

/-! ### The claims on the call extractor -/

/-- C3: with extract-all off, when the lexer delivers a keyword token and then a
string-literal token, the extractor, whatever the frame's accumulator,
argument index, state and pending call shape, makes exactly three calls: it
allocates a new accumulator with the keyword's call shapes, binds the literal
to it as argument 1 and completes it with argument count 1.  It then goes on
in the same frame with the same accumulator and argument index; no call goes
to the frame's accumulator. -/
theorem C3_string_literal_after_keyword (k : keyword_state)
    (hall : k.extract_all = false) (fuel argparser : Nat) (arg : Int) (state : Bool)
    (next_shapes : Option callshapes) (e : extract_state)
    (hkw : (x_arma_lex k e.scan).1.type = xgettext_token_type_keyword)
    (hlit : (x_arma_lex k (x_arma_lex k e.scan).2).1.type = xgettext_token_type_string_literal) :
    extract_parenthesized_loop k (fuel + 2) argparser arg state next_shapes e =
      extract_parenthesized_loop k fuel argparser arg false (x_arma_lex k e.scan).1.shapes
        { scan := (x_arma_lex k (x_arma_lex k e.scan).2).2,
          calls := e.calls ++
            [extractor_call.arglist_parser_alloc e.allocated (x_arma_lex k e.scan).1.shapes,
              extractor_call.arglist_parser_remember e.allocated 1
                (x_arma_lex k (x_arma_lex k e.scan).2).1.string
                (x_arma_lex k (x_arma_lex k e.scan).2).1.pos
                (x_arma_lex k (x_arma_lex k e.scan).2).1.comment,
              extractor_call.arglist_parser_done e.allocated 1],
          allocated := e.allocated + 1 } := by
  rw [extract_parenthesized_loop]
  simp only [hkw]
  rw [extract_parenthesized_loop]
  simp only [hlit, hall, Bool.false_eq_true, if_false, if_true, arglist_parser_alloc,
    extract_state.call, List.append_assoc, List.cons_append, List.nil_append]

theorem C3_string_literal_after_keyword_witness :
    (init_keywords keyword_state.initial).extract_all = false ∧
    (x_arma_lex (init_keywords keyword_state.initial)
      (scan_state.initial "localize \"hello\"".toList [])).1.type = xgettext_token_type_keyword ∧
    (x_arma_lex (init_keywords keyword_state.initial)
      (x_arma_lex (init_keywords keyword_state.initial)
        (scan_state.initial "localize \"hello\"".toList [])).2).1.type
      = xgettext_token_type_string_literal ∧
    (extract_parenthesized_loop (init_keywords keyword_state.initial) 3 0 7 false none
      { scan := scan_state.initial "localize \"hello\"".toList [], calls := [],
        allocated := 1 }).2.calls =
      [extractor_call.arglist_parser_alloc 1
          (some { keyword := "localize".toList,
                  shapes := [{ argnum1 := 1, argnum2 := 0, argtotal := 0 }] }),
        extractor_call.arglist_parser_remember 1 1 "hello".toList
          { file_name := [], line_number := 1 } none,
        extractor_call.arglist_parser_done 1 1,
        extractor_call.arglist_parser_done 0 7] := by
  refine ⟨by decide, by decide, by decide, ?_⟩
  rw [C3_string_literal_after_keyword (init_keywords keyword_state.initial) (by decide) 1 0 7
    false none _ (by decide) (by decide)]
  decide

/-- C4: when the lexer delivers a tagged-literal token, the extractor, whatever
the keyword set and extract-all setting, the frame's accumulator, argument
index, state and pending call shape, makes exactly one call, of the message
sink, with the text, position and comment of the token, and goes on in the
same frame; and the lexer passes the text of a tagged literal on unchanged. -/
theorem C4_tagged_literal_forwarded :
    (∀ (k : keyword_state) (fuel argparser : Nat) (arg : Int) (state : Bool)
      (next_shapes : Option callshapes) (e : extract_state),
      (x_arma_lex k e.scan).1.type = xgettext_token_type_dollar_literal →
      extract_parenthesized_loop k (fuel + 1) argparser arg state next_shapes e =
        extract_parenthesized_loop k fuel argparser arg false next_shapes
          { scan := (x_arma_lex k e.scan).2,
            calls := e.calls ++
              [extractor_call.remember_a_message (x_arma_lex k e.scan).1.string
                (x_arma_lex k e.scan).1.pos (x_arma_lex k e.scan).1.comment],
            allocated := e.allocated }) ∧
    (∀ (k : keyword_state) (s : scan_state),
      (phase8_get s).1.type = token_type_dollar_literal →
      (x_arma_lex k s).1.type = xgettext_token_type_dollar_literal ∧
        (x_arma_lex k s).1.string = (phase8_get s).1.string) ∧
    (∀ (k : keyword_state) (s : scan_state),
      (x_arma_lex k s).1.type = xgettext_token_type_dollar_literal →
      (phase8_get s).1.type = token_type_dollar_literal) := by
  refine ⟨?_, ?_, ?_⟩
  · intro k fuel argparser arg state next_shapes e hdollar
    rw [extract_parenthesized_loop]
    simp only [hdollar, extract_state.call]
  · intro k s h
    unfold x_arma_lex
    simp only [h]
    trivial
  · intro k s
    unfold x_arma_lex
    dsimp only
    split <;> (try split) <;> intro h <;>
      first
      | assumption
      | (dsimp only [xgettext_token_of_type] at h; cases h)

theorem C4_tagged_literal_forwarded_witness :
    sink_calls (extract_whole_file keyword_state.initial
        "foo($STR_a, [bar $str_b, localize $Str_c])".toList []).2.calls =
      [extractor_call.remember_a_message "str_a".toList { file_name := [], line_number := 1 } none,
        extractor_call.remember_a_message "str_b".toList { file_name := [], line_number := 1 } none,
        extractor_call.remember_a_message "str_c".toList { file_name := [], line_number := 1 } none] ∧
    sink_calls (extract_whole_file (x_arma_extract_all keyword_state.initial)
        "foo($STR_a, [bar $str_b, localize $Str_c])".toList []).2.calls =
      [extractor_call.remember_a_message "str_a".toList { file_name := [], line_number := 1 } none,
        extractor_call.remember_a_message "str_b".toList { file_name := [], line_number := 1 } none,
        extractor_call.remember_a_message "str_c".toList { file_name := [], line_number := 1 } none] ∧
    (extract_parenthesized_loop keyword_state.initial 1 0 5 true none
      { scan := scan_state.initial "$STR_a".toList [], calls := [], allocated := 1 }).2.calls =
      [extractor_call.remember_a_message "str_a".toList
        { file_name := [], line_number := 1 } none] := by
  refine ⟨by decide, by decide, ?_⟩
  rw [C4_tagged_literal_forwarded.1 keyword_state.initial 0 0 5 true none _ (by decide)]
  decide

/-- C10: a closing parenthesis or bracket ends the current frame with the result
false (more input remains), also in the frame of the top-level driver; the
driver then calls the extractor again on the rest of the input and stops only
when the extractor reports end-of-file.  With `foo` and `bar` keywords whose
argument 1 is message-bearing, the source `foo("a"))` followed by `bar("b")`
hands both `a` and `b` to the message sink. -/
theorem C10_unbalanced_close_restarts :
    (∀ (k : keyword_state) (fuel argparser : Nat) (arg : Int) (state : Bool)
      (next_shapes : Option callshapes) (e : extract_state),
      ((x_arma_lex k e.scan).1.type = xgettext_token_type_rparen ∨
        (x_arma_lex k e.scan).1.type = xgettext_token_type_rsqbr) →
      extract_parenthesized_loop k (fuel + 1) argparser arg state next_shapes e =
        (false, { scan := (x_arma_lex k e.scan).2,
                  calls := e.calls ++ [extractor_call.arglist_parser_done argparser arg],
                  allocated := e.allocated })) ∧
    (∀ (k : keyword_state) (fuel : Nat) (e : extract_state),
      (extract_parenthesized k (arglist_parser_alloc none e).2.scan.fuel
        (arglist_parser_alloc none e).1 (arglist_parser_alloc none e).2).1 = false →
      extract_whole_file_loop k (fuel + 1) e =
        extract_whole_file_loop k fuel
          (extract_parenthesized k (arglist_parser_alloc none e).2.scan.fuel
            (arglist_parser_alloc none e).1 (arglist_parser_alloc none e).2).2) ∧
    (∀ (k : keyword_state) (fuel : Nat) (e : extract_state),
      (extract_parenthesized k (arglist_parser_alloc none e).2.scan.fuel
        (arglist_parser_alloc none e).1 (arglist_parser_alloc none e).2).1 = true →
      extract_whole_file_loop k (fuel + 1) e =
        (extract_parenthesized k (arglist_parser_alloc none e).2.scan.fuel
          (arglist_parser_alloc none e).1 (arglist_parser_alloc none e).2).2) ∧
    extracted_texts keywords_foo_bar "foo(\"a\"))bar(\"b\")".toList = ["a".toList, "b".toList] ∧
    extracted_texts keywords_foo_bar "foo(\"a\"))\nbar(\"b\")".toList = ["a".toList, "b".toList] ∧
    extracted_texts keywords_foo_bar "foo(\"a\")]\nbar(\"b\")".toList = ["a".toList, "b".toList] ∧
    (extract_whole_file keywords_foo_bar "foo(\"a\"))\nbar(\"b\")".toList []).2.scan.fp = [] ∧
    (extract_whole_file keywords_foo_bar "foo(\"a\"))\nbar(\"b\")".toList []).2.scan.out_of_fuel
      = false := by
  refine ⟨?_, ?_, ?_, by decide, by decide, by decide, by decide, by decide⟩
  · intro k fuel argparser arg state next_shapes e h
    rw [extract_parenthesized_loop]
    rcases h with h | h <;> simp only [h, extract_state.call]
  · intro k fuel e h
    rw [extract_whole_file_loop]
    simp only [h, Bool.false_eq_true, if_false]
  · intro k fuel e h
    rw [extract_whole_file_loop]
    simp only [h, if_true]

theorem C10_unbalanced_close_restarts_witness :
    (x_arma_lex keywords_foo_bar
      (scan_state.initial ")bar(\"b\")".toList [])).1.type = xgettext_token_type_rparen ∧
    (extract_parenthesized_loop keywords_foo_bar 1 0 1 false none
      { scan := scan_state.initial ")bar(\"b\")".toList [], calls := [], allocated := 1 }).1
      = false ∧
    (extract_parenthesized_loop keywords_foo_bar 1 0 1 false none
      { scan := scan_state.initial ")bar(\"b\")".toList [], calls := [], allocated := 1 }).2.calls
      = [extractor_call.arglist_parser_done 0 1] := by
  refine ⟨by decide, ?_, ?_⟩
  · rw [C10_unbalanced_close_restarts.1 keywords_foo_bar 0 0 1 false none _ (Or.inl (by decide))]
  · rw [C10_unbalanced_close_restarts.1 keywords_foo_bar 0 0 1 false none _ (Or.inl (by decide))]
    rfl

/-! ### The default keyword -/

/-- C2: with no keyword configured and the default keywords enabled, scanning
`localize ("hello")` hands exactly one message to the message sink, with the
text `hello`; in general, for every text `t` without NUL, CR and LF, scanning
`localize ("…")` whose string literal denotes `t` (quotes of `t` doubled in the
source) hands exactly the one message `t`, at line 1, to the sink, the scan
consumes the whole file and ends within its fuel. -/
theorem C2_default_keyword_localize :
    extracted_messages keyword_state.initial "localize (\"hello\")".toList "f".toList =
      [{ msgid := "hello".toList, pos := { file_name := "f".toList, line_number := 1 },
         comment := none }] ∧
    ∀ t f : List Char, (∀ c ∈ t, c ≠ Char.ofNat 0 ∧ c ≠ '\r' ∧ c ≠ '\n') →
      extracted_messages keyword_state.initial
          ("localize (\"".toList ++ (quote_doubled '"' t ++ "\")".toList)) f =
        [{ msgid := t, pos := { file_name := f, line_number := 1 }, comment := none }] ∧
      (extract_whole_file keyword_state.initial
          ("localize (\"".toList ++ (quote_doubled '"' t ++ "\")".toList)) f).2.scan.fp = [] ∧
      (extract_whole_file keyword_state.initial
          ("localize (\"".toList ++ (quote_doubled '"' t ++ "\")".toList)) f).2.scan.out_of_fuel
        = false := by
  refine ⟨by decide, ?_⟩
  intro t f ht
  unfold extracted_messages
  rw [scan_localize_paren_default t f ht]
  exact ⟨message_sink_one_call t f _ _ rfl rfl, rfl, rfl⟩

theorem C2_default_keyword_localize_witness :
    (∀ c ∈ "say \"hi\"".toList, c ≠ Char.ofNat 0 ∧ c ≠ '\r' ∧ c ≠ '\n') ∧
    extracted_messages keyword_state.initial "localize (\"say \"\"hi\"\"\")".toList
        "a.sqf".toList =
      [{ msgid := "say \"hi\"".toList, pos := { file_name := "a.sqf".toList, line_number := 1 },
         comment := none }] :=
  ⟨by decide, (C2_default_keyword_localize.2 "say \"hi\"".toList "a.sqf".toList (by decide)).1⟩

/-! ### Nested groups -/

/-- C11 (as amended): scanning `foo(bar(baz("x")), "y")`, where `bar` and `baz`
are no keywords and `foo` is a keyword, binds `x` as argument 1 of the
accumulator of the innermost group, which has no call shape, and `y` as
argument 2 of the accumulator of the group of `foo`, which has the call shape
of `foo`.  When that call shape marks argument 2 as message-bearing the scan
hands exactly `y` to the message sink; when it marks argument 1, or any
argument other than 2, it hands nothing to the sink. -/
theorem C11_nested_groups :
    (extract_whole_file keywords_foo_2 "foo(bar(baz(\"x\")), \"y\")".toList []).2.calls =
      [extractor_call.arglist_parser_alloc 0 none,
        extractor_call.arglist_parser_alloc 1
          (some { keyword := "foo".toList,
                  shapes := [{ argnum1 := 2, argnum2 := 0, argtotal := 0 }] }),
        extractor_call.arglist_parser_alloc 2 none,
        extractor_call.arglist_parser_alloc 3 none,
        extractor_call.arglist_parser_remember_literal 3 1 "x".toList
          { file_name := [], line_number := 1 } none,
        extractor_call.arglist_parser_done 3 1,
        extractor_call.arglist_parser_done 2 1,
        extractor_call.arglist_parser_remember_literal 1 2 "y".toList
          { file_name := [], line_number := 1 } none,
        extractor_call.arglist_parser_done 1 2,
        extractor_call.arglist_parser_done 0 1] ∧
    extracted_texts keywords_foo_2 "foo(bar(baz(\"x\")), \"y\")".toList = ["y".toList] ∧
    (extract_whole_file keywords_foo "foo(bar(baz(\"x\")), \"y\")".toList []).2.calls =
      [extractor_call.arglist_parser_alloc 0 none,
        extractor_call.arglist_parser_alloc 1
          (some { keyword := "foo".toList,
                  shapes := [{ argnum1 := 1, argnum2 := 0, argtotal := 0 }] }),
        extractor_call.arglist_parser_alloc 2 none,
        extractor_call.arglist_parser_alloc 3 none,
        extractor_call.arglist_parser_remember_literal 3 1 "x".toList
          { file_name := [], line_number := 1 } none,
        extractor_call.arglist_parser_done 3 1,
        extractor_call.arglist_parser_done 2 1,
        extractor_call.arglist_parser_remember_literal 1 2 "y".toList
          { file_name := [], line_number := 1 } none,
        extractor_call.arglist_parser_done 1 2,
        extractor_call.arglist_parser_done 0 1] ∧
    extracted_texts keywords_foo "foo(bar(baz(\"x\")), \"y\")".toList = [] ∧
    (extract_whole_file keywords_foo_2
      "foo(bar(baz(\"x\")), \"y\")".toList []).2.scan.out_of_fuel = false ∧
    (∀ n : Nat,
      message_sink
        [extractor_call.arglist_parser_alloc 0 none,
          extractor_call.arglist_parser_alloc 1
            (some { keyword := "foo".toList,
                    shapes := [{ argnum1 := n, argnum2 := 0, argtotal := 0 }] }),
          extractor_call.arglist_parser_alloc 2 none,
          extractor_call.arglist_parser_alloc 3 none,
          extractor_call.arglist_parser_remember_literal 3 1 "x".toList
            { file_name := [], line_number := 1 } none,
          extractor_call.arglist_parser_done 3 1,
          extractor_call.arglist_parser_done 2 1,
          extractor_call.arglist_parser_remember_literal 1 2 "y".toList
            { file_name := [], line_number := 1 } none,
          extractor_call.arglist_parser_done 1 2,
          extractor_call.arglist_parser_done 0 1] [] =
        if n = 2 then
          [{ msgid := "y".toList, pos := { file_name := [], line_number := 1 }, comment := none }]
        else []) := by
  refine ⟨by decide, by decide, by decide, by decide, by decide, ?_⟩
  intro n
  by_cases h : n = 2
  · subst h
    decide
  · have h2 : ¬ ((2 : Int) = (n : Int)) := by
      intro e
      exact h (by exact_mod_cast e.symm)
    simp [message_sink, arglist_binding.forwarded, h, h2]

/-- C11, counterexample: with `foo` a keyword whose call shape marks argument 1
as message-bearing and `bar`, `baz` no keywords, the scan of
`foo(bar(baz("x")), "y")` does not hand `y` to the message sink. -/
theorem C11_counterexample :
    (init_keywords keywords_foo).arma_keywords.lookup "foo".toList =
      some { keyword := "foo".toList,
             shapes := [{ argnum1 := 1, argnum2 := 0, argtotal := 0 }] } ∧
    (init_keywords keywords_foo).arma_keywords.lookup "bar".toList = none ∧
    (init_keywords keywords_foo).arma_keywords.lookup "baz".toList = none ∧
    "y".toList ∉ extracted_texts keywords_foo "foo(bar(baz(\"x\")), \"y\")".toList := by
  decide

/-! ### Extract-all mode -/

/-- C15: in extract-all mode, when the lexer delivers a string-literal token, the
extractor, whatever the frame's accumulator, argument index, state and pending
call shape, makes exactly one call, of the message sink, with the text of the
token (the characters of its C string), its position and its comment, and
goes on in the same frame; no call goes to an accumulator.
`x_arma_extract_all` switches the mode on and `init_keywords` keeps it. -/
theorem C15_extract_all_string_literal :
    (∀ (k : keyword_state) (fuel argparser : Nat) (arg : Int) (state : Bool)
      (next_shapes : Option callshapes) (e : extract_state),
      k.extract_all = true →
      (x_arma_lex k e.scan).1.type = xgettext_token_type_string_literal →
      extract_parenthesized_loop k (fuel + 1) argparser arg state next_shapes e =
        extract_parenthesized_loop k fuel argparser arg false next_shapes
          { scan := (x_arma_lex k e.scan).2,
            calls := e.calls ++
              [extractor_call.remember_a_message
                (literalstring_parse (x_arma_lex k e.scan).1.string)
                (x_arma_lex k e.scan).1.pos (x_arma_lex k e.scan).1.comment],
            allocated := e.allocated }) ∧
    (∀ string : List Char, Char.ofNat 0 ∉ string → literalstring_parse string = string) ∧
    (∀ k : keyword_state, (x_arma_extract_all k).extract_all = true ∧
      (init_keywords (x_arma_extract_all k)).extract_all = true) := by
  refine ⟨?_, ?_, ?_⟩
  · intro k fuel argparser arg state next_shapes e hall hlit
    rw [extract_parenthesized_loop]
    simp only [hlit, hall, if_true, extract_state.call]
  · intro string h
    unfold literalstring_parse
    exact xstrdup_eq_self string (fun c hc hz => h (hz ▸ hc))
  · intro k
    refine ⟨rfl, ?_⟩
    unfold init_keywords x_arma_extract_all x_arma_keyword add_keyword
    dsimp only
    split <;> rfl

theorem C15_extract_all_string_literal_witness :
    (extract_whole_file (x_arma_extract_all keywords_foo)
        "foo(\"a\", bar \"b\") \"c\" localize \"d\"".toList []).2.calls =
      [extractor_call.arglist_parser_alloc 0 none,
        extractor_call.arglist_parser_alloc 1
          (some { keyword := "foo".toList,
                  shapes := [{ argnum1 := 1, argnum2 := 0, argtotal := 0 }] }),
        extractor_call.remember_a_message "a".toList { file_name := [], line_number := 1 } none,
        extractor_call.remember_a_message "b".toList { file_name := [], line_number := 1 } none,
        extractor_call.arglist_parser_done 1 2,
        extractor_call.remember_a_message "c".toList { file_name := [], line_number := 1 } none,
        extractor_call.remember_a_message "d".toList { file_name := [], line_number := 1 } none,
        extractor_call.arglist_parser_done 0 1] ∧
    (extract_parenthesized_loop (x_arma_extract_all keyword_state.initial) 1 0 5 true none
      { scan := scan_state.initial "'it''s'".toList [], calls := [], allocated := 1 }).2.calls =
      [extractor_call.remember_a_message "it's".toList
        { file_name := [], line_number := 1 } none] := by
  refine ⟨by decide, ?_⟩
  rw [C15_extract_all_string_literal.1 (x_arma_extract_all keyword_state.initial) 0 0 5 true
    none _ rfl (by decide)]
  decide

/-! ### Line-ending unification -/

theorem unify_cr_lf (rest : List Char) :
    unify_line_endings ('\r' :: '\n' :: rest) = '\n' :: unify_line_endings rest := by
  simp [unify_line_endings]

theorem unify_cr_nil : unify_line_endings ['\r'] = ['\n'] := by
  simp [unify_line_endings]

theorem unify_cr_other (c1 : Char) (rest : List Char) (h : c1 ≠ '\n') :
    unify_line_endings ('\r' :: c1 :: rest) = '\n' :: unify_line_endings (c1 :: rest) := by
  simp [unify_line_endings, h]

theorem unify_other (c : Char) (rest : List Char) (h : c ≠ '\r') :
    unify_line_endings (c :: rest) = c :: unify_line_endings rest := by
  cases rest with
  | nil => simp [unify_line_endings, h]
  | cons c1 rest => simp [unify_line_endings, h]

/-- One call of `phase0_getc` delivers the first character of the unified rest
of the input and leaves the input whose unification is the rest of that. -/
theorem phase0_getc_unify (s : scan_state) :
    (s.fp = [] ∧ phase0_getc s = (none, s)) ∨
    (∃ c fp1, phase0_getc s = (some c, { s with fp := fp1 }) ∧
      unify_line_endings s.fp = c :: unify_line_endings fp1 ∧
      fp1.length < s.fp.length ∧ c ≠ '\r') := by
  obtain ⟨fp, pb1, pb2, pb3, ln, lfn, buf, sc, lcl, lncl, nc, pb5, mid, pb6, w, ab, oof⟩ := s
  cases fp with
  | nil => exact Or.inl ⟨rfl, rfl⟩
  | cons c rest =>
    right
    by_cases hr : c = '\r'
    · subst hr
      cases rest with
      | nil =>
        exact ⟨'\n', [], by simp [phase0_getc, getc], by simp [unify_cr_nil, unify_line_endings],
          by simp, by decide⟩
      | cons c1 rest1 =>
        by_cases hn : c1 = '\n'
        · subst hn
          exact ⟨'\n', rest1, by simp [phase0_getc, getc], unify_cr_lf rest1,
            by simp only [List.length_cons]; omega, by decide⟩
        · exact ⟨'\n', c1 :: rest1, by simp [phase0_getc, getc, ungetc, hn],
            unify_cr_other c1 rest1 hn, by simp, by decide⟩
    · exact ⟨c, rest, by simp [phase0_getc, getc, hr], unify_other c rest hr, by simp, hr⟩

theorem phase0_stream_unify : ∀ (fuel : Nat) (s : scan_state), s.fp.length < fuel →
    phase0_stream fuel s = unify_line_endings s.fp := by
  intro fuel
  induction fuel with
  | zero => intro s h; omega
  | succ fuel ih =>
    intro s h
    rcases phase0_getc_unify s with ⟨h1, h2⟩ | ⟨c, fp1, h1, h2, h3, _⟩
    · rw [phase0_stream, h2, h1]
      rfl
    · rw [phase0_stream, h1, h2]
      dsimp only
      rw [ih _ (by dsimp only; omega)]

theorem unify_no_cr : ∀ (n : Nat) (f : List Char), f.length ≤ n → '\r' ∉ unify_line_endings f := by
  intro n
  induction n with
  | zero =>
    intro f h
    have : f = [] := List.length_eq_zero.mp (by omega)
    subst this
    simp [unify_line_endings]
  | succ n ih =>
    intro f h
    cases f with
    | nil => simp [unify_line_endings]
    | cons c rest =>
      simp only [List.length_cons] at h
      by_cases hr : c = '\r'
      · subst hr
        cases rest with
        | nil => rw [unify_cr_nil]; decide
        | cons c1 rest1 =>
          simp only [List.length_cons] at h
          by_cases hn : c1 = '\n'
          · subst hn
            rw [unify_cr_lf]
            have := ih rest1 (by omega)
            simp [this]
          · rw [unify_cr_other c1 rest1 hn]
            have := ih (c1 :: rest1) (by simp only [List.length_cons]; omega)
            simp [this]
      · rw [unify_other c rest hr]
        have := ih rest (by omega)
        simp only [List.mem_cons, not_or]
        exact ⟨fun h => hr h.symm, this⟩

theorem unify_of_no_cr (f : List Char) (h : '\r' ∉ f) : unify_line_endings f = f := by
  induction f with
  | nil => rfl
  | cons c rest ih =>
    simp only [List.mem_cons, not_or] at h
    rw [unify_other c rest (fun hc => h.1 hc.symm), ih h.2]

/-- C18: the characters that `phase0_getc` delivers are the input with every
CR LF pair, lone CR and lone LF replaced by one LF and every other character
kept; that text holds no CR, and unifying it again changes nothing.  The
inputs "a\r\nb", "a\rb" and "a\nb" all yield a, LF, b, and the name `b` is
tokenized on line 2. -/
theorem C18_line_ending_unification :
    (∀ (fuel : Nat) (s : scan_state), s.fp.length < fuel →
      phase0_stream fuel s = unify_line_endings s.fp) ∧
    (∀ f : List Char, '\r' ∉ unify_line_endings f) ∧
    (∀ f : List Char, unify_line_endings (unify_line_endings f) = unify_line_endings f) ∧
    (∀ f : List Char, f ∈ ["a\r\nb".toList, "a\rb".toList, "a\nb".toList] →
      phase0_stream (f.length + 1) (scan_state.initial f []) = ['a', '\n', 'b'] ∧
      (phase5_get (phase5_get (phase5_get (scan_state.initial f [])).2).2).1 =
        { type := token_type_name, string := ['b'], comment := none, number := 0,
          line_number := 2 }) := by
  refine ⟨phase0_stream_unify, fun f => unify_no_cr f.length f (le_refl _),
    fun f => unify_of_no_cr _ (unify_no_cr f.length f (le_refl _)), ?_⟩
  intro f hf
  simp only [List.mem_cons, List.mem_singleton, List.not_mem_nil, or_false] at hf
  rcases hf with rfl | rfl | rfl <;> decide

theorem C18_line_ending_unification_witness :
    phase0_stream 20 (scan_state.initial "x\r\r\ny\n\rz\r".toList [])
      = "x\n\ny\n\nz\n".toList ∧
    (phase5_get (phase5_get (phase5_get (scan_state.initial "a\rb".toList [])).2).2).1 =
      { type := token_type_name, string := ['b'], comment := none, number := 0,
        line_number := 2 } := by
  refine ⟨?_, (C18_line_ending_unification.2.2.2 "a\rb".toList (by decide)).2⟩
  rw [C18_line_ending_unification.1 20 _ (by decide)]
  decide

/-! ### Line splicing -/

theorem splice_bs_nl (rest : List Char) : splice_lines ('\\' :: '\n' :: rest) = splice_lines rest := by
  simp [splice_lines]

theorem splice_bs_other (c1 : Char) (rest : List Char) (h : c1 ≠ '\n') :
    splice_lines ('\\' :: c1 :: rest) = '\\' :: splice_lines (c1 :: rest) := by
  simp [splice_lines, h]

theorem splice_other (c : Char) (rest : List Char) (h : c ≠ '\\') :
    splice_lines (c :: rest) = c :: splice_lines rest := by
  cases rest with
  | nil => simp [splice_lines]
  | cons c1 rest => simp [splice_lines, h]

theorem line_terminators_of_unify {f f1 : List Char} {c : Char}
    (h : unify_line_endings f = c :: unify_line_endings f1) :
    line_terminators f = line_terminators f1 + (if c = '\n' then 1 else 0) := by
  unfold line_terminators
  rw [h, List.count_cons]
  by_cases hc : c = '\n' <;> simp [hc]

/-- The loop of `phase1_getc` delivers the first character of the spliced,
unified rest of the input, and counts in `line_number` the line terminators it
takes from the input. -/
theorem phase1_getc_loop_splice : ∀ (fuel : Nat) (s : scan_state), s.fp.length < fuel →
    ∃ (fp1 : List Char) (ln : Int),
      (phase1_getc_loop fuel s).2 = { s with fp := fp1, line_number := ln } ∧
      ln + line_terminators fp1 = s.line_number + line_terminators s.fp ∧
      s.line_number ≤ ln ∧
      (((phase1_getc_loop fuel s).1 = none ∧
          splice_lines (unify_line_endings s.fp) = [] ∧ fp1 = []) ∨
        (∃ c, (phase1_getc_loop fuel s).1 = some c ∧
          splice_lines (unify_line_endings s.fp) = c :: splice_lines (unify_line_endings fp1) ∧
          fp1.length < s.fp.length)) := by
  intro fuel
  induction fuel with
  | zero => intro s h; omega
  | succ fuel ih =>
    intro s hlen
    rcases phase0_getc_unify s with ⟨h1, h2⟩ | ⟨c, fp1, h1, h2, h3, h4⟩
    · refine ⟨[], s.line_number, ?_, ?_, le_refl _, Or.inl ⟨?_, ?_, rfl⟩⟩
      · rw [phase1_getc_loop]
        simp only [h2, reduceCtorEq, if_false]
        rw [← h1]
      · rw [h1]
      · rw [phase1_getc_loop]
        simp only [h2, reduceCtorEq, if_false]
      · rw [h1]
        rfl
    · have ht := line_terminators_of_unify h2
      by_cases hn : c = '\n'
      · subst hn
        refine ⟨fp1, s.line_number + 1, ?_, ?_, by omega, Or.inr ⟨'\n', ?_, ?_, h3⟩⟩
        · rw [phase1_getc_loop]
          simp only [h1, if_true]
        · rw [ht]
          simp only [if_true]
          push_cast
          omega
        · rw [phase1_getc_loop]
          simp only [h1, if_true]
        · rw [h2, splice_other _ _ (by decide)]
      · simp only [hn, if_false, Nat.add_zero] at ht
        by_cases hb : c = '\\'
        · subst hb
          rcases phase0_getc_unify { s with fp := fp1 } with ⟨g1, g2⟩ | ⟨c1, fp2, g1, g2, g3, g4⟩
          · dsimp only at g1
            subst g1
            refine ⟨[], s.line_number, ?_, ?_, le_refl _, Or.inr ⟨'\\', ?_, ?_, h3⟩⟩
            · rw [phase1_getc_loop]
              simp only [h1, g2, Option.some.injEq, reduceCtorEq, if_false, if_true, ne_eq,
                not_false_eq_true, phase0_ungetc]
              simp
            · rw [ht]
            · rw [phase1_getc_loop]
              simp only [h1, g2, Option.some.injEq, reduceCtorEq, if_false, if_true, ne_eq,
                not_false_eq_true]
              simp
            · rw [h2]
              rfl
          · dsimp only at g1 g2 g3
            have gt := line_terminators_of_unify g2
            by_cases hn1 : c1 = '\n'
            · subst hn1
              obtain ⟨fp3, ln3, i1, i2, i3, i4⟩ := ih { s with fp := fp2, line_number := s.line_number + 1 }
                (by dsimp only; omega)
              dsimp only at i1 i2 i3 i4
              simp only [if_true] at gt
              have e : phase1_getc_loop (fuel + 1) s =
                  phase1_getc_loop fuel { s with fp := fp2, line_number := s.line_number + 1 } := by
                rw [phase1_getc_loop]
                simp only [h1, g1, Option.some.injEq, reduceCtorEq, if_false, if_true, ne_eq,
                  not_true_eq_false]
                simp
              rw [e]
              refine ⟨fp3, ln3, i1, ?_, by omega, ?_⟩
              · rw [ht, gt]
                push_cast at i2 ⊢
                omega
              · rw [h2, g2, splice_bs_nl]
                rcases i4 with ⟨j1, j2, j3⟩ | ⟨c3, j1, j2, j3⟩
                · exact Or.inl ⟨j1, j2, j3⟩
                · exact Or.inr ⟨c3, j1, j2, by omega⟩
            · simp only [hn1, if_false, Nat.add_zero] at gt
              have hu : unify_line_endings (c1 :: fp2) = unify_line_endings fp1 := by
                rw [unify_other c1 fp2 g4, g2]
              refine ⟨c1 :: fp2, s.line_number, ?_, ?_, le_refl _, Or.inr ⟨'\\', ?_, ?_, ?_⟩⟩
              · rw [phase1_getc_loop]
                simp only [h1, g1, Option.some.injEq, reduceCtorEq, if_false, if_true, ne_eq,
                  not_false_eq_true, hn1, phase0_ungetc, ungetc]
                simp [hn1]
              · rw [ht]
                unfold line_terminators
                rw [hu]
              · rw [phase1_getc_loop]
                simp only [h1, g1, Option.some.injEq, reduceCtorEq, if_false, if_true, ne_eq,
                  not_false_eq_true, hn1]
                simp [hn1]
              · rw [h2, hu, g2, splice_bs_other c1 _ hn1]
              · simp only [List.length_cons]
                omega
        · refine ⟨fp1, s.line_number, ?_, ?_, le_refl _, Or.inr ⟨c, ?_, ?_, h3⟩⟩
          · rw [phase1_getc_loop]
            simp only [h1, Option.some.injEq, hn, hb, if_false]
          · rw [ht]
          · rw [phase1_getc_loop]
            simp only [h1, Option.some.injEq, hn, hb, if_false]
          · rw [h2, splice_other c _ hb]

theorem phase2_getc_splice (s : scan_state) (h1 : s.phase1_pushback = [])
    (h2 : s.phase2_pushback.length ≤ 1) :
    (phase2_getc s).2.phase1_pushback = [] ∧ (phase2_getc s).2.phase2_pushback = [] ∧
    (phase2_getc s).2.phase3_pushback = s.phase3_pushback ∧
    (((phase2_getc s).1 = none ∧
        s.phase2_pushback ++ splice_lines (unify_line_endings s.fp) = [] ∧
        (phase2_getc s).2.fp = []) ∨
      (∃ c, (phase2_getc s).1 = some c ∧
        s.phase2_pushback ++ splice_lines (unify_line_endings s.fp) =
          c :: splice_lines (unify_line_endings (phase2_getc s).2.fp) ∧
        (phase2_getc s).2.fp.length + 1 ≤ s.phase2_pushback.length + s.fp.length)) := by
  unfold phase2_getc
  cases hp : s.phase2_pushback with
  | cons c0 rest =>
    have hrest : rest = [] := by
      rw [hp] at h2
      simp only [List.length_cons] at h2
      exact List.length_eq_zero.mp (by omega)
    subst hrest
    dsimp only
    refine ⟨h1, rfl, rfl, Or.inr ⟨c0, rfl, rfl, ?_⟩⟩
    simp only [List.length_cons, List.length_nil]
    omega
  | nil =>
    dsimp only
    unfold phase1_getc
    rw [h1]
    dsimp only
    obtain ⟨fp1, ln, e1, _, _, e4⟩ := phase1_getc_loop_splice s.fuel s
      (by simp only [scan_state.fuel]; omega)
    rw [e1]
    dsimp only
    refine ⟨h1, hp, rfl, ?_⟩
    rcases e4 with ⟨j1, j2, j3⟩ | ⟨c, j1, j2, j3⟩
    · exact Or.inl ⟨j1, by simpa using j2, j3⟩
    · refine Or.inr ⟨c, j1, by simpa using j2, ?_⟩
      simp only [List.length_nil]
      omega

theorem phase2_ungetc_none (s : scan_state) : phase2_ungetc none s = s := rfl

theorem phase2_ungetc_some (c : Char) (s : scan_state) (h : s.phase2_pushback = []) :
    phase2_ungetc (some c) s = { s with phase2_pushback := [c] } := by
  unfold phase2_ungetc
  simp [h]

/-- The loop of `phase3_getc` delivers the first character of the pending text
spliced once more. -/
theorem phase3_getc_loop_splice : ∀ (fuel : Nat) (s : scan_state),
    s.phase1_pushback = [] → s.phase2_pushback.length ≤ 1 →
    s.phase2_pushback.length + s.fp.length < fuel →
    (phase3_getc_loop fuel s).2.phase1_pushback = [] ∧
    (phase3_getc_loop fuel s).2.phase2_pushback.length ≤ 1 ∧
    (phase3_getc_loop fuel s).2.phase3_pushback = s.phase3_pushback ∧
    (((phase3_getc_loop fuel s).1 = none ∧
        splice_lines (s.phase2_pushback ++ splice_lines (unify_line_endings s.fp)) = []) ∨
      (∃ c, (phase3_getc_loop fuel s).1 = some c ∧
        splice_lines (s.phase2_pushback ++ splice_lines (unify_line_endings s.fp)) =
          c :: splice_lines ((phase3_getc_loop fuel s).2.phase2_pushback ++
            splice_lines (unify_line_endings (phase3_getc_loop fuel s).2.fp)) ∧
        (phase3_getc_loop fuel s).2.phase2_pushback.length + (phase3_getc_loop fuel s).2.fp.length
          < s.phase2_pushback.length + s.fp.length)) := by
  intro fuel
  induction fuel with
  | zero => intro s _ _ h; omega
  | succ fuel ih =>
    intro s h1 h2 hlen
    obtain ⟨a1, a2, a3, a4⟩ := phase2_getc_splice s h1 h2
    rw [phase3_getc_loop]
    dsimp only
    by_cases hb : (phase2_getc s).1 = some '\\'
    · rw [if_neg (by simp [hb])]
      rcases a4 with ⟨j1, _, _⟩ | ⟨c, j1, j2, j3⟩
      · rw [hb] at j1
        exact absurd j1 (by simp)
      · rw [hb] at j1
        have hc : c = '\\' := by
          simp only [Option.some.injEq] at j1
          exact j1.symm
        subst hc
        obtain ⟨b1, b2, b3, b4⟩ := phase2_getc_splice (phase2_getc s).2 a1 (by rw [a2]; simp)
        rw [a2, List.nil_append] at b4
        by_cases hn : (phase2_getc (phase2_getc s).2).1 = some '\n'
        · rw [if_neg (by simp [hn])]
          rcases b4 with ⟨k1, _, _⟩ | ⟨c1, k1, k2, k3⟩
          · rw [hn] at k1
            exact absurd k1 (by simp)
          · rw [hn] at k1
            have hc1 : c1 = '\n' := by
              simp only [Option.some.injEq] at k1
              exact k1.symm
            subst hc1
            simp only [List.length_nil, Nat.zero_add] at k3
            obtain ⟨i1, i2, i3, i4⟩ := ih (phase2_getc (phase2_getc s).2).2 b1
              (by rw [b2]; simp) (by rw [b2, List.length_nil]; omega)
            refine ⟨i1, i2, by rw [i3, b3, a3], ?_⟩
            rw [j2, k2, splice_bs_nl]
            rw [b2, List.nil_append] at i4
            rcases i4 with ⟨m1, m2⟩ | ⟨c3, m1, m2, m3⟩
            · exact Or.inl ⟨m1, m2⟩
            · refine Or.inr ⟨c3, m1, m2, ?_⟩
              simp only [List.length_nil] at m3
              omega
        · rw [if_pos (by simpa using hn)]
          dsimp only
          rcases b4 with ⟨k1, k2, k3⟩ | ⟨c1, k1, k2, k3⟩
          · rw [k1, phase2_ungetc_none]
            refine ⟨b1, by rw [b2]; simp, by rw [b3, a3], Or.inr ⟨'\\', rfl, ?_, ?_⟩⟩
            · rw [j2, k2, b2, k3]
              rfl
            · rw [b2, k3]
              simp only [List.length_nil]
              omega
          · rw [k1, phase2_ungetc_some c1 _ b2]
            dsimp only
            have hc1 : c1 ≠ '\n' := by
              intro h
              rw [k1, h] at hn
              exact hn rfl
            simp only [List.length_nil, Nat.zero_add] at k3
            refine ⟨b1, by simp, by rw [b3, a3], Or.inr ⟨'\\', rfl, ?_, ?_⟩⟩
            · rw [j2, k2, splice_bs_other c1 _ hc1]
              rfl
            · simp only [List.length_cons, List.length_nil]
              omega
    · rw [if_pos (by simpa using hb)]
      refine ⟨a1, by rw [a2]; simp, a3, ?_⟩
      rcases a4 with ⟨j1, j2, _⟩ | ⟨c, j1, j2, j3⟩
      · refine Or.inl ⟨j1, ?_⟩
        rw [j2]
        rfl
      · have hc : c ≠ '\\' := by
          intro h
          rw [j1, h] at hb
          exact hb rfl
        refine Or.inr ⟨c, j1, ?_, ?_⟩
        · rw [j2, a2, List.nil_append, splice_other c _ hc]
        · rw [a2, List.length_nil]
          omega

theorem phase3_stream_splice : ∀ (fuel : Nat) (s : scan_state),
    s.phase1_pushback = [] → s.phase2_pushback.length ≤ 1 → s.phase3_pushback = [] →
    s.phase2_pushback.length + s.fp.length < fuel →
    phase3_stream fuel s =
      splice_lines (s.phase2_pushback ++ splice_lines (unify_line_endings s.fp)) := by
  intro fuel
  induction fuel with
  | zero => intro s _ _ _ h; omega
  | succ fuel ih =>
    intro s h1 h2 h3 hlen
    have e : phase3_getc s = phase3_getc_loop s.fuel s := by
      unfold phase3_getc
      rw [h3]
    obtain ⟨a1, a2, a3, a4⟩ := phase3_getc_loop_splice s.fuel s h1 h2
      (by simp only [scan_state.fuel]; omega)
    rw [← e] at a1 a2 a3 a4
    rw [phase3_stream]
    rcases a4 with ⟨j1, j2⟩ | ⟨c, j1, j2, j3⟩
    · rw [j1, j2]
    · rw [j1, j2]
      dsimp only
      rw [ih _ a1 a2 (by rw [a3, h3]) (by omega)]

/-- C19 (as amended): the characters that `phase3_getc` delivers to the comment
layer in a scan of the text `f` are `f` with its line endings unified and then
spliced twice: once by the pass of `phase1_getc` and once more, on the result,
by the pass of `phase3_getc`.  The text abc, backslash, newline, def is
tokenized as the one name `abcdef`. -/
theorem C19_stream_is_spliced_twice :
    (∀ (fuel : Nat) (f logical_filename : List Char), f.length < fuel →
      phase3_stream fuel (scan_state.initial f logical_filename) =
        splice_lines (splice_lines (unify_line_endings f))) ∧
    (phase5_get (scan_state.initial "abc\\\ndef".toList [])).1 =
      { type := token_type_name, string := "abcdef".toList, comment := none, number := 0,
        line_number := 1 } ∧
    (phase5_get (phase5_get (scan_state.initial "abc\\\ndef".toList [])).2).1.type
      = token_type_eof := by
  refine ⟨?_, by decide, by decide⟩
  intro fuel f logical_filename h
  rw [phase3_stream_splice fuel _ rfl (by simp [scan_state.initial]) rfl
    (by simpa [scan_state.initial] using h)]
  rfl

theorem C19_stream_is_spliced_twice_witness :
    phase3_stream 30 (scan_state.initial "ab\\\r\nc\\\\\n\nd\\e\n".toList []) =
      "abcd\\e\n".toList := by
  rw [C19_stream_is_spliced_twice.1 30 _ [] (by decide)]
  decide

/-- C19, counterexample: for the text a, backslash, backslash, newline, newline,
b the comment layer is handed a, b, whereas the unified text with each
backslash-newline deleted in one pass from left to right is a, backslash,
newline, b; and the text is tokenized as the one name `ab`. -/
theorem C19_counterexample :
    phase3_stream 10 (scan_state.initial "a\\\\\n\nb".toList []) = "ab".toList ∧
    splice_lines (unify_line_endings "a\\\\\n\nb".toList) = "a\\\nb".toList ∧
    phase3_stream 10 (scan_state.initial "a\\\\\n\nb".toList []) ≠
      splice_lines (unify_line_endings "a\\\\\n\nb".toList) ∧
    (phase5_get (scan_state.initial "a\\\\\n\nb".toList [])).1.string = "ab".toList := by
  decide

/-! ### Line counting -/

theorem line_kept.refl (s : scan_state) : line_kept s s := ⟨rfl, le_refl _⟩

theorem line_kept.trans {s s1 s2 : scan_state} (h : line_kept s s1) (h1 : line_kept s1 s2) :
    line_kept s s2 := ⟨h1.1.trans h.1, le_trans h.2 h1.2⟩

theorem line_kept.frame {s s1 : scan_state} (h : line_kept s s1) {s2 : scan_state}
    (hfp : s2.fp = s1.fp) (hpb : s2.phase1_pushback = s1.phase1_pushback)
    (hln : s2.line_number = s1.line_number) : line_kept s s2 := by
  unfold line_kept scan_state.line_total at h ⊢
  rw [hfp, hpb, hln]
  exact h

theorem phase1_getc_line (s : scan_state) : line_kept s (phase1_getc s).2 := by
  unfold phase1_getc
  cases hp : s.phase1_pushback with
  | cons c rest =>
    dsimp only
    unfold line_kept scan_state.line_total
    dsimp only
    rw [hp, List.count_cons]
    by_cases hc : c = '\n'
    · simp only [hc, if_true, beq_self_eq_true]
      push_cast
      omega
    · have hc2 : (c == '\n') = false := by simpa using hc
      simp only [hc, hc2, if_false, Bool.false_eq_true]
      push_cast
      omega
  | nil =>
    dsimp only
    obtain ⟨fp1, ln, e1, e2, e3, _⟩ := phase1_getc_loop_splice s.fuel s
      (by simp only [scan_state.fuel]; omega)
    rw [e1]
    unfold line_kept scan_state.line_total
    dsimp only
    push_cast at e2 ⊢
    omega

theorem phase2_getc_line (s : scan_state) : line_kept s (phase2_getc s).2 := by
  unfold phase2_getc
  split
  · exact (line_kept.refl s).frame rfl rfl rfl
  · exact phase1_getc_line s

theorem phase2_ungetc_line (c : Option Char) (s : scan_state) :
    line_kept s (phase2_ungetc c s) := by
  unfold phase2_ungetc
  split
  · exact line_kept.refl s
  · split_ifs <;> exact (line_kept.refl s).frame rfl rfl rfl

theorem phase3_getc_loop_line : ∀ (fuel : Nat) (s : scan_state),
    line_kept s (phase3_getc_loop fuel s).2 := by
  intro fuel
  induction fuel with
  | zero => intro s; exact (line_kept.refl s).frame rfl rfl rfl
  | succ fuel ih =>
    intro s
    have h := phase2_getc_line s
    have h1 := phase2_getc_line (phase2_getc s).2
    have hu := phase2_ungetc_line (phase2_getc (phase2_getc s).2).1 (phase2_getc (phase2_getc s).2).2
    have hih := ih (phase2_getc (phase2_getc s).2).2
    unfold phase3_getc_loop
    dsimp only
    split_ifs
    · exact h
    · exact (h.trans h1).trans hu
    · exact (h.trans h1).trans hih

theorem phase3_getc_line (s : scan_state) : line_kept s (phase3_getc s).2 := by
  unfold phase3_getc
  split
  · exact (line_kept.refl s).frame rfl rfl rfl
  · exact phase3_getc_loop_line _ s

theorem phase3_ungetc_line (c : Option Char) (s : scan_state) :
    line_kept s (phase3_ungetc c s) := by
  unfold phase3_ungetc
  split
  · exact line_kept.refl s
  · split_ifs <;> exact (line_kept.refl s).frame rfl rfl rfl

theorem comment_add_unless_leading_blank_line (c : Char) (s : scan_state) :
    line_kept s (comment_add_unless_leading_blank c s) := by
  unfold comment_add_unless_leading_blank
  split_ifs <;> exact (line_kept.refl s).frame rfl rfl rfl

theorem phase4_getc_c_comment_line : ∀ (fuel : Nat) (b : Bool) (s : scan_state),
    line_kept s (phase4_getc_c_comment fuel b s) := by
  intro fuel
  induction fuel with
  | zero => intro b s; exact (line_kept.refl s).frame rfl rfl rfl
  | succ fuel ih =>
    intro b s
    have h := phase3_getc_line s
    unfold phase4_getc_c_comment
    dsimp only
    split
    · exact h
    · rename_i c _
      have hs1 := h.trans (comment_add_unless_leading_blank_line c (phase3_getc s).2)
      generalize comment_add_unless_leading_blank c (phase3_getc s).2 = s1 at hs1 ⊢
      have i1 := ih false (comment_start (comment_line_end 1 s1))
      have i2 := ih true s1
      have i3 := ih false s1
      have e1 : line_kept s (comment_start (comment_line_end 1 s1)) := hs1.frame rfl rfl rfl
      have e2 : line_kept s (comment_line_end 2 s1) := hs1.frame rfl rfl rfl
      split_ifs
      · exact e1.trans i1
      · exact hs1.trans i2
      · exact e2
      · exact hs1.trans i3

theorem phase4_getc_cxx_comment_line : ∀ (fuel : Nat) (s : scan_state),
    line_kept s (phase4_getc_cxx_comment fuel s) := by
  intro fuel
  induction fuel with
  | zero => intro s; exact (line_kept.refl s).frame rfl rfl rfl
  | succ fuel ih =>
    intro s
    have h := phase3_getc_line s
    unfold phase4_getc_cxx_comment
    dsimp only
    split
    · exact h
    · rename_i c _
      have hs1 := h.trans (comment_add_unless_leading_blank_line c (phase3_getc s).2)
      have i1 := ih (comment_add_unless_leading_blank c (phase3_getc s).2)
      split_ifs
      · exact h
      · exact hs1.trans i1

theorem phase4_getc_line (s : scan_state) : line_kept s (phase4_getc s).2 := by
  have h := phase3_getc_line s
  have h1 := h.trans (phase3_getc_line (phase3_getc s).2)
  have hu := h1.trans
    (phase3_ungetc_line (phase3_getc (phase3_getc s).2).1 (phase3_getc (phase3_getc s).2).2)
  have e1 : line_kept s (comment_start (phase3_getc (phase3_getc s).2).2) := h1.frame rfl rfl rfl
  have hc := e1.trans (phase4_getc_c_comment_line (phase3_getc (phase3_getc s).2).2.fuel false
    (comment_start (phase3_getc (phase3_getc s).2).2))
  have hx := e1.trans (phase4_getc_cxx_comment_line (phase3_getc (phase3_getc s).2).2.fuel
    (comment_start (phase3_getc (phase3_getc s).2).2))
  unfold phase4_getc
  dsimp only
  split_ifs
  · exact h
  · exact hc.frame rfl rfl rfl
  · exact hx.frame rfl rfl rfl
  · exact hu

theorem phase4_ungetc_line (c : Option Char) (s : scan_state) :
    line_kept s (phase4_ungetc c s) :=
  phase3_ungetc_line c s

theorem phase5_get_white_space_line : ∀ (fuel : Nat) (s : scan_state),
    line_kept s (phase5_get_white_space fuel s) := by
  intro fuel
  induction fuel with
  | zero => intro s; exact (line_kept.refl s).frame rfl rfl rfl
  | succ fuel ih =>
    intro s
    have h := phase4_getc_line s
    have hu := phase4_ungetc_line (phase4_getc s).1 (phase4_getc s).2
    have hih := ih (phase4_getc s).2
    unfold phase5_get_white_space
    dsimp only
    split_ifs
    · exact h.trans hih
    · exact h.trans hu

theorem phase5_get_name_line : ∀ (fuel : Nat) (buffer : List Char) (c : Char) (s : scan_state),
    line_kept s (phase5_get_name fuel buffer c s).2 := by
  intro fuel
  induction fuel with
  | zero => intro buffer c s; exact (line_kept.refl s).frame rfl rfl rfl
  | succ fuel ih =>
    intro buffer c s
    have h := phase4_getc_line s
    unfold phase5_get_name
    dsimp only
    split
    · rename_i c1 _
      have hu := phase4_ungetc_line (some c1) (phase4_getc s).2
      have hih := ih (buffer ++ [c]) c1 (phase4_getc s).2
      split_ifs
      · exact h.trans hih
      · exact h.trans hu
    · dsimp only
      exact h.trans (phase4_ungetc_line _ _)

theorem phase5_get_dollar_line : ∀ (fuel : Nat) (buffer : List Char) (s : scan_state),
    line_kept s (phase5_get_dollar fuel buffer s).2 := by
  intro fuel
  induction fuel with
  | zero => intro buffer s; exact (line_kept.refl s).frame rfl rfl rfl
  | succ fuel ih =>
    intro buffer s
    have h := phase4_getc_line s
    unfold phase5_get_dollar
    dsimp only
    split
    · rename_i c1 _
      have hu := phase4_ungetc_line (some c1) (phase4_getc s).2
      have hih := ih (buffer ++ [c1]) (phase4_getc s).2
      split_ifs
      · exact h.trans hih
      · exact h.trans hu
    · dsimp only
      exact h.trans (phase4_ungetc_line _ _)

theorem phase5_get_dollar_start_line (s : scan_state) :
    line_kept s (phase5_get_dollar_start s).2 := by
  have h := phase4_getc_line s
  unfold phase5_get_dollar_start
  dsimp only
  split
  · split_ifs
    · exact h.trans (phase5_get_dollar_line _ _ _)
    · dsimp only
      exact h.trans (phase4_ungetc_line _ _)
  · dsimp only
    exact h.trans (phase4_ungetc_line _ _)

theorem phase5_get_number_line : ∀ (fuel : Nat) (buffer : List Char) (c : Char) (s : scan_state),
    line_kept s (phase5_get_number fuel buffer c s).2 := by
  intro fuel
  induction fuel with
  | zero => intro buffer c s; exact (line_kept.refl s).frame rfl rfl rfl
  | succ fuel ih =>
    intro buffer c s
    have h := phase4_getc_line s
    have h1 := h.trans (phase4_getc_line (phase4_getc s).2)
    unfold phase5_get_number
    dsimp only
    split
    · rename_i c1 _
      have hih := ih (buffer ++ [c]) c1 (phase4_getc s).2
      split_ifs
      · split
        · rename_i c2 _
          have hih2 := ih (buffer ++ [c, c1]) c2 (phase4_getc (phase4_getc s).2).2
          split_ifs
          · dsimp only
            exact h1.trans (phase4_ungetc_line _ _)
          · exact h1.trans hih2
        · dsimp only
          exact h1.trans (phase4_ungetc_line _ _)
      · exact h.trans hih
      · dsimp only
        exact h.trans (phase4_ungetc_line _ _)
    · dsimp only
      exact h.trans (phase4_ungetc_line _ _)

theorem phase5_get_string_line : ∀ (fuel : Nat) (cquot : Char) (buffer : List Char)
    (s : scan_state), line_kept s (phase5_get_string fuel cquot buffer s).2 := by
  intro fuel
  induction fuel with
  | zero => intro cquot buffer s; exact (line_kept.refl s).frame rfl rfl rfl
  | succ fuel ih =>
    intro cquot buffer s
    have h := phase3_getc_line s
    have h1 := h.trans (phase3_getc_line (phase3_getc s).2)
    unfold phase5_get_string
    dsimp only
    split_ifs
    · exact h1.trans (ih _ _ _)
    · dsimp only
      exact h1.trans (phase3_ungetc_line _ _)
    · split
      · exact h
      · split_ifs
        · have e : line_kept s
              { (phase3_getc s).2 with
                warnings := (phase3_getc s).2.warnings ++ [(phase3_getc s).2.line_number - 1] } :=
            h.frame rfl rfl rfl
          dsimp only
          exact e.trans (phase3_ungetc_line _ _)
        · exact h.trans (ih _ _ _)

theorem phase5_get_line (s : scan_state) : line_kept s (phase5_get s).2 := by
  cases h5 : s.phase5_pushback with
  | cons t rest =>
    rw [phase5_get_pushback s t rest h5]
    exact (line_kept.refl s).frame rfl rfl rfl
  | nil =>
    have h := phase4_getc_line s
    have h1 := h.trans (phase4_getc_line (phase4_getc s).2)
    unfold phase5_get
    rw [h5]
    dsimp only
    cases hc : (phase4_getc s).1 with
    | none => exact h
    | some c =>
      dsimp only
      by_cases c1 : c = '\n'
      · rw [if_pos c1]; exact h
      rw [if_neg c1]
      by_cases c2 : c = ' ' ∨ c = '\x0c' ∨ c = '\t'
      · rw [if_pos c2]; exact h.trans (phase5_get_white_space_line _ _)
      rw [if_neg c2]
      by_cases c3 : is_name_start c = true
      · rw [if_pos c3]; exact h.trans (phase5_get_name_line _ _ _ _)
      rw [if_neg c3]
      by_cases c4 : c = '$'
      · rw [if_pos c4]
        split_ifs <;> exact h.trans (phase5_get_dollar_start_line _)
      rw [if_neg c4]
      by_cases c5 : c = '.'
      · rw [if_pos c5]
        split_ifs
        · exact (h1.trans (phase4_ungetc_line _ _)).trans (phase5_get_number_line _ _ _ _)
        · exact h1.trans (phase4_ungetc_line _ _)
      rw [if_neg c5]
      by_cases c6 : c_isdigit c = true
      · rw [if_pos c6]; exact h.trans (phase5_get_number_line _ _ _ _)
      rw [if_neg c6]
      by_cases c7 : c = '"' ∨ c = '\''
      · rw [if_pos c7]; exact h.trans (phase5_get_string_line _ _ _ _)
      rw [if_neg c7]
      by_cases c8 : c = '('
      · rw [if_pos c8]; exact h
      rw [if_neg c8]
      by_cases c9 : c = ')'
      · rw [if_pos c9]; exact h
      rw [if_neg c9]
      by_cases c10 : c = '['
      · rw [if_pos c10]; exact h
      rw [if_neg c10]
      by_cases c11 : c = ']'
      · rw [if_pos c11]; exact h
      rw [if_neg c11]
      by_cases c12 : c = ','
      · rw [if_pos c12]; exact h
      rw [if_neg c12]
      by_cases c13 : c = '#'
      · rw [if_pos c13]; exact h
      rw [if_neg c13]
      by_cases c14 : c = ':'
      · rw [if_pos c14]; exact h
      rw [if_neg c14]
      by_cases c15 : c = '\\'
      · rw [if_pos c15]
        split_ifs
        · exact h1
        · exact h1.trans (phase4_ungetc_line _ _)
      rw [if_neg c15]
      exact h

theorem phase5_unget_line (tp : token_ty) (s : scan_state) :
    line_kept s (phase5_unget tp s) := by
  unfold phase5_unget
  split_ifs
  · exact (line_kept.refl s).frame rfl rfl rfl
  · exact (line_kept.refl s).frame rfl rfl rfl
  · exact line_kept.refl s

theorem phaseX_get_line (s : scan_state) : line_kept s (phaseX_get s).2 := by
  have h := phase5_get_line s
  have h1 := h.trans (phase5_get_line (phase5_get s).2)
  have hu := h1.trans
    (phase5_unget_line (phase5_get (phase5_get s).2).1 (phase5_get (phase5_get s).2).2)
  unfold phaseX_get
  dsimp only
  split_ifs
  · exact h.frame rfl rfl rfl
  · exact h
  · exact h
  · exact h1.frame rfl rfl rfl
  · exact hu.frame rfl rfl rfl
  · exact h.frame rfl rfl rfl

theorem phase5_get_token_line (s : scan_state) (h5 : s.phase5_pushback = []) :
    (phase5_get s).1.line_number = s.line_number := by
  unfold phase5_get
  rw [h5]
  dsimp only
  cases hc : (phase4_getc s).1 with
  | none => rfl
  | some c =>
    dsimp only
    by_cases c1 : c = '\n'
    · rw [if_pos c1]; rfl
    rw [if_neg c1]
    by_cases c2 : c = ' ' ∨ c = '\x0c' ∨ c = '\t'
    · rw [if_pos c2]; rfl
    rw [if_neg c2]
    by_cases c3 : is_name_start c = true
    · rw [if_pos c3]; rfl
    rw [if_neg c3]
    by_cases c4 : c = '$'
    · rw [if_pos c4]
      split_ifs <;> rfl
    rw [if_neg c4]
    by_cases c5 : c = '.'
    · rw [if_pos c5]
      split_ifs <;> rfl
    rw [if_neg c5]
    by_cases c6 : c_isdigit c = true
    · rw [if_pos c6]; rfl
    rw [if_neg c6]
    by_cases c7 : c = '"' ∨ c = '\''
    · rw [if_pos c7]; rfl
    rw [if_neg c7]
    by_cases c8 : c = '('
    · rw [if_pos c8]; rfl
    rw [if_neg c8]
    by_cases c9 : c = ')'
    · rw [if_pos c9]; rfl
    rw [if_neg c9]
    by_cases c10 : c = '['
    · rw [if_pos c10]; rfl
    rw [if_neg c10]
    by_cases c11 : c = ']'
    · rw [if_pos c11]; rfl
    rw [if_neg c11]
    by_cases c12 : c = ','
    · rw [if_pos c12]; rfl
    rw [if_neg c12]
    by_cases c13 : c = '#'
    · rw [if_pos c13]; rfl
    rw [if_neg c13]
    by_cases c14 : c = ':'
    · rw [if_pos c14]; rfl
    rw [if_neg c14]
    by_cases c15 : c = '\\'
    · rw [if_pos c15]
      split_ifs <;> rfl
    rw [if_neg c15]
    rfl

/-- C20: at the start of a scan `line_number` is 1 and all line terminators of
the file are pending.  A token that `phase5_get` starts to read gets the
current `line_number`; reading it (in `phase5_get`, and in `phaseX_get` with
its lookahead) adds to `line_number` exactly the number of line terminators
(CR LF, CR or LF, after a backslash or not) that it takes from what is pending
below `phase1_getc`, and never lowers `line_number`.  So whenever a token
starts to be read in a scan of `f` in which no directive has set the line
number, `line_number` is 1 plus the number of line terminators of `f` that are
no longer pending.  In abc, backslash, newline, def the name is on line 1 and
the token after it on line 2. -/
theorem C20_line_number_counts_terminators :
    (∀ f logical_filename : List Char,
      (scan_state.initial f logical_filename).line_number = 1 ∧
      (scan_state.initial f logical_filename).line_total = 1 + line_terminators f) ∧
    (∀ s : scan_state, s.phase5_pushback = [] → (phase5_get s).1.line_number = s.line_number) ∧
    (∀ s : scan_state, line_kept s (phase5_get s).2) ∧
    (∀ s : scan_state, line_kept s (phaseX_get s).2) ∧
    (∀ (f : List Char) (s : scan_state), s.line_total = 1 + line_terminators f →
      s.phase5_pushback = [] →
      (phase5_get s).1.line_number =
        1 + line_terminators f - (s.phase1_pushback.count '\n' + line_terminators s.fp : Nat) ∧
      (phase5_get s).2.line_total = 1 + line_terminators f ∧
      (phaseX_get s).2.line_total = 1 + line_terminators f ∧
      s.line_number ≤ (phase5_get s).2.line_number ∧
      s.line_number ≤ (phaseX_get s).2.line_number) ∧
    (phase5_get (scan_state.initial "abc\\\ndef".toList [])).1 =
      { type := token_type_name, string := "abcdef".toList, comment := none, number := 0,
        line_number := 1 } ∧
    (phase5_get (phase5_get (scan_state.initial "abc\\\ndef".toList [])).2).1.line_number = 2 ∧
    (phase5_get (phase5_get (scan_state.initial "abc\\\ndef(".toList [])).2).1 =
      { type := token_type_lparen, string := [], comment := none, number := 0,
        line_number := 2 } := by
  refine ⟨?_, phase5_get_token_line, phase5_get_line, phaseX_get_line, ?_,
    by decide, by decide, by decide⟩
  · intro f logical_filename
    refine ⟨rfl, ?_⟩
    unfold scan_state.line_total scan_state.initial
    simp
  · intro f s hs h5
    have h1 := phase5_get_line s
    have h2 := phaseX_get_line s
    refine ⟨?_, h1.1.trans hs, h2.1.trans hs, h1.2, h2.2⟩
    rw [phase5_get_token_line s h5]
    unfold scan_state.line_total at hs
    omega

theorem C20_line_number_counts_terminators_witness :
    (scan_state.initial "a\r\nb\\\nc\n".toList []).line_total = 1 + line_terminators "a\r\nb\\\nc\n".toList ∧
    line_terminators "a\r\nb\\\nc\n".toList = 3 ∧
    (phase5_get (scan_state.initial "a\r\nb\\\nc\n".toList [])).2.line_total = 1 + 3 ∧
    (phase5_get (scan_state.initial "a\r\nb\\\nc\n".toList [])).1.line_number = 1 + 3 - (0 + 3 : Nat) := by
  have h := C20_line_number_counts_terminators.2.2.2.2.1 "a\r\nb\\\nc\n".toList
    (scan_state.initial "a\r\nb\\\nc\n".toList [])
    (C20_line_number_counts_terminators.1 _ _).2 rfl
  have e : line_terminators "a\r\nb\\\nc\n".toList = 3 := by decide
  refine ⟨(C20_line_number_counts_terminators.1 _ _).2, e, ?_, ?_⟩
  · rw [h.2.1, e]
    rfl
  · rw [h.1, e]
    rfl

/-! ### Directive lines -/

theorem phaseX_get_many_fuel : ∀ (n : Nat) (s : scan_state),
    (∀ t ∈ (phaseX_get_many n s).1, t.type ≠ token_type_eof) →
    (phaseX_get_many n s).2.fuel + n ≤ s.fuel := by
  intro n
  induction n with
  | zero => intro s _; simp [phaseX_get_many]
  | succ n ih =>
    intro s h
    simp only [phaseX_get_many, List.mem_cons, forall_eq_or_imp] at h ⊢
    have h1 := (phaseX_get_fuel s).2 h.1
    have h2 := ih (phaseX_get s).2 h.2
    omega

/-- The directive loop on a line without a leading `define`: it takes the
tokens up to the end of the line and keeps those that are not white space. -/
theorem phase6_get_directive_line : ∀ (n : Nat) (s : scan_state) (buf : List token_ty)
    (fuel : Nat), n < fuel →
    (∀ t ∈ (phaseX_get_many n s).1, t.type ≠ token_type_eoln ∧ t.type ≠ token_type_eof) →
    (buf = [] → ∀ t, (directive_tokens (phaseX_get_many n s).1).head? = some t →
      is_define t = false) →
    ((phaseX_get (phaseX_get_many n s).2).1.type = token_type_eoln ∨
      (phaseX_get (phaseX_get_many n s).2).1.type = token_type_eof) →
    phase6_get_directive fuel buf s =
      (none, buf ++ directive_tokens (phaseX_get_many n s).1,
        (phaseX_get (phaseX_get_many n s).2).2) := by
  intro n
  induction n with
  | zero =>
    intro s buf fuel hf _ _ hend
    obtain ⟨f, rfl⟩ : ∃ f, fuel = f + 1 := ⟨fuel - 1, by omega⟩
    simp only [phaseX_get_many] at hend
    rw [phase6_get_directive]
    simp only [hend, if_true, phaseX_get_many, directive_tokens, List.filter_nil, List.append_nil]
  | succ n ih =>
    intro s buf fuel hf hall hdef hend
    obtain ⟨f, rfl⟩ : ∃ f, fuel = f + 1 := ⟨fuel - 1, by omega⟩
    simp only [phaseX_get_many, List.mem_cons, forall_eq_or_imp] at hall hend hdef
    obtain ⟨⟨h1, h2⟩, hrest⟩ := hall
    rw [phase6_get_directive]
    have hne : ¬ ((phaseX_get s).1.type = token_type_eoln ∨ (phaseX_get s).1.type = token_type_eof) := by
      rintro (h | h)
      · exact h1 h
      · exact h2 h
    simp only [if_neg hne]
    by_cases hw : (phaseX_get s).1.type = token_type_white_space
    · have hw2 : ¬ ((phaseX_get s).1.type ≠ token_type_white_space) := fun h => h hw
      simp only [if_neg hw2]
      have e : directive_tokens ((phaseX_get s).1 :: (phaseX_get_many n (phaseX_get s).2).1)
          = directive_tokens (phaseX_get_many n (phaseX_get s).2).1 := by
        simp [directive_tokens, hw]
      simp only [phaseX_get_many]
      rw [e] at hdef ⊢
      exact ih (phaseX_get s).2 buf f (by omega) hrest hdef hend
    · have hw2 : (phaseX_get s).1.type ≠ token_type_white_space := hw
      simp only [if_pos hw2]
      have e : directive_tokens ((phaseX_get s).1 :: (phaseX_get_many n (phaseX_get s).2).1)
          = (phaseX_get s).1 :: directive_tokens (phaseX_get_many n (phaseX_get s).2).1 := by
        simp [directive_tokens, hw]
      simp only [phaseX_get_many]
      rw [e] at hdef ⊢
      have hnd : ¬ (buf.length = 0 ∧ (phaseX_get s).1.type = token_type_name ∧
          (phaseX_get s).1.string = "define".toList) := by
        rintro ⟨hb, ht, hs⟩
        have hb2 : buf = [] := List.length_eq_zero.mp hb
        have := hdef hb2 (phaseX_get s).1 rfl
        simp [is_define, ht, hs] at this
      simp only [if_neg hnd]
      rw [ih (phaseX_get s).2 (buf ++ [(phaseX_get s).1]) f (by omega) hrest
        (fun hb => absurd hb (by simp)) hend]
      simp

/-- The directive loop on a line that begins with `define`: it returns the
`define` token. -/
theorem phase6_get_directive_define : ∀ (n : Nat) (s : scan_state) (fuel : Nat), n < fuel →
    (∀ t ∈ (phaseX_get_many n s).1, t.type = token_type_white_space) →
    is_define (phaseX_get (phaseX_get_many n s).2).1 = true →
    phase6_get_directive fuel [] s =
      (some (phaseX_get (phaseX_get_many n s).2).1, [],
        (phaseX_get (phaseX_get_many n s).2).2) := by
  intro n
  induction n with
  | zero =>
    intro s fuel hf _ hdef
    obtain ⟨f, rfl⟩ : ∃ f, fuel = f + 1 := ⟨fuel - 1, by omega⟩
    simp only [phaseX_get_many] at hdef ⊢
    simp only [is_define, decide_eq_true_eq] at hdef
    rw [phase6_get_directive]
    simp [hdef.1, hdef.2]
  | succ n ih =>
    intro s fuel hf hall hdef
    obtain ⟨f, rfl⟩ : ∃ f, fuel = f + 1 := ⟨fuel - 1, by omega⟩
    simp only [phaseX_get_many, List.mem_cons, forall_eq_or_imp] at hall hdef ⊢
    rw [phase6_get_directive]
    simp only [hall.1, reduceCtorEq, or_self, if_false, ne_eq, not_true_eq_false]
    exact ih (phaseX_get s).2 f (by omega) hall.2 hdef

theorem scan_state.fuel_pos (s : scan_state) : 0 < s.fuel := by
  unfold scan_state.fuel
  omega

/-- C17: when `phaseX_get` delivers a `#` that begins a line, `phase6_get`
reads the tokens that follow.  When the first of them that is not white space
is the name `define`, it delivers that `define` token and leaves the scanner
right after it, so that the rest of the line is read as ordinary input.
Otherwise it takes every token up to the end of the line (or of the file)
without delivering any, and delivers what it finds after that line.  A token
other than a leading `#` is delivered as it is.  So the string of
`#include "x.h"` is not extracted, even in extract-all mode, and
`#define M localize("x")` extracts `x` with the default keyword. -/
theorem C17_directive_lines :
    (∀ (s : scan_state) (n fuel : Nat),
      (phaseX_get s).1.type = token_type_hash →
      (∀ t ∈ (phaseX_get_many n (phaseX_get s).2).1, t.type = token_type_white_space) →
      is_define (phaseX_get (phaseX_get_many n (phaseX_get s).2).2).1 = true →
      phase6_get_loop (fuel + 1) s = phaseX_get (phaseX_get_many n (phaseX_get s).2).2) ∧
    (∀ (s : scan_state) (n fuel : Nat),
      (phaseX_get s).1.type = token_type_hash →
      (∀ t ∈ (phaseX_get_many n (phaseX_get s).2).1,
        t.type ≠ token_type_eoln ∧ t.type ≠ token_type_eof) →
      (∀ t, (directive_tokens (phaseX_get_many n (phaseX_get s).2).1).head? = some t →
        is_define t = false) →
      ((phaseX_get (phaseX_get_many n (phaseX_get s).2).2).1.type = token_type_eoln ∨
        (phaseX_get (phaseX_get_many n (phaseX_get s).2).2).1.type = token_type_eof) →
      phase6_get_loop (fuel + 1) s =
        phase6_get_loop fuel
          (savable_comment_reset
            (phase6_apply_directive (directive_tokens (phaseX_get_many n (phaseX_get s).2).1)
              (phaseX_get (phaseX_get_many n (phaseX_get s).2).2).2))) ∧
    (∀ (s : scan_state) (fuel : Nat), (phaseX_get s).1.type ≠ token_type_hash →
      phase6_get_loop (fuel + 1) s = phaseX_get s) ∧
    extracted_texts (x_arma_extract_all keyword_state.initial) "#include \"x.h\"".toList = [] ∧
    extracted_texts (x_arma_extract_all keyword_state.initial)
      "#include \"x.h\"\n\"y\"".toList = ["y".toList] ∧
    extracted_texts keyword_state.initial "#define M localize(\"x\")".toList = ["x".toList] ∧
    extracted_texts keyword_state.initial
      "  # define M localize(\"x\")\n#if $a\n # undef localize(\"b\")\n$c".toList
      = ["x".toList, "c".toList] := by
  refine ⟨?_, ?_, ?_, by decide, by decide, by decide, by decide⟩
  · intro s n fuel hh hws hdef
    have hfuel : n < (phaseX_get s).2.fuel := by
      have h1 := phaseX_get_many_fuel n (phaseX_get s).2
        (fun t ht => by rw [hws t ht]; decide)
      have h2 := scan_state.fuel_pos (phaseX_get_many n (phaseX_get s).2).2
      omega
    rw [phase6_get_loop]
    simp only [hh, ne_eq, not_true_eq_false, if_false]
    rw [phase6_get_directive_define n _ _ hfuel hws hdef]
  · intro s n fuel hh hall hdef hend
    have hfuel : n < (phaseX_get s).2.fuel := by
      have h1 := phaseX_get_many_fuel n (phaseX_get s).2 (fun t ht => (hall t ht).2)
      have h2 := scan_state.fuel_pos (phaseX_get_many n (phaseX_get s).2).2
      omega
    rw [phase6_get_loop]
    simp only [hh, ne_eq, not_true_eq_false, if_false]
    rw [phase6_get_directive_line n _ [] _ hfuel hall (fun _ => hdef) hend]
    rfl
  · intro s fuel hh
    rw [phase6_get_loop]
    simp only [ne_eq, hh, not_false_eq_true, if_true]

theorem C17_directive_lines_witness :
    (phase6_get_loop 1 (scan_state.initial "# define M".toList [])).1 =
      { type := token_type_name, string := "define".toList, comment := none, number := 0,
        line_number := 1 } ∧
    (phase6_get_loop 2 (scan_state.initial "#include \"x.h\"\n\"y\"".toList [])).1 =
      { type := token_type_string_literal, string := "y".toList, comment := none, number := 0,
        line_number := 2 } := by
  constructor
  · rw [C17_directive_lines.1 (scan_state.initial "# define M".toList []) 1 0 (by decide)
      (by decide) (by decide)]
    decide
  · rw [C17_directive_lines.2.1 (scan_state.initial "#include \"x.h\"\n\"y\"".toList []) 3 1
      (by decide) (by decide) (by decide) (by decide)]
    decide

/-! ### Line markers -/

theorem pushback_within.widen {n2 n3 n5 n6 : Nat} {s : scan_state}
    (h : pushback_within n2 n3 n5 n6 s) {m2 m3 m5 m6 : Nat}
    (h2 : n2 ≤ m2) (h3 : n3 ≤ m3) (h5 : n5 ≤ m5) (h6 : n6 ≤ m6) :
    pushback_within m2 m3 m5 m6 s :=
  ⟨le_trans h.1 h2, le_trans h.2.1 h3, le_trans h.2.2.1 h5, le_trans h.2.2.2.1 h6, h.2.2.2.2⟩

theorem pushback_within.keep {n2 n3 n5 n6 : Nat} {s : scan_state}
    (h : pushback_within n2 n3 n5 n6 s) {s1 : scan_state}
    (h2 : s1.phase2_pushback = s.phase2_pushback) (h3 : s1.phase3_pushback = s.phase3_pushback)
    (h5 : s1.phase5_pushback = s.phase5_pushback) (h6 : s1.phase6_pushback = s.phase6_pushback)
    (ha : s1.aborted = s.aborted) : pushback_within n2 n3 n5 n6 s1 := by
  unfold pushback_within at h ⊢
  rw [h2, h3, h5, h6, ha]
  exact h

theorem getc_within {n2 n3 n5 n6 : Nat} (s : scan_state) (h : pushback_within n2 n3 n5 n6 s) :
    pushback_within n2 n3 n5 n6 (getc s).2 := by
  unfold getc
  split
  · exact h
  · exact h.keep rfl rfl rfl rfl rfl

theorem phase0_getc_within {n2 n3 n5 n6 : Nat} (s : scan_state)
    (h : pushback_within n2 n3 n5 n6 s) : pushback_within n2 n3 n5 n6 (phase0_getc s).2 := by
  have h0 := getc_within s h
  have h1 := getc_within (getc s).2 h0
  unfold phase0_getc
  dsimp only
  split
  · exact h0
  · split_ifs
    · split
      · exact h1
      · split_ifs
        · exact h1.keep rfl rfl rfl rfl rfl
        · exact h1
    · exact h0

theorem phase0_ungetc_within {n2 n3 n5 n6 : Nat} (c : Option Char) (s : scan_state)
    (h : pushback_within n2 n3 n5 n6 s) : pushback_within n2 n3 n5 n6 (phase0_ungetc c s) := by
  cases c
  · exact h
  · exact h.keep rfl rfl rfl rfl rfl

theorem phase1_getc_loop_within {n2 n3 n5 n6 : Nat} : ∀ (fuel : Nat) (s : scan_state),
    pushback_within n2 n3 n5 n6 s → pushback_within n2 n3 n5 n6 (phase1_getc_loop fuel s).2 := by
  intro fuel
  induction fuel with
  | zero => intro s h; exact h.keep rfl rfl rfl rfl rfl
  | succ fuel ih =>
    intro s h
    have h0 := phase0_getc_within s h
    have h1 := phase0_getc_within (phase0_getc s).2 h0
    have hu := phase0_ungetc_within (phase0_getc (phase0_getc s).2).1 _ h1
    have hih := ih { (phase0_getc (phase0_getc s).2).2 with
      line_number := (phase0_getc (phase0_getc s).2).2.line_number + 1 }
      (h1.keep rfl rfl rfl rfl rfl)
    unfold phase1_getc_loop
    dsimp only
    split_ifs
    · exact h0.keep rfl rfl rfl rfl rfl
    · exact hu
    · exact hih
    · exact h0

theorem phase1_getc_within {n2 n3 n5 n6 : Nat} (s : scan_state)
    (h : pushback_within n2 n3 n5 n6 s) : pushback_within n2 n3 n5 n6 (phase1_getc s).2 := by
  unfold phase1_getc
  split
  · exact h.keep rfl rfl rfl rfl rfl
  · exact phase1_getc_loop_within _ s h

theorem phase2_getc_within {n2 n3 n5 n6 : Nat} (s : scan_state)
    (h : pushback_within n2 n3 n5 n6 s) :
    pushback_within (n2 - 1) n3 n5 n6 (phase2_getc s).2 := by
  unfold phase2_getc
  cases hp : s.phase2_pushback with
  | cons c rest =>
    dsimp only
    unfold pushback_within at h ⊢
    rw [hp] at h
    simp only [List.length_cons] at h
    exact ⟨by dsimp only; omega, h.2⟩
  | nil =>
    dsimp only
    have h0 : pushback_within 0 n3 n5 n6 s := by
      unfold pushback_within at h ⊢
      rw [hp]
      exact ⟨Nat.le_refl _, h.2⟩
    exact (phase1_getc_within s h0).widen (Nat.zero_le _) (Nat.le_refl _) (Nat.le_refl _)
      (Nat.le_refl _)

theorem phase2_ungetc_within {n3 n5 n6 : Nat} (c : Option Char) (s : scan_state)
    (h : pushback_within 0 n3 n5 n6 s) : pushback_within 1 n3 n5 n6 (phase2_ungetc c s) := by
  unfold phase2_ungetc
  cases c with
  | none => exact h.widen (Nat.zero_le _) (Nat.le_refl _) (Nat.le_refl _) (Nat.le_refl _)
  | some c =>
    dsimp only
    have h0 : s.phase2_pushback.length = 0 := Nat.le_zero.mp h.1
    rw [if_neg (by omega)]
    unfold pushback_within at h ⊢
    exact ⟨by simp only [List.length_cons]; omega, h.2⟩

theorem phase3_getc_loop_within {n3 n5 n6 : Nat} : ∀ (fuel : Nat) (s : scan_state),
    pushback_within 1 n3 n5 n6 s → pushback_within 1 n3 n5 n6 (phase3_getc_loop fuel s).2 := by
  intro fuel
  induction fuel with
  | zero => intro s h; exact h.keep rfl rfl rfl rfl rfl
  | succ fuel ih =>
    intro s h
    have h0 := phase2_getc_within s h
    have h1 := phase2_getc_within (phase2_getc s).2 h0
    have hu := phase2_ungetc_within (phase2_getc (phase2_getc s).2).1 _ h1
    have hih := ih (phase2_getc (phase2_getc s).2).2
      (h1.widen (Nat.zero_le _) (Nat.le_refl _) (Nat.le_refl _) (Nat.le_refl _))
    unfold phase3_getc_loop
    dsimp only
    split_ifs
    · exact h0.widen (Nat.zero_le _) (Nat.le_refl _) (Nat.le_refl _) (Nat.le_refl _)
    · exact hu
    · exact hih

theorem phase3_getc_within {n3 n5 n6 : Nat} (s : scan_state)
    (h : pushback_within 1 n3 n5 n6 s) :
    pushback_within 1 (n3 - 1) n5 n6 (phase3_getc s).2 := by
  unfold phase3_getc
  cases hp : s.phase3_pushback with
  | cons c rest =>
    dsimp only
    unfold pushback_within at h ⊢
    rw [hp] at h
    simp only [List.length_cons] at h
    exact ⟨h.1, by dsimp only; omega, h.2.2⟩
  | nil =>
    dsimp only
    have h0 : pushback_within 1 0 n5 n6 s := by
      unfold pushback_within at h ⊢
      rw [hp]
      exact ⟨h.1, Nat.le_refl _, h.2.2⟩
    exact (phase3_getc_loop_within _ s h0).widen (Nat.le_refl _) (Nat.zero_le _) (Nat.le_refl _)
      (Nat.le_refl _)

theorem phase3_ungetc_within {n2 n3 n5 n6 : Nat} (c : Option Char) (s : scan_state)
    (hn : n3 < 2) (h : pushback_within n2 n3 n5 n6 s) :
    pushback_within n2 (n3 + 1) n5 n6 (phase3_ungetc c s) := by
  unfold phase3_ungetc
  cases c with
  | none => exact h.widen (Nat.le_refl _) (Nat.le_succ _) (Nat.le_refl _) (Nat.le_refl _)
  | some c =>
    dsimp only
    have h0 : s.phase3_pushback.length ≤ n3 := h.2.1
    rw [if_neg (by omega)]
    unfold pushback_within at h ⊢
    exact ⟨h.1, by simp only [List.length_cons]; omega, h.2.2⟩

theorem comment_add_unless_leading_blank_within {n2 n3 n5 n6 : Nat} (c : Char) (s : scan_state)
    (h : pushback_within n2 n3 n5 n6 s) :
    pushback_within n2 n3 n5 n6 (comment_add_unless_leading_blank c s) := by
  unfold comment_add_unless_leading_blank
  split_ifs
  · exact h.keep rfl rfl rfl rfl rfl
  · exact h

theorem phase4_getc_c_comment_within {n3 n5 n6 : Nat} :
    ∀ (fuel : Nat) (b : Bool) (s : scan_state),
      pushback_within 1 n3 n5 n6 s →
      pushback_within 1 n3 n5 n6 (phase4_getc_c_comment fuel b s) := by
  intro fuel
  induction fuel with
  | zero => intro b s h; exact h.keep rfl rfl rfl rfl rfl
  | succ fuel ih =>
    intro b s h
    have h0 := (phase3_getc_within s h).widen (Nat.le_refl _) (Nat.sub_le n3 1) (Nat.le_refl _)
      (Nat.le_refl _)
    unfold phase4_getc_c_comment
    dsimp only
    split
    · exact h0
    · rename_i c _
      have hs1 := comment_add_unless_leading_blank_within c (phase3_getc s).2 h0
      generalize comment_add_unless_leading_blank c (phase3_getc s).2 = s1 at hs1 ⊢
      split_ifs
      · exact ih false _ (hs1.keep rfl rfl rfl rfl rfl)
      · exact ih true s1 hs1
      · exact hs1.keep rfl rfl rfl rfl rfl
      · exact ih false s1 hs1

theorem phase4_getc_cxx_comment_within {n3 n5 n6 : Nat} :
    ∀ (fuel : Nat) (s : scan_state),
      pushback_within 1 n3 n5 n6 s →
      pushback_within 1 n3 n5 n6 (phase4_getc_cxx_comment fuel s) := by
  intro fuel
  induction fuel with
  | zero => intro s h; exact h.keep rfl rfl rfl rfl rfl
  | succ fuel ih =>
    intro s h
    have h0 := (phase3_getc_within s h).widen (Nat.le_refl _) (Nat.sub_le n3 1) (Nat.le_refl _)
      (Nat.le_refl _)
    unfold phase4_getc_cxx_comment
    dsimp only
    split
    · exact h0
    · rename_i c _
      split_ifs
      · exact h0
      · exact ih _ (comment_add_unless_leading_blank_within c (phase3_getc s).2 h0)

theorem phase4_getc_within {n5 n6 : Nat} (s : scan_state) (h : pushback_within 1 2 n5 n6 s) :
    pushback_within 1 1 n5 n6 (phase4_getc s).2 := by
  have h0 : pushback_within 1 1 n5 n6 (phase3_getc s).2 := phase3_getc_within s h
  have h1 : pushback_within 1 0 n5 n6 (phase3_getc (phase3_getc s).2).2 :=
    phase3_getc_within _ h0
  have hu := phase3_ungetc_within (phase3_getc (phase3_getc s).2).1 _ (by decide) h1
  have hc := phase4_getc_c_comment_within (phase3_getc (phase3_getc s).2).2.fuel false
    (comment_start (phase3_getc (phase3_getc s).2).2) (h1.keep rfl rfl rfl rfl rfl)
  have hx := phase4_getc_cxx_comment_within (phase3_getc (phase3_getc s).2).2.fuel
    (comment_start (phase3_getc (phase3_getc s).2).2) (h1.keep rfl rfl rfl rfl rfl)
  unfold phase4_getc
  dsimp only
  split_ifs
  · exact h0
  · exact (hc.keep rfl rfl rfl rfl rfl).widen (Nat.le_refl _) (Nat.zero_le _) (Nat.le_refl _)
      (Nat.le_refl _)
  · exact (hx.keep rfl rfl rfl rfl rfl).widen (Nat.le_refl _) (Nat.zero_le _) (Nat.le_refl _)
      (Nat.le_refl _)
  · exact hu

theorem phase4_ungetc_within {n5 n6 : Nat} (c : Option Char) (s : scan_state)
    (h : pushback_within 1 1 n5 n6 s) : pushback_within 1 2 n5 n6 (phase4_ungetc c s) :=
  phase3_ungetc_within c s (by decide) h

theorem phase4_getc_within2 {n5 n6 : Nat} (s : scan_state) (h : pushback_within 1 2 n5 n6 s) :
    pushback_within 1 2 n5 n6 (phase4_getc s).2 :=
  (phase4_getc_within s h).widen (Nat.le_refl _) (by decide) (Nat.le_refl _) (Nat.le_refl _)

theorem phase5_get_white_space_within {n5 n6 : Nat} : ∀ (fuel : Nat) (s : scan_state),
    pushback_within 1 2 n5 n6 s → pushback_within 1 2 n5 n6 (phase5_get_white_space fuel s) := by
  intro fuel
  induction fuel with
  | zero => intro s h; exact h.keep rfl rfl rfl rfl rfl
  | succ fuel ih =>
    intro s h
    unfold phase5_get_white_space
    dsimp only
    split_ifs
    · exact ih _ (phase4_getc_within2 s h)
    · exact phase4_ungetc_within _ _ (phase4_getc_within s h)

theorem phase5_get_name_within {n5 n6 : Nat} :
    ∀ (fuel : Nat) (buffer : List Char) (c : Char) (s : scan_state),
      pushback_within 1 2 n5 n6 s →
      pushback_within 1 2 n5 n6 (phase5_get_name fuel buffer c s).2 := by
  intro fuel
  induction fuel with
  | zero => intro buffer c s h; exact h.keep rfl rfl rfl rfl rfl
  | succ fuel ih =>
    intro buffer c s h
    unfold phase5_get_name
    dsimp only
    split
    · split_ifs
      · exact ih _ _ _ (phase4_getc_within2 s h)
      · exact phase4_ungetc_within _ _ (phase4_getc_within s h)
    · exact phase4_ungetc_within _ _ (phase4_getc_within s h)

theorem phase5_get_dollar_within {n5 n6 : Nat} :
    ∀ (fuel : Nat) (buffer : List Char) (s : scan_state),
      pushback_within 1 2 n5 n6 s →
      pushback_within 1 2 n5 n6 (phase5_get_dollar fuel buffer s).2 := by
  intro fuel
  induction fuel with
  | zero => intro buffer s h; exact h.keep rfl rfl rfl rfl rfl
  | succ fuel ih =>
    intro buffer s h
    unfold phase5_get_dollar
    dsimp only
    split
    · split_ifs
      · exact ih _ _ (phase4_getc_within2 s h)
      · exact phase4_ungetc_within _ _ (phase4_getc_within s h)
    · exact phase4_ungetc_within _ _ (phase4_getc_within s h)

theorem phase5_get_dollar_start_within {n5 n6 : Nat} (s : scan_state)
    (h : pushback_within 1 2 n5 n6 s) :
    pushback_within 1 2 n5 n6 (phase5_get_dollar_start s).2 := by
  unfold phase5_get_dollar_start
  dsimp only
  split
  · split_ifs
    · exact phase5_get_dollar_within _ _ _ (phase4_getc_within2 s h)
    · exact phase4_ungetc_within _ _ (phase4_getc_within s h)
  · exact phase4_ungetc_within _ _ (phase4_getc_within s h)

theorem phase5_get_number_within {n5 n6 : Nat} :
    ∀ (fuel : Nat) (buffer : List Char) (c : Char) (s : scan_state),
      pushback_within 1 2 n5 n6 s →
      pushback_within 1 2 n5 n6 (phase5_get_number fuel buffer c s).2 := by
  intro fuel
  induction fuel with
  | zero => intro buffer c s h; exact h.keep rfl rfl rfl rfl rfl
  | succ fuel ih =>
    intro buffer c s h
    have h0 := phase4_getc_within2 s h
    unfold phase5_get_number
    dsimp only
    split
    · split_ifs
      · split
        · split_ifs
          · exact phase4_ungetc_within _ _ (phase4_getc_within _ h0)
          · exact ih _ _ _ (phase4_getc_within2 _ h0)
        · exact phase4_ungetc_within _ _ (phase4_getc_within _ h0)
      · exact ih _ _ _ h0
      · exact phase4_ungetc_within _ _ (phase4_getc_within s h)
    · exact phase4_ungetc_within _ _ (phase4_getc_within s h)

theorem phase5_get_string_within {n5 n6 : Nat} :
    ∀ (fuel : Nat) (cquot : Char) (buffer : List Char) (s : scan_state),
      pushback_within 1 2 n5 n6 s →
      pushback_within 1 2 n5 n6 (phase5_get_string fuel cquot buffer s).2 := by
  intro fuel
  induction fuel with
  | zero => intro cquot buffer s h; exact h.keep rfl rfl rfl rfl rfl
  | succ fuel ih =>
    intro cquot buffer s h
    have h0 : pushback_within 1 1 n5 n6 (phase3_getc s).2 := phase3_getc_within s h
    have h1 : pushback_within 1 0 n5 n6 (phase3_getc (phase3_getc s).2).2 :=
      phase3_getc_within _ h0
    have h0w := h0.widen (Nat.le_refl 1) (by decide : 1 ≤ 2) (Nat.le_refl n5) (Nat.le_refl n6)
    unfold phase5_get_string
    dsimp only
    split_ifs
    · exact ih _ _ _ (h1.widen (Nat.le_refl _) (Nat.zero_le _) (Nat.le_refl _) (Nat.le_refl _))
    · exact (phase3_ungetc_within _ _ (by decide) h1).widen (Nat.le_refl _) (by decide)
        (Nat.le_refl _) (Nat.le_refl _)
    · split
      · exact h0w
      · split_ifs
        · exact phase3_ungetc_within _ _ (by decide) (h0.keep rfl rfl rfl rfl rfl)
        · exact ih _ _ _ h0w

theorem phase5_get_within {n6 : Nat} (s : scan_state) (h : pushback_within 1 2 1 n6 s) :
    pushback_within 1 2 0 n6 (phase5_get s).2 := by
  cases h5 : s.phase5_pushback with
  | cons t rest =>
    rw [phase5_get_pushback s t rest h5]
    unfold pushback_within at h ⊢
    rw [h5] at h
    simp only [List.length_cons] at h
    exact ⟨h.1, h.2.1, by dsimp only; omega, h.2.2.2⟩
  | nil =>
    have hs : pushback_within 1 2 0 n6 s := by
      unfold pushback_within at h ⊢
      rw [h5]
      exact ⟨h.1, h.2.1, Nat.le_refl _, h.2.2.2⟩
    have h0 := phase4_getc_within2 s hs
    have h1 := phase4_getc_within _ h0
    have h1w := phase4_getc_within2 _ h0
    have hu := phase4_ungetc_within (phase4_getc (phase4_getc s).2).1 _ h1
    unfold phase5_get
    rw [h5]
    dsimp only
    cases hc : (phase4_getc s).1 with
    | none => exact h0
    | some c =>
      dsimp only
      by_cases c1 : c = '\n'
      · rw [if_pos c1]; exact h0
      rw [if_neg c1]
      by_cases c2 : c = ' ' ∨ c = '\x0c' ∨ c = '\t'
      · rw [if_pos c2]; exact phase5_get_white_space_within _ _ h0
      rw [if_neg c2]
      by_cases c3 : is_name_start c = true
      · rw [if_pos c3]; exact phase5_get_name_within _ _ _ _ h0
      rw [if_neg c3]
      by_cases c4 : c = '$'
      · rw [if_pos c4]
        split_ifs <;> exact phase5_get_dollar_start_within _ h0
      rw [if_neg c4]
      by_cases c5 : c = '.'
      · rw [if_pos c5]
        split_ifs
        · exact phase5_get_number_within _ _ _ _ hu
        · exact hu
      rw [if_neg c5]
      by_cases c6 : c_isdigit c = true
      · rw [if_pos c6]; exact phase5_get_number_within _ _ _ _ h0
      rw [if_neg c6]
      by_cases c7 : c = '"' ∨ c = '\''
      · rw [if_pos c7]; exact phase5_get_string_within _ _ _ _ h0
      rw [if_neg c7]
      by_cases c8 : c = '('
      · rw [if_pos c8]; exact h0
      rw [if_neg c8]
      by_cases c9 : c = ')'
      · rw [if_pos c9]; exact h0
      rw [if_neg c9]
      by_cases c10 : c = '['
      · rw [if_pos c10]; exact h0
      rw [if_neg c10]
      by_cases c11 : c = ']'
      · rw [if_pos c11]; exact h0
      rw [if_neg c11]
      by_cases c12 : c = ','
      · rw [if_pos c12]; exact h0
      rw [if_neg c12]
      by_cases c13 : c = '#'
      · rw [if_pos c13]; exact h0
      rw [if_neg c13]
      by_cases c14 : c = ':'
      · rw [if_pos c14]; exact h0
      rw [if_neg c14]
      by_cases c15 : c = '\\'
      · rw [if_pos c15]
        split_ifs
        · exact h1w
        · exact hu
      rw [if_neg c15]
      exact h0

theorem phase5_unget_within {n2 n3 n6 : Nat} (tp : token_ty) (s : scan_state)
    (h : pushback_within n2 n3 0 n6 s) : pushback_within n2 n3 1 n6 (phase5_unget tp s) := by
  have h0 : s.phase5_pushback.length = 0 := Nat.le_zero.mp h.2.2.1
  unfold phase5_unget
  split_ifs
  · omega
  · unfold pushback_within at h ⊢
    exact ⟨h.1, h.2.1, by simp only [List.length_cons]; omega, h.2.2.2⟩
  · exact h.widen (Nat.le_refl _) (Nat.le_refl _) (Nat.zero_le _) (Nat.le_refl _)

theorem phaseX_get_within {n6 : Nat} (s : scan_state) (h : pushback_within 1 2 1 n6 s) :
    pushback_within 1 2 1 n6 (phaseX_get s).2 := by
  have h0 := phase5_get_within s h
  have h0w := h0.widen (Nat.le_refl 1) (Nat.le_refl 2) (Nat.zero_le 1) (Nat.le_refl n6)
  have h1 := phase5_get_within _ h0w
  have h1w := h1.widen (Nat.le_refl 1) (Nat.le_refl 2) (Nat.zero_le 1) (Nat.le_refl n6)
  have hu := phase5_unget_within (phase5_get (phase5_get s).2).1 _ h1
  unfold phaseX_get
  dsimp only
  split_ifs
  · exact h0w.keep rfl rfl rfl rfl rfl
  · exact h0w
  · exact h0w
  · exact h1w.keep rfl rfl rfl rfl rfl
  · exact hu.keep rfl rfl rfl rfl rfl
  · exact h0w.keep rfl rfl rfl rfl rfl

theorem phase6_get_directive_within {n6 : Nat} :
    ∀ (fuel : Nat) (buf : List token_ty) (s : scan_state),
      pushback_within 1 2 1 n6 s →
      pushback_within 1 2 1 n6 (phase6_get_directive fuel buf s).2.2 := by
  intro fuel
  induction fuel with
  | zero => intro buf s h; exact h.keep rfl rfl rfl rfl rfl
  | succ fuel ih =>
    intro buf s h
    have h0 := phaseX_get_within s h
    unfold phase6_get_directive
    dsimp only
    split_ifs
    · exact h0
    · exact h0
    · exact ih _ _ h0
    · exact ih _ _ h0

theorem phase6_apply_directive_within {n2 n3 n5 n6 : Nat} (buf : List token_ty) (s : scan_state)
    (h : pushback_within n2 n3 n5 n6 s) :
    pushback_within n2 n3 n5 n6 (phase6_apply_directive buf s) := by
  have a : ∀ s1 : scan_state, pushback_within n2 n3 n5 n6 s1 →
      pushback_within n2 n3 n5 n6 (phase6_apply_line buf s1) := by
    intro s1 h1
    unfold phase6_apply_line
    split
    · split_ifs
      · exact h1.keep rfl rfl rfl rfl rfl
      · exact h1
    · exact h1
  have b : ∀ s1 : scan_state, pushback_within n2 n3 n5 n6 s1 →
      pushback_within n2 n3 n5 n6 (phase6_apply_number buf s1) := by
    intro s1 h1
    unfold phase6_apply_number
    split
    · split_ifs
      · exact h1.keep rfl rfl rfl rfl rfl
      · exact h1
    · exact h1
  exact b _ (a s h)

theorem phase6_get_loop_within {n6 : Nat} : ∀ (fuel : Nat) (s : scan_state),
    pushback_within 1 2 1 n6 s → pushback_within 1 2 1 n6 (phase6_get_loop fuel s).2 := by
  intro fuel
  induction fuel with
  | zero => intro s h; exact h.keep rfl rfl rfl rfl rfl
  | succ fuel ih =>
    intro s h
    have h0 := phaseX_get_within s h
    have hd := phase6_get_directive_within (phaseX_get s).2.fuel [] _ h0
    unfold phase6_get_loop
    dsimp only
    split_ifs
    · exact h0
    · split
      · exact hd
      · exact ih _ ((phase6_apply_directive_within _ _ hd).keep rfl rfl rfl rfl rfl)

theorem phase6_get_within {n6 : Nat} (s : scan_state) (h : pushback_within 1 2 1 n6 s) :
    pushback_within 1 2 1 (n6 - 1) (phase6_get s).2 := by
  unfold phase6_get
  cases hp : s.phase6_pushback with
  | cons t rest =>
    dsimp only
    unfold pushback_within at h ⊢
    rw [hp] at h
    simp only [List.length_cons] at h
    exact ⟨h.1, h.2.1, h.2.2.1, by dsimp only; omega, h.2.2.2.2⟩
  | nil =>
    dsimp only
    have h0 : pushback_within 1 2 1 0 s := by
      unfold pushback_within at h ⊢
      rw [hp]
      exact ⟨h.1, h.2.1, h.2.2.1, Nat.le_refl _, h.2.2.2.2⟩
    exact (phase6_get_loop_within _ s h0).widen (Nat.le_refl _) (Nat.le_refl _) (Nat.le_refl _)
      (Nat.zero_le _)

theorem phase6_unget_within {n2 n3 n5 n6 : Nat} (tp : token_ty) (s : scan_state) (hn : n6 < 2)
    (h : pushback_within n2 n3 n5 n6 s) :
    pushback_within n2 n3 n5 (n6 + 1) (phase6_unget tp s) := by
  have h0 : s.phase6_pushback.length ≤ n6 := h.2.2.2.1
  unfold phase6_unget
  split_ifs
  · omega
  · unfold pushback_within at h ⊢
    exact ⟨h.1, h.2.1, h.2.2.1, by simp only [List.length_cons]; omega, h.2.2.2.2⟩
  · exact h.widen (Nat.le_refl _) (Nat.le_refl _) (Nat.le_refl _) (Nat.le_succ _)

theorem phase8a_get_loop_within {n6 : Nat} : ∀ (fuel : Nat) (s : scan_state),
    pushback_within 1 2 1 n6 s → pushback_within 1 2 1 n6 (phase8a_get_loop fuel s).2 := by
  intro fuel
  induction fuel with
  | zero => intro s h; exact h.keep rfl rfl rfl rfl rfl
  | succ fuel ih =>
    intro s h
    have h0 := (phase6_get_within s h).widen (Nat.le_refl 1) (Nat.le_refl 2) (Nat.le_refl 1)
      (Nat.sub_le n6 1)
    unfold phase8a_get_loop
    dsimp only
    split_ifs
    · exact ih _ h0
    · exact ih _ (h0.keep rfl rfl rfl rfl rfl)
    · exact ih _ (h0.keep rfl rfl rfl rfl rfl)
    · exact h0

theorem phase8a_get_within {n6 : Nat} (s : scan_state) (h : pushback_within 1 2 1 n6 s) :
    pushback_within 1 2 1 (n6 - 1) (phase8a_get s).2 := by
  have h0 := phase6_get_within s h
  unfold phase8a_get scan_state.fuel
  rw [phase8a_get_loop]
  dsimp only
  split_ifs
  · exact phase8a_get_loop_within _ _ h0
  · exact phase8a_get_loop_within _ _ (h0.keep rfl rfl rfl rfl rfl)
  · exact phase8a_get_loop_within _ _ (h0.keep rfl rfl rfl rfl rfl)
  · exact h0

theorem phase8_get_loop_within : ∀ (fuel : Nat) (tp : token_ty) (s : scan_state),
    pushback_within 1 2 1 2 s → pushback_within 1 2 1 2 (phase8_get_loop fuel tp s).2 := by
  intro fuel
  induction fuel with
  | zero => intro tp s h; exact h.keep rfl rfl rfl rfl rfl
  | succ fuel ih =>
    intro tp s h
    have h0 : pushback_within 1 2 1 1 (phase8a_get s).2 := phase8a_get_within s h
    unfold phase8_get_loop
    dsimp only
    have hu : pushback_within 1 2 1 2 (phase8a_unget (phase8a_get s).1 (phase8a_get s).2) :=
      phase6_unget_within _ _ (by decide) h0
    split_ifs
    · exact hu
    · exact hu
    · exact ih _ _ (h0.widen (Nat.le_refl _) (Nat.le_refl _) (Nat.le_refl _) (by decide))

theorem phase8_get_within (s : scan_state) (h : pushback_within 1 2 1 2 s) :
    pushback_within 1 2 1 2 (phase8_get s).2 := by
  have h0 : pushback_within 1 2 1 1 (phase8a_get s).2 := phase8a_get_within s h
  have h0w := h0.widen (Nat.le_refl 1) (Nat.le_refl 2) (Nat.le_refl 1) (by decide : 1 ≤ 2)
  unfold phase8_get
  dsimp only
  split_ifs
  · exact h0w
  · exact phase8_get_loop_within _ _ _ h0w

theorem x_arma_lex_within (k : keyword_state) (s : scan_state)
    (h : pushback_within 1 2 1 2 s) : pushback_within 1 2 1 2 (x_arma_lex k s).2 := by
  have h0 := phase8_get_within s h
  have h1 : pushback_within 1 2 1 2
      { (phase8_get s).2 with last_non_comment_line := (phase8_get s).2.newline_count } :=
    h0.keep rfl rfl rfl rfl rfl
  unfold x_arma_lex
  dsimp only
  split
  · exact h0
  · split
    · exact h1
    · exact h1
  all_goals exact h1

theorem extract_parenthesized_loop_within (k : keyword_state) :
    ∀ (fuel argparser : Nat) (arg : Int) (state : Bool) (next_shapes : Option callshapes)
      (e : extract_state), pushback_within 1 2 1 2 e.scan →
      pushback_within 1 2 1 2
        (extract_parenthesized_loop k fuel argparser arg state next_shapes e).2.scan := by
  intro fuel
  induction fuel with
  | zero => intro argparser arg state next_shapes e h; exact h.keep rfl rfl rfl rfl rfl
  | succ fuel ih =>
    intro argparser arg state next_shapes e h
    have h0 := x_arma_lex_within k e.scan h
    unfold extract_parenthesized_loop
    dsimp only
    split
    all_goals try split_ifs
    all_goals first
      | exact h0
      | exact ih _ _ _ _ _ h0
      | exact ih _ _ _ _ _ (ih _ _ _ _ _ h0)

theorem extract_whole_file_loop_within (k : keyword_state) :
    ∀ (fuel : Nat) (e : extract_state), pushback_within 1 2 1 2 e.scan →
      pushback_within 1 2 1 2 (extract_whole_file_loop k fuel e).scan := by
  intro fuel
  induction fuel with
  | zero => intro e h; exact h.keep rfl rfl rfl rfl rfl
  | succ fuel ih =>
    intro e h
    have h0 := extract_parenthesized_loop_within k e.scan.fuel e.allocated 1 false none
      (arglist_parser_alloc none e).2 h
    unfold extract_whole_file_loop
    dsimp only
    split_ifs
    · exact h0
    · exact ih _ h0

/-- C26: no pushback buffer exceeds its capacity and no `abort ()` of an unget
operation is reached.  A whole-file scan of any input ends with at most 1
character in the pushback of phase 2, at most 2 in the one of phase 3, at most
1 token in the one of phase 5, at most 2 in the one of phase 6 and with the
`aborted` flag clear (the flag is only ever set, so it was clear throughout);
the same bounds hold after every call of `x_arma_lex`, `phase8_get`,
`phase6_get`, `phaseX_get`, `phase5_get` and `phase4_getc` that starts within
them, and the unget operations of the tokenizer are only reached with room
left: after `phase4_getc` at most 1 character is pending in phase 3, after
`phase5_get` no token is pending in phase 5 and after `phase8a_get` at most 1
token is pending in phase 6. -/
theorem C26_pushback_never_exceeds_capacity :
    (∀ (k : keyword_state) (f logical_filename : List Char),
      pushback_within 1 2 1 2 (extract_whole_file k f logical_filename).2.scan) ∧
    (∀ (k : keyword_state) (s : scan_state), pushback_within 1 2 1 2 s →
      pushback_within 1 2 1 2 (x_arma_lex k s).2) ∧
    (∀ s : scan_state, pushback_within 1 2 1 2 s →
      pushback_within 1 2 1 2 (phase8_get s).2 ∧
      pushback_within 1 2 1 1 (phase8a_get s).2 ∧
      pushback_within 1 2 1 1 (phase6_get s).2 ∧
      pushback_within 1 2 1 2 (phaseX_get s).2 ∧
      pushback_within 1 2 0 2 (phase5_get s).2 ∧
      pushback_within 1 1 1 2 (phase4_getc s).2 ∧
      pushback_within 1 1 1 2 (phase3_getc s).2 ∧
      pushback_within 0 2 1 2 (phase2_getc s).2) := by
  refine ⟨?_, ?_, ?_⟩
  · intro k f logical_filename
    unfold extract_whole_file
    dsimp only
    exact extract_whole_file_loop_within _ _ _
      ⟨Nat.zero_le _, Nat.zero_le _, Nat.zero_le _, Nat.zero_le _, rfl⟩
  · intro k s h
    exact x_arma_lex_within k s h
  · intro s h
    exact ⟨phase8_get_within s h, phase8a_get_within s h, phase6_get_within s h,
      phaseX_get_within s h, phase5_get_within s h, phase4_getc_within s h,
      phase3_getc_within s h, phase2_getc_within s h⟩

theorem C26_pushback_never_exceeds_capacity_witness :
    pushback_within 1 2 1 2 (scan_state.initial "f (\"a\" \"b\") /".toList []) ∧
    pushback_within 1 2 1 2
      (x_arma_lex keyword_state.initial (scan_state.initial "f (\"a\" \"b\") /".toList [])).2 :=
  ⟨by decide,
    C26_pushback_never_exceeds_capacity.2.1 keyword_state.initial
      (scan_state.initial "f (\"a\" \"b\") /".toList []) (by decide)⟩

/-! ### The character layers in terms of the pending text -/

theorem phase3_getc_loop_none : ∀ (fuel : Nat) (s : scan_state),
    s.phase1_pushback = [] → s.phase2_pushback.length ≤ 1 →
    s.phase2_pushback.length + s.fp.length < fuel →
    (phase3_getc_loop fuel s).1 = none →
    (phase3_getc_loop fuel s).2.fp = [] ∧ (phase3_getc_loop fuel s).2.phase2_pushback = [] := by
  intro fuel
  induction fuel with
  | zero => intro s _ _ h; omega
  | succ fuel ih =>
    intro s h1 h2 hlen
    obtain ⟨a1, a2, a3, a4⟩ := phase2_getc_splice s h1 h2
    rw [phase3_getc_loop]
    dsimp only
    by_cases hb : (phase2_getc s).1 = some '\\'
    · rw [if_neg (by simp [hb])]
      obtain ⟨b1, b2, b3, b4⟩ := phase2_getc_splice (phase2_getc s).2 a1 (by rw [a2]; simp)
      have hs : (phase2_getc s).2.fp.length + 1 ≤ s.phase2_pushback.length + s.fp.length := by
        rcases a4 with ⟨j1, _, _⟩ | ⟨c, _, _, j3⟩
        · rw [hb] at j1
          exact absurd j1 (by simp)
        · exact j3
      by_cases hn : (phase2_getc (phase2_getc s).2).1 = some '\n'
      · rw [if_neg (by simp [hn])]
        have hs2 : (phase2_getc (phase2_getc s).2).2.fp.length + 1 ≤
            (phase2_getc s).2.fp.length := by
          rcases b4 with ⟨k1, _, _⟩ | ⟨c1, _, _, k3⟩
          · rw [hn] at k1
            exact absurd k1 (by simp)
          · rw [a2] at k3
            simpa using k3
        exact ih _ b1 (by rw [b2]; simp) (by rw [b2, List.length_nil]; omega)
      · rw [if_pos (by simpa using hn)]
        intro h
        exact absurd h (by simp)
    · rw [if_pos (by simpa using hb)]
      intro h
      rcases a4 with ⟨_, _, j3⟩ | ⟨c, j1, _, _⟩
      · exact ⟨j3, a2⟩
      · rw [h] at j1
        exact absurd j1 (by simp)

theorem phase3_getc_pending {n3 : Nat} (s : scan_state) (h : s.ready n3) :
    (phase3_getc s).2.ready (n3 - 1) ∧
    (phase3_getc s).1 = s.pending.head? ∧ (phase3_getc s).2.pending = s.pending.tail := by
  unfold phase3_getc
  cases hp : s.phase3_pushback with
  | cons c rest =>
    dsimp only
    have h3 := h.2.2
    rw [hp] at h3
    simp only [List.length_cons] at h3
    refine ⟨⟨h.1, h.2.1, by dsimp only; omega⟩, ?_, ?_⟩
    · unfold scan_state.pending
      rw [hp]
      rfl
    · unfold scan_state.pending
      rw [hp]
      rfl
  | nil =>
    dsimp only
    obtain ⟨a1, a2, a3, a4⟩ := phase3_getc_loop_splice s.fuel s h.1 h.2.1
      (by simp only [scan_state.fuel]; omega)
    have hnone := phase3_getc_loop_none s.fuel s h.1 h.2.1
      (by simp only [scan_state.fuel]; omega)
    refine ⟨⟨a1, a2, by rw [a3, hp]; exact Nat.zero_le _⟩, ?_⟩
    unfold scan_state.pending
    rw [a3, hp, List.nil_append, List.nil_append]
    rcases a4 with ⟨j1, j2⟩ | ⟨c, j1, j2, _⟩
    · obtain ⟨n1, n2⟩ := hnone j1
      rw [j1, j2, n1, n2]
      exact ⟨rfl, rfl⟩
    · rw [j1, j2]
      exact ⟨rfl, rfl⟩

theorem phase3_ungetc_pending {n3 : Nat} (c : Option Char) (s : scan_state) (hn : n3 < 2)
    (h : s.ready n3) :
    (phase3_ungetc c s).ready (n3 + 1) ∧
    (phase3_ungetc c s).pending = c.toList ++ s.pending := by
  have h3 := h.2.2
  unfold phase3_ungetc
  cases c with
  | none => exact ⟨⟨h.1, h.2.1, Nat.le_succ_of_le h3⟩, rfl⟩
  | some c =>
    dsimp only
    rw [if_neg (by omega)]
    exact ⟨⟨h.1, h.2.1, Nat.succ_le_succ h3⟩, rfl⟩

theorem scan_state.ready.relax {n3 m3 : Nat} {s : scan_state} (h : s.ready n3) (hm : n3 ≤ m3) :
    s.ready m3 := ⟨h.1, h.2.1, le_trans h.2.2 hm⟩

theorem pending_length_lt_fuel (s : scan_state) : s.pending.length < s.fuel := by
  have a : ∀ (n : Nat) (l : List Char), l.length ≤ n → (splice_lines l).length ≤ l.length := by
    intro n
    induction n with
    | zero =>
      intro l hl
      have : l = [] := List.length_eq_zero.mp (by omega)
      subst this
      simp [splice_lines]
    | succ n ih =>
      intro l hl
      match l with
      | [] => simp [splice_lines]
      | [c] => simp [splice_lines]
      | c :: c1 :: rest =>
        simp only [List.length_cons] at hl
        rw [splice_lines]
        split_ifs
        · have := ih rest (by omega)
          simp only [List.length_cons]
          omega
        · have := ih (c1 :: rest) (by simp only [List.length_cons]; omega)
          simp only [List.length_cons] at this ⊢
          omega
  have b : ∀ (n : Nat) (l : List Char), l.length ≤ n →
      (unify_line_endings l).length ≤ l.length := by
    intro n
    induction n with
    | zero =>
      intro l hl
      have : l = [] := List.length_eq_zero.mp (by omega)
      subst this
      simp [unify_line_endings]
    | succ n ih =>
      intro l hl
      match l with
      | [] => simp [unify_line_endings]
      | [c] => simp [unify_line_endings]
      | c :: c1 :: rest =>
        simp only [List.length_cons] at hl
        rw [unify_line_endings]
        split_ifs
        · have := ih rest (by omega)
          simp only [List.length_cons]
          omega
        · have := ih (c1 :: rest) (by simp only [List.length_cons]; omega)
          simp only [List.length_cons] at this ⊢
          omega
        · have := ih (c1 :: rest) (by simp only [List.length_cons]; omega)
          simp only [List.length_cons] at this ⊢
          omega
  unfold scan_state.pending scan_state.fuel
  have h1 := a _ (s.phase2_pushback ++ splice_lines (unify_line_endings s.fp)) (Nat.le_refl _)
  have h2 := a _ (unify_line_endings s.fp) (Nat.le_refl _)
  have h3 := b _ s.fp (Nat.le_refl _)
  simp only [List.length_append] at h1 ⊢
  omega

theorem comment_add_unless_leading_blank_pending (c : Char) (s : scan_state) :
    (comment_add_unless_leading_blank c s).pending = s.pending ∧
    (comment_add_unless_leading_blank c s).fuel = s.fuel ∧
    (∀ n3, s.ready n3 → (comment_add_unless_leading_blank c s).ready n3) := by
  unfold comment_add_unless_leading_blank
  split_ifs
  · exact ⟨rfl, rfl, fun _ h => h⟩
  · exact ⟨rfl, rfl, fun _ h => h⟩

theorem phase4_getc_c_comment_pending {n3 : Nat} :
    ∀ (fuel : Nat) (b : Bool) (s : scan_state), s.ready n3 → s.fuel ≤ fuel →
      (phase4_getc_c_comment fuel b s).ready n3 ∧
      (phase4_getc_c_comment fuel b s).pending = skip_block b s.pending := by
  intro fuel
  induction fuel with
  | zero =>
    intro b s _ hf
    simp only [scan_state.fuel] at hf
    omega
  | succ fuel ih =>
    intro b s h hf
    obtain ⟨a1, a2, a3⟩ := phase3_getc_pending s h
    have a1w := a1.relax (Nat.sub_le n3 1)
    have af := phase3_getc_fuel s
    unfold phase4_getc_c_comment
    dsimp only
    cases hc : (phase3_getc s).1 with
    | none =>
      dsimp only
      rw [hc] at a2
      have e : s.pending = [] := List.head?_eq_none_iff.mp a2.symm
      rw [a3, e]
      exact ⟨a1w, rfl⟩
    | some c =>
      dsimp only
      rw [hc] at a2
      obtain ⟨L, e⟩ : ∃ L, s.pending = c :: L := by
        cases hp : s.pending with
        | nil => rw [hp] at a2; exact absurd a2 (by simp)
        | cons d L =>
          rw [hp] at a2
          simp only [List.head?_cons, Option.some.injEq] at a2
          exact ⟨L, by rw [a2]⟩
      rw [e, List.tail_cons] at a3
      have aflt : (phase3_getc s).2.fuel < s.fuel := af.2 (by rw [hc]; simp)
      obtain ⟨q1, q2, q3⟩ := comment_add_unless_leading_blank_pending c (phase3_getc s).2
      have hs1 := q3 _ a1w
      rw [a3] at q1
      generalize comment_add_unless_leading_blank c (phase3_getc s).2 = s1 at q1 q2 hs1 ⊢
      rw [e, skip_block]
      by_cases c1 : c = '\n'
      · rw [if_pos c1]
        have c2 : c ≠ '*' := by rw [c1]; decide
        have c3 : ¬ (c = '/' ∧ b = true) := by rw [c1]; simp
        rw [if_neg c2, if_neg c3]
        have i := ih false (comment_start (comment_line_end 1 s1)) hs1
          (by rw [comment_start_fuel, comment_line_end_fuel, q2]; omega)
        exact ⟨i.1, by rw [i.2]; exact congrArg _ q1⟩
      rw [if_neg c1]
      by_cases c2 : c = '*'
      · rw [if_pos c2, if_pos c2]
        have i := ih true s1 hs1 (by rw [q2]; omega)
        exact ⟨i.1, by rw [i.2, q1]⟩
      rw [if_neg c2, if_neg c2]
      by_cases c3 : c = '/' ∧ b = true
      · rw [if_pos c3, if_pos c3]
        exact ⟨hs1, q1⟩
      rw [if_neg c3, if_neg c3]
      have i := ih false s1 hs1 (by rw [q2]; omega)
      exact ⟨i.1, by rw [i.2, q1]⟩

theorem phase4_getc_cxx_comment_pending {n3 : Nat} :
    ∀ (fuel : Nat) (s : scan_state), s.ready n3 → s.fuel ≤ fuel →
      (phase4_getc_cxx_comment fuel s).ready n3 ∧
      (phase4_getc_cxx_comment fuel s).pending = skip_line s.pending := by
  intro fuel
  induction fuel with
  | zero =>
    intro s _ hf
    simp only [scan_state.fuel] at hf
    omega
  | succ fuel ih =>
    intro s h hf
    obtain ⟨a1, a2, a3⟩ := phase3_getc_pending s h
    have a1w := a1.relax (Nat.sub_le n3 1)
    have af := phase3_getc_fuel s
    unfold phase4_getc_cxx_comment
    dsimp only
    cases hc : (phase3_getc s).1 with
    | none =>
      dsimp only
      rw [hc] at a2
      have e : s.pending = [] := List.head?_eq_none_iff.mp a2.symm
      rw [a3, e]
      exact ⟨a1w, rfl⟩
    | some c =>
      dsimp only
      rw [hc] at a2
      obtain ⟨L, e⟩ : ∃ L, s.pending = c :: L := by
        cases hp : s.pending with
        | nil => rw [hp] at a2; exact absurd a2 (by simp)
        | cons d L =>
          rw [hp] at a2
          simp only [List.head?_cons, Option.some.injEq] at a2
          exact ⟨L, by rw [a2]⟩
      rw [e, List.tail_cons] at a3
      have aflt : (phase3_getc s).2.fuel < s.fuel := af.2 (by rw [hc]; simp)
      obtain ⟨q1, q2, q3⟩ := comment_add_unless_leading_blank_pending c (phase3_getc s).2
      rw [e, skip_line]
      by_cases c1 : c = '\n'
      · rw [if_pos c1, if_pos c1]
        exact ⟨a1w, a3⟩
      rw [if_neg c1, if_neg c1]
      have i := ih _ (q3 _ a1w) (by rw [q2]; omega)
      exact ⟨i.1, by rw [i.2, q1, a3]⟩

theorem phase4_getc_pending (s : scan_state) (h : s.ready 2) :
    (phase4_getc s).2.ready 1 ∧
    (phase4_getc s).1 = (phase4_view s.pending).1 ∧
    (phase4_getc s).2.pending = (phase4_view s.pending).2 := by
  obtain ⟨a1, a2, a3⟩ := phase3_getc_pending s h
  obtain ⟨b1, b2, b3⟩ := phase3_getc_pending (phase3_getc s).2 a1
  have af := phase3_getc_fuel s
  obtain ⟨u1, u2⟩ := phase3_ungetc_pending (phase3_getc (phase3_getc s).2).1 _ (by decide) b1
  have hc := phase4_getc_c_comment_pending (phase3_getc (phase3_getc s).2).2.fuel false
    (comment_start (phase3_getc (phase3_getc s).2).2) b1 (Nat.le_refl _)
  have hx := phase4_getc_cxx_comment_pending (phase3_getc (phase3_getc s).2).2.fuel
    (comment_start (phase3_getc (phase3_getc s).2).2) b1 (Nat.le_refl _)
  have e0 : (comment_start (phase3_getc (phase3_getc s).2).2).pending =
      (phase3_getc (phase3_getc s).2).2.pending := rfl
  rw [e0, b3, a3] at hc hx
  rw [b3, a3, b2, a3] at u2
  rw [a3] at b2
  unfold phase4_getc
  dsimp only
  cases hp : s.pending with
  | nil =>
    rw [hp] at a2 a3
    rw [if_pos (by rw [a2]; simp), phase4_view]
    exact ⟨a1, a2, a3⟩
  | cons c rest =>
    rw [hp] at a2 a3 b2 hc hx u2
    simp only [List.head?_cons, List.tail_cons] at a2 a3 b2 hc hx u2
    by_cases c1 : c = '/'
    · rw [if_neg (show ¬ ((phase3_getc s).1 ≠ some '/') from by rw [a2, c1]; simp)]
      by_cases c2 : rest.head? = some '*'
      · rw [if_pos (show (phase3_getc (phase3_getc s).2).1 = some '*' from by rw [b2, c2])]
        have hv : phase4_view (c :: rest) = (some ' ', skip_block false rest.tail) := by
          rw [phase4_view, if_neg (show ¬ (c ≠ '/') from by simp [c1]), if_pos c2]
        rw [hv]
        exact ⟨hc.1.relax (by decide), rfl, hc.2⟩
      rw [if_neg (show ¬ ((phase3_getc (phase3_getc s).2).1 = some '*') from by rw [b2]; exact c2)]
      by_cases c3 : rest.head? = some '/'
      · rw [if_pos (show (phase3_getc (phase3_getc s).2).1 = some '/' from by rw [b2, c3])]
        have hv : phase4_view (c :: rest) = (some '\n', skip_line rest.tail) := by
          rw [phase4_view, if_neg (show ¬ (c ≠ '/') from by simp [c1]), if_neg c2, if_pos c3]
        rw [hv]
        exact ⟨hx.1.relax (by decide), rfl, hx.2⟩
      rw [if_neg (show ¬ ((phase3_getc (phase3_getc s).2).1 = some '/') from by rw [b2]; exact c3)]
      have hv : phase4_view (c :: rest) = (some '/', rest) := by
        rw [phase4_view, if_neg (show ¬ (c ≠ '/') from by simp [c1]), if_neg c2, if_neg c3]
      rw [hv]
      refine ⟨u1, rfl, ?_⟩
      dsimp only
      rw [b2, u2]
      cases rest <;> rfl
    · rw [if_pos (show (phase3_getc s).1 ≠ some '/' from by rw [a2]; simpa using c1)]
      have hv : phase4_view (c :: rest) = (some c, rest) := by
        rw [phase4_view, if_pos c1]
      rw [hv]
      exact ⟨a1, a2, a3⟩

/-! ### The tokenizer at the end of the pending text -/

theorem phase4_getc_at_end (s : scan_state) (h : s.ready 2) (hp : s.pending = []) :
    (phase4_getc s).1 = none ∧ (phase4_getc s).2.pending = [] ∧ (phase4_getc s).2.ready 1 := by
  obtain ⟨a1, a2, a3⟩ := phase4_getc_pending s h
  rw [hp] at a2 a3
  exact ⟨a2, a3, a1⟩

theorem phase5_get_at_end {n6 : Nat} (s : scan_state) (h : s.ready 2)
    (hw : pushback_within 1 2 0 n6 s) (hp : s.pending = []) :
    (phase5_get s).1.type = token_type_eof ∧ (phase5_get s).2.pending = [] ∧
      (phase5_get s).2.ready 2 ∧ pushback_within 1 2 0 n6 (phase5_get s).2 := by
  have h5 : s.phase5_pushback = [] := List.length_eq_zero.mp (Nat.le_zero.mp hw.2.2.1)
  obtain ⟨a1, a2, a3⟩ := phase4_getc_at_end s h hp
  have hw1 := phase5_get_within s (hw.widen (Nat.le_refl _) (Nat.le_refl _) (Nat.zero_le 1)
    (Nat.le_refl _))
  refine ⟨?_, ?_, ?_, hw1⟩
  all_goals
    unfold phase5_get
    rw [h5]
    dsimp only
    rw [a1]
  · exact a2
  · exact a3.relax (by decide)

theorem phase5_get_blank_then_end {n6 : Nat} (s : scan_state) (h : s.ready 2)
    (hw : pushback_within 1 2 0 n6 s) (hp : phase4_view s.pending = (some ' ', [])) :
    (phase5_get s).1.type = token_type_white_space ∧ (phase5_get s).2.pending = [] ∧
      (phase5_get s).2.ready 2 ∧ pushback_within 1 2 0 n6 (phase5_get s).2 := by
  have h5 : s.phase5_pushback = [] := List.length_eq_zero.mp (Nat.le_zero.mp hw.2.2.1)
  obtain ⟨a1, a2, a3⟩ := phase4_getc_pending s h
  rw [hp] at a2 a3
  obtain ⟨b1, b2, b3⟩ := phase4_getc_at_end (phase4_getc s).2 (a1.relax (by decide)) a3
  have hw1 := phase5_get_within s (hw.widen (Nat.le_refl _) (Nat.le_refl _) (Nat.zero_le 1)
    (Nat.le_refl _))
  have e : phase5_get_white_space (phase4_getc s).2.fuel (phase4_getc s).2 =
      (phase4_getc (phase4_getc s).2).2 := by
    unfold scan_state.fuel
    rw [phase5_get_white_space]
    rw [if_neg (by rw [b1]; simp), b1]
    rfl
  refine ⟨?_, ?_, ?_, hw1⟩
  all_goals
    unfold phase5_get
    rw [h5]
    dsimp only
    rw [a2]
    dsimp only
    rw [if_neg (by decide), if_pos (Or.inl rfl)]
  · dsimp only
    rw [e]
    exact b2
  · dsimp only
    rw [e]
    exact b3.relax (by decide)

theorem phaseX_get_at_end {n6 : Nat} (s : scan_state) (h : s.ready 2)
    (hw : pushback_within 1 2 0 n6 s) (hp : s.pending = []) :
    (phaseX_get s).1.type = token_type_eof ∧ (phaseX_get s).2.pending = [] ∧
      (phaseX_get s).2.ready 2 ∧ pushback_within 1 2 0 n6 (phaseX_get s).2 := by
  obtain ⟨a1, a2, a3, a4⟩ := phase5_get_at_end s h hw hp
  unfold phaseX_get
  dsimp only
  rw [if_pos (Or.inr a1)]
  exact ⟨a1, a2, a3, a4.keep rfl rfl rfl rfl rfl⟩

theorem phaseX_get_blank_then_end {n6 : Nat} (s : scan_state) (h : s.ready 2)
    (hw : pushback_within 1 2 0 n6 s) (hp : phase4_view s.pending = (some ' ', [])) :
    (phaseX_get s).1.type = token_type_white_space ∧ (phaseX_get s).2.pending = [] ∧
      (phaseX_get s).2.ready 2 ∧ pushback_within 1 2 0 n6 (phaseX_get s).2 := by
  obtain ⟨a1, a2, a3, a4⟩ := phase5_get_blank_then_end s h hw hp
  obtain ⟨b1, b2, b3, b4⟩ := phase5_get_at_end (phase5_get s).2 a3 a4 a2
  have eu : phase5_unget (phase5_get (phase5_get s).2).1 (phase5_get (phase5_get s).2).2 =
      (phase5_get (phase5_get s).2).2 := by
    unfold phase5_unget
    rw [if_neg (by rw [b1]; simp)]
  unfold phaseX_get
  dsimp only
  rw [if_neg (by rw [a1]; simp)]
  by_cases hm : (phase5_get s).2.middle = true
  · rw [if_pos hm, if_neg (by rw [a1]; simp)]
    exact ⟨a1, a2, a3, a4⟩
  · rw [if_neg hm, if_pos a1, if_neg (by rw [b1]; simp), eu]
    exact ⟨a1, b2, b3, b4.keep rfl rfl rfl rfl rfl⟩

theorem phase6_get_of_phaseX {n5 : Nat} (s : scan_state) (hw : pushback_within 1 2 n5 0 s)
    (hx : (phaseX_get s).1.type ≠ token_type_hash) : phase6_get s = phaseX_get s := by
  have h6 : s.phase6_pushback = [] := List.length_eq_zero.mp (Nat.le_zero.mp hw.2.2.2.1)
  unfold phase6_get
  rw [h6]
  dsimp only
  unfold scan_state.fuel
  rw [phase6_get_loop]
  dsimp only
  rw [if_pos hx]

theorem phase8a_get_at_end (s : scan_state) (h : s.ready 2)
    (hw : pushback_within 1 2 0 0 s) (hp : s.pending = []) :
    (phase8a_get s).1.type = token_type_eof ∧ (phase8a_get s).2.pending = [] ∧
      (phase8a_get s).2.ready 2 ∧ pushback_within 1 2 0 0 (phase8a_get s).2 := by
  obtain ⟨a1, a2, a3, a4⟩ := phaseX_get_at_end s h hw hp
  have e6 := phase6_get_of_phaseX s hw (by rw [a1]; simp)
  have e : phase8a_get s = phaseX_get s := by
    unfold phase8a_get scan_state.fuel
    rw [phase8a_get_loop]
    dsimp only
    rw [e6, if_neg (by rw [a1]; simp), if_neg (by rw [a1]; simp)]
  rw [e]
  exact ⟨a1, a2, a3, a4⟩

theorem phase8a_get_loop_at_end (fuel : Nat) (s : scan_state) (h : s.ready 2)
    (hw : pushback_within 1 2 0 0 s) (hp : s.pending = []) :
    phase8a_get_loop (fuel + 1) s = phaseX_get s := by
  obtain ⟨a1, a2, a3, a4⟩ := phaseX_get_at_end s h hw hp
  have e6 := phase6_get_of_phaseX s hw (by rw [a1]; simp)
  rw [phase8a_get_loop]
  dsimp only
  rw [e6, if_neg (by rw [a1]; simp), if_neg (by rw [a1]; simp)]

theorem phase8a_get_blank_then_end (s : scan_state) (h : s.ready 2)
    (hw : pushback_within 1 2 0 0 s) (hp : phase4_view s.pending = (some ' ', [])) :
    (phase8a_get s).1.type = token_type_eof := by
  obtain ⟨a1, a2, a3, a4⟩ := phaseX_get_blank_then_end s h hw hp
  obtain ⟨b1, _, _, _⟩ := phaseX_get_at_end (phaseX_get s).2 a3 a4 a2
  have e6 := phase6_get_of_phaseX s hw (by rw [a1]; simp)
  have hlen : 1 < s.fuel := by
    have := pending_length_lt_fuel s
    cases hq : s.pending with
    | nil => rw [hq, phase4_view] at hp; exact absurd hp (by simp)
    | cons c l =>
      rw [hq] at this
      simp only [List.length_cons] at this
      omega
  obtain ⟨n, hn⟩ : ∃ n, s.fuel = n + 1 + 1 := ⟨s.fuel - 2, by omega⟩
  unfold phase8a_get
  rw [hn, phase8a_get_loop]
  dsimp only
  rw [e6, if_pos a1, phase8a_get_loop_at_end n _ a3 a4 a2]
  exact b1

theorem x_arma_lex_eof (k : keyword_state) (s : scan_state)
    (h : (phase8a_get s).1.type = token_type_eof) :
    (x_arma_lex k s).1.type = xgettext_token_type_eof := by
  have e : phase8_get s = phase8a_get s := by
    unfold phase8_get
    dsimp only
    rw [if_pos (by rw [h]; simp)]
  unfold x_arma_lex
  dsimp only
  rw [e, h]
  rfl

theorem extract_whole_file_eof (k : keyword_state) (f logical_filename : List Char)
    (h : (x_arma_lex (init_keywords k) (scan_state.initial f logical_filename)).1.type =
      xgettext_token_type_eof) :
    (extract_whole_file k f logical_filename).2.calls =
      [extractor_call.arglist_parser_alloc 0 none, extractor_call.arglist_parser_done 0 1] := by
  unfold extract_whole_file
  dsimp only
  unfold scan_state.fuel
  rw [extract_whole_file_loop]
  unfold extract_parenthesized arglist_parser_alloc
  dsimp only
  unfold scan_state.fuel
  simp only [List.nil_append, Nat.zero_add]
  rw [epl_eof (init_keywords k) _ 0 1 false none (scan_state.initial f logical_filename)
    [extractor_call.arglist_parser_alloc 0 none] 1
    (x_arma_lex (init_keywords k) (scan_state.initial f logical_filename)).1
    (x_arma_lex (init_keywords k) (scan_state.initial f logical_filename)).2
    Prod.mk.eta.symm h]
  rfl

theorem skip_block_unclosed : ∀ (body : List Char) (b : Bool), ¬ (['*', '/'] <:+: body) →
    (b = true → body.head? ≠ some '/') → skip_block b body = [] := by
  intro body
  induction body with
  | nil => intro b _ _; rfl
  | cons c rest ih =>
    intro b hi hb
    have hr : ¬ (['*', '/'] <:+: rest) := fun h => hi (List.infix_cons h)
    rw [skip_block]
    by_cases c1 : c = '*'
    · rw [if_pos c1]
      refine ih true hr (fun _ hh => hi ?_)
      cases rest with
      | nil => simp at hh
      | cons d r =>
        simp only [List.head?_cons, Option.some.injEq] at hh
        rw [c1, hh]
        exact ⟨[], r, rfl⟩
    rw [if_neg c1]
    by_cases c2 : c = '/' ∧ b = true
    · exact absurd (by rw [c2.1]; rfl) (hb c2.2)
    rw [if_neg c2]
    exact ih false hr (fun hh => absurd hh (by decide))

theorem phase4_view_unclosed (body : List Char) (hopen : ¬ (['*', '/'] <:+: body)) :
    phase4_view ('/' :: '*' :: body) = (some ' ', []) := by
  rw [phase4_view, if_neg (by simp),
    if_pos (show ('*' :: body).head? = some '*' from rfl), List.tail_cons,
    skip_block_unclosed body false hopen (fun h => absurd h (by decide))]

/-- C23: a block comment that is never closed.  When the pending text of the
scanner is `/*` followed by a text without `*/`, `phase4_getc` delivers one
space and leaves nothing pending, so that its next call returns `EOF`; the
tokenizer `phase5_get` makes a white-space token and then the token for the
end of the file of it, and `x_arma_lex` reports the end of the file.  A
whole-file scan of a text that, with line endings unified and lines spliced,
is such a comment makes no call but those that open and close the outermost
frame, and the message sink receives nothing. -/
theorem C23_unterminated_block_comment :
    (∀ (s : scan_state) (body : List Char), s.ready 2 → s.pending = '/' :: '*' :: body →
      ¬ (['*', '/'] <:+: body) →
      (phase4_getc s).1 = some ' ' ∧ (phase4_getc s).2.pending = [] ∧
        (phase4_getc (phase4_getc s).2).1 = none) ∧
    (∀ (s : scan_state) (body : List Char), s.ready 2 → pushback_within 1 2 0 0 s →
      s.pending = '/' :: '*' :: body → ¬ (['*', '/'] <:+: body) →
      (phase5_get s).1.type = token_type_white_space ∧
        (phase5_get (phase5_get s).2).1.type = token_type_eof ∧
        ∀ k : keyword_state, (x_arma_lex k s).1.type = xgettext_token_type_eof) ∧
    (∀ (k : keyword_state) (f logical_filename body : List Char),
      splice_lines (splice_lines (unify_line_endings f)) = '/' :: '*' :: body →
      ¬ (['*', '/'] <:+: body) →
      (extract_whole_file k f logical_filename).2.calls =
          [extractor_call.arglist_parser_alloc 0 none, extractor_call.arglist_parser_done 0 1] ∧
        extracted_messages k f logical_filename = []) := by
  refine ⟨?_, ?_, ?_⟩
  · intro s body h hp hopen
    obtain ⟨a1, a2, a3⟩ := phase4_getc_pending s h
    rw [hp, phase4_view_unclosed body hopen] at a2 a3
    exact ⟨a2, a3, (phase4_getc_at_end _ (a1.relax (by decide)) a3).1⟩
  · intro s body h hw hp hopen
    have hv : phase4_view s.pending = (some ' ', []) := by
      rw [hp, phase4_view_unclosed body hopen]
    obtain ⟨a1, a2, a3, a4⟩ := phase5_get_blank_then_end s h hw hv
    exact ⟨a1, (phase5_get_at_end _ a3 a4 a2).1,
      fun k => x_arma_lex_eof k s (phase8a_get_blank_then_end s h hw hv)⟩
  · intro k f logical_filename body hf hopen
    have hr : (scan_state.initial f logical_filename).ready 2 :=
      ⟨rfl, Nat.zero_le _, Nat.zero_le _⟩
    have hw : pushback_within 1 2 0 0 (scan_state.initial f logical_filename) :=
      ⟨Nat.zero_le _, Nat.zero_le _, Nat.le_refl _, Nat.le_refl _, rfl⟩
    have hv : phase4_view (scan_state.initial f logical_filename).pending = (some ' ', []) := by
      have e : (scan_state.initial f logical_filename).pending =
          splice_lines (splice_lines (unify_line_endings f)) := rfl
      rw [e, hf, phase4_view_unclosed body hopen]
    have hc := extract_whole_file_eof k f logical_filename
      (x_arma_lex_eof _ _ (phase8a_get_blank_then_end _ hr hw hv))
    refine ⟨hc, ?_⟩
    unfold extracted_messages
    rw [hc]
    rfl

theorem C23_unterminated_block_comment_witness :
    extracted_messages keyword_state.initial "/* localize \"lost\" * / ".toList [] = [] ∧
    (phase5_get (scan_state.initial "abc /* localize \"lost\"".toList [])).1.type =
      token_type_name ∧
    extracted_texts keyword_state.initial "localize \"kept\" /* localize \"lost\"".toList =
      ["kept".toList] :=
  ⟨(C23_unterminated_block_comment.2.2 keyword_state.initial
      "/* localize \"lost\" * / ".toList [] " localize \"lost\" * / ".toList (by decide)
      (by decide)).2,
    by decide, by decide⟩

/-! ### A string literal that is not closed on its line -/

theorem phase5_get_string_pending (q : Char) (hq : q ≠ '\n') (tail : List Char)
    (htail : tail = [] ∨ tail.head? = some '\n') :
    ∀ (t : List Char), '\n' ∉ t → ∀ (fuel : Nat) (buffer : List Char) (s : scan_state),
      s.ready 2 → s.fuel ≤ fuel → s.pending = quote_doubled q t ++ tail →
      (phase5_get_string fuel q buffer s).1 = buffer ++ t ∧
        (phase5_get_string fuel q buffer s).2.pending = tail ∧
        (phase5_get_string fuel q buffer s).2.ready 2 := by
  intro t
  induction t with
  | nil =>
    intro _ fuel buffer s h hf hp
    cases fuel with
    | zero => simp only [scan_state.fuel] at hf; omega
    | succ fuel =>
      obtain ⟨a1, a2, a3⟩ := phase3_getc_pending s h
      simp only [quote_doubled, List.nil_append] at hp
      rw [hp] at a2 a3
      rw [phase5_get_string]
      dsimp only
      rcases htail with e | e
      · rw [e] at a2 a3
        rw [if_neg (by rw [a2]; simp), a2]
        try dsimp only
        rw [e, List.append_nil]
        exact ⟨rfl, a3, a1.relax (by decide)⟩
      · obtain ⟨rest, e1⟩ : ∃ rest, tail = '\n' :: rest := by
          cases tail with
          | nil => simp at e
          | cons d rest =>
            simp only [List.head?_cons, Option.some.injEq] at e
            exact ⟨rest, by rw [e]⟩
        rw [e1] at a2 a3
        simp only [List.head?_cons, List.tail_cons] at a2 a3
        rw [if_neg (by rw [a2]; simpa using hq.symm), a2]
        try dsimp only
        rw [if_pos rfl, List.append_nil]
        obtain ⟨u1, u2⟩ := phase3_ungetc_pending (some '\n')
          { (phase3_getc s).2 with
            warnings := (phase3_getc s).2.warnings ++ [(phase3_getc s).2.line_number - 1] }
          (by decide : 1 < 2) ⟨a1.1, a1.2.1, a1.2.2⟩
        refine ⟨rfl, ?_, u1⟩
        dsimp only
        rw [u2, e1]
        exact congrArg _ a3
  | cons c t ih =>
    intro hn fuel buffer s h hf hp
    have hc : c ≠ '\n' := fun e => hn (by rw [e]; exact List.mem_cons_self _ _)
    have ht : '\n' ∉ t := fun e => hn (List.mem_cons_of_mem _ e)
    cases fuel with
    | zero => simp only [scan_state.fuel] at hf; omega
    | succ fuel =>
      obtain ⟨a1, a2, a3⟩ := phase3_getc_pending s h
      have af := phase3_getc_fuel s
      obtain ⟨b1, b2, b3⟩ := phase3_getc_pending (phase3_getc s).2 a1
      have bf := phase3_getc_fuel (phase3_getc s).2
      rw [phase5_get_string]
      dsimp only
      by_cases hcq : c = q
      · have e : quote_doubled q (c :: t) = q :: q :: quote_doubled q t := by
          simp [quote_doubled, hcq]
        rw [hp, e] at a2 a3
        simp only [List.cons_append, List.head?_cons, List.tail_cons] at a2 a3
        rw [a3] at b2 b3
        simp only [List.head?_cons, List.tail_cons] at b2 b3
        rw [if_pos a2, if_pos b2]
        have aflt : (phase3_getc s).2.fuel < s.fuel := af.2 (by rw [a2]; simp)
        obtain ⟨i1, i2, i3⟩ := ih ht fuel (buffer ++ [q]) _ (b1.relax (by decide))
          (by omega) b3
        refine ⟨?_, i2, i3⟩
        rw [i1, hcq]
        simp
      · have e : quote_doubled q (c :: t) = c :: quote_doubled q t := by
          simp [quote_doubled, hcq]
        rw [hp, e] at a2 a3
        simp only [List.cons_append, List.head?_cons, List.tail_cons] at a2 a3
        rw [if_neg (by rw [a2]; simpa using hcq), a2]
        try dsimp only
        rw [if_neg hc]
        have aflt : (phase3_getc s).2.fuel < s.fuel := af.2 (by rw [a2]; simp)
        obtain ⟨i1, i2, i3⟩ := ih ht fuel (buffer ++ [c]) _ (a1.relax (by decide))
          (by omega) a3
        refine ⟨?_, i2, i3⟩
        rw [i1]
        simp

theorem phase5_get_string_start {n6 : Nat} (s : scan_state) (q : Char)
    (hq : q = '"' ∨ q = '\'') (L : List Char) (h : s.ready 2)
    (hw : pushback_within 1 2 0 n6 s) (hp : s.pending = q :: L) :
    phase5_get s =
      ({ token_init s with
          type := token_type_string_literal,
          string := xstrdup (phase5_get_string (phase4_getc s).2.fuel q [] (phase4_getc s).2).1,
          comment := (phase5_get_string (phase4_getc s).2.fuel q [] (phase4_getc s).2).2.savable_comment },
        (phase5_get_string (phase4_getc s).2.fuel q [] (phase4_getc s).2).2) ∧
    (phase4_getc s).2.pending = L ∧ (phase4_getc s).2.ready 1 := by
  have h5 : s.phase5_pushback = [] := List.length_eq_zero.mp (Nat.le_zero.mp hw.2.2.1)
  obtain ⟨a1, a2, a3⟩ := phase4_getc_pending s h
  have hv : phase4_view (q :: L) = (some q, L) := by
    rw [phase4_view, if_pos (by rcases hq with e | e <;> rw [e] <;> decide)]
  rw [hp, hv] at a2 a3
  refine ⟨?_, a3, a1⟩
  unfold phase5_get
  rw [h5]
  dsimp only
  rw [a2]
  try dsimp only
  rcases hq with e | e
  · subst e
    rw [if_neg (by decide), if_neg (by decide), if_neg (by decide), if_neg (by decide),
      if_neg (by decide), if_neg (by decide), if_pos (by decide)]
  · subst e
    rw [if_neg (by decide), if_neg (by decide), if_neg (by decide), if_neg (by decide),
      if_neg (by decide), if_neg (by decide), if_pos (by decide)]

theorem phase5_get_newline {n6 : Nat} (s : scan_state) (rest : List Char) (h : s.ready 2)
    (hw : pushback_within 1 2 0 n6 s) (hp : s.pending = '\n' :: rest) :
    (phase5_get s).1.type = token_type_eoln ∧ (phase5_get s).2.pending = rest ∧
      (phase5_get s).2.ready 2 := by
  have h5 : s.phase5_pushback = [] := List.length_eq_zero.mp (Nat.le_zero.mp hw.2.2.1)
  obtain ⟨a1, a2, a3⟩ := phase4_getc_pending s h
  have hv : phase4_view ('\n' :: rest) = (some '\n', rest) := by
    rw [phase4_view, if_pos (by decide)]
  rw [hp, hv] at a2 a3
  refine ⟨?_, ?_, ?_⟩
  all_goals
    unfold phase5_get
    rw [h5]
    dsimp only
    rw [a2]
    try dsimp only
    rw [if_pos rfl]
  · exact a3
  · exact a1.relax (by decide)

/-- C22: a string literal that is not closed.  When the pending text of the
scanner is a quote, a text `t` without newline in which the quote is written
doubled, and then a newline, `phase5_get` makes a string-literal token with
the text `t` of it (the copy `xstrdup t`), the next token is the end-of-line
token of that newline, and the text after the newline is what is pending for
the tokens that follow.  When the pending text ends after `t`, the token has
the text `t` and the next token is the end of the file. -/
theorem C22_unterminated_string_literal :
    (∀ (s : scan_state) (q : Char) (t rest : List Char), (q = '"' ∨ q = '\'') → '\n' ∉ t →
      s.ready 2 → pushback_within 1 2 0 2 s →
      s.pending = q :: (quote_doubled q t ++ '\n' :: rest) →
      (phase5_get s).1.type = token_type_string_literal ∧
        (phase5_get s).1.string = xstrdup t ∧
        (phase5_get (phase5_get s).2).1.type = token_type_eoln ∧
        (phase5_get (phase5_get s).2).2.pending = rest ∧
        (phase5_get (phase5_get s).2).2.ready 2 ∧
        pushback_within 1 2 0 2 (phase5_get (phase5_get s).2).2) ∧
    (∀ (s : scan_state) (q : Char) (t : List Char), (q = '"' ∨ q = '\'') → '\n' ∉ t →
      s.ready 2 → pushback_within 1 2 0 2 s →
      s.pending = q :: quote_doubled q t →
      (phase5_get s).1.type = token_type_string_literal ∧
        (phase5_get s).1.string = xstrdup t ∧
        (phase5_get (phase5_get s).2).1.type = token_type_eof) := by
  have hq1 : ∀ q : Char, (q = '"' ∨ q = '\'') → q ≠ '\n' := by
    intro q hq
    rcases hq with e | e <;> rw [e] <;> decide
  have hmono : ∀ s : scan_state, pushback_within 1 2 0 2 s → pushback_within 1 2 1 2 s :=
    fun s h => h.widen (Nat.le_refl _) (Nat.le_refl _) (Nat.zero_le _) (Nat.le_refl _)
  refine ⟨?_, ?_⟩
  · intro s q t rest hq ht h hw hp
    obtain ⟨e, a3, a1⟩ := phase5_get_string_start s q hq _ h hw hp
    have af := phase4_getc_fuel s
    obtain ⟨i1, i2, i3⟩ := phase5_get_string_pending q (hq1 q hq) ('\n' :: rest) (Or.inr rfl) t ht
      (phase4_getc s).2.fuel [] (phase4_getc s).2 (a1.relax (by decide)) (Nat.le_refl _) a3
    have hw1 := phase5_get_within s (hmono s hw)
    have hw2 := phase5_get_within _ (hmono _ hw1)
    rw [e] at hw1 hw2 ⊢
    dsimp only at hw1 hw2 ⊢
    obtain ⟨n1, n2, n3⟩ := phase5_get_newline _ rest i3 hw1 i2
    rw [i1, List.nil_append]
    exact ⟨rfl, rfl, n1, n2, n3, hw2⟩
  · intro s q t hq ht h hw hp
    obtain ⟨e, a3, a1⟩ := phase5_get_string_start s q hq _ h hw hp
    obtain ⟨i1, i2, i3⟩ := phase5_get_string_pending q (hq1 q hq) [] (Or.inl rfl) t ht
      (phase4_getc s).2.fuel [] (phase4_getc s).2 (a1.relax (by decide)) (Nat.le_refl _)
      (by rw [a3, List.append_nil])
    have hw1 := phase5_get_within s (hmono s hw)
    rw [e] at hw1 ⊢
    dsimp only at hw1 ⊢
    rw [i1, List.nil_append]
    exact ⟨rfl, rfl, (phase5_get_at_end _ i3 hw1 i2).1⟩

theorem C22_unterminated_string_literal_witness :
    ((phase5_get (scan_state.initial "'it''s\nnext".toList [])).1.string = "it's".toList ∧
      (phase5_get (phase5_get (scan_state.initial "'it''s\nnext".toList [])).2).1.type =
        token_type_eoln ∧
      (phase5_get (phase5_get (scan_state.initial "'it''s\nnext".toList [])).2).2.pending =
        "next".toList) ∧
    ((phase5_get (scan_state.initial "\"open".toList [])).1.string = "open".toList ∧
      (phase5_get (phase5_get (scan_state.initial "\"open".toList [])).2).1.type =
        token_type_eof) := by
  have h := C22_unterminated_string_literal.1 (scan_state.initial "'it''s\nnext".toList [])
    '\'' "it's".toList "next".toList (Or.inr rfl) (by decide)
    ⟨rfl, Nat.zero_le _, Nat.zero_le _⟩ (by decide) (by decide)
  have h1 := C22_unterminated_string_literal.2 (scan_state.initial "\"open".toList [])
    '"' "open".toList (Or.inl rfl) (by decide)
    ⟨rfl, Nat.zero_le _, Nat.zero_le _⟩ (by decide) (by decide)
  exact ⟨⟨h.2.1.trans (by decide), h.2.2.1, h.2.2.2.1⟩, h1.2.1.trans (by decide), h1.2.2⟩

/-! ### Comments replaced by hand -/

theorem replace_code_cons (c : Char) (rest : List Char) (hc : c ≠ '/') :
    replace_comments comment_mode.code (c :: rest) =
      c :: replace_comments (code_after c) rest := by
  rw [replace_comments, if_neg hc]

theorem replace_block_skip : ∀ (body : List Char) (b : Bool),
    replace_comments (comment_mode.block b) body =
      replace_comments comment_mode.code (skip_block b body) := by
  intro body
  induction body with
  | nil => intro b; rfl
  | cons c rest ih =>
    intro b
    rw [replace_comments, skip_block]
    by_cases c1 : c = '*'
    · rw [if_pos c1, if_pos c1, ih]
    rw [if_neg c1, if_neg c1]
    by_cases c2 : c = '/' ∧ b = true
    · rw [if_pos c2, if_pos c2]
    rw [if_neg c2, if_neg c2, ih]

theorem replace_line_skip : ∀ (body : List Char),
    replace_comments comment_mode.line body =
      '\n' :: replace_comments comment_mode.code (skip_line body) := by
  intro body
  induction body with
  | nil => rfl
  | cons c rest ih =>
    rw [replace_comments, skip_line]
    by_cases c1 : c = '\n'
    · rw [if_pos c1, if_pos c1]
    rw [if_neg c1, if_neg c1, ih]

theorem replace_slash_star (body : List Char) :
    replace_comments comment_mode.code ('/' :: '*' :: body) =
      ' ' :: replace_comments comment_mode.code (skip_block false body) := by
  rw [replace_comments, if_pos rfl, replace_comments, if_pos rfl, replace_block_skip]

theorem replace_slash_slash (body : List Char) :
    replace_comments comment_mode.code ('/' :: '/' :: body) =
      '\n' :: replace_comments comment_mode.code (skip_line body) := by
  rw [replace_comments, if_pos rfl, replace_comments, if_neg (by decide), if_pos rfl,
    replace_line_skip]

theorem replace_slash_other (M : List Char) (h1 : M.head? ≠ some '*')
    (h2 : M.head? ≠ some '/') :
    replace_comments comment_mode.code ('/' :: M) =
      '/' :: replace_comments comment_mode.code M := by
  rw [replace_comments, if_pos rfl]
  cases M with
  | nil => rfl
  | cons d rest =>
    have d1 : d ≠ '*' := fun e => h1 (by rw [e]; rfl)
    have d2 : d ≠ '/' := fun e => h2 (by rw [e]; rfl)
    rw [replace_code_cons d rest d2]
    conv_lhs => rw [replace_comments]
    rw [if_neg d1, if_neg d2]

theorem replace_string_quote_other (q : Char) (M : List Char) (h : M.head? ≠ some q) :
    replace_comments (comment_mode.string_quote q) M = replace_comments comment_mode.code M := by
  cases M with
  | nil => rfl
  | cons d rest =>
    have d1 : d ≠ q := fun e => h (by rw [e]; rfl)
    conv_lhs => rw [replace_comments]
    rw [if_neg d1]
    by_cases d2 : d = '/'
    · rw [if_pos d2, d2]
      conv_rhs => rw [replace_comments]
      rw [if_pos rfl]
    · rw [if_neg d2, replace_code_cons d rest d2]

theorem replace_code_head (q : Char) (hq : q = '"' ∨ q = '\'') (M : List Char)
    (h : M.head? ≠ some q) : (replace_comments comment_mode.code M).head? ≠ some q := by
  have q1 : q ≠ '/' := by rcases hq with e | e <;> rw [e] <;> decide
  have q2 : q ≠ ' ' := by rcases hq with e | e <;> rw [e] <;> decide
  have q3 : q ≠ '\n' := by rcases hq with e | e <;> rw [e] <;> decide
  cases M with
  | nil => simp [replace_comments]
  | cons d rest =>
    have d1 : d ≠ q := fun e => h (by rw [e]; rfl)
    by_cases d2 : d = '/'
    · subst d2
      cases rest with
      | nil =>
        rw [replace_comments, if_pos rfl, replace_comments]
        simpa using q1.symm
      | cons e r =>
        by_cases e1 : e = '*'
        · rw [e1, replace_slash_star]
          simpa using q2.symm
        by_cases e2 : e = '/'
        · rw [e2, replace_slash_slash]
          simpa using q3.symm
        rw [replace_slash_other (e :: r) (by simpa using e1) (by simpa using e2)]
        simpa using q1.symm
    · rw [replace_code_cons d rest d2]
      simpa using d1

theorem phase4_view_replace (L : List Char) :
    (phase4_view (replace_comments comment_mode.code L)).1 = (phase4_view L).1 ∧
    (phase4_view (replace_comments comment_mode.code L)).2 =
      replace_comments (mode_after (phase4_view L).1) (phase4_view L).2 ∧
    ((phase4_view L).1 = some '/' →
      (phase4_view L).2.head? ≠ some '*' ∧ (phase4_view L).2.head? ≠ some '/') := by
  cases L with
  | nil => exact ⟨rfl, rfl, fun h => absurd h (by simp [phase4_view])⟩
  | cons c rest =>
    by_cases c1 : c = '/'
    · subst c1
      by_cases c2 : rest.head? = some '*'
      · obtain ⟨body, rfl⟩ : ∃ body, rest = '*' :: body := by
          cases rest with
          | nil => simp at c2
          | cons d body =>
            simp only [List.head?_cons, Option.some.injEq] at c2
            exact ⟨body, by rw [c2]⟩
        have e : phase4_view ('/' :: '*' :: body) = (some ' ', skip_block false body) := by
          rw [phase4_view, if_neg (by simp), if_pos c2, List.tail_cons]
        rw [replace_slash_star, e, phase4_view, if_pos (by decide)]
        exact ⟨rfl, rfl, fun h => absurd h (by simp)⟩
      by_cases c3 : rest.head? = some '/'
      · obtain ⟨body, rfl⟩ : ∃ body, rest = '/' :: body := by
          cases rest with
          | nil => simp at c3
          | cons d body =>
            simp only [List.head?_cons, Option.some.injEq] at c3
            exact ⟨body, by rw [c3]⟩
        have e : phase4_view ('/' :: '/' :: body) = (some '\n', skip_line body) := by
          rw [phase4_view, if_neg (by simp), if_neg c2, if_pos c3, List.tail_cons]
        rw [replace_slash_slash, e, phase4_view, if_pos (by decide)]
        exact ⟨rfl, rfl, fun h => absurd h (by simp)⟩
      have e : phase4_view ('/' :: rest) = (some '/', rest) := by
        rw [phase4_view, if_neg (by simp), if_neg c2, if_neg c3]
      have hh : (replace_comments comment_mode.code rest).head? ≠ some '*' ∧
          (replace_comments comment_mode.code rest).head? ≠ some '/' := by
        cases rest with
        | nil => simp [replace_comments]
        | cons d r =>
          have d1 : d ≠ '*' := fun e => c2 (by rw [e]; rfl)
          have d2 : d ≠ '/' := fun e => c3 (by rw [e]; rfl)
          rw [replace_code_cons d r d2]
          simpa using ⟨d1, d2⟩
      rw [replace_slash_other rest c2 c3, e, phase4_view, if_neg (by simp), if_neg hh.1,
        if_neg hh.2]
      exact ⟨rfl, rfl, fun _ => ⟨c2, c3⟩⟩
    · have e : phase4_view (c :: rest) = (some c, rest) := by
        rw [phase4_view, if_pos c1]
      rw [replace_code_cons c rest c1, e, phase4_view, if_pos c1]
      exact ⟨rfl, rfl, fun h => absurd (Option.some.inj h) c1⟩

theorem code_after_plain (c : Char) (h : ¬ (c = '"' ∨ c = '\'')) :
    code_after c = comment_mode.code := if_neg h

theorem comments_replaced.loosen {m : comment_mode} {n3 m3 : Nat} {s s1 : scan_state}
    (h : comments_replaced m n3 s s1) (hm : n3 ≤ m3) : comments_replaced m m3 s s1 :=
  ⟨h.1.relax hm, h.2.1.relax hm, h.2.2⟩

theorem phase4_getc_replaced (s s1 : scan_state)
    (h : comments_replaced comment_mode.code 2 s s1) :
    (phase4_getc s1).1 = (phase4_getc s).1 ∧
    comments_replaced (mode_after (phase4_getc s).1) 1 (phase4_getc s).2 (phase4_getc s1).2 ∧
    ((phase4_getc s).1 = some '/' →
      (phase4_getc s).2.pending.head? ≠ some '*' ∧
      (phase4_getc s).2.pending.head? ≠ some '/') := by
  obtain ⟨a1, a2, a3⟩ := phase4_getc_pending s h.1
  obtain ⟨b1, b2, b3⟩ := phase4_getc_pending s1 h.2.1
  obtain ⟨v1, v2, v3⟩ := phase4_view_replace s.pending
  rw [h.2.2] at b2 b3
  rw [a2, a3, b2]
  exact ⟨v1, ⟨a1, b1, by rw [b3, v2, a3]⟩, v3⟩

theorem phase4_ungetc_replaced (oc : Option Char) (s s1 : scan_state)
    (h : comments_replaced (mode_after oc) 1 s s1)
    (hv : oc = some '/' → s.pending.head? ≠ some '*' ∧ s.pending.head? ≠ some '/') :
    comments_replaced comment_mode.code 2 (phase4_ungetc oc s) (phase4_ungetc oc s1) := by
  obtain ⟨u1, u2⟩ := phase3_ungetc_pending oc s (by decide : 1 < 2) h.1
  obtain ⟨w1, w2⟩ := phase3_ungetc_pending oc s1 (by decide : 1 < 2) h.2.1
  refine ⟨u1, w1, ?_⟩
  unfold phase4_ungetc
  rw [u2, w2, h.2.2]
  cases oc with
  | none => rfl
  | some c =>
    by_cases c1 : c = '/'
    · subst c1
      obtain ⟨k1, k2⟩ := hv rfl
      exact (replace_slash_other _ k1 k2).symm
    · exact (replace_code_cons c _ c1).symm

theorem phase4_unget_after_get_replaced (s s1 : scan_state)
    (h : comments_replaced comment_mode.code 2 s s1) :
    comments_replaced comment_mode.code 2 (phase4_ungetc (phase4_getc s).1 (phase4_getc s).2)
      (phase4_ungetc (phase4_getc s1).1 (phase4_getc s1).2) := by
  obtain ⟨e, r, v⟩ := phase4_getc_replaced s s1 h
  rw [e]
  exact phase4_ungetc_replaced _ _ _ r v

theorem phase4_getc_replaced_plain (s s1 : scan_state)
    (h : comments_replaced comment_mode.code 2 s s1) (c : Char)
    (hc : (phase4_getc s).1 = some c) (hq : ¬ (c = '"' ∨ c = '\'')) :
    comments_replaced comment_mode.code 2 (phase4_getc s).2 (phase4_getc s1).2 ∧
    (phase4_getc s).2.fuel < s.fuel ∧ (phase4_getc s1).2.fuel < s1.fuel := by
  obtain ⟨e, r, _⟩ := phase4_getc_replaced s s1 h
  have f := (phase4_getc_fuel s).2 (by rw [hc]; simp)
  have f1 := (phase4_getc_fuel s1).2 (by rw [e, hc]; simp)
  rw [hc] at r
  have em : mode_after (some c) = comment_mode.code := code_after_plain c hq
  rw [em] at r
  exact ⟨r.loosen (by decide), f, f1⟩

theorem is_name_char_not_quote (c : Char) (h : is_name_char c = true) :
    ¬ (c = '"' ∨ c = '\'') := by
  intro hq
  rcases hq with e | e <;> rw [e] at h <;> exact absurd h (by decide)

theorem is_number_char_not_quote (c : Char) (h : is_number_char c = true) :
    ¬ (c = '"' ∨ c = '\'') := by
  intro hq
  rcases hq with e | e <;> rw [e] at h <;> exact absurd h (by decide)

theorem phase5_get_white_space_replaced : ∀ (fuel fuel1 : Nat) (s s1 : scan_state),
    comments_replaced comment_mode.code 2 s s1 → s.fuel ≤ fuel → s1.fuel ≤ fuel1 →
    comments_replaced comment_mode.code 2 (phase5_get_white_space fuel s)
      (phase5_get_white_space fuel1 s1) := by
  intro fuel
  induction fuel with
  | zero => intro _ s _ _ hf _; simp only [scan_state.fuel] at hf; omega
  | succ fuel ih =>
    intro fuel1 s s1 h hf hf1
    cases fuel1 with
    | zero => simp only [scan_state.fuel] at hf1; omega
    | succ fuel1 =>
      obtain ⟨e, _, _⟩ := phase4_getc_replaced s s1 h
      have hu := phase4_unget_after_get_replaced s s1 h
      rw [phase5_get_white_space, phase5_get_white_space]
      rw [e]
      by_cases c1 : (phase4_getc s).1 = some ' ' ∨ (phase4_getc s).1 = some '\x0c' ∨
          (phase4_getc s).1 = some '\t'
      · rw [if_pos c1, if_pos c1]
        obtain ⟨c, hc, hq⟩ : ∃ c, (phase4_getc s).1 = some c ∧ ¬ (c = '"' ∨ c = '\'') := by
          rcases c1 with k | k | k
          · exact ⟨' ', k, by decide⟩
          · exact ⟨'\x0c', k, by decide⟩
          · exact ⟨'\t', k, by decide⟩
        obtain ⟨r, f, f1⟩ := phase4_getc_replaced_plain s s1 h c hc hq
        exact ih fuel1 _ _ r (by omega) (by omega)
      · rw [if_neg c1, if_neg c1]
        rw [e] at hu
        exact hu

theorem phase5_get_name_replaced : ∀ (fuel fuel1 : Nat) (buffer : List Char) (c : Char)
    (s s1 : scan_state),
    comments_replaced comment_mode.code 2 s s1 → s.fuel ≤ fuel → s1.fuel ≤ fuel1 →
    (phase5_get_name fuel1 buffer c s1).1 = (phase5_get_name fuel buffer c s).1 ∧
    comments_replaced comment_mode.code 2 (phase5_get_name fuel buffer c s).2
      (phase5_get_name fuel1 buffer c s1).2 := by
  intro fuel
  induction fuel with
  | zero => intro _ _ _ s _ _ hf _; simp only [scan_state.fuel] at hf; omega
  | succ fuel ih =>
    intro fuel1 buffer c s s1 h hf hf1
    cases fuel1 with
    | zero => simp only [scan_state.fuel] at hf1; omega
    | succ fuel1 =>
      obtain ⟨e, _, _⟩ := phase4_getc_replaced s s1 h
      have hu := phase4_unget_after_get_replaced s s1 h
      rw [phase5_get_name, phase5_get_name]
      rw [e] at hu ⊢
      cases hc : (phase4_getc s).1 with
      | none =>
        rw [hc] at hu
        exact ⟨rfl, hu⟩
      | some c1 =>
        rw [hc] at hu
        dsimp only
        by_cases k : is_name_char c1 = true
        · rw [if_pos k, if_pos k]
          obtain ⟨r, f, f1⟩ := phase4_getc_replaced_plain s s1 h c1 hc
            (is_name_char_not_quote c1 k)
          exact ih fuel1 _ _ _ _ r (by omega) (by omega)
        · rw [if_neg k, if_neg k]
          exact ⟨rfl, hu⟩

theorem phase5_get_dollar_replaced : ∀ (fuel fuel1 : Nat) (buffer : List Char)
    (s s1 : scan_state),
    comments_replaced comment_mode.code 2 s s1 → s.fuel ≤ fuel → s1.fuel ≤ fuel1 →
    (phase5_get_dollar fuel1 buffer s1).1 = (phase5_get_dollar fuel buffer s).1 ∧
    comments_replaced comment_mode.code 2 (phase5_get_dollar fuel buffer s).2
      (phase5_get_dollar fuel1 buffer s1).2 := by
  intro fuel
  induction fuel with
  | zero => intro _ _ s _ _ hf _; simp only [scan_state.fuel] at hf; omega
  | succ fuel ih =>
    intro fuel1 buffer s s1 h hf hf1
    cases fuel1 with
    | zero => simp only [scan_state.fuel] at hf1; omega
    | succ fuel1 =>
      obtain ⟨e, _, _⟩ := phase4_getc_replaced s s1 h
      have hu := phase4_unget_after_get_replaced s s1 h
      rw [phase5_get_dollar, phase5_get_dollar]
      rw [e] at hu ⊢
      cases hc : (phase4_getc s).1 with
      | none =>
        rw [hc] at hu
        exact ⟨rfl, hu⟩
      | some c1 =>
        rw [hc] at hu
        dsimp only
        by_cases k : is_name_char c1 = true
        · rw [if_pos k, if_pos k]
          obtain ⟨r, f, f1⟩ := phase4_getc_replaced_plain s s1 h c1 hc
            (is_name_char_not_quote c1 k)
          exact ih fuel1 _ _ _ r (by omega) (by omega)
        · rw [if_neg k, if_neg k]
          exact ⟨rfl, hu⟩

theorem phase5_get_dollar_start_replaced (s s1 : scan_state)
    (h : comments_replaced comment_mode.code 2 s s1) :
    (phase5_get_dollar_start s1).1 = (phase5_get_dollar_start s).1 ∧
    comments_replaced comment_mode.code 2 (phase5_get_dollar_start s).2
      (phase5_get_dollar_start s1).2 := by
  obtain ⟨e, _, _⟩ := phase4_getc_replaced s s1 h
  have hu := phase4_unget_after_get_replaced s s1 h
  unfold phase5_get_dollar_start
  dsimp only
  rw [e] at hu ⊢
  cases hc : (phase4_getc s).1 with
  | none =>
    rw [hc] at hu
    exact ⟨rfl, hu⟩
  | some c1 =>
    rw [hc] at hu
    dsimp only
    by_cases k : is_name_start c1 = true
    · rw [if_pos k, if_pos k]
      have k1 : is_name_char c1 = true := by
        unfold is_name_char
        rw [k]
        rfl
      obtain ⟨r, f, f1⟩ := phase4_getc_replaced_plain s s1 h c1 hc
        (is_name_char_not_quote c1 k1)
      exact phase5_get_dollar_replaced _ _ _ _ _ r (Nat.le_refl _) (Nat.le_refl _)
    · rw [if_neg k, if_neg k]
      exact ⟨rfl, hu⟩

theorem phase5_get_number_replaced : ∀ (fuel fuel1 : Nat) (buffer : List Char) (c : Char)
    (s s1 : scan_state),
    comments_replaced comment_mode.code 2 s s1 → s.fuel ≤ fuel → s1.fuel ≤ fuel1 →
    (phase5_get_number fuel1 buffer c s1).1 = (phase5_get_number fuel buffer c s).1 ∧
    comments_replaced comment_mode.code 2 (phase5_get_number fuel buffer c s).2
      (phase5_get_number fuel1 buffer c s1).2 := by
  intro fuel
  induction fuel with
  | zero => intro _ _ _ s _ _ hf _; simp only [scan_state.fuel] at hf; omega
  | succ fuel ih =>
    intro fuel1 buffer c s s1 h hf hf1
    cases fuel1 with
    | zero => simp only [scan_state.fuel] at hf1; omega
    | succ fuel1 =>
      obtain ⟨e, _, _⟩ := phase4_getc_replaced s s1 h
      have hu := phase4_unget_after_get_replaced s s1 h
      rw [phase5_get_number, phase5_get_number]
      rw [e] at hu ⊢
      cases hc : (phase4_getc s).1 with
      | none =>
        rw [hc] at hu
        exact ⟨rfl, hu⟩
      | some c1 =>
        rw [hc] at hu
        dsimp only
        by_cases k : c1 = 'e' ∨ c1 = 'E'
        · rw [if_pos k, if_pos k]
          obtain ⟨r, f, f1⟩ := phase4_getc_replaced_plain s s1 h c1 hc
            (by rcases k with j | j <;> rw [j] <;> decide)
          obtain ⟨e2, _, _⟩ := phase4_getc_replaced _ _ r
          have hu2 := phase4_unget_after_get_replaced _ _ r
          rw [e2] at hu2 ⊢
          cases hc2 : (phase4_getc (phase4_getc s).2).1 with
          | none =>
            rw [hc2] at hu2
            exact ⟨rfl, hu2⟩
          | some c2 =>
            rw [hc2] at hu2
            dsimp only
            by_cases k2 : c2 ≠ '+' ∧ c2 ≠ '-'
            · rw [if_pos k2, if_pos k2]
              exact ⟨rfl, hu2⟩
            · rw [if_neg k2, if_neg k2]
              obtain ⟨r2, g, g1⟩ := phase4_getc_replaced_plain _ _ r c2 hc2
                (by
                  intro hq
                  apply k2
                  rcases hq with j | j <;> rw [j] <;> decide)
              exact ih fuel1 _ _ _ _ r2 (by omega) (by omega)
        · rw [if_neg k, if_neg k]
          by_cases k3 : is_number_char c1 = true
          · rw [if_pos k3, if_pos k3]
            obtain ⟨r, f, f1⟩ := phase4_getc_replaced_plain s s1 h c1 hc
              (is_number_char_not_quote c1 k3)
            exact ih fuel1 _ _ _ _ r (by omega) (by omega)
          · rw [if_neg k3, if_neg k3]
            exact ⟨rfl, hu⟩

theorem phase5_get_string_replaced (q : Char) (hq : q = '"' ∨ q = '\'') :
    ∀ (fuel fuel1 : Nat) (buffer : List Char) (s s1 : scan_state),
    comments_replaced (comment_mode.string q) 2 s s1 → s.fuel ≤ fuel → s1.fuel ≤ fuel1 →
    (phase5_get_string fuel1 q buffer s1).1 = (phase5_get_string fuel q buffer s).1 ∧
    comments_replaced comment_mode.code 2 (phase5_get_string fuel q buffer s).2
      (phase5_get_string fuel1 q buffer s1).2 := by
  have qn : q ≠ '\n' := by rcases hq with e | e <;> rw [e] <;> decide
  intro fuel
  induction fuel with
  | zero => intro _ _ s _ _ hf _; simp only [scan_state.fuel] at hf; omega
  | succ fuel ih =>
    intro fuel1 buffer s s1 h hf hf1
    cases fuel1 with
    | zero => simp only [scan_state.fuel] at hf1; omega
    | succ fuel1 =>
      obtain ⟨a1, a2, a3⟩ := phase3_getc_pending s h.1
      obtain ⟨b1, b2, b3⟩ := phase3_getc_pending s1 h.2.1
      have af := phase3_getc_fuel s
      have bf := phase3_getc_fuel s1
      obtain ⟨c1, c2, c3⟩ := phase3_getc_pending (phase3_getc s).2 a1
      obtain ⟨d1, d2, d3⟩ := phase3_getc_pending (phase3_getc s1).2 b1
      have cf := phase3_getc_fuel (phase3_getc s).2
      have df := phase3_getc_fuel (phase3_getc s1).2
      rw [h.2.2] at b2 b3
      rw [phase5_get_string, phase5_get_string]
      dsimp only
      cases hp : s.pending with
      | nil =>
        rw [hp] at a2 a3 b2 b3
        have a2n : (phase3_getc s).1 = none := a2
        have b2n : (phase3_getc s1).1 = none := b2
        have na : ¬ ((phase3_getc s).1 = some q) := by rw [a2n]; simp
        have nb : ¬ ((phase3_getc s1).1 = some q) := by rw [b2n]; simp
        rw [if_neg na, if_neg nb, a2n, b2n]
        exact ⟨rfl, a1.relax (by decide), b1.relax (by decide), by rw [b3, a3]; rfl⟩
      | cons c M =>
        rw [hp] at a2 a3 b2 b3
        simp only [List.head?_cons, List.tail_cons] at a2 a3
        by_cases k : c = q
        · subst k
          have er : replace_comments (comment_mode.string c) (c :: M) =
              c :: replace_comments (comment_mode.string_quote c) M := by
            conv_lhs => rw [replace_comments]
            rw [if_pos rfl]
          rw [er] at b2 b3
          simp only [List.head?_cons, List.tail_cons] at b2 b3
          rw [a3] at c2 c3
          rw [b3] at d2 d3
          rw [if_pos a2, if_pos b2]
          have aflt : (phase3_getc s).2.fuel < s.fuel := af.2 (by rw [a2]; simp)
          have bflt : (phase3_getc s1).2.fuel < s1.fuel := bf.2 (by rw [b2]; simp)
          by_cases k2 : M.head? = some c
          · obtain ⟨M2, rfl⟩ : ∃ M2, M = c :: M2 := by
              cases M with
              | nil => simp at k2
              | cons d M2 =>
                simp only [List.head?_cons, Option.some.injEq] at k2
                exact ⟨M2, by rw [k2]⟩
            have er2 : replace_comments (comment_mode.string_quote c) (c :: M2) =
                c :: replace_comments (comment_mode.string c) M2 := by
              conv_lhs => rw [replace_comments]
              rw [if_pos rfl]
            rw [er2] at d2 d3
            simp only [List.head?_cons, List.tail_cons] at c2 c3 d2 d3
            rw [if_pos c2, if_pos d2]
            exact ih fuel1 _ _ _ ⟨c1.relax (by decide), d1.relax (by decide), by rw [d3, c3]⟩
              (by omega) (by omega)
          · have er2 := replace_string_quote_other c M k2
            rw [er2] at d2 d3
            have hh := replace_code_head c hq M k2
            have na : ¬ ((phase3_getc (phase3_getc s).2).1 = some c) := by rw [c2]; exact k2
            have nb : ¬ ((phase3_getc (phase3_getc s1).2).1 = some c) := by rw [d2]; exact hh
            rw [if_neg na, if_neg nb]
            obtain ⟨u1, u2⟩ := phase3_ungetc_pending
              (phase3_getc (phase3_getc s).2).1 _ (by decide : 0 < 2) c1
            obtain ⟨w1, w2⟩ := phase3_ungetc_pending
              (phase3_getc (phase3_getc s1).2).1 _ (by decide : 0 < 2) d1
            refine ⟨rfl, u1.relax (by decide), w1.relax (by decide), ?_⟩
            dsimp only
            rw [u2, w2, c2, c3, d2, d3]
            have t : ∀ l : List Char, l.head?.toList ++ l.tail = l := by
              intro l
              cases l <;> rfl
            rw [t, t]
        · have er : replace_comments (comment_mode.string q) (c :: M) =
              if c = '\n' then '\n' :: replace_comments comment_mode.code M
              else c :: replace_comments (comment_mode.string q) M := by
            conv_lhs => rw [replace_comments]
            rw [if_neg k]
          have b2c : (phase3_getc s1).1 = some c := by
            rw [b2, er]
            split_ifs with j
            · rw [j]; rfl
            · rfl
          have na : ¬ ((phase3_getc s).1 = some q) := by rw [a2]; simpa using k
          have nb : ¬ ((phase3_getc s1).1 = some q) := by rw [b2c]; simpa using k
          rw [if_neg na, if_neg nb, a2, b2c]
          dsimp only
          have aflt : (phase3_getc s).2.fuel < s.fuel := af.2 (by rw [a2]; simp)
          have bflt : (phase3_getc s1).2.fuel < s1.fuel := bf.2 (by rw [b2c]; simp)
          by_cases k3 : c = '\n'
          · rw [if_pos k3, if_pos k3]
            rw [er, if_pos k3] at b3
            simp only [List.tail_cons] at b3
            obtain ⟨u1, u2⟩ := phase3_ungetc_pending (some '\n')
              { (phase3_getc s).2 with
                warnings := (phase3_getc s).2.warnings ++ [(phase3_getc s).2.line_number - 1] }
              (by decide : 1 < 2) ⟨a1.1, a1.2.1, a1.2.2⟩
            obtain ⟨w1, w2⟩ := phase3_ungetc_pending (some '\n')
              { (phase3_getc s1).2 with
                warnings := (phase3_getc s1).2.warnings ++ [(phase3_getc s1).2.line_number - 1] }
              (by decide : 1 < 2) ⟨b1.1, b1.2.1, b1.2.2⟩
            refine ⟨rfl, u1, w1, ?_⟩
            dsimp only
            rw [u2, w2]
            have x1 : ({ (phase3_getc s).2 with
                warnings := (phase3_getc s).2.warnings ++ [(phase3_getc s).2.line_number - 1] }
                : scan_state).pending = M := a3
            have x2 : ({ (phase3_getc s1).2 with
                warnings := (phase3_getc s1).2.warnings ++ [(phase3_getc s1).2.line_number - 1] }
                : scan_state).pending = replace_comments comment_mode.code M := b3
            rw [x1, x2]
            exact (replace_code_cons '\n' M (by decide)).symm
          · rw [if_neg k3, if_neg k3]
            rw [er, if_neg k3] at b3
            simp only [List.tail_cons] at b3
            exact ih fuel1 _ _ _ ⟨a1.relax (by decide), b1.relax (by decide), by rw [b3, a3]⟩
              (by omega) (by omega)

theorem phase5_get_replaced {n6 m6 : Nat} (s s1 : scan_state)
    (h : comments_replaced comment_mode.code 2 s s1)
    (hw : pushback_within 1 2 0 n6 s) (hw1 : pushback_within 1 2 0 m6 s1) :
    token_text (phase5_get s1).1 = token_text (phase5_get s).1 ∧
    comments_replaced comment_mode.code 2 (phase5_get s).2 (phase5_get s1).2 ∧
    pushback_within 1 2 0 n6 (phase5_get s).2 ∧ pushback_within 1 2 0 m6 (phase5_get s1).2 := by
  have q1 := phase5_get_within s
    (hw.widen (Nat.le_refl _) (Nat.le_refl _) (Nat.zero_le 1) (Nat.le_refl _))
  have q2 := phase5_get_within s1
    (hw1.widen (Nat.le_refl _) (Nat.le_refl _) (Nat.zero_le 1) (Nat.le_refl _))
  suffices hs : token_text (phase5_get s1).1 = token_text (phase5_get s).1 ∧
      comments_replaced comment_mode.code 2 (phase5_get s).2 (phase5_get s1).2 from
    ⟨hs.1, hs.2, q1, q2⟩
  have h5 : s.phase5_pushback = [] := List.length_eq_zero.mp (Nat.le_zero.mp hw.2.2.1)
  have h51 : s1.phase5_pushback = [] := List.length_eq_zero.mp (Nat.le_zero.mp hw1.2.2.1)
  obtain ⟨e, hr, _⟩ := phase4_getc_replaced s s1 h
  unfold phase5_get
  rw [h5, h51]
  dsimp only
  rw [e]
  cases hc : (phase4_getc s).1 with
  | none =>
    rw [hc] at hr
    exact ⟨rfl, hr.loosen (by decide)⟩
  | some c =>
    rw [hc] at hr
    dsimp only
    have hplain : ¬ (c = '"' ∨ c = '\'') →
        comments_replaced comment_mode.code 2 (phase4_getc s).2 (phase4_getc s1).2 :=
      fun hq => (phase4_getc_replaced_plain s s1 h c hc hq).1
    by_cases c1 : c = '\n'
    · rw [if_pos c1, if_pos c1]
      exact ⟨rfl, hplain (by rw [c1]; decide)⟩
    rw [if_neg c1, if_neg c1]
    by_cases c2 : c = ' ' ∨ c = '\x0c' ∨ c = '\t'
    · rw [if_pos c2, if_pos c2]
      exact ⟨rfl, phase5_get_white_space_replaced _ _ _ _
        (hplain (by rcases c2 with j | j | j <;> rw [j] <;> decide))
        (Nat.le_refl _) (Nat.le_refl _)⟩
    rw [if_neg c2, if_neg c2]
    by_cases c3 : is_name_start c = true
    · rw [if_pos c3, if_pos c3]
      have k1 : is_name_char c = true := by
        unfold is_name_char
        rw [c3]
        rfl
      obtain ⟨n1, n2⟩ := phase5_get_name_replaced (phase4_getc s).2.fuel (phase4_getc s1).2.fuel
        [] c _ _ (hplain (is_name_char_not_quote c k1)) (Nat.le_refl _) (Nat.le_refl _)
      refine ⟨?_, n2⟩
      unfold token_text
      dsimp only
      rw [n1]
      rfl
    rw [if_neg c3, if_neg c3]
    by_cases c4 : c = '$'
    · rw [if_pos c4, if_pos c4]
      obtain ⟨n1, n2⟩ := phase5_get_dollar_start_replaced _ _ (hplain (by rw [c4]; decide))
      rw [n1]
      split_ifs
      · exact ⟨rfl, n2⟩
      · exact ⟨rfl, n2⟩
      · exact ⟨rfl, n2⟩
    rw [if_neg c4, if_neg c4]
    by_cases c5 : c = '.'
    · rw [if_pos c5, if_pos c5]
      have hp := hplain (by rw [c5]; decide)
      obtain ⟨e2, _, _⟩ := phase4_getc_replaced _ _ hp
      have hu2 := phase4_unget_after_get_replaced _ _ hp
      obtain ⟨n1, n2⟩ := phase5_get_number_replaced
        (phase4_ungetc (phase4_getc (phase4_getc s).2).1 (phase4_getc (phase4_getc s).2).2).fuel
        (phase4_ungetc (phase4_getc (phase4_getc s1).2).1 (phase4_getc (phase4_getc s1).2).2).fuel
        [] '.' _ _ hu2 (Nat.le_refl _) (Nat.le_refl _)
      rw [n1]
      rw [e2] at n2 hu2 ⊢
      split_ifs
      · exact ⟨rfl, n2⟩
      · exact ⟨rfl, hu2⟩
    rw [if_neg c5, if_neg c5]
    by_cases c6 : c_isdigit c = true
    · rw [if_pos c6, if_pos c6]
      have k1 : is_name_char c = true := by
        unfold is_name_char
        rw [c6]
        simp
      obtain ⟨n1, n2⟩ := phase5_get_number_replaced (phase4_getc s).2.fuel
        (phase4_getc s1).2.fuel [] c _ _ (hplain (is_name_char_not_quote c k1))
        (Nat.le_refl _) (Nat.le_refl _)
      rw [n1]
      exact ⟨rfl, n2⟩
    rw [if_neg c6, if_neg c6]
    by_cases c7 : c = '"' ∨ c = '\''
    · rw [if_pos c7, if_pos c7]
      have em : mode_after (some c) = comment_mode.string c := if_pos c7
      rw [em] at hr
      obtain ⟨n1, n2⟩ := phase5_get_string_replaced c c7 (phase4_getc s).2.fuel
        (phase4_getc s1).2.fuel [] _ _ (hr.loosen (by decide)) (Nat.le_refl _) (Nat.le_refl _)
      refine ⟨?_, n2⟩
      unfold token_text
      dsimp only
      rw [n1]
      rfl
    rw [if_neg c7, if_neg c7]
    have hp := hplain c7
    by_cases c8 : c = '('
    · rw [if_pos c8, if_pos c8]; exact ⟨rfl, hp⟩
    rw [if_neg c8, if_neg c8]
    by_cases c9 : c = ')'
    · rw [if_pos c9, if_pos c9]; exact ⟨rfl, hp⟩
    rw [if_neg c9, if_neg c9]
    by_cases c10 : c = '['
    · rw [if_pos c10, if_pos c10]; exact ⟨rfl, hp⟩
    rw [if_neg c10, if_neg c10]
    by_cases c11 : c = ']'
    · rw [if_pos c11, if_pos c11]; exact ⟨rfl, hp⟩
    rw [if_neg c11, if_neg c11]
    by_cases c12 : c = ','
    · rw [if_pos c12, if_pos c12]; exact ⟨rfl, hp⟩
    rw [if_neg c12, if_neg c12]
    by_cases c13 : c = '#'
    · rw [if_pos c13, if_pos c13]; exact ⟨rfl, hp⟩
    rw [if_neg c13, if_neg c13]
    by_cases c14 : c = ':'
    · rw [if_pos c14, if_pos c14]; exact ⟨rfl, hp⟩
    rw [if_neg c14, if_neg c14]
    by_cases c15 : c = '\\'
    · rw [if_pos c15, if_pos c15]
      obtain ⟨e2, _, _⟩ := phase4_getc_replaced _ _ hp
      have hu2 := phase4_unget_after_get_replaced _ _ hp
      rw [e2] at hu2 ⊢
      by_cases c16 : (phase4_getc (phase4_getc s).2).1 = some 'n'
      · rw [if_pos c16, if_pos c16]
        exact ⟨rfl, (phase4_getc_replaced_plain _ _ hp 'n' c16 (by decide)).1⟩
      · rw [if_neg c16, if_neg c16]
        exact ⟨rfl, hu2⟩
    rw [if_neg c15, if_neg c15]
    exact ⟨rfl, hp⟩

theorem phase5_tokens_replaced {n6 m6 : Nat} : ∀ (n : Nat) (s s1 : scan_state),
    comments_replaced comment_mode.code 2 s s1 →
    pushback_within 1 2 0 n6 s → pushback_within 1 2 0 m6 s1 →
    (phase5_tokens n s1).map token_text = (phase5_tokens n s).map token_text := by
  intro n
  induction n with
  | zero => intro _ _ _ _ _; rfl
  | succ n ih =>
    intro s s1 h hw hw1
    obtain ⟨a1, a2, a3, a4⟩ := phase5_get_replaced s s1 h hw hw1
    have ety : (phase5_get s1).1.type = (phase5_get s).1.type := congrArg Prod.fst a1
    rw [phase5_tokens, phase5_tokens, ety]
    by_cases k : (phase5_get s).1.type = token_type_eof
    · rw [if_pos k, if_pos k]
      simp only [List.map_cons, List.map_nil, a1]
    · rw [if_neg k, if_neg k]
      simp only [List.map_cons, a1, ih _ _ a2 a3 a4]

theorem phase5_tokens_complete : ∀ (n : Nat) (s : scan_state), s.fuel ≤ n →
    ∃ (ts : List token_ty) (t : token_ty), phase5_tokens n s = ts ++ [t] ∧
      t.type = token_type_eof ∧ ∀ x ∈ ts, x.type ≠ token_type_eof := by
  intro n
  induction n with
  | zero => intro s hf; simp only [scan_state.fuel] at hf; omega
  | succ n ih =>
    intro s hf
    rw [phase5_tokens]
    by_cases k : (phase5_get s).1.type = token_type_eof
    · rw [if_pos k]
      exact ⟨[], (phase5_get s).1, rfl, k, fun x hx => absurd hx (List.not_mem_nil x)⟩
    · rw [if_neg k]
      have f := (phase5_get_fuel s).2 k
      obtain ⟨ts, t, e, h1, h2⟩ := ih (phase5_get s).2 (by omega)
      refine ⟨(phase5_get s).1 :: ts, t, by rw [e]; rfl, h1, ?_⟩
      intro x hx
      rcases List.mem_cons.mp hx with j | j
      · rw [j]; exact k
      · exact h2 x j

theorem splice_of_no_backslash : ∀ (l : List Char), '\\' ∉ l → splice_lines l = l := by
  intro l
  induction l with
  | nil => intro _; rfl
  | cons c rest ih =>
    intro h
    have hc : c ≠ '\\' := fun e => h (by rw [e]; exact List.mem_cons_self _ _)
    rw [splice_other c rest hc, ih (fun e => h (List.mem_cons_of_mem _ e))]

theorem pending_initial (f logical_filename : List Char) :
    (scan_state.initial f logical_filename).pending =
      splice_lines (splice_lines (unify_line_endings f)) := rfl

theorem pending_initial_plain (f logical_filename : List Char) (h1 : '\r' ∉ f)
    (h2 : '\\' ∉ f) : (scan_state.initial f logical_filename).pending = f := by
  rw [pending_initial, unify_of_no_cr f h1, splice_of_no_backslash f h2,
    splice_of_no_backslash f h2]

theorem replace_comments_mem (P : Char → Prop) (h1 : P ' ') (h2 : P '\n') (h3 : P '/') :
    ∀ (l : List Char) (m : comment_mode), (∀ x ∈ l, P x) →
      ∀ x ∈ replace_comments m l, P x := by
  intro l
  induction l with
  | nil =>
    intro m _ x hx
    cases m <;> simp only [replace_comments, List.mem_singleton, List.not_mem_nil] at hx
    · rw [hx]; exact h3
    · rw [hx]; exact h2
  | cons c rest ih =>
    intro m hl
    have hc : P c := hl c (List.mem_cons_self _ _)
    have hrest : ∀ x ∈ rest, P x := fun x hx => hl x (List.mem_cons_of_mem _ hx)
    cases m with
    | code =>
      rw [replace_comments]
      split_ifs
      · exact ih _ hrest
      · exact List.forall_mem_cons.mpr ⟨hc, ih _ hrest⟩
    | slash =>
      rw [replace_comments]
      split_ifs
      · exact List.forall_mem_cons.mpr ⟨h1, ih _ hrest⟩
      · exact ih _ hrest
      · exact List.forall_mem_cons.mpr ⟨h3, List.forall_mem_cons.mpr ⟨hc, ih _ hrest⟩⟩
    | block b =>
      rw [replace_comments]
      split_ifs
      · exact ih _ hrest
      · exact ih _ hrest
      · exact ih _ hrest
    | line =>
      rw [replace_comments]
      split_ifs
      · exact List.forall_mem_cons.mpr ⟨h2, ih _ hrest⟩
      · exact ih _ hrest
    | string q =>
      rw [replace_comments]
      split_ifs with j
      · exact List.forall_mem_cons.mpr ⟨j ▸ hc, ih _ hrest⟩
      · exact List.forall_mem_cons.mpr ⟨h2, ih _ hrest⟩
      · exact List.forall_mem_cons.mpr ⟨hc, ih _ hrest⟩
    | string_quote q =>
      rw [replace_comments]
      split_ifs with j
      · exact List.forall_mem_cons.mpr ⟨j ▸ hc, ih _ hrest⟩
      · exact ih _ hrest
      · exact List.forall_mem_cons.mpr ⟨hc, ih _ hrest⟩

/-- C21 (as amended): comment stripping leaves the tokens alone.  Let the
comments be replaced by hand in the text that the comment layer reads, which
is the source text after the unification of line endings and the splicing of
lines: a block comment (closed, or running to the end of the text) by one
space, a line comment up to but excluding its newline by nothing, and a line
comment that runs to the end of the text by a newline.  Then the tokenizer
`phase5_get` emits for a source text `g` that is read as the replaced text
the same tokens (type, text and number), and so the same number of tokens,
as for the source text `f`.  This holds in particular for a source text `f`
without CR and backslash and the replacement done in `f` itself.  The first
`s.fuel` tokens are all the tokens of a scan: they end with the token for the
end of the file. -/
theorem C21_comments_replaced_by_hand :
    (∀ (n : Nat) (f g logical_filename logical_filename1 : List Char),
      splice_lines (splice_lines (unify_line_endings g)) =
        replace_comments comment_mode.code
          (splice_lines (splice_lines (unify_line_endings f))) →
      (phase5_tokens n (scan_state.initial g logical_filename1)).map token_text =
          (phase5_tokens n (scan_state.initial f logical_filename)).map token_text ∧
        (phase5_tokens n (scan_state.initial g logical_filename1)).length =
          (phase5_tokens n (scan_state.initial f logical_filename)).length) ∧
    (∀ (n : Nat) (f logical_filename : List Char), '\r' ∉ f → '\\' ∉ f →
      (phase5_tokens n
          (scan_state.initial (replace_comments comment_mode.code f) logical_filename)).map
            token_text =
          (phase5_tokens n (scan_state.initial f logical_filename)).map token_text ∧
        (phase5_tokens n
          (scan_state.initial (replace_comments comment_mode.code f) logical_filename)).length =
          (phase5_tokens n (scan_state.initial f logical_filename)).length) ∧
    (∀ (n : Nat) (s : scan_state), s.fuel ≤ n →
      ∃ (ts : List token_ty) (t : token_ty), phase5_tokens n s = ts ++ [t] ∧
        t.type = token_type_eof ∧ ∀ x ∈ ts, x.type ≠ token_type_eof) := by
  have hr : ∀ f l : List Char, (scan_state.initial f l).ready 2 :=
    fun _ _ => ⟨rfl, Nat.zero_le _, Nat.zero_le _⟩
  have hw : ∀ f l : List Char, pushback_within 1 2 0 0 (scan_state.initial f l) :=
    fun _ _ => ⟨Nat.zero_le _, Nat.zero_le _, Nat.le_refl _, Nat.le_refl _, rfl⟩
  have main : ∀ (n : Nat) (f g logical_filename logical_filename1 : List Char),
      splice_lines (splice_lines (unify_line_endings g)) =
        replace_comments comment_mode.code
          (splice_lines (splice_lines (unify_line_endings f))) →
      (phase5_tokens n (scan_state.initial g logical_filename1)).map token_text =
          (phase5_tokens n (scan_state.initial f logical_filename)).map token_text ∧
        (phase5_tokens n (scan_state.initial g logical_filename1)).length =
          (phase5_tokens n (scan_state.initial f logical_filename)).length := by
    intro n f g l l1 hg
    have e := phase5_tokens_replaced n (scan_state.initial f l) (scan_state.initial g l1)
      ⟨hr f l, hr g l1, by rw [pending_initial, pending_initial, hg]⟩ (hw f l) (hw g l1)
    refine ⟨e, ?_⟩
    have := congrArg List.length e
    simpa using this
  refine ⟨main, ?_, phase5_tokens_complete⟩
  intro n f l h1 h2
  apply main
  have g1 : '\r' ∉ replace_comments comment_mode.code f := fun hx =>
    replace_comments_mem (fun x => x ≠ '\r') (by decide) (by decide) (by decide) f _
      (fun x hx e => h1 (e ▸ hx)) _ hx rfl
  have g2 : '\\' ∉ replace_comments comment_mode.code f := fun hx =>
    replace_comments_mem (fun x => x ≠ '\\') (by decide) (by decide) (by decide) f _
      (fun x hx e => h2 (e ▸ hx)) _ hx rfl
  rw [unify_of_no_cr f h1, splice_of_no_backslash f h2, splice_of_no_backslash f h2,
    unify_of_no_cr _ g1, splice_of_no_backslash _ g2, splice_of_no_backslash _ g2]

theorem C21_comments_replaced_by_hand_witness :
    replace_comments comment_mode.code
        "a /* x */ \"s /* t */\" // y\nb / c 'u''v' /* open".toList =
      "a   \"s /* t */\" \nb / c 'u''v'  ".toList ∧
    (phase5_tokens 60
        (scan_state.initial "a   \"s /* t */\" \nb / c 'u''v'  ".toList [])).length =
      (phase5_tokens 60
        (scan_state.initial "a /* x */ \"s /* t */\" // y\nb / c 'u''v' /* open".toList
          [])).length := by
  have e : replace_comments comment_mode.code
        "a /* x */ \"s /* t */\" // y\nb / c 'u''v' /* open".toList =
      "a   \"s /* t */\" \nb / c 'u''v'  ".toList := by decide
  have h := (C21_comments_replaced_by_hand.2.1 60
    "a /* x */ \"s /* t */\" // y\nb / c 'u''v' /* open".toList [] (by decide) (by decide)).2
  rw [e] at h
  exact ⟨e, h⟩

/-- C21, as stated, fails.  In "\\// c\nn" the comment `// c` replaced by
nothing leaves a backslash before the newline, which are spliced away: 4
tokens become 2.  In "a\r// c\nb" it leaves a CR before the LF, which are one
line ending: 5 tokens become 4.  In "a // c" the line comment runs to the end
of the file and still ends a line: 4 tokens become 3. -/
theorem C21_counterexample :
    (replace_comments comment_mode.code "\\// c\nn".toList = "\\\nn".toList ∧
      (phase5_tokens 20 (scan_state.initial "\\// c\nn".toList [])).map token_text =
        [(token_type_symbol, [], 0), (token_type_eoln, [], 0), (token_type_name, ['n'], 0),
          (token_type_eof, [], 0)] ∧
      (phase5_tokens 20 (scan_state.initial "\\\nn".toList [])).map token_text =
        [(token_type_name, ['n'], 0), (token_type_eof, [], 0)]) ∧
    (replace_comments comment_mode.code "a\r// c\nb".toList = "a\r\nb".toList ∧
      (phase5_tokens 20 (scan_state.initial "a\r// c\nb".toList [])).length = 5 ∧
      (phase5_tokens 20 (scan_state.initial "a\r\nb".toList [])).length = 4) ∧
    ((phase5_tokens 20 (scan_state.initial "a // c".toList [])).map token_text =
        [(token_type_name, ['a'], 0), (token_type_white_space, [], 0), (token_type_eoln, [], 0),
          (token_type_eof, [], 0)] ∧
      (phase5_tokens 20 (scan_state.initial "a ".toList [])).map token_text =
        [(token_type_name, ['a'], 0), (token_type_white_space, [], 0),
          (token_type_eof, [], 0)]) := by
  decide

/-! ### The default keyword and explicit keywords -/

theorem lookup_append_self (keyword : List Char) (v : callshapes) :
    ∀ (ks : List (List Char × callshapes)), ((ks ++ [(keyword, v)]).lookup keyword).isSome = true := by
  intro ks
  induction ks with
  | nil => simp [List.lookup]
  | cons e ks ih =>
    obtain ⟨a, b⟩ := e
    by_cases h : keyword = a
    · subst h
      simp [List.lookup]
    · have hb : (keyword == a) = false := by simpa using h
      simp only [List.cons_append, List.lookup, hb]
      exact ih

theorem lookup_append_keeps (keyword other : List Char) (v : callshapes) :
    ∀ (ks : List (List Char × callshapes)), (ks.lookup other).isSome = true →
      ((ks ++ [(keyword, v)]).lookup other).isSome = true := by
  intro ks
  induction ks with
  | nil => intro h; simp [List.lookup] at h
  | cons e ks ih =>
    obtain ⟨a, b⟩ := e
    intro h
    by_cases hk : other = a
    · subst hk
      simp [List.lookup]
    · have hb : (other == a) = false := by simpa using hk
      simp only [List.cons_append, List.lookup, hb] at h ⊢
      exact ih h

theorem lookup_map_keeps (other : List Char)
    (g : List Char × callshapes → List Char × callshapes) (hg : ∀ e, (g e).1 = e.1) :
    ∀ (ks : List (List Char × callshapes)),
      ((ks.map g).lookup other).isSome = (ks.lookup other).isSome := by
  intro ks
  induction ks with
  | nil => rfl
  | cons e ks ih =>
    have h1 := hg e
    obtain ⟨a, b⟩ := e
    rw [List.map_cons]
    generalize hge : g (a, b) = ge at h1
    obtain ⟨a1, b1⟩ := ge
    simp only at h1
    subst h1
    by_cases hk : other = a1
    · subst hk
      simp [List.lookup]
    · have hb : (other == a1) = false := by simpa using hk
      simp only [List.lookup, hb]
      exact ih

theorem insert_keyword_callshape_self (ks : List (List Char × callshapes)) (keyword : List Char)
    (shape : callshape) :
    ((insert_keyword_callshape ks keyword shape).lookup keyword).isSome = true := by
  unfold insert_keyword_callshape
  cases h : ks.lookup keyword with
  | none => exact lookup_append_self keyword _ ks
  | some old =>
    dsimp only
    split_ifs
    · rw [h]; rfl
    · rw [lookup_map_keeps keyword _ (fun e => by split_ifs <;> rfl), h]
      rfl

theorem insert_keyword_callshape_keeps (ks : List (List Char × callshapes))
    (keyword other : List Char) (shape : callshape) (ho : (ks.lookup other).isSome = true) :
    ((insert_keyword_callshape ks keyword shape).lookup other).isSome = true := by
  unfold insert_keyword_callshape
  cases h : ks.lookup keyword with
  | none => exact lookup_append_keeps keyword other _ ks ho
  | some old =>
    dsimp only
    split_ifs
    · exact ho
    · rw [lookup_map_keeps other _ (fun e => by split_ifs <;> rfl)]
      exact ho

theorem add_keyword_keeps (name : Option (List Char)) (k : keyword_state) (other : List Char)
    (ho : (k.arma_keywords.lookup other).isSome = true) :
    ((add_keyword name k).arma_keywords.lookup other).isSome = true := by
  unfold add_keyword
  cases name with
  | none => exact ho
  | some name =>
    dsimp only
    split_ifs
    · exact insert_keyword_callshape_keeps _ _ _ _ ho
    · exact ho

theorem add_keyword_localize (k : keyword_state) :
    ((add_keyword (some "localize".toList) k).arma_keywords.lookup "localize".toList).isSome =
      true := by
  have e1 : split_keywordspec "localize".toList =
      (8, { argnum1 := 1, argnum2 := 0, argtotal := 0 }) := by decide
  unfold add_keyword
  dsimp only
  rw [if_pos (by decide), e1]
  exact insert_keyword_callshape_self _ _ _

/-- C37: registering explicit keywords does not switch off the default keyword.
`x_arma_keyword` with a name leaves the flag `default_keywords` as it is and
only a null name clears it; `init_keywords`, which every file scan calls first,
registers `localize` when the flag is still set, keeps every keyword that is
registered, and clears the flag, so that it changes nothing when it is called
again: after `x_arma_keyword ("foo")` and one or more scans both `foo` and
`localize` are registered.  After `x_arma_keyword (NULL)` no default keyword
is registered. -/
theorem C37_default_keyword_registration :
    (∀ (name : List Char) (k : keyword_state),
      (x_arma_keyword (some name) k).default_keywords = k.default_keywords) ∧
    (∀ k : keyword_state, k.default_keywords = true →
      ((init_keywords k).arma_keywords.lookup "localize".toList).isSome = true) ∧
    (∀ (k : keyword_state) (other : List Char),
      (k.arma_keywords.lookup other).isSome = true →
      ((init_keywords k).arma_keywords.lookup other).isSome = true) ∧
    (∀ k : keyword_state, k.default_keywords = true →
      ((init_keywords (x_arma_keyword (some "foo".toList) k)).arma_keywords.lookup
          "foo".toList).isSome = true ∧
      ((init_keywords (x_arma_keyword (some "foo".toList) k)).arma_keywords.lookup
          "localize".toList).isSome = true) ∧
    (∀ k : keyword_state, (init_keywords k).default_keywords = false ∧
      init_keywords (init_keywords k) = init_keywords k) ∧
    (∀ (k : keyword_state) (f g l m : List Char),
      (extract_whole_file k f l).1 = init_keywords k ∧
      (extract_whole_file (extract_whole_file k f l).1 g m).1 = (extract_whole_file k f l).1) ∧
    (∀ k : keyword_state, (x_arma_keyword none k).default_keywords = false ∧
      init_keywords (x_arma_keyword none k) = x_arma_keyword none k) ∧
    (init_keywords (x_arma_keyword none keyword_state.initial)).arma_keywords = [] := by
  have hflag : ∀ (name : List Char) (k : keyword_state),
      (x_arma_keyword (some name) k).default_keywords = k.default_keywords := by
    intro name k
    unfold x_arma_keyword add_keyword
    dsimp only
    split_ifs <;> rfl
  have hinit : ∀ k : keyword_state, k.default_keywords = true →
      ((init_keywords k).arma_keywords.lookup "localize".toList).isSome = true := by
    intro k hk
    unfold init_keywords
    rw [if_pos hk]
    exact add_keyword_localize k
  have hkeep : ∀ (k : keyword_state) (other : List Char),
      (k.arma_keywords.lookup other).isSome = true →
      ((init_keywords k).arma_keywords.lookup other).isSome = true := by
    intro k other ho
    unfold init_keywords
    split_ifs
    · exact add_keyword_keeps _ k other ho
    · exact ho
  have honce : ∀ k : keyword_state, (init_keywords k).default_keywords = false ∧
      init_keywords (init_keywords k) = init_keywords k := by
    intro k
    have h1 : (init_keywords k).default_keywords = false := by
      unfold init_keywords
      split_ifs with h
      · rfl
      · simpa using h
    refine ⟨h1, ?_⟩
    conv_lhs => rw [init_keywords]
    rw [if_neg (by rw [h1]; simp)]
  refine ⟨hflag, hinit, hkeep, ?_, honce, ?_, ?_, by decide⟩
  · intro k hk
    refine ⟨hkeep _ _ ?_, hinit _ (by rw [hflag]; exact hk)⟩
    have e : split_keywordspec "foo".toList =
        (3, { argnum1 := 1, argnum2 := 0, argtotal := 0 }) := by decide
    unfold x_arma_keyword add_keyword
    dsimp only
    rw [if_pos (by decide), e]
    exact insert_keyword_callshape_self _ _ _
  · intro k f g l m
    exact ⟨rfl, (honce k).2⟩
  · intro k
    refine ⟨rfl, ?_⟩
    unfold init_keywords
    rw [if_neg (by simp [x_arma_keyword, add_keyword])]

theorem C37_default_keyword_registration_witness :
    ((init_keywords (x_arma_keyword (some "foo".toList) keyword_state.initial)).arma_keywords.lookup
        "foo".toList).isSome = true ∧
    ((init_keywords (x_arma_keyword (some "foo".toList) keyword_state.initial)).arma_keywords.lookup
        "localize".toList).isSome = true ∧
    extracted_texts (x_arma_keyword (some "foo".toList) keyword_state.initial)
        "foo (\"a\") localize (\"b\")".toList = ["a".toList, "b".toList] :=
  ⟨(C37_default_keyword_registration.2.2.2.1 keyword_state.initial rfl).1,
    (C37_default_keyword_registration.2.2.2.1 keyword_state.initial rfl).2, by decide⟩

/-! ### Number tokens and the exponent marker -/

/-- C33, evaluated: an exponent marker that is not followed by a sign ends the
number token.  "1e5" is read as two number tokens, `1e` and `5`, and "2E7x" as
the number `2E` and the number `7x`, while each of "1e+5", "1.5E-3x" and ".5"
(exponent marker with a sign, or none) is one number token. -/
theorem C33_exponent_without_sign_ends_number :
    (phase5_tokens 10 (scan_state.initial "1e5".toList [])).map token_text =
      [(token_type_number, [], 1), (token_type_number, [], 5), (token_type_eof, [], 0)] ∧
    (phase5_get_number 10 [] '1' (scan_state.initial "e5".toList [])).1 = "1e".toList ∧
    (phase5_get_number 10 [] '1' (scan_state.initial "e5".toList [])).2.pending = "5".toList ∧
    (phase5_tokens 10 (scan_state.initial "2E7x".toList [])).map token_text =
      [(token_type_number, [], 2), (token_type_number, [], 7), (token_type_eof, [], 0)] ∧
    (phase5_tokens 10 (scan_state.initial "1e+5".toList [])).map token_text =
      [(token_type_number, [], 1), (token_type_eof, [], 0)] ∧
    (phase5_get_number 10 [] '1' (scan_state.initial "e+5".toList [])).1 = "1e+5".toList ∧
    (phase5_tokens 10 (scan_state.initial "1.5E-3x".toList [])).map token_text =
      [(token_type_number, [], 1), (token_type_eof, [], 0)] ∧
    (phase5_tokens 10 (scan_state.initial ".5".toList [])).map token_text =
      [(token_type_number, [], 0), (token_type_eof, [], 0)] := by
  decide

/-! ### The comment snapshot and the lines between a comment and a literal -/

/-- C34, evaluated.  In the two-line text the literal `x` carries the fragment
`C`, and in the three-line text with `foo` on the line between it carries no
comment.  With the string literal "a" on the line between, the literal `x`
still carries `C`: `phase8_get` reads the end of that line while it looks
for a literal to append to "a", before `x_arma_lex` has recorded the line
of "a" in `last_non_comment_line`, so the snapshot is not reset there. -/
theorem C34_comment_kept_across_literal_line :
    extracted_messages keyword_state.initial "// C\nlocalize \"x\"".toList [] =
      [{ msgid := "x".toList, pos := { file_name := [], line_number := 2 },
         comment := some ["C".toList] }] ∧
    extracted_messages keyword_state.initial "// C\nfoo\nlocalize \"x\"".toList [] =
      [{ msgid := "x".toList, pos := { file_name := [], line_number := 3 }, comment := none }] ∧
    extracted_messages keyword_state.initial "// C\n\"a\"\nlocalize \"x\"".toList [] =
      [{ msgid := "x".toList, pos := { file_name := [], line_number := 3 },
         comment := some ["C".toList] }] ∧
    extracted_messages keyword_state.initial "// C\n\"a\"\n\nlocalize \"x\"".toList [] =
      [{ msgid := "x".toList, pos := { file_name := [], line_number := 4 },
         comment := some ["C".toList] }] ∧
    extracted_messages keyword_state.initial "// C\nfoo\n\nlocalize \"x\"".toList [] =
      [{ msgid := "x".toList, pos := { file_name := [], line_number := 4 }, comment := none }] := by
  decide

/-! ### No loop of a scan runs out of fuel -/

theorem getc_in_fuel (s : scan_state) (h : s.out_of_fuel = false) :
    (getc s).2.out_of_fuel = false := by
  unfold getc
  split
  · exact h
  · exact h

theorem phase0_getc_in_fuel (s : scan_state) (h : s.out_of_fuel = false) :
    (phase0_getc s).2.out_of_fuel = false := by
  have h0 := getc_in_fuel s h
  have h1 := getc_in_fuel (getc s).2 h0
  unfold phase0_getc
  dsimp only
  split
  · exact h0
  · split_ifs
    · split
      · exact h1
      · split_ifs
        · exact h1
        · exact h1
    · exact h0

theorem phase0_ungetc_in_fuel (c : Option Char) (s : scan_state) (h : s.out_of_fuel = false) :
    (phase0_ungetc c s).out_of_fuel = false := by
  cases c
  · exact h
  · exact h

theorem phase1_getc_loop_in_fuel : ∀ (fuel : Nat) (s : scan_state),
    s.out_of_fuel = false → s.fuel ≤ fuel → (phase1_getc_loop fuel s).2.out_of_fuel = false := by
  intro fuel
  induction fuel with
  | zero => intro s _ hf; simp only [scan_state.fuel] at hf; omega
  | succ fuel ih =>
    intro s h hf
    have h0 := phase0_getc_in_fuel s h
    have h1 := phase0_getc_in_fuel (phase0_getc s).2 h0
    have f0 := phase0_getc_fuel s
    have f1 := phase0_getc_fuel (phase0_getc s).2
    unfold phase1_getc_loop
    dsimp only
    split_ifs with c1 c2 c3
    · exact h0
    · exact phase0_ungetc_in_fuel _ _ h1
    · have g0 := f0.2 (by rw [c2]; simp)
      have e3 : (phase0_getc (phase0_getc s).2).1 = some '\n' := by simpa using c3
      have g1 := f1.2 (by rw [e3]; simp)
      exact ih _ h1 (by rw [fuel_line_number]; omega)
    · exact h0

theorem phase1_getc_in_fuel (s : scan_state) (h : s.out_of_fuel = false) :
    (phase1_getc s).2.out_of_fuel = false := by
  unfold phase1_getc
  split
  · exact h
  · exact phase1_getc_loop_in_fuel _ s h (Nat.le_refl _)

theorem phase2_getc_in_fuel (s : scan_state) (h : s.out_of_fuel = false) :
    (phase2_getc s).2.out_of_fuel = false := by
  unfold phase2_getc
  split
  · exact h
  · exact phase1_getc_in_fuel s h

theorem phase2_ungetc_in_fuel (c : Option Char) (s : scan_state) (h : s.out_of_fuel = false) :
    (phase2_ungetc c s).out_of_fuel = false := by
  unfold phase2_ungetc
  split
  · exact h
  · split_ifs
    · exact h
    · exact h

theorem phase3_getc_loop_in_fuel : ∀ (fuel : Nat) (s : scan_state),
    s.out_of_fuel = false → s.fuel ≤ fuel → (phase3_getc_loop fuel s).2.out_of_fuel = false := by
  intro fuel
  induction fuel with
  | zero => intro s _ hf; simp only [scan_state.fuel] at hf; omega
  | succ fuel ih =>
    intro s h hf
    have h0 := phase2_getc_in_fuel s h
    have h1 := phase2_getc_in_fuel (phase2_getc s).2 h0
    have f0 := phase2_getc_fuel s
    have f1 := phase2_getc_fuel (phase2_getc s).2
    unfold phase3_getc_loop
    dsimp only
    split_ifs with c1 c2
    · exact h0
    · exact phase2_ungetc_in_fuel _ _ h1
    · have e1 : (phase2_getc s).1 = some '\\' := by simpa using c1
      have e2 : (phase2_getc (phase2_getc s).2).1 = some '\n' := by simpa using c2
      have g0 := f0.2 (by rw [e1]; simp)
      have g1 := f1.2 (by rw [e2]; simp)
      exact ih _ h1 (by omega)

theorem phase3_getc_in_fuel (s : scan_state) (h : s.out_of_fuel = false) :
    (phase3_getc s).2.out_of_fuel = false := by
  unfold phase3_getc
  split
  · exact h
  · exact phase3_getc_loop_in_fuel _ s h (Nat.le_refl _)

theorem phase3_ungetc_in_fuel (c : Option Char) (s : scan_state) (h : s.out_of_fuel = false) :
    (phase3_ungetc c s).out_of_fuel = false := by
  unfold phase3_ungetc
  split
  · exact h
  · split_ifs
    · exact h
    · exact h

theorem comment_add_unless_leading_blank_in_fuel (c : Char) (s : scan_state)
    (h : s.out_of_fuel = false) : (comment_add_unless_leading_blank c s).out_of_fuel = false := by
  unfold comment_add_unless_leading_blank
  split_ifs
  · exact h
  · exact h

theorem phase4_getc_c_comment_in_fuel : ∀ (fuel : Nat) (b : Bool) (s : scan_state),
    s.out_of_fuel = false → s.fuel ≤ fuel →
    (phase4_getc_c_comment fuel b s).out_of_fuel = false := by
  intro fuel
  induction fuel with
  | zero => intro _ s _ hf; simp only [scan_state.fuel] at hf; omega
  | succ fuel ih =>
    intro b s h hf
    have h0 := phase3_getc_in_fuel s h
    have f0 := phase3_getc_fuel s
    unfold phase4_getc_c_comment
    dsimp only
    cases hc : (phase3_getc s).1 with
    | none => exact h0
    | some c =>
      dsimp only
      have g0 := f0.2 (by rw [hc]; simp)
      have hs1 := comment_add_unless_leading_blank_in_fuel c (phase3_getc s).2 h0
      have fs1 := comment_add_unless_leading_blank_fuel c (phase3_getc s).2
      generalize comment_add_unless_leading_blank c (phase3_getc s).2 = s1 at hs1 fs1 ⊢
      split_ifs
      · exact ih false _ hs1
          (by rw [comment_start_fuel, comment_line_end_fuel]; omega)
      · exact ih true s1 hs1 (by omega)
      · exact hs1
      · exact ih false s1 hs1 (by omega)

theorem phase4_getc_cxx_comment_in_fuel : ∀ (fuel : Nat) (s : scan_state),
    s.out_of_fuel = false → s.fuel ≤ fuel →
    (phase4_getc_cxx_comment fuel s).out_of_fuel = false := by
  intro fuel
  induction fuel with
  | zero => intro s _ hf; simp only [scan_state.fuel] at hf; omega
  | succ fuel ih =>
    intro s h hf
    have h0 := phase3_getc_in_fuel s h
    have f0 := phase3_getc_fuel s
    unfold phase4_getc_cxx_comment
    dsimp only
    cases hc : (phase3_getc s).1 with
    | none => exact h0
    | some c =>
      dsimp only
      have g0 := f0.2 (by rw [hc]; simp)
      have hs1 := comment_add_unless_leading_blank_in_fuel c (phase3_getc s).2 h0
      have fs1 := comment_add_unless_leading_blank_fuel c (phase3_getc s).2
      split_ifs
      · exact h0
      · exact ih _ hs1 (by omega)

theorem phase4_getc_in_fuel (s : scan_state) (h : s.out_of_fuel = false) :
    (phase4_getc s).2.out_of_fuel = false := by
  have h0 := phase3_getc_in_fuel s h
  have h1 := phase3_getc_in_fuel (phase3_getc s).2 h0
  have hc := phase4_getc_c_comment_in_fuel (phase3_getc (phase3_getc s).2).2.fuel false
    (comment_start (phase3_getc (phase3_getc s).2).2) h1 (Nat.le_refl _)
  have hx := phase4_getc_cxx_comment_in_fuel (phase3_getc (phase3_getc s).2).2.fuel
    (comment_start (phase3_getc (phase3_getc s).2).2) h1 (Nat.le_refl _)
  unfold phase4_getc
  dsimp only
  split_ifs
  · exact h0
  · exact hc
  · exact hx
  · exact phase3_ungetc_in_fuel _ _ h1

theorem phase4_ungetc_in_fuel (c : Option Char) (s : scan_state) (h : s.out_of_fuel = false) :
    (phase4_ungetc c s).out_of_fuel = false :=
  phase3_ungetc_in_fuel c s h

theorem phase5_get_white_space_in_fuel : ∀ (fuel : Nat) (s : scan_state),
    s.out_of_fuel = false → s.fuel ≤ fuel →
    (phase5_get_white_space fuel s).out_of_fuel = false := by
  intro fuel
  induction fuel with
  | zero => intro s _ hf; simp only [scan_state.fuel] at hf; omega
  | succ fuel ih =>
    intro s h hf
    have h0 := phase4_getc_in_fuel s h
    have f0 := phase4_getc_fuel s
    unfold phase5_get_white_space
    dsimp only
    split_ifs with c1
    · have g0 := f0.2 (by rcases c1 with j | j | j <;> rw [j] <;> simp)
      exact ih _ h0 (by omega)
    · exact phase4_ungetc_in_fuel _ _ h0

theorem phase5_get_name_in_fuel : ∀ (fuel : Nat) (buffer : List Char) (c : Char)
    (s : scan_state), s.out_of_fuel = false → s.fuel ≤ fuel →
    (phase5_get_name fuel buffer c s).2.out_of_fuel = false := by
  intro fuel
  induction fuel with
  | zero => intro _ _ s _ hf; simp only [scan_state.fuel] at hf; omega
  | succ fuel ih =>
    intro buffer c s h hf
    have h0 := phase4_getc_in_fuel s h
    have f0 := phase4_getc_fuel s
    unfold phase5_get_name
    dsimp only
    cases hc : (phase4_getc s).1 with
    | none => exact phase4_ungetc_in_fuel _ _ h0
    | some c1 =>
      dsimp only
      have g0 := f0.2 (by rw [hc]; simp)
      split_ifs
      · exact ih _ _ _ h0 (by omega)
      · exact phase4_ungetc_in_fuel _ _ h0

theorem phase5_get_dollar_in_fuel : ∀ (fuel : Nat) (buffer : List Char)
    (s : scan_state), s.out_of_fuel = false → s.fuel ≤ fuel →
    (phase5_get_dollar fuel buffer s).2.out_of_fuel = false := by
  intro fuel
  induction fuel with
  | zero => intro _ s _ hf; simp only [scan_state.fuel] at hf; omega
  | succ fuel ih =>
    intro buffer s h hf
    have h0 := phase4_getc_in_fuel s h
    have f0 := phase4_getc_fuel s
    unfold phase5_get_dollar
    dsimp only
    cases hc : (phase4_getc s).1 with
    | none => exact phase4_ungetc_in_fuel _ _ h0
    | some c1 =>
      dsimp only
      have g0 := f0.2 (by rw [hc]; simp)
      split_ifs
      · exact ih _ _ h0 (by omega)
      · exact phase4_ungetc_in_fuel _ _ h0

theorem phase5_get_dollar_start_in_fuel (s : scan_state) (h : s.out_of_fuel = false) :
    (phase5_get_dollar_start s).2.out_of_fuel = false := by
  have h0 := phase4_getc_in_fuel s h
  unfold phase5_get_dollar_start
  dsimp only
  split
  · split_ifs
    · exact phase5_get_dollar_in_fuel _ _ _ h0 (Nat.le_refl _)
    · exact phase4_ungetc_in_fuel _ _ h0
  · exact phase4_ungetc_in_fuel _ _ h0

theorem phase5_get_number_in_fuel : ∀ (fuel : Nat) (buffer : List Char) (c : Char)
    (s : scan_state), s.out_of_fuel = false → s.fuel ≤ fuel →
    (phase5_get_number fuel buffer c s).2.out_of_fuel = false := by
  intro fuel
  induction fuel with
  | zero => intro _ _ s _ hf; simp only [scan_state.fuel] at hf; omega
  | succ fuel ih =>
    intro buffer c s h hf
    have h0 := phase4_getc_in_fuel s h
    have h1 := phase4_getc_in_fuel _ h0
    have f0 := phase4_getc_fuel s
    have f1 := phase4_getc_fuel (phase4_getc s).2
    unfold phase5_get_number
    dsimp only
    cases hc : (phase4_getc s).1 with
    | none => exact phase4_ungetc_in_fuel _ _ h0
    | some c1 =>
      dsimp only
      have g0 := f0.2 (by rw [hc]; simp)
      split_ifs
      · cases hc2 : (phase4_getc (phase4_getc s).2).1 with
        | none => exact phase4_ungetc_in_fuel _ _ h1
        | some c2 =>
          dsimp only
          split_ifs
          · exact phase4_ungetc_in_fuel _ _ h1
          · exact ih _ _ _ h1 (by have := f1.1; omega)
      · exact ih _ _ _ h0 (by omega)
      · exact phase4_ungetc_in_fuel _ _ h0

theorem phase5_get_string_in_fuel : ∀ (fuel : Nat) (cquot : Char) (buffer : List Char)
    (s : scan_state), s.out_of_fuel = false → s.fuel ≤ fuel →
    (phase5_get_string fuel cquot buffer s).2.out_of_fuel = false := by
  intro fuel
  induction fuel with
  | zero => intro _ _ s _ hf; simp only [scan_state.fuel] at hf; omega
  | succ fuel ih =>
    intro cquot buffer s h hf
    have h0 := phase3_getc_in_fuel s h
    have h1 := phase3_getc_in_fuel _ h0
    have f0 := phase3_getc_fuel s
    have f1 := phase3_getc_fuel (phase3_getc s).2
    unfold phase5_get_string
    dsimp only
    split_ifs with c1 c2
    · have g0 := f0.2 (by rw [c1]; simp)
      exact ih _ _ _ h1 (by have := f1.1; omega)
    · exact phase3_ungetc_in_fuel _ _ h1
    · cases hc : (phase3_getc s).1 with
      | none => exact h0
      | some c =>
        dsimp only
        have g0 := f0.2 (by rw [hc]; simp)
        split_ifs
        · exact phase3_ungetc_in_fuel _ _ h0
        · exact ih _ _ _ h0 (by omega)

theorem phase5_get_in_fuel (s : scan_state) (h : s.out_of_fuel = false) :
    (phase5_get s).2.out_of_fuel = false := by
  cases h5 : s.phase5_pushback with
  | cons t rest =>
    rw [phase5_get_pushback s t rest h5]
    exact h
  | nil =>
    have h0 := phase4_getc_in_fuel s h
    have h1 := phase4_getc_in_fuel _ h0
    have hu := phase4_ungetc_in_fuel (phase4_getc (phase4_getc s).2).1 _ h1
    unfold phase5_get
    rw [h5]
    dsimp only
    cases hc : (phase4_getc s).1 with
    | none => exact h0
    | some c =>
      dsimp only
      by_cases c1 : c = '\n'
      · rw [if_pos c1]; exact h0
      rw [if_neg c1]
      by_cases c2 : c = ' ' ∨ c = '\x0c' ∨ c = '\t'
      · rw [if_pos c2]; exact phase5_get_white_space_in_fuel _ _ h0 (Nat.le_refl _)
      rw [if_neg c2]
      by_cases c3 : is_name_start c = true
      · rw [if_pos c3]; exact phase5_get_name_in_fuel _ _ _ _ h0 (Nat.le_refl _)
      rw [if_neg c3]
      by_cases c4 : c = '$'
      · rw [if_pos c4]
        split_ifs <;> exact phase5_get_dollar_start_in_fuel _ h0
      rw [if_neg c4]
      by_cases c5 : c = '.'
      · rw [if_pos c5]
        split_ifs
        · exact phase5_get_number_in_fuel _ _ _ _ hu (Nat.le_refl _)
        · exact hu
      rw [if_neg c5]
      by_cases c6 : c_isdigit c = true
      · rw [if_pos c6]; exact phase5_get_number_in_fuel _ _ _ _ h0 (Nat.le_refl _)
      rw [if_neg c6]
      by_cases c7 : c = '"' ∨ c = '\''
      · rw [if_pos c7]; exact phase5_get_string_in_fuel _ _ _ _ h0 (Nat.le_refl _)
      rw [if_neg c7]
      by_cases c8 : c = '('
      · rw [if_pos c8]; exact h0
      rw [if_neg c8]
      by_cases c9 : c = ')'
      · rw [if_pos c9]; exact h0
      rw [if_neg c9]
      by_cases c10 : c = '['
      · rw [if_pos c10]; exact h0
      rw [if_neg c10]
      by_cases c11 : c = ']'
      · rw [if_pos c11]; exact h0
      rw [if_neg c11]
      by_cases c12 : c = ','
      · rw [if_pos c12]; exact h0
      rw [if_neg c12]
      by_cases c13 : c = '#'
      · rw [if_pos c13]; exact h0
      rw [if_neg c13]
      by_cases c14 : c = ':'
      · rw [if_pos c14]; exact h0
      rw [if_neg c14]
      by_cases c15 : c = '\\'
      · rw [if_pos c15]
        split_ifs
        · exact h1
        · exact hu
      rw [if_neg c15]
      exact h0

theorem phase5_unget_in_fuel (tp : token_ty) (s : scan_state) (h : s.out_of_fuel = false) :
    (phase5_unget tp s).out_of_fuel = false := by
  unfold phase5_unget
  split_ifs <;> exact h

theorem phaseX_get_in_fuel (s : scan_state) (h : s.out_of_fuel = false) :
    (phaseX_get s).2.out_of_fuel = false := by
  have h0 := phase5_get_in_fuel s h
  have h1 := phase5_get_in_fuel _ h0
  have hu := phase5_unget_in_fuel (phase5_get (phase5_get s).2).1 _ h1
  unfold phaseX_get
  dsimp only
  split_ifs
  · exact h0
  · exact h0
  · exact h0
  · exact h1
  · exact hu
  · exact h0

theorem phase6_get_directive_in_fuel : ∀ (fuel : Nat) (buf : List token_ty) (s : scan_state),
    s.out_of_fuel = false → s.fuel ≤ fuel →
    (phase6_get_directive fuel buf s).2.2.out_of_fuel = false := by
  intro fuel
  induction fuel with
  | zero => intro _ s _ hf; simp only [scan_state.fuel] at hf; omega
  | succ fuel ih =>
    intro buf s h hf
    have h0 := phaseX_get_in_fuel s h
    have f0 := phaseX_get_fuel s
    unfold phase6_get_directive
    dsimp only
    split_ifs with c1 c2 c3
    · exact h0
    · exact h0
    · exact ih _ _ h0 (by have := f0.2 (fun e => c1 (Or.inr e)); omega)
    · exact ih _ _ h0 (by have := f0.2 (fun e => c1 (Or.inr e)); omega)

theorem phase6_apply_directive_in_fuel (buf : List token_ty) (s : scan_state)
    (h : s.out_of_fuel = false) : (phase6_apply_directive buf s).out_of_fuel = false := by
  have a : ∀ s1 : scan_state, s1.out_of_fuel = false →
      (phase6_apply_line buf s1).out_of_fuel = false := by
    intro s1 h1
    unfold phase6_apply_line
    split
    · split_ifs
      · exact h1
      · exact h1
    · exact h1
  have b : ∀ s1 : scan_state, s1.out_of_fuel = false →
      (phase6_apply_number buf s1).out_of_fuel = false := by
    intro s1 h1
    unfold phase6_apply_number
    split
    · split_ifs
      · exact h1
      · exact h1
    · exact h1
  exact b _ (a s h)

theorem phase6_get_loop_in_fuel : ∀ (fuel : Nat) (s : scan_state),
    s.out_of_fuel = false → s.fuel ≤ fuel → (phase6_get_loop fuel s).2.out_of_fuel = false := by
  intro fuel
  induction fuel with
  | zero => intro s _ hf; simp only [scan_state.fuel] at hf; omega
  | succ fuel ih =>
    intro s h hf
    have h0 := phaseX_get_in_fuel s h
    have f0 := phaseX_get_fuel s
    have hd := phase6_get_directive_in_fuel (phaseX_get s).2.fuel [] _ h0 (Nat.le_refl _)
    have fd := phase6_get_directive_fuel (phaseX_get s).2.fuel [] (phaseX_get s).2
    unfold phase6_get_loop
    dsimp only
    split_ifs with c1
    · exact h0
    · have e1 : (phaseX_get s).1.type = token_type_hash := by simpa using c1
      have g0 := f0.2 (by rw [e1]; simp)
      split
      · exact hd
      · exact ih _ (phase6_apply_directive_in_fuel _ _ hd)
          (by rw [savable_comment_reset_fuel, phase6_apply_directive_fuel]; omega)

theorem phase6_get_in_fuel (s : scan_state) (h : s.out_of_fuel = false) :
    (phase6_get s).2.out_of_fuel = false := by
  unfold phase6_get
  split
  · exact h
  · exact phase6_get_loop_in_fuel _ s h (Nat.le_refl _)

theorem phase6_unget_in_fuel (tp : token_ty) (s : scan_state) (h : s.out_of_fuel = false) :
    (phase6_unget tp s).out_of_fuel = false := by
  unfold phase6_unget
  split_ifs <;> exact h

theorem phase8a_get_loop_in_fuel : ∀ (fuel : Nat) (s : scan_state),
    s.out_of_fuel = false → s.fuel ≤ fuel → (phase8a_get_loop fuel s).2.out_of_fuel = false := by
  intro fuel
  induction fuel with
  | zero => intro s _ hf; simp only [scan_state.fuel] at hf; omega
  | succ fuel ih =>
    intro s h hf
    have h0 := phase6_get_in_fuel s h
    have f0 := phase6_get_fuel s
    unfold phase8a_get_loop
    dsimp only
    split_ifs with c1 c2 c3
    · exact ih _ h0 (by have := f0.2 (by rw [c1]; simp); omega)
    · exact ih _ h0 (by
        have := f0.2 (by rw [c2]; simp)
        rw [savable_comment_reset_fuel, fuel_newline_count]
        omega)
    · exact ih _ h0 (by
        have := f0.2 (by rw [c2]; simp)
        rw [fuel_newline_count]
        omega)
    · exact h0

theorem phase8a_get_in_fuel (s : scan_state) (h : s.out_of_fuel = false) :
    (phase8a_get s).2.out_of_fuel = false :=
  phase8a_get_loop_in_fuel _ s h (Nat.le_refl _)

theorem phase8a_unget_after_get_fuel (s : scan_state) :
    (phase8a_unget (phase8a_get s).1 (phase8a_get s).2).fuel ≤ s.fuel := by
  have f := phase8a_get_fuel s
  unfold phase8a_unget phase6_unget
  split_ifs with c1 c2
  · exact f.1
  · have g := f.2 c1
    simp only [scan_state.fuel, List.length_cons] at g ⊢
    omega
  · exact f.1

theorem phase8_get_loop_fuel : ∀ (fuel : Nat) (tp : token_ty) (s : scan_state),
    (phase8_get_loop fuel tp s).2.fuel ≤ s.fuel := by
  intro fuel
  induction fuel with
  | zero => intro tp s; exact Nat.le_refl _
  | succ fuel ih =>
    intro tp s
    have f := phase8a_get_fuel s
    have fu := phase8a_unget_after_get_fuel s
    rw [phase8_get_loop]
    split_ifs
    · exact fu
    · exact fu
    · exact le_trans (ih _ _) f.1

theorem phase8_get_fuel (s : scan_state) :
    (phase8_get s).2.fuel ≤ s.fuel ∧
      ((phase8_get s).1.type ≠ token_type_eof → (phase8_get s).2.fuel < s.fuel) := by
  have f := phase8a_get_fuel s
  have fl := phase8_get_loop_fuel (phase8a_get s).2.fuel (phase8a_get s).1 (phase8a_get s).2
  unfold phase8_get
  dsimp only
  split_ifs with c1
  · exact f
  · have hne : (phase8a_get s).1.type ≠ token_type_eof := by
      intro e
      apply c1
      rw [e]
      exact ⟨by decide, by decide⟩
    have g := f.2 hne
    exact ⟨by omega, fun _ => by omega⟩

theorem x_arma_lex_fuel (k : keyword_state) (s : scan_state) :
    (x_arma_lex k s).2.fuel ≤ s.fuel ∧
      ((x_arma_lex k s).1.type ≠ xgettext_token_type_eof → (x_arma_lex k s).2.fuel < s.fuel) := by
  have f := phase8_get_fuel s
  by_cases he : (phase8_get s).1.type = token_type_eof
  · have e : x_arma_lex k s =
        (xgettext_token_of_type xgettext_token_type_eof, (phase8_get s).2) := by
      unfold x_arma_lex
      dsimp only
      rw [he]
    rw [e]
    exact ⟨f.1, fun h => absurd rfl h⟩
  · have g := f.2 he
    unfold x_arma_lex
    dsimp only
    split
    · exact ⟨f.1, fun _ => g⟩
    · split
      · exact ⟨f.1, fun _ => g⟩
      · exact ⟨f.1, fun _ => g⟩
    all_goals exact ⟨f.1, fun _ => g⟩

theorem phase8_get_loop_in_fuel : ∀ (fuel : Nat) (tp : token_ty) (s : scan_state),
    s.out_of_fuel = false → s.fuel ≤ fuel → (phase8_get_loop fuel tp s).2.out_of_fuel = false := by
  intro fuel
  induction fuel with
  | zero => intro _ s _ hf; simp only [scan_state.fuel] at hf; omega
  | succ fuel ih =>
    intro tp s h hf
    have h0 := phase8a_get_in_fuel s h
    have f := phase8a_get_fuel s
    have hu := phase6_unget_in_fuel (phase8a_get s).1 _ h0
    rw [phase8_get_loop]
    split_ifs with c1
    · exact hu
    · exact hu
    · have hne : (phase8a_get s).1.type ≠ token_type_eof := by
        intro e
        apply c1
        rw [e]
        exact ⟨by decide, by decide⟩
      exact ih _ _ h0 (by have := f.2 hne; omega)

theorem phase8_get_in_fuel (s : scan_state) (h : s.out_of_fuel = false) :
    (phase8_get s).2.out_of_fuel = false := by
  have h0 := phase8a_get_in_fuel s h
  unfold phase8_get
  dsimp only
  split_ifs
  · exact h0
  · exact phase8_get_loop_in_fuel _ _ _ h0 (Nat.le_refl _)

theorem x_arma_lex_in_fuel (k : keyword_state) (s : scan_state) (h : s.out_of_fuel = false) :
    (x_arma_lex k s).2.out_of_fuel = false := by
  have h0 := phase8_get_in_fuel s h
  unfold x_arma_lex
  dsimp only
  split
  · exact h0
  · split
    · exact h0
    · exact h0
  all_goals exact h0

theorem extract_parenthesized_loop_fuel (k : keyword_state) :
    ∀ (fuel argparser : Nat) (arg : Int) (state : Bool) (next_shapes : Option callshapes)
      (e : extract_state),
      (extract_parenthesized_loop k fuel argparser arg state next_shapes e).2.scan.fuel ≤
          e.scan.fuel ∧
        ((extract_parenthesized_loop k fuel argparser arg state next_shapes e).1 = false →
          (extract_parenthesized_loop k fuel argparser arg state next_shapes e).2.scan.fuel <
            e.scan.fuel) := by
  intro fuel
  induction fuel with
  | zero =>
    intro argparser arg state next_shapes e
    exact ⟨Nat.le_refl _, fun h => absurd h (by simp [extract_parenthesized_loop])⟩
  | succ fuel ih =>
    intro argparser arg state next_shapes e
    have f := x_arma_lex_fuel k e.scan
    have cont : ∀ (ap : Nat) (a : Int) (st : Bool) (ns : Option callshapes) (e1 : extract_state),
        e1.scan.fuel < e.scan.fuel →
        (extract_parenthesized_loop k fuel ap a st ns e1).2.scan.fuel ≤ e.scan.fuel ∧
          ((extract_parenthesized_loop k fuel ap a st ns e1).1 = false →
            (extract_parenthesized_loop k fuel ap a st ns e1).2.scan.fuel < e.scan.fuel) := by
      intro ap a st ns e1 h1
      have i := ih ap a st ns e1
      exact ⟨by omega, fun _ => by omega⟩
    rw [extract_parenthesized_loop]
    dsimp only
    cases ht : (x_arma_lex k e.scan).1.type
    case xgettext_token_type_eof =>
      dsimp only
      exact ⟨f.1, fun h => absurd h (by simp)⟩
    all_goals
      have g : (x_arma_lex k e.scan).2.fuel < e.scan.fuel := f.2 (by rw [ht]; simp)
      dsimp only
    case xgettext_token_type_rparen => exact ⟨by exact f.1, fun _ => g⟩
    case xgettext_token_type_rsqbr => exact ⟨by exact f.1, fun _ => g⟩
    case xgettext_token_type_lparen =>
      generalize (if state = true then next_shapes else none) = sh
      have i := ih (arglist_parser_alloc sh { e with scan := (x_arma_lex k e.scan).2 }).1 1
        false none (arglist_parser_alloc sh { e with scan := (x_arma_lex k e.scan).2 }).2
      have i1 : (arglist_parser_alloc sh
          { e with scan := (x_arma_lex k e.scan).2 }).2.scan.fuel =
          (x_arma_lex k e.scan).2.fuel := rfl
      rw [i1] at i
      split_ifs
      · exact ⟨le_trans i.1 f.1, fun h => absurd h (by simp)⟩
      · exact cont _ _ _ _ _ (by have := i.1; omega)
    case xgettext_token_type_lsqbr =>
      generalize (if state = true then next_shapes else none) = sh
      have i := ih (arglist_parser_alloc sh { e with scan := (x_arma_lex k e.scan).2 }).1 1
        false none (arglist_parser_alloc sh { e with scan := (x_arma_lex k e.scan).2 }).2
      have i1 : (arglist_parser_alloc sh
          { e with scan := (x_arma_lex k e.scan).2 }).2.scan.fuel =
          (x_arma_lex k e.scan).2.fuel := rfl
      rw [i1] at i
      split_ifs
      · exact ⟨le_trans i.1 f.1, fun h => absurd h (by simp)⟩
      · exact cont _ _ _ _ _ (by have := i.1; omega)
    case xgettext_token_type_string_literal =>
      split_ifs
      · exact cont _ _ _ _ _ g
      · exact cont _ _ _ _ _ g
      · exact cont _ _ _ _ _ g
    all_goals exact cont _ _ _ _ _ g

theorem extract_parenthesized_loop_in_fuel (k : keyword_state) :
    ∀ (fuel argparser : Nat) (arg : Int) (state : Bool) (next_shapes : Option callshapes)
      (e : extract_state), e.scan.out_of_fuel = false → e.scan.fuel ≤ fuel →
      (extract_parenthesized_loop k fuel argparser arg state next_shapes e).2.scan.out_of_fuel =
        false := by
  intro fuel
  induction fuel with
  | zero =>
    intro _ _ _ _ e _ hf
    have := e.scan.fuel_pos
    omega
  | succ fuel ih =>
    intro argparser arg state next_shapes e h hf
    have h0 := x_arma_lex_in_fuel k e.scan h
    have f := x_arma_lex_fuel k e.scan
    rw [extract_parenthesized_loop]
    dsimp only
    cases ht : (x_arma_lex k e.scan).1.type
    case xgettext_token_type_eof =>
      dsimp only
      exact h0
    all_goals
      have g : (x_arma_lex k e.scan).2.fuel < e.scan.fuel := f.2 (by rw [ht]; simp)
      dsimp only
    case xgettext_token_type_rparen => exact h0
    case xgettext_token_type_rsqbr => exact h0
    case xgettext_token_type_lparen =>
      generalize (if state = true then next_shapes else none) = sh
      have i := ih (arglist_parser_alloc sh { e with scan := (x_arma_lex k e.scan).2 }).1 1
        false none (arglist_parser_alloc sh { e with scan := (x_arma_lex k e.scan).2 }).2
        h0 (by
          show (x_arma_lex k e.scan).2.fuel ≤ fuel
          omega)
      have j := (extract_parenthesized_loop_fuel k fuel
        (arglist_parser_alloc sh { e with scan := (x_arma_lex k e.scan).2 }).1 1
        false none (arglist_parser_alloc sh { e with scan := (x_arma_lex k e.scan).2 }).2).1
      have j1 : (arglist_parser_alloc sh
          { e with scan := (x_arma_lex k e.scan).2 }).2.scan.fuel =
          (x_arma_lex k e.scan).2.fuel := rfl
      rw [j1] at j
      split_ifs
      · exact i
      · exact ih _ _ _ _ _ i (by omega)
    case xgettext_token_type_lsqbr =>
      generalize (if state = true then next_shapes else none) = sh
      have i := ih (arglist_parser_alloc sh { e with scan := (x_arma_lex k e.scan).2 }).1 1
        false none (arglist_parser_alloc sh { e with scan := (x_arma_lex k e.scan).2 }).2
        h0 (by
          show (x_arma_lex k e.scan).2.fuel ≤ fuel
          omega)
      have j := (extract_parenthesized_loop_fuel k fuel
        (arglist_parser_alloc sh { e with scan := (x_arma_lex k e.scan).2 }).1 1
        false none (arglist_parser_alloc sh { e with scan := (x_arma_lex k e.scan).2 }).2).1
      have j1 : (arglist_parser_alloc sh
          { e with scan := (x_arma_lex k e.scan).2 }).2.scan.fuel =
          (x_arma_lex k e.scan).2.fuel := rfl
      rw [j1] at j
      split_ifs
      · exact i
      · exact ih _ _ _ _ _ i (by omega)
    case xgettext_token_type_string_literal =>
      split_ifs
      · exact ih _ _ _ _ _ h0 (by show (x_arma_lex k e.scan).2.fuel ≤ fuel; omega)
      · exact ih _ _ _ _ _ h0 (by show (x_arma_lex k e.scan).2.fuel ≤ fuel; omega)
      · exact ih _ _ _ _ _ h0 (by show (x_arma_lex k e.scan).2.fuel ≤ fuel; omega)
    all_goals exact ih _ _ _ _ _ h0 (by show (x_arma_lex k e.scan).2.fuel ≤ fuel; omega)

theorem extract_whole_file_loop_in_fuel (k : keyword_state) :
    ∀ (fuel : Nat) (e : extract_state), e.scan.out_of_fuel = false → e.scan.fuel ≤ fuel →
      (extract_whole_file_loop k fuel e).scan.out_of_fuel = false := by
  intro fuel
  induction fuel with
  | zero =>
    intro e _ hf
    have := e.scan.fuel_pos
    omega
  | succ fuel ih =>
    intro e h hf
    have i := extract_parenthesized_loop_in_fuel k (arglist_parser_alloc none e).2.scan.fuel
      (arglist_parser_alloc none e).1 1 false none (arglist_parser_alloc none e).2 h
      (Nat.le_refl _)
    have j := (extract_parenthesized_loop_fuel k (arglist_parser_alloc none e).2.scan.fuel
      (arglist_parser_alloc none e).1 1 false none (arglist_parser_alloc none e).2).2
    rw [extract_whole_file_loop]
    split_ifs with c
    · exact i
    · have c1 : (extract_parenthesized k (arglist_parser_alloc none e).2.scan.fuel
          (arglist_parser_alloc none e).1 (arglist_parser_alloc none e).2).1 = false := by
        simpa using c
      have j2 := j c1
      exact ih _ i (by
        have : (arglist_parser_alloc none e).2.scan.fuel = e.scan.fuel := rfl
        unfold extract_parenthesized
        omega)

theorem extract_whole_file_in_fuel (k : keyword_state) (f logical_filename : List Char) :
    (extract_whole_file k f logical_filename).2.scan.out_of_fuel = false := by
  unfold extract_whole_file
  dsimp only
  exact extract_whole_file_loop_in_fuel _ _ _ rfl (Nat.le_refl _)

/-! ### The tokens of a scan and the groups of the call extractor -/

theorem lex_tokens_stable (k : keyword_state) : ∀ (n m : Nat) (s : scan_state),
    s.fuel ≤ n → s.fuel ≤ m → lex_tokens k n s = lex_tokens k m s := by
  intro n
  induction n with
  | zero => intro _ s h _; have := s.fuel_pos; omega
  | succ n ih =>
    intro m s hn hm
    cases m with
    | zero => have := s.fuel_pos; omega
    | succ m =>
      have f := x_arma_lex_fuel k s
      rw [lex_tokens, lex_tokens]
      by_cases c : (x_arma_lex k s).1.type = xgettext_token_type_eof
      · rw [if_pos c, if_pos c]
      · rw [if_neg c, if_neg c, ih m _ (by have := f.2 c; omega) (by have := f.2 c; omega)]

theorem scan_tokens_step (k : keyword_state) (s : scan_state) :
    scan_tokens k s =
      if (x_arma_lex k s).1.type = xgettext_token_type_eof then [(x_arma_lex k s).1]
      else (x_arma_lex k s).1 :: scan_tokens k (x_arma_lex k s).2 := by
  have f := x_arma_lex_fuel k s
  unfold scan_tokens
  obtain ⟨n, hn⟩ : ∃ n, s.fuel = n + 1 := ⟨s.fuel - 1, by have := s.fuel_pos; omega⟩
  rw [hn, lex_tokens]
  by_cases c : (x_arma_lex k s).1.type = xgettext_token_type_eof
  · rw [if_pos c, if_pos c]
  · rw [if_neg c, if_neg c,
      lex_tokens_stable k n (x_arma_lex k s).2.fuel _ (by have := f.2 c; omega) (Nat.le_refl _)]

theorem scan_tokens_eof (k : keyword_state) (s : scan_state)
    (h : (x_arma_lex k s).1.type = xgettext_token_type_eof) :
    scan_tokens k s = [(x_arma_lex k s).1] := by
  rw [scan_tokens_step, if_pos h]

theorem scan_tokens_cons (k : keyword_state) (s : scan_state)
    (h : (x_arma_lex k s).1.type ≠ xgettext_token_type_eof) :
    scan_tokens k s = (x_arma_lex k s).1 :: scan_tokens k (x_arma_lex k s).2 := by
  rw [scan_tokens_step, if_neg h]

theorem frame_rest_length : ∀ (ts : List xgettext_token_ty) (d : Nat)
    (x : List xgettext_token_ty), frame_rest d ts = some x → x.length < ts.length := by
  intro ts
  induction ts with
  | nil => intro d x h; simp [frame_rest] at h
  | cons t rest ih =>
    intro d x h
    rw [frame_rest] at h
    simp only [List.length_cons]
    split_ifs at h with c1 c2 c3 c4
    · have := ih _ x h; omega
    · simp only [Option.some.injEq] at h; rw [← h]; omega
    · have := ih _ x h; omega
    · have := ih _ x h; omega

theorem frame_rest_succ : ∀ (n : Nat) (ts : List xgettext_token_ty), ts.length ≤ n →
    ∀ d : Nat, frame_rest (d + 1) ts = (frame_rest 0 ts).bind (frame_rest d) := by
  intro n
  induction n with
  | zero =>
    intro ts hl d
    have : ts = [] := List.length_eq_zero.mp (by omega)
    subst this
    rfl
  | succ n ih =>
    intro ts hl d
    cases ts with
    | nil => rfl
    | cons t rest =>
      simp only [List.length_cons] at hl
      have hr : rest.length ≤ n := by omega
      rw [frame_rest, frame_rest]
      by_cases c1 : t.type = xgettext_token_type_eof
      · rw [if_pos c1, if_pos c1]; rfl
      rw [if_neg c1, if_neg c1]
      by_cases c2 : t.type = xgettext_token_type_lparen ∨ t.type = xgettext_token_type_lsqbr
      · rw [if_pos c2, if_pos c2, ih rest hr (d + 1), ih rest hr 0]
        cases hx : frame_rest 0 rest with
        | none => rfl
        | some x =>
          have hxl := frame_rest_length rest 0 x hx
          simp only [Option.some_bind]
          exact ih x (by omega) d
      rw [if_neg c2, if_neg c2]
      by_cases c3 : t.type = xgettext_token_type_rparen ∨ t.type = xgettext_token_type_rsqbr
      · rw [if_pos c3, if_pos c3, if_neg (Nat.succ_ne_zero d), if_pos rfl]
        rfl
      rw [if_neg c3, if_neg c3]
      exact ih rest hr d
theorem frame_rest_plain (d : Nat) (t : xgettext_token_ty) (rest : List xgettext_token_ty)
    (h1 : t.type ≠ xgettext_token_type_eof) (h2 : t.type ≠ xgettext_token_type_lparen)
    (h3 : t.type ≠ xgettext_token_type_lsqbr) (h4 : t.type ≠ xgettext_token_type_rparen)
    (h5 : t.type ≠ xgettext_token_type_rsqbr) :
    frame_rest d (t :: rest) = frame_rest d rest := by
  rw [frame_rest, if_neg h1, if_neg (by simp [h2, h3]), if_neg (by simp [h4, h5])]

theorem frame_rest_open (d : Nat) (t : xgettext_token_ty) (rest : List xgettext_token_ty)
    (h : t.type = xgettext_token_type_lparen ∨ t.type = xgettext_token_type_lsqbr) :
    frame_rest d (t :: rest) = (frame_rest 0 rest).bind (frame_rest d) := by
  rw [frame_rest, if_neg (by rcases h with h | h <;> rw [h] <;> simp), if_pos h]
  exact frame_rest_succ rest.length rest (Nat.le_refl _) d

theorem frame_rest_close (t : xgettext_token_ty) (rest : List xgettext_token_ty)
    (h : t.type = xgettext_token_type_rparen ∨ t.type = xgettext_token_type_rsqbr) :
    frame_rest 0 (t :: rest) = some rest := by
  rw [frame_rest, if_neg (by rcases h with h | h <;> rw [h] <;> simp),
    if_neg (by rcases h with h | h <;> rw [h] <;> simp), if_pos h, if_pos rfl]

theorem frame_rest_eof (d : Nat) (t : xgettext_token_ty) (rest : List xgettext_token_ty)
    (h : t.type = xgettext_token_type_eof) : frame_rest d (t :: rest) = none := by
  rw [frame_rest, if_pos h]

/-- The loop of `extract_parenthesized` ends at the first closing token of its
own nesting level and returns false there; it returns true when the end of the
file comes first. -/
theorem extract_parenthesized_loop_frame (k : keyword_state) :
    ∀ (fuel argparser : Nat) (arg : Int) (state : Bool) (next_shapes : Option callshapes)
      (e : extract_state), e.scan.fuel ≤ fuel →
      (frame_rest 0 (scan_tokens k e.scan) = none →
        (extract_parenthesized_loop k fuel argparser arg state next_shapes e).1 = true) ∧
      (∀ rest, frame_rest 0 (scan_tokens k e.scan) = some rest →
        (extract_parenthesized_loop k fuel argparser arg state next_shapes e).1 = false ∧
        scan_tokens k
          (extract_parenthesized_loop k fuel argparser arg state next_shapes e).2.scan = rest) := by
  intro fuel
  induction fuel with
  | zero =>
    intro _ _ _ _ e hf
    have := e.scan.fuel_pos
    omega
  | succ fuel ih =>
    intro argparser arg state next_shapes e hf
    have f := x_arma_lex_fuel k e.scan
    rw [extract_parenthesized_loop]
    dsimp only
    rcases Decidable.em ((x_arma_lex k e.scan).1.type = xgettext_token_type_eof) with he | he
    · rw [he]
      dsimp only
      rw [scan_tokens_eof k e.scan he, frame_rest_eof 0 _ _ he]
      exact ⟨fun _ => rfl, fun rest h => absurd h (by simp)⟩
    have g : (x_arma_lex k e.scan).2.fuel < e.scan.fuel := f.2 he
    have hT := scan_tokens_cons k e.scan he
    have plain : ∀ (ap : Nat) (a : Int) (st : Bool) (ns : Option callshapes) (e1 : extract_state),
        e1.scan = (x_arma_lex k e.scan).2 →
        (x_arma_lex k e.scan).1.type ≠ xgettext_token_type_lparen →
        (x_arma_lex k e.scan).1.type ≠ xgettext_token_type_lsqbr →
        (x_arma_lex k e.scan).1.type ≠ xgettext_token_type_rparen →
        (x_arma_lex k e.scan).1.type ≠ xgettext_token_type_rsqbr →
        (frame_rest 0 (scan_tokens k e.scan) = none →
          (extract_parenthesized_loop k fuel ap a st ns e1).1 = true) ∧
        (∀ rest, frame_rest 0 (scan_tokens k e.scan) = some rest →
          (extract_parenthesized_loop k fuel ap a st ns e1).1 = false ∧
          scan_tokens k (extract_parenthesized_loop k fuel ap a st ns e1).2.scan = rest) := by
      intro ap a st ns e1 h1 n2 n3 n4 n5
      rw [hT, frame_rest_plain 0 _ _ he n2 n3 n4 n5, ← h1]
      exact ih ap a st ns e1 (by rw [h1]; omega)
    have opening : (x_arma_lex k e.scan).1.type = xgettext_token_type_lparen ∨
        (x_arma_lex k e.scan).1.type = xgettext_token_type_lsqbr →
        ∀ (sh : Option callshapes),
        (frame_rest 0 (scan_tokens k e.scan) = none →
          (if (extract_parenthesized_loop k fuel
              (arglist_parser_alloc sh { e with scan := (x_arma_lex k e.scan).2 }).1 1 false none
              (arglist_parser_alloc sh { e with scan := (x_arma_lex k e.scan).2 }).2).1 = true
            then (true, (extract_parenthesized_loop k fuel
              (arglist_parser_alloc sh { e with scan := (x_arma_lex k e.scan).2 }).1 1 false none
              (arglist_parser_alloc sh { e with scan := (x_arma_lex k e.scan).2 }).2).2.call
                (extractor_call.arglist_parser_done argparser arg))
            else extract_parenthesized_loop k fuel argparser arg false next_shapes
              (extract_parenthesized_loop k fuel
              (arglist_parser_alloc sh { e with scan := (x_arma_lex k e.scan).2 }).1 1 false none
              (arglist_parser_alloc sh { e with scan := (x_arma_lex k e.scan).2 }).2).2).1 = true) ∧
        (∀ rest, frame_rest 0 (scan_tokens k e.scan) = some rest →
          (if (extract_parenthesized_loop k fuel
              (arglist_parser_alloc sh { e with scan := (x_arma_lex k e.scan).2 }).1 1 false none
              (arglist_parser_alloc sh { e with scan := (x_arma_lex k e.scan).2 }).2).1 = true
            then (true, (extract_parenthesized_loop k fuel
              (arglist_parser_alloc sh { e with scan := (x_arma_lex k e.scan).2 }).1 1 false none
              (arglist_parser_alloc sh { e with scan := (x_arma_lex k e.scan).2 }).2).2.call
                (extractor_call.arglist_parser_done argparser arg))
            else extract_parenthesized_loop k fuel argparser arg false next_shapes
              (extract_parenthesized_loop k fuel
              (arglist_parser_alloc sh { e with scan := (x_arma_lex k e.scan).2 }).1 1 false none
              (arglist_parser_alloc sh { e with scan := (x_arma_lex k e.scan).2 }).2).2).1 = false ∧
          scan_tokens k (if (extract_parenthesized_loop k fuel
              (arglist_parser_alloc sh { e with scan := (x_arma_lex k e.scan).2 }).1 1 false none
              (arglist_parser_alloc sh { e with scan := (x_arma_lex k e.scan).2 }).2).1 = true
            then (true, (extract_parenthesized_loop k fuel
              (arglist_parser_alloc sh { e with scan := (x_arma_lex k e.scan).2 }).1 1 false none
              (arglist_parser_alloc sh { e with scan := (x_arma_lex k e.scan).2 }).2).2.call
                (extractor_call.arglist_parser_done argparser arg))
            else extract_parenthesized_loop k fuel argparser arg false next_shapes
              (extract_parenthesized_loop k fuel
              (arglist_parser_alloc sh { e with scan := (x_arma_lex k e.scan).2 }).1 1 false none
              (arglist_parser_alloc sh { e with scan := (x_arma_lex k e.scan).2 }).2).2).2.scan =
            rest) := by
      intro ho sh
      generalize hin : extract_parenthesized_loop k fuel
        (arglist_parser_alloc sh { e with scan := (x_arma_lex k e.scan).2 }).1 1 false none
        (arglist_parser_alloc sh { e with scan := (x_arma_lex k e.scan).2 }).2 = inner
      have i := ih (arglist_parser_alloc sh { e with scan := (x_arma_lex k e.scan).2 }).1 1
        false none (arglist_parser_alloc sh { e with scan := (x_arma_lex k e.scan).2 }).2
        (by
          show (x_arma_lex k e.scan).2.fuel ≤ fuel
          omega)
      have j := (extract_parenthesized_loop_fuel k fuel
        (arglist_parser_alloc sh { e with scan := (x_arma_lex k e.scan).2 }).1 1
        false none (arglist_parser_alloc sh { e with scan := (x_arma_lex k e.scan).2 }).2).1
      have j1 : (arglist_parser_alloc sh
          { e with scan := (x_arma_lex k e.scan).2 }).2.scan =
          (x_arma_lex k e.scan).2 := rfl
      rw [j1] at i j
      rw [hin] at i j
      rw [hT, frame_rest_open 0 _ _ ho]
      cases hx : frame_rest 0 (scan_tokens k (x_arma_lex k e.scan).2) with
      | none =>
        have i1 := i.1 hx
        rw [if_pos i1]
        exact ⟨fun _ => rfl, fun rest h => absurd h (by simp)⟩
      | some x =>
        obtain ⟨i1, i2⟩ := i.2 x hx
        rw [if_neg (by rw [i1]; simp)]
        simp only [Option.some_bind]
        rw [← i2]
        exact ih argparser arg false next_shapes inner.2 (by omega)
    cases ht : (x_arma_lex k e.scan).1.type
    case xgettext_token_type_eof => exact absurd ht he
    case xgettext_token_type_rparen =>
      dsimp only
      rw [hT, frame_rest_close _ _ (Or.inl ht)]
      exact ⟨fun h => absurd h (by simp), fun rest h => ⟨rfl, Option.some.inj h⟩⟩
    case xgettext_token_type_rsqbr =>
      dsimp only
      rw [hT, frame_rest_close _ _ (Or.inr ht)]
      exact ⟨fun h => absurd h (by simp), fun rest h => ⟨rfl, Option.some.inj h⟩⟩
    case xgettext_token_type_lparen =>
      dsimp only
      exact opening (Or.inl ht) _
    case xgettext_token_type_lsqbr =>
      dsimp only
      exact opening (Or.inr ht) _
    case xgettext_token_type_string_literal =>
      dsimp only
      split_ifs
      all_goals
        refine plain _ _ _ _ _ ?_ (by rw [ht]; simp) (by rw [ht]; simp)
          (by rw [ht]; simp) (by rw [ht]; simp)
        rfl
    all_goals
      dsimp only
      refine plain _ _ _ _ _ ?_ (by rw [ht]; simp) (by rw [ht]; simp)
        (by rw [ht]; simp) (by rw [ht]; simp)
      rfl
theorem frame_rest_suffix : ∀ (ts : List xgettext_token_ty) (d : Nat)
    (x : List xgettext_token_ty), frame_rest d ts = some x → x <:+ ts := by
  intro ts
  induction ts with
  | nil => intro d x h; simp [frame_rest] at h
  | cons t rest ih =>
    intro d x h
    rw [frame_rest] at h
    split_ifs at h with c1 c2 c3 c4
    · exact (ih _ x h).trans (List.suffix_cons t rest)
    · simp only [Option.some.injEq] at h
      rw [← h]
      exact List.suffix_cons t rest
    · exact (ih _ x h).trans (List.suffix_cons t rest)
    · exact (ih _ x h).trans (List.suffix_cons t rest)

theorem opening_tokens_suffix (x ts : List xgettext_token_ty) (h : x <:+ ts) :
    opening_tokens x ≤ opening_tokens ts :=
  h.sublist.countP_le _

theorem opening_tokens_cons (t : xgettext_token_ty) (ts : List xgettext_token_ty) :
    opening_tokens (t :: ts) =
      opening_tokens ts +
        (if t.type = xgettext_token_type_lparen ∨ t.type = xgettext_token_type_lsqbr
          then 1 else 0) := by
  unfold opening_tokens
  rw [List.countP_cons]
  simp only [Bool.or_eq_true, decide_eq_true_eq]

theorem frame_literals_inside : ∀ (n : Nat) (ts : List xgettext_token_ty), ts.length ≤ n →
    ∀ (d commas : Nat) (b : Bool), frame_literals (d + 1) commas b ts =
      match frame_rest 0 ts with
      | none => []
      | some rest => frame_literals d commas false rest := by
  intro n
  induction n with
  | zero =>
    intro ts hl d commas b
    have : ts = [] := List.length_eq_zero.mp (by omega)
    subst this
    rfl
  | succ n ih =>
    intro ts hl d commas b
    cases ts with
    | nil => rfl
    | cons t rest =>
      simp only [List.length_cons] at hl
      have hr : rest.length ≤ n := by omega
      rw [frame_literals, frame_rest]
      by_cases c1 : t.type = xgettext_token_type_eof
      · rw [if_pos c1, if_pos c1]
      rw [if_neg c1, if_neg c1]
      by_cases c2 : t.type = xgettext_token_type_lparen ∨ t.type = xgettext_token_type_lsqbr
      · rw [if_pos c2, if_pos c2, ih rest hr (d + 1), frame_rest_succ rest.length rest (Nat.le_refl _) 0]
        cases hx : frame_rest 0 rest with
        | none => rfl
        | some x =>
          have hxl := frame_rest_length rest 0 x hx
          simp only [Option.some_bind]
          exact ih x (by omega) d commas false
      rw [if_neg c2, if_neg c2]
      by_cases c3 : t.type = xgettext_token_type_rparen ∨ t.type = xgettext_token_type_rsqbr
      · rw [if_pos c3, if_pos c3, if_neg (Nat.succ_ne_zero d), if_pos rfl]
        rfl
      rw [if_neg c3, if_neg c3]
      by_cases c4 : t.type = xgettext_token_type_comma
      · rw [if_pos c4, if_neg (Nat.succ_ne_zero d)]
        exact ih rest hr d commas false
      rw [if_neg c4]
      by_cases c5 : t.type = xgettext_token_type_string_literal
      · rw [if_pos c5, if_neg (by simp), List.nil_append]
        exact ih rest hr d commas false
      rw [if_neg c5]
      by_cases c6 : t.type = xgettext_token_type_keyword
      · rw [if_pos c6]
        exact ih rest hr d commas true
      rw [if_neg c6]
      exact ih rest hr d commas false

theorem bound_literals_append (ap : Nat) (a b : List extractor_call) :
    bound_literals ap (a ++ b) = bound_literals ap a ++ bound_literals ap b := by
  unfold bound_literals
  exact List.filterMap_append _ _ _

theorem extract_parenthesized_loop_allocated (k : keyword_state) :
    ∀ (fuel argparser : Nat) (arg : Int) (state : Bool) (next_shapes : Option callshapes)
      (e : extract_state),
      e.allocated ≤
        (extract_parenthesized_loop k fuel argparser arg state next_shapes e).2.allocated := by
  intro fuel
  induction fuel with
  | zero => intro _ _ _ _ e; exact Nat.le_refl _
  | succ fuel ih =>
    intro argparser arg state next_shapes e
    have cont : ∀ (ap : Nat) (a : Int) (st : Bool) (ns : Option callshapes) (e1 : extract_state),
        e.allocated ≤ e1.allocated →
        e.allocated ≤ (extract_parenthesized_loop k fuel ap a st ns e1).2.allocated :=
      fun ap a st ns e1 h1 => Nat.le_trans h1 (ih ap a st ns e1)
    rw [extract_parenthesized_loop]
    dsimp only
    cases ht : (x_arma_lex k e.scan).1.type
    case xgettext_token_type_eof => exact Nat.le_refl _
    case xgettext_token_type_rparen => exact Nat.le_refl _
    case xgettext_token_type_rsqbr => exact Nat.le_refl _
    case xgettext_token_type_lparen =>
      dsimp only
      generalize (if state = true then next_shapes else none) = sh
      have i := ih (arglist_parser_alloc sh { e with scan := (x_arma_lex k e.scan).2 }).1 1
        false none (arglist_parser_alloc sh { e with scan := (x_arma_lex k e.scan).2 }).2
      have i1 : (arglist_parser_alloc sh
          { e with scan := (x_arma_lex k e.scan).2 }).2.allocated = e.allocated + 1 := rfl
      rw [i1] at i
      split_ifs
      · exact Nat.le_trans (Nat.le_succ _) i
      · exact cont _ _ _ _ _ (Nat.le_trans (Nat.le_succ _) i)
    case xgettext_token_type_lsqbr =>
      dsimp only
      generalize (if state = true then next_shapes else none) = sh
      have i := ih (arglist_parser_alloc sh { e with scan := (x_arma_lex k e.scan).2 }).1 1
        false none (arglist_parser_alloc sh { e with scan := (x_arma_lex k e.scan).2 }).2
      have i1 : (arglist_parser_alloc sh
          { e with scan := (x_arma_lex k e.scan).2 }).2.allocated = e.allocated + 1 := rfl
      rw [i1] at i
      split_ifs
      · exact Nat.le_trans (Nat.le_succ _) i
      · exact cont _ _ _ _ _ (Nat.le_trans (Nat.le_succ _) i)
    case xgettext_token_type_string_literal =>
      dsimp only
      split_ifs
      · exact cont _ _ _ _ _ (Nat.le_refl _)
      · exact cont _ _ _ _ _ (Nat.le_succ _)
      · exact cont _ _ _ _ _ (Nat.le_refl _)
    all_goals exact cont _ _ _ _ _ (Nat.le_refl _)
theorem bound_literals_call (ap : Nat) (e : extract_state) (c : extractor_call) :
    bound_literals ap (e.call c).calls = bound_literals ap e.calls ++ bound_literals ap [c] :=
  bound_literals_append ap e.calls [c]

theorem bound_literals_alloc (ap : Nat) (sh : Option callshapes) (e : extract_state) :
    bound_literals ap (arglist_parser_alloc sh e).2.calls = bound_literals ap e.calls := by
  have h : (arglist_parser_alloc sh e).2.calls =
      e.calls ++ [extractor_call.arglist_parser_alloc e.allocated sh] := rfl
  rw [h, bound_literals_append]
  simp [bound_literals]

theorem bound_literals_done (ap : Nat) (e : extract_state) (a : Nat) (n : Int) :
    bound_literals ap (e.call (extractor_call.arglist_parser_done a n)).calls =
      bound_literals ap e.calls := by
  rw [bound_literals_call]
  simp [bound_literals]

theorem bound_literals_sink (ap : Nat) (e : extract_state) (t : List Char) (p : lex_pos_ty)
    (c : Option (List (List Char))) :
    bound_literals ap (e.call (extractor_call.remember_a_message t p c)).calls =
      bound_literals ap e.calls := by
  rw [bound_literals_call]
  simp [bound_literals]

theorem bound_literals_remember (ap : Nat) (e : extract_state) (a : Nat) (n : Int)
    (t : List Char) (p : lex_pos_ty) (c : Option (List (List Char))) :
    bound_literals ap (e.call (extractor_call.arglist_parser_remember a n t p c)).calls =
      bound_literals ap e.calls := by
  rw [bound_literals_call]
  simp [bound_literals]

theorem bound_literals_literal (ap : Nat) (e : extract_state) (a : Nat) (n : Int)
    (t : List Char) (p : lex_pos_ty) (c : Option (List (List Char))) :
    bound_literals ap (e.call (extractor_call.arglist_parser_remember_literal a n t p c)).calls =
      bound_literals ap e.calls ++ (if a = ap then [(n, t)] else []) := by
  rw [bound_literals_call]
  by_cases h : a = ap <;> simp [bound_literals, h]

/-- A frame binds no literal to an accumulator other than its own that was
allocated before the frame started. -/
theorem extract_parenthesized_loop_other (k : keyword_state) (ap : Nat) :
    ∀ (fuel argparser : Nat) (arg : Int) (state : Bool) (next_shapes : Option callshapes)
      (e : extract_state), ap < e.allocated → argparser ≠ ap →
      bound_literals ap
          (extract_parenthesized_loop k fuel argparser arg state next_shapes e).2.calls =
        bound_literals ap e.calls := by
  intro fuel
  induction fuel with
  | zero => intro _ _ _ _ e _ _; rfl
  | succ fuel ih =>
    intro argparser arg state next_shapes e ha hne
    have cont : ∀ (a : Int) (st : Bool) (ns : Option callshapes) (e1 : extract_state),
        ap < e1.allocated → bound_literals ap e1.calls = bound_literals ap e.calls →
        bound_literals ap (extract_parenthesized_loop k fuel argparser a st ns e1).2.calls =
          bound_literals ap e.calls :=
      fun a st ns e1 h1 h2 => (ih argparser a st ns e1 h1 hne).trans h2
    have opening : ∀ (sh : Option callshapes),
        bound_literals ap
          (if (extract_parenthesized_loop k fuel
              (arglist_parser_alloc sh { e with scan := (x_arma_lex k e.scan).2 }).1 1 false none
              (arglist_parser_alloc sh { e with scan := (x_arma_lex k e.scan).2 }).2).1 = true
            then (true, (extract_parenthesized_loop k fuel
              (arglist_parser_alloc sh { e with scan := (x_arma_lex k e.scan).2 }).1 1 false none
              (arglist_parser_alloc sh { e with scan := (x_arma_lex k e.scan).2 }).2).2.call
                (extractor_call.arglist_parser_done argparser arg))
            else extract_parenthesized_loop k fuel argparser arg false next_shapes
              (extract_parenthesized_loop k fuel
              (arglist_parser_alloc sh { e with scan := (x_arma_lex k e.scan).2 }).1 1 false none
              (arglist_parser_alloc sh { e with scan := (x_arma_lex k e.scan).2 }).2).2).2.calls =
          bound_literals ap e.calls := by
      intro sh
      have i := ih (arglist_parser_alloc sh { e with scan := (x_arma_lex k e.scan).2 }).1 1
        false none (arglist_parser_alloc sh { e with scan := (x_arma_lex k e.scan).2 }).2
        (Nat.lt_succ_of_lt ha) (Nat.ne_of_gt ha)
      have j := extract_parenthesized_loop_allocated k fuel
        (arglist_parser_alloc sh { e with scan := (x_arma_lex k e.scan).2 }).1 1
        false none (arglist_parser_alloc sh { e with scan := (x_arma_lex k e.scan).2 }).2
      have j1 : (arglist_parser_alloc sh
          { e with scan := (x_arma_lex k e.scan).2 }).2.allocated = e.allocated + 1 := rfl
      have i1 : bound_literals ap (arglist_parser_alloc sh
          { e with scan := (x_arma_lex k e.scan).2 }).2.calls = bound_literals ap e.calls :=
        bound_literals_alloc ap sh { e with scan := (x_arma_lex k e.scan).2 }
      rw [j1] at j
      rw [i1] at i
      split_ifs
      · exact (bound_literals_done ap _ _ _).trans i
      · exact (ih argparser arg false next_shapes _ (by omega) hne).trans i
    rw [extract_parenthesized_loop]
    dsimp only
    cases ht : (x_arma_lex k e.scan).1.type
    case xgettext_token_type_eof => exact bound_literals_done ap _ _ _
    case xgettext_token_type_rparen => exact bound_literals_done ap _ _ _
    case xgettext_token_type_rsqbr => exact bound_literals_done ap _ _ _
    case xgettext_token_type_lparen => exact opening _
    case xgettext_token_type_lsqbr => exact opening _
    case xgettext_token_type_string_literal =>
      dsimp only
      split_ifs
      · exact cont _ _ _ _ ha (bound_literals_sink ap _ _ _ _)
      · refine cont _ _ _ _ (Nat.lt_succ_of_lt ha) ?_
        rw [bound_literals_done, bound_literals_remember]
        exact bound_literals_alloc ap _ _
      · refine cont _ _ _ _ ha ?_
        rw [bound_literals_literal, if_neg hne, List.append_nil]
    case xgettext_token_type_dollar_literal =>
      exact cont _ _ _ _ ha (bound_literals_sink ap _ _ _ _)
    all_goals exact cont _ _ _ _ ha rfl
theorem frame_literals_eof (d commas : Nat) (b : Bool) (t : xgettext_token_ty)
    (rest : List xgettext_token_ty) (h : t.type = xgettext_token_type_eof) :
    frame_literals d commas b (t :: rest) = [] := by
  rw [frame_literals, if_pos h]

theorem frame_literals_close (commas : Nat) (b : Bool) (t : xgettext_token_ty)
    (rest : List xgettext_token_ty)
    (h : t.type = xgettext_token_type_rparen ∨ t.type = xgettext_token_type_rsqbr) :
    frame_literals 0 commas b (t :: rest) = [] := by
  rw [frame_literals, if_neg (by rcases h with h | h <;> rw [h] <;> simp),
    if_neg (by rcases h with h | h <;> rw [h] <;> simp), if_pos h, if_pos rfl]

theorem frame_literals_open (commas : Nat) (b : Bool) (t : xgettext_token_ty)
    (rest : List xgettext_token_ty)
    (h : t.type = xgettext_token_type_lparen ∨ t.type = xgettext_token_type_lsqbr) :
    frame_literals 0 commas b (t :: rest) =
      match frame_rest 0 rest with
      | none => []
      | some x => frame_literals 0 commas false x := by
  rw [frame_literals, if_neg (by rcases h with h | h <;> rw [h] <;> simp), if_pos h]
  exact frame_literals_inside rest.length rest (Nat.le_refl _) 0 commas false

theorem frame_literals_comma (commas : Nat) (b : Bool) (t : xgettext_token_ty)
    (rest : List xgettext_token_ty) (h : t.type = xgettext_token_type_comma) :
    frame_literals 0 commas b (t :: rest) = frame_literals 0 (commas + 1) false rest := by
  rw [frame_literals, if_neg (by rw [h]; simp), if_neg (by rw [h]; simp),
    if_neg (by rw [h]; simp), if_pos h, if_pos rfl]

theorem frame_literals_string (commas : Nat) (b : Bool) (t : xgettext_token_ty)
    (rest : List xgettext_token_ty) (h : t.type = xgettext_token_type_string_literal) :
    frame_literals 0 commas b (t :: rest) =
      (if b = false then [(1 + (commas : Int), t.string)] else []) ++
        frame_literals 0 commas false rest := by
  rw [frame_literals, if_neg (by rw [h]; simp), if_neg (by rw [h]; simp),
    if_neg (by rw [h]; simp), if_neg (by rw [h]; simp), if_pos h]
  simp only [true_and]

theorem frame_literals_keyword (commas : Nat) (b : Bool) (t : xgettext_token_ty)
    (rest : List xgettext_token_ty) (h : t.type = xgettext_token_type_keyword) :
    frame_literals 0 commas b (t :: rest) = frame_literals 0 commas true rest := by
  rw [frame_literals, if_neg (by rw [h]; simp), if_neg (by rw [h]; simp),
    if_neg (by rw [h]; simp), if_neg (by rw [h]; simp), if_neg (by rw [h]; simp), if_pos h]

theorem frame_literals_plain (commas : Nat) (b : Bool) (t : xgettext_token_ty)
    (rest : List xgettext_token_ty)
    (h : t.type = xgettext_token_type_symbol ∨ t.type = xgettext_token_type_colon ∨
      t.type = xgettext_token_type_dollar_literal ∨ t.type = xgettext_token_type_other) :
    frame_literals 0 commas b (t :: rest) = frame_literals 0 commas false rest := by
  rw [frame_literals, if_neg (by rcases h with h | h | h | h <;> rw [h] <;> simp),
    if_neg (by rcases h with h | h | h | h <;> rw [h] <;> simp),
    if_neg (by rcases h with h | h | h | h <;> rw [h] <;> simp),
    if_neg (by rcases h with h | h | h | h <;> rw [h] <;> simp),
    if_neg (by rcases h with h | h | h | h <;> rw [h] <;> simp),
    if_neg (by rcases h with h | h | h | h <;> rw [h] <;> simp)]

/-- With `extract_all` off, the literals a frame binds to its accumulator are
those of its group that do not directly follow a keyword, each at the index
1 plus the number of commas before it at the level of the group. -/
theorem extract_parenthesized_loop_literals (k : keyword_state) (hk : k.extract_all = false) :
    ∀ (fuel argparser : Nat) (arg : Int) (state : Bool) (next_shapes : Option callshapes)
      (e : extract_state) (commas : Nat), e.scan.fuel ≤ fuel → argparser < e.allocated →
      arg = 1 + (commas : Int) →
      bound_literals argparser
          (extract_parenthesized_loop k fuel argparser arg state next_shapes e).2.calls =
        bound_literals argparser e.calls ++
          frame_literals 0 commas state (scan_tokens k e.scan) := by
  intro fuel
  induction fuel with
  | zero =>
    intro _ _ _ _ e _ hf
    have := e.scan.fuel_pos
    omega
  | succ fuel ih =>
    intro argparser arg state next_shapes e commas hf ha harg
    have f := x_arma_lex_fuel k e.scan
    rw [extract_parenthesized_loop]
    dsimp only
    rcases Decidable.em ((x_arma_lex k e.scan).1.type = xgettext_token_type_eof) with he | he
    · rw [he]
      dsimp only
      rw [scan_tokens_eof k e.scan he, frame_literals_eof 0 _ _ _ _ he, List.append_nil]
      exact bound_literals_done _ _ _ _
    have g : (x_arma_lex k e.scan).2.fuel < e.scan.fuel := f.2 he
    have hT := scan_tokens_cons k e.scan he
    rw [hT]
    have cont : ∀ (a : Int) (c : Nat) (st : Bool) (ns : Option callshapes) (e1 : extract_state)
        (l : List (Int × List Char)),
        e1.scan = (x_arma_lex k e.scan).2 → argparser < e1.allocated → a = 1 + (c : Int) →
        bound_literals argparser e1.calls = bound_literals argparser e.calls ++ l →
        bound_literals argparser (extract_parenthesized_loop k fuel argparser a st ns e1).2.calls =
          bound_literals argparser e.calls ++
            (l ++ frame_literals 0 c st (scan_tokens k (x_arma_lex k e.scan).2)) := by
      intro a c st ns e1 l h1 h2 h3 h4
      rw [ih argparser a st ns e1 c (by rw [h1]; omega) h2 h3, h4, h1, List.append_assoc]
    have opening : (x_arma_lex k e.scan).1.type = xgettext_token_type_lparen ∨
        (x_arma_lex k e.scan).1.type = xgettext_token_type_lsqbr →
        ∀ (sh : Option callshapes),
        bound_literals argparser
          (if (extract_parenthesized_loop k fuel
              (arglist_parser_alloc sh { e with scan := (x_arma_lex k e.scan).2 }).1 1 false none
              (arglist_parser_alloc sh { e with scan := (x_arma_lex k e.scan).2 }).2).1 = true
            then (true, (extract_parenthesized_loop k fuel
              (arglist_parser_alloc sh { e with scan := (x_arma_lex k e.scan).2 }).1 1 false none
              (arglist_parser_alloc sh { e with scan := (x_arma_lex k e.scan).2 }).2).2.call
                (extractor_call.arglist_parser_done argparser arg))
            else extract_parenthesized_loop k fuel argparser arg false next_shapes
              (extract_parenthesized_loop k fuel
              (arglist_parser_alloc sh { e with scan := (x_arma_lex k e.scan).2 }).1 1 false none
              (arglist_parser_alloc sh { e with scan := (x_arma_lex k e.scan).2 }).2).2).2.calls =
          bound_literals argparser e.calls ++
            frame_literals 0 commas state
              ((x_arma_lex k e.scan).1 :: scan_tokens k (x_arma_lex k e.scan).2) := by
      intro ho sh
      have i := extract_parenthesized_loop_frame k fuel
        (arglist_parser_alloc sh { e with scan := (x_arma_lex k e.scan).2 }).1 1
        false none (arglist_parser_alloc sh { e with scan := (x_arma_lex k e.scan).2 }).2
        (by
          show (x_arma_lex k e.scan).2.fuel ≤ fuel
          omega)
      have j := (extract_parenthesized_loop_fuel k fuel
        (arglist_parser_alloc sh { e with scan := (x_arma_lex k e.scan).2 }).1 1
        false none (arglist_parser_alloc sh { e with scan := (x_arma_lex k e.scan).2 }).2).1
      have m := extract_parenthesized_loop_allocated k fuel
        (arglist_parser_alloc sh { e with scan := (x_arma_lex k e.scan).2 }).1 1
        false none (arglist_parser_alloc sh { e with scan := (x_arma_lex k e.scan).2 }).2
      have o := extract_parenthesized_loop_other k argparser fuel
        (arglist_parser_alloc sh { e with scan := (x_arma_lex k e.scan).2 }).1 1
        false none (arglist_parser_alloc sh { e with scan := (x_arma_lex k e.scan).2 }).2
        (Nat.lt_succ_of_lt ha) (Nat.ne_of_gt ha)
      have j1 : (arglist_parser_alloc sh
          { e with scan := (x_arma_lex k e.scan).2 }).2.scan = (x_arma_lex k e.scan).2 := rfl
      have m1 : (arglist_parser_alloc sh
          { e with scan := (x_arma_lex k e.scan).2 }).2.allocated = e.allocated + 1 := rfl
      have o1 : bound_literals argparser (arglist_parser_alloc sh
          { e with scan := (x_arma_lex k e.scan).2 }).2.calls =
          bound_literals argparser e.calls :=
        bound_literals_alloc argparser sh { e with scan := (x_arma_lex k e.scan).2 }
      rw [j1] at i j
      rw [m1] at m
      rw [o1] at o
      generalize extract_parenthesized_loop k fuel
        (arglist_parser_alloc sh { e with scan := (x_arma_lex k e.scan).2 }).1 1 false none
        (arglist_parser_alloc sh { e with scan := (x_arma_lex k e.scan).2 }).2 = inner at i j m o
      rw [frame_literals_open _ _ _ _ ho]
      cases hx : frame_rest 0 (scan_tokens k (x_arma_lex k e.scan).2) with
      | none =>
        have i1 := i.1 hx
        rw [if_pos i1]
        dsimp only
        rw [List.append_nil]
        exact (bound_literals_done _ _ _ _).trans o
      | some x =>
        obtain ⟨i1, i2⟩ := i.2 x hx
        rw [if_neg (by rw [i1]; simp)]
        dsimp only
        rw [ih argparser arg false next_shapes inner.2 commas (by omega) (by omega) harg, o, i2]
    cases ht : (x_arma_lex k e.scan).1.type
    case xgettext_token_type_eof => exact absurd ht he
    case xgettext_token_type_rparen =>
      dsimp only
      rw [frame_literals_close _ _ _ _ (Or.inl ht), List.append_nil]
      exact bound_literals_done _ _ _ _
    case xgettext_token_type_rsqbr =>
      dsimp only
      rw [frame_literals_close _ _ _ _ (Or.inr ht), List.append_nil]
      exact bound_literals_done _ _ _ _
    case xgettext_token_type_lparen =>
      dsimp only
      exact opening (Or.inl ht) _
    case xgettext_token_type_lsqbr =>
      dsimp only
      exact opening (Or.inr ht) _
    case xgettext_token_type_keyword =>
      dsimp only
      rw [frame_literals_keyword _ _ _ _ ht]
      have c := cont arg commas true (x_arma_lex k e.scan).1.shapes
        { e with scan := (x_arma_lex k e.scan).2 } [] rfl ha harg (List.append_nil _).symm
      rw [List.nil_append] at c
      exact c
    case xgettext_token_type_comma =>
      dsimp only
      rw [frame_literals_comma _ _ _ _ ht]
      have c := cont (arg + 1) (commas + 1) false next_shapes
        { e with scan := (x_arma_lex k e.scan).2 } [] rfl ha
        (by rw [harg]; push_cast; ring) (List.append_nil _).symm
      rw [List.nil_append] at c
      exact c
    case xgettext_token_type_string_literal =>
      dsimp only
      rw [frame_literals_string _ _ _ _ ht, if_neg (by rw [hk]; simp)]
      by_cases hs : state = true
      · rw [if_pos hs, if_neg (by rw [hs]; simp), List.nil_append]
        have c := cont arg commas false next_shapes
          (((arglist_parser_alloc next_shapes { e with scan := (x_arma_lex k e.scan).2 }).2.call
            (extractor_call.arglist_parser_remember
              (arglist_parser_alloc next_shapes { e with scan := (x_arma_lex k e.scan).2 }).1 1
              (x_arma_lex k e.scan).1.string (x_arma_lex k e.scan).1.pos
              (x_arma_lex k e.scan).1.comment)).call
            (extractor_call.arglist_parser_done
              (arglist_parser_alloc next_shapes { e with scan := (x_arma_lex k e.scan).2 }).1 1))
          [] rfl (Nat.lt_succ_of_lt ha) harg
          (by
            rw [bound_literals_done, bound_literals_remember, List.append_nil]
            exact bound_literals_alloc argparser _ _)
        rw [List.nil_append] at c
        exact c
      · rw [if_neg hs, if_pos (by simpa using hs)]
        refine cont arg commas false next_shapes _ _ rfl ha harg ?_
        rw [bound_literals_literal, if_pos rfl, harg]
    case xgettext_token_type_symbol =>
      dsimp only
      rw [frame_literals_plain _ _ _ _ (Or.inl ht)]
      have c := cont arg commas false next_shapes
        { e with scan := (x_arma_lex k e.scan).2 } [] rfl ha harg (List.append_nil _).symm
      rw [List.nil_append] at c
      exact c
    case xgettext_token_type_colon =>
      dsimp only
      rw [frame_literals_plain _ _ _ _ (Or.inr (Or.inl ht))]
      have c := cont arg commas false next_shapes
        { e with scan := (x_arma_lex k e.scan).2 } [] rfl ha harg (List.append_nil _).symm
      rw [List.nil_append] at c
      exact c
    case xgettext_token_type_other =>
      dsimp only
      rw [frame_literals_plain _ _ _ _ (Or.inr (Or.inr (Or.inr ht)))]
      have c := cont arg commas false next_shapes
        { e with scan := (x_arma_lex k e.scan).2 } [] rfl ha harg (List.append_nil _).symm
      rw [List.nil_append] at c
      exact c
    case xgettext_token_type_dollar_literal =>
      dsimp only
      rw [frame_literals_plain _ _ _ _ (Or.inr (Or.inr (Or.inl ht)))]
      have c := cont arg commas false next_shapes
        ({ e with scan := (x_arma_lex k e.scan).2 }.call
          (extractor_call.remember_a_message (x_arma_lex k e.scan).1.string
            (x_arma_lex k e.scan).1.pos (x_arma_lex k e.scan).1.comment))
        [] rfl ha harg
        (by rw [bound_literals_sink, List.append_nil])
      rw [List.nil_append] at c
      exact c
/-- The recursion of `extract_parenthesized` is never deeper than the number of
opening tokens that are still to come. -/
theorem extract_parenthesized_depth_le (k : keyword_state) :
    ∀ (fuel argparser : Nat) (arg : Int) (state : Bool) (next_shapes : Option callshapes)
      (e : extract_state), e.scan.fuel ≤ fuel →
      extract_parenthesized_depth k fuel argparser arg state next_shapes e ≤
        opening_tokens (scan_tokens k e.scan) := by
  intro fuel
  induction fuel with
  | zero =>
    intro _ _ _ _ e hf
    have := e.scan.fuel_pos
    omega
  | succ fuel ih =>
    intro argparser arg state next_shapes e hf
    have f := x_arma_lex_fuel k e.scan
    rw [extract_parenthesized_depth]
    dsimp only
    rcases Decidable.em ((x_arma_lex k e.scan).1.type = xgettext_token_type_eof) with he | he
    · rw [he]
      exact Nat.zero_le _
    have g : (x_arma_lex k e.scan).2.fuel < e.scan.fuel := f.2 he
    have hT := scan_tokens_cons k e.scan he
    rw [hT, opening_tokens_cons]
    have cont : ∀ (ap : Nat) (a : Int) (st : Bool) (ns : Option callshapes) (e1 : extract_state)
        (n : Nat), e1.scan = (x_arma_lex k e.scan).2 →
        extract_parenthesized_depth k fuel ap a st ns e1 ≤
          opening_tokens (scan_tokens k (x_arma_lex k e.scan).2) + n := by
      intro ap a st ns e1 n h1
      have i := ih ap a st ns e1 (by rw [h1]; omega)
      rw [h1] at i
      omega
    have opening : (x_arma_lex k e.scan).1.type = xgettext_token_type_lparen ∨
        (x_arma_lex k e.scan).1.type = xgettext_token_type_lsqbr →
        ∀ (sh : Option callshapes),
        max (1 + extract_parenthesized_depth k fuel
              (arglist_parser_alloc sh { e with scan := (x_arma_lex k e.scan).2 }).1 1 false none
              (arglist_parser_alloc sh { e with scan := (x_arma_lex k e.scan).2 }).2)
          (if (extract_parenthesized_loop k fuel
              (arglist_parser_alloc sh { e with scan := (x_arma_lex k e.scan).2 }).1 1 false none
              (arglist_parser_alloc sh { e with scan := (x_arma_lex k e.scan).2 }).2).1 = true
            then 0
            else extract_parenthesized_depth k fuel argparser arg false next_shapes
              (extract_parenthesized_loop k fuel
              (arglist_parser_alloc sh { e with scan := (x_arma_lex k e.scan).2 }).1 1 false none
              (arglist_parser_alloc sh { e with scan := (x_arma_lex k e.scan).2 }).2).2) ≤
          opening_tokens (scan_tokens k (x_arma_lex k e.scan).2) + 1 := by
      intro ho sh
      have d := ih (arglist_parser_alloc sh { e with scan := (x_arma_lex k e.scan).2 }).1 1
        false none (arglist_parser_alloc sh { e with scan := (x_arma_lex k e.scan).2 }).2
        (by
          show (x_arma_lex k e.scan).2.fuel ≤ fuel
          omega)
      have i := extract_parenthesized_loop_frame k fuel
        (arglist_parser_alloc sh { e with scan := (x_arma_lex k e.scan).2 }).1 1
        false none (arglist_parser_alloc sh { e with scan := (x_arma_lex k e.scan).2 }).2
        (by
          show (x_arma_lex k e.scan).2.fuel ≤ fuel
          omega)
      have j := (extract_parenthesized_loop_fuel k fuel
        (arglist_parser_alloc sh { e with scan := (x_arma_lex k e.scan).2 }).1 1
        false none (arglist_parser_alloc sh { e with scan := (x_arma_lex k e.scan).2 }).2).1
      have j1 : (arglist_parser_alloc sh
          { e with scan := (x_arma_lex k e.scan).2 }).2.scan = (x_arma_lex k e.scan).2 := rfl
      rw [j1] at i j d
      generalize extract_parenthesized_depth k fuel
        (arglist_parser_alloc sh { e with scan := (x_arma_lex k e.scan).2 }).1 1 false none
        (arglist_parser_alloc sh { e with scan := (x_arma_lex k e.scan).2 }).2 = din at d
      generalize extract_parenthesized_loop k fuel
        (arglist_parser_alloc sh { e with scan := (x_arma_lex k e.scan).2 }).1 1 false none
        (arglist_parser_alloc sh { e with scan := (x_arma_lex k e.scan).2 }).2 = inner at i j
      cases hx : frame_rest 0 (scan_tokens k (x_arma_lex k e.scan).2) with
      | none =>
        rw [if_pos (i.1 hx)]
        omega
      | some x =>
        obtain ⟨i1, i2⟩ := i.2 x hx
        rw [if_neg (by rw [i1]; simp)]
        have c := ih argparser arg false next_shapes inner.2 (by omega)
        rw [i2] at c
        have s := opening_tokens_suffix x _ (frame_rest_suffix _ 0 x hx)
        omega
    cases ht : (x_arma_lex k e.scan).1.type
    case xgettext_token_type_eof => exact absurd ht he
    case xgettext_token_type_rparen => exact Nat.zero_le _
    case xgettext_token_type_rsqbr => exact Nat.zero_le _
    case xgettext_token_type_lparen =>
      dsimp only
      rw [if_pos (Or.inl rfl)]
      exact opening (Or.inl ht) _
    case xgettext_token_type_lsqbr =>
      dsimp only
      rw [if_pos (Or.inr rfl)]
      exact opening (Or.inr ht) _
    case xgettext_token_type_string_literal =>
      dsimp only
      split_ifs
      all_goals
        refine cont _ _ _ _ _ _ ?_
        rfl
    all_goals
      dsimp only
      refine cont _ _ _ _ _ _ ?_
      rfl

theorem extract_parenthesized_loop_open (k : keyword_state) (fuel argparser : Nat) (arg : Int)
    (state : Bool) (next_shapes : Option callshapes) (e : extract_state)
    (h : (x_arma_lex k e.scan).1.type = xgettext_token_type_lparen ∨
      (x_arma_lex k e.scan).1.type = xgettext_token_type_lsqbr) :
    extract_parenthesized_loop k (fuel + 1) argparser arg state next_shapes e =
      if (extract_parenthesized_loop k fuel
          (arglist_parser_alloc (if state = true then next_shapes else none)
            { e with scan := (x_arma_lex k e.scan).2 }).1 1 false none
          (arglist_parser_alloc (if state = true then next_shapes else none)
            { e with scan := (x_arma_lex k e.scan).2 }).2).1 = true
      then (true, (extract_parenthesized_loop k fuel
          (arglist_parser_alloc (if state = true then next_shapes else none)
            { e with scan := (x_arma_lex k e.scan).2 }).1 1 false none
          (arglist_parser_alloc (if state = true then next_shapes else none)
            { e with scan := (x_arma_lex k e.scan).2 }).2).2.call
          (extractor_call.arglist_parser_done argparser arg))
      else extract_parenthesized_loop k fuel argparser arg false next_shapes
        (extract_parenthesized_loop k fuel
          (arglist_parser_alloc (if state = true then next_shapes else none)
            { e with scan := (x_arma_lex k e.scan).2 }).1 1 false none
          (arglist_parser_alloc (if state = true then next_shapes else none)
            { e with scan := (x_arma_lex k e.scan).2 }).2).2 := by
  rw [extract_parenthesized_loop]
  dsimp only
  rcases h with h | h <;> rw [h]

theorem extract_parenthesized_loop_keyword (k : keyword_state) (fuel argparser : Nat) (arg : Int)
    (state : Bool) (next_shapes : Option callshapes) (e : extract_state)
    (h : (x_arma_lex k e.scan).1.type = xgettext_token_type_keyword) :
    extract_parenthesized_loop k (fuel + 1) argparser arg state next_shapes e =
      extract_parenthesized_loop k fuel argparser arg true (x_arma_lex k e.scan).1.shapes
        { e with scan := (x_arma_lex k e.scan).2 } := by
  rw [extract_parenthesized_loop]
  dsimp only
  rw [h]

/-- C32: the call extractor treats parentheses and square brackets alike.  A
frame ends at the first closing token, `)` or `]` whichever, at its own nesting
level and returns false there, the scan standing right after that token; it
returns true exactly when the end of the file comes first.  After a keyword, an
opening `[` like an opening `(` starts a frame on a new accumulator that is
allocated with the call shapes of the keyword, and `localize ["hello"]`
extracts `hello` with the default keyword, with the same calls as
`localize ("hello")`, also when the closing token is of the other kind. -/
theorem C32_brackets_and_parentheses_alike :
    (∀ (k : keyword_state) (fuel argparser : Nat) (arg : Int) (state : Bool)
        (next_shapes : Option callshapes) (e : extract_state), e.scan.fuel ≤ fuel →
      ((extract_parenthesized_loop k fuel argparser arg state next_shapes e).1 = true ↔
        frame_rest 0 (scan_tokens k e.scan) = none) ∧
      (∀ rest, frame_rest 0 (scan_tokens k e.scan) = some rest →
        (extract_parenthesized_loop k fuel argparser arg state next_shapes e).1 = false ∧
        scan_tokens k
          (extract_parenthesized_loop k fuel argparser arg state next_shapes e).2.scan = rest)) ∧
    (∀ (k : keyword_state) (fuel argparser : Nat) (arg : Int) (state : Bool)
        (next_shapes : Option callshapes) (e : extract_state),
      (x_arma_lex k e.scan).1.type = xgettext_token_type_keyword →
      ((x_arma_lex k (x_arma_lex k e.scan).2).1.type = xgettext_token_type_lparen ∨
        (x_arma_lex k (x_arma_lex k e.scan).2).1.type = xgettext_token_type_lsqbr) →
      extract_parenthesized_loop k (fuel + 1 + 1) argparser arg state next_shapes e =
        if (extract_parenthesized_loop k fuel e.allocated 1 false none
            { scan := (x_arma_lex k (x_arma_lex k e.scan).2).2,
              calls := e.calls ++
                [extractor_call.arglist_parser_alloc e.allocated (x_arma_lex k e.scan).1.shapes],
              allocated := e.allocated + 1 }).1 = true
        then (true, (extract_parenthesized_loop k fuel e.allocated 1 false none
            { scan := (x_arma_lex k (x_arma_lex k e.scan).2).2,
              calls := e.calls ++
                [extractor_call.arglist_parser_alloc e.allocated (x_arma_lex k e.scan).1.shapes],
              allocated := e.allocated + 1 }).2.call
            (extractor_call.arglist_parser_done argparser arg))
        else extract_parenthesized_loop k fuel argparser arg false (x_arma_lex k e.scan).1.shapes
          (extract_parenthesized_loop k fuel e.allocated 1 false none
            { scan := (x_arma_lex k (x_arma_lex k e.scan).2).2,
              calls := e.calls ++
                [extractor_call.arglist_parser_alloc e.allocated (x_arma_lex k e.scan).1.shapes],
              allocated := e.allocated + 1 }).2) ∧
    extracted_texts keyword_state.initial "localize [\"hello\"]".toList = ["hello".toList] ∧
    ["localize [\"hello\"]", "localize (\"hello\")", "localize [\"hello\")",
        "localize (\"hello\"]"].map
        (fun f => (extract_whole_file keyword_state.initial f.toList []).2.calls) =
      List.replicate 4
        [extractor_call.arglist_parser_alloc 0 none,
          extractor_call.arglist_parser_alloc 1
            (some { keyword := "localize".toList,
                    shapes := [{ argnum1 := 1, argnum2 := 0, argtotal := 0 }] }),
          extractor_call.arglist_parser_remember_literal 1 1 "hello".toList
            { file_name := [], line_number := 1 } none,
          extractor_call.arglist_parser_done 1 1,
          extractor_call.arglist_parser_done 0 1] ∧
    extracted_texts keyword_state.initial
      "foo [ localize (\"a\"] , localize [\"b\") ) \"c\"".toList = ["a".toList, "b".toList] := by
  refine ⟨?_, ?_, by decide, by decide, by decide⟩
  · intro k fuel argparser arg state next_shapes e hf
    obtain ⟨a, b⟩ := extract_parenthesized_loop_frame k fuel argparser arg state next_shapes e hf
    refine ⟨⟨fun h => ?_, a⟩, b⟩
    cases hx : frame_rest 0 (scan_tokens k e.scan) with
    | none => rfl
    | some x =>
      have c := (b x hx).1
      rw [h] at c
      exact absurd c (by simp)
  · intro k fuel argparser arg state next_shapes e hk ho
    rw [extract_parenthesized_loop_keyword k (fuel + 1) argparser arg state next_shapes e hk,
      extract_parenthesized_loop_open k fuel argparser arg true (x_arma_lex k e.scan).1.shapes
        { e with scan := (x_arma_lex k e.scan).2 } ho]
    rfl

theorem C32_brackets_and_parentheses_alike_witness :
    (scan_state.initial "[ a ) b ] c".toList []).fuel ≤ 12 ∧
    frame_rest 0 (scan_tokens keyword_state.initial (scan_state.initial "[ a ) b ] c".toList [])) =
      some [{ xgettext_token_of_type xgettext_token_type_symbol with string := "c".toList },
        xgettext_token_of_type xgettext_token_type_eof] ∧
    (extract_parenthesized_loop keyword_state.initial 12 0 1 false none
      { scan := scan_state.initial "[ a ) b ] c".toList [], calls := [], allocated := 1 }).1 =
      false ∧
    scan_tokens keyword_state.initial
      (extract_parenthesized_loop keyword_state.initial 12 0 1 false none
        { scan := scan_state.initial "[ a ) b ] c".toList [], calls := [], allocated := 1 }).2.scan =
      [{ xgettext_token_of_type xgettext_token_type_symbol with string := "c".toList },
        xgettext_token_of_type xgettext_token_type_eof] :=
  ⟨by decide, by decide,
    ((C32_brackets_and_parentheses_alike.1 keyword_state.initial 12 0 1 false none
      { scan := scan_state.initial "[ a ) b ] c".toList [], calls := [], allocated := 1 }
      (by decide)).2 _ (by decide))⟩
/-- C31, as the claim states it: in extract-all mode the literals `a` and
`b` of the group of `foo("a", "b")`, neither of which follows a keyword, are
handed to the message sink and bound to no accumulator at all, so they are not
bound at the argument indices 1 and 2; the frame still counts its index up to
2. -/
theorem C31_counterexample :
    (extract_whole_file (x_arma_extract_all keyword_state.initial)
        "foo(\"a\", \"b\")".toList []).2.calls =
      [extractor_call.arglist_parser_alloc 0 none,
        extractor_call.arglist_parser_alloc 1 none,
        extractor_call.remember_a_message "a".toList { file_name := [], line_number := 1 } none,
        extractor_call.remember_a_message "b".toList { file_name := [], line_number := 1 } none,
        extractor_call.arglist_parser_done 1 2,
        extractor_call.arglist_parser_done 0 1] ∧
    bound_literals 1 (extract_whole_file (x_arma_extract_all keyword_state.initial)
        "foo(\"a\", \"b\")".toList []).2.calls = [] ∧
    frame_literals 0 0 false
        (scan_tokens (init_keywords (x_arma_extract_all keyword_state.initial))
          (scan_state.initial "\"a\", \"b\")".toList [])) =
      [(1, "a".toList), (2, "b".toList)] := by
  refine ⟨by decide, by decide, by decide⟩

/-- C31, amended: with extract-all mode off, within one group frame of the
call extractor the string literals bound to the accumulator of the frame are
those of the group that do not directly follow a keyword, each at the argument
index 1 + (number of comma tokens seen so far at the nesting level of the
frame); commas and literals inside nested `(`...`)` or `[`...`]` groups do not
change the argument index of the enclosing frame, which goes on after the
nested group with its index unchanged, and every new frame starts at index 1 on
an accumulator of its own. -/
theorem C31_literal_index_counts_own_commas :
    (∀ (k : keyword_state) (fuel argparser : Nat) (arg : Int) (state : Bool)
        (next_shapes : Option callshapes) (e : extract_state) (commas : Nat),
      k.extract_all = false → e.scan.fuel ≤ fuel → argparser < e.allocated →
      arg = 1 + (commas : Int) →
      bound_literals argparser
          (extract_parenthesized_loop k fuel argparser arg state next_shapes e).2.calls =
        bound_literals argparser e.calls ++
          frame_literals 0 commas state (scan_tokens k e.scan)) ∧
    (∀ (k : keyword_state) (fuel argparser : Nat) (e : extract_state),
      k.extract_all = false → e.scan.fuel ≤ fuel → argparser < e.allocated →
      bound_literals argparser (extract_parenthesized k fuel argparser e).2.calls =
        bound_literals argparser e.calls ++ frame_literals 0 0 false (scan_tokens k e.scan)) ∧
    (∀ (k : keyword_state) (fuel argparser : Nat) (arg : Int) (state : Bool)
        (next_shapes : Option callshapes) (e : extract_state),
      ((x_arma_lex k e.scan).1.type = xgettext_token_type_lparen ∨
        (x_arma_lex k e.scan).1.type = xgettext_token_type_lsqbr) →
      extract_parenthesized_loop k (fuel + 1) argparser arg state next_shapes e =
        if (extract_parenthesized k fuel e.allocated
            { scan := (x_arma_lex k e.scan).2,
              calls := e.calls ++ [extractor_call.arglist_parser_alloc e.allocated
                (if state = true then next_shapes else none)],
              allocated := e.allocated + 1 }).1 = true
        then (true, (extract_parenthesized k fuel e.allocated
            { scan := (x_arma_lex k e.scan).2,
              calls := e.calls ++ [extractor_call.arglist_parser_alloc e.allocated
                (if state = true then next_shapes else none)],
              allocated := e.allocated + 1 }).2.call
            (extractor_call.arglist_parser_done argparser arg))
        else extract_parenthesized_loop k fuel argparser arg false next_shapes
          (extract_parenthesized k fuel e.allocated
            { scan := (x_arma_lex k e.scan).2,
              calls := e.calls ++ [extractor_call.arglist_parser_alloc e.allocated
                (if state = true then next_shapes else none)],
              allocated := e.allocated + 1 }).2) ∧
    (extract_whole_file keyword_state.initial
        "foo(\"a\", [\"n\", \"m\"], (,,), \"c\")".toList []).2.calls =
      [extractor_call.arglist_parser_alloc 0 none,
        extractor_call.arglist_parser_alloc 1 none,
        extractor_call.arglist_parser_remember_literal 1 1 "a".toList
          { file_name := [], line_number := 1 } none,
        extractor_call.arglist_parser_alloc 2 none,
        extractor_call.arglist_parser_remember_literal 2 1 "n".toList
          { file_name := [], line_number := 1 } none,
        extractor_call.arglist_parser_remember_literal 2 2 "m".toList
          { file_name := [], line_number := 1 } none,
        extractor_call.arglist_parser_done 2 2,
        extractor_call.arglist_parser_alloc 3 none,
        extractor_call.arglist_parser_done 3 3,
        extractor_call.arglist_parser_remember_literal 1 4 "c".toList
          { file_name := [], line_number := 1 } none,
        extractor_call.arglist_parser_done 1 4,
        extractor_call.arglist_parser_done 0 1] := by
  refine ⟨?_, ?_, ?_, by decide⟩
  · intro k fuel argparser arg state next_shapes e commas hk hf ha harg
    exact extract_parenthesized_loop_literals k hk fuel argparser arg state next_shapes e commas
      hf ha harg
  · intro k fuel argparser e hk hf ha
    exact extract_parenthesized_loop_literals k hk fuel argparser 1 false none e 0 hf ha rfl
  · intro k fuel argparser arg state next_shapes e ho
    rw [extract_parenthesized_loop_open k fuel argparser arg state next_shapes e ho]
    rfl

theorem C31_literal_index_counts_own_commas_witness :
    (init_keywords keyword_state.initial).extract_all = false ∧
    (scan_state.initial "\"a\", [\"n\", \"m\"], localize \"k\", , \"c\" ) \"z\"".toList []).fuel
      ≤ 43 ∧
    bound_literals 0
        (extract_parenthesized_loop (init_keywords keyword_state.initial) 43 0 1 false none
          { scan := scan_state.initial
              "\"a\", [\"n\", \"m\"], localize \"k\", , \"c\" ) \"z\"".toList [],
            calls := [], allocated := 1 }).2.calls =
      bound_literals 0 [] ++
        frame_literals 0 0 false (scan_tokens (init_keywords keyword_state.initial)
          (scan_state.initial
            "\"a\", [\"n\", \"m\"], localize \"k\", , \"c\" ) \"z\"".toList [])) ∧
    frame_literals 0 0 false (scan_tokens (init_keywords keyword_state.initial)
        (scan_state.initial
          "\"a\", [\"n\", \"m\"], localize \"k\", , \"c\" ) \"z\"".toList [])) =
      [(1, "a".toList), (5, "c".toList)] :=
  ⟨rfl, by decide,
    C31_literal_index_counts_own_commas.1 (init_keywords keyword_state.initial) 43 0 1 false none
      { scan := scan_state.initial
          "\"a\", [\"n\", \"m\"], localize \"k\", , \"c\" ) \"z\"".toList [],
        calls := [], allocated := 1 } 0 rfl (by decide) (by decide) rfl,
    by decide⟩
/-- C35: for every finite input the whole-file scan terminates.  Every loop of
the model is run with a number of iterations, the fuel, that is one more than
the number of input characters, pushed-back characters and pushed-back tokens
still pending when the loop starts, and `out_of_fuel` records a loop that would
need more: after a whole-file scan it is false, and no call of the lexer sets
it.  A character or token that is delivered is paid for with pending input at
each layer, and so is an iteration of the extractor that does not end its
frame.  The recursion of the extractor is never deeper than the number of
opening `(` and `[` tokens still to come, and the top-level driver loop ends
as soon as the extractor reports the end of the file. -/
theorem C35_whole_file_scan_terminates :
    (∀ (k : keyword_state) (f logical_filename : List Char),
      (extract_whole_file k f logical_filename).2.scan.out_of_fuel = false) ∧
    (∀ (k : keyword_state) (s : scan_state), s.out_of_fuel = false →
      (x_arma_lex k s).2.out_of_fuel = false) ∧
    (∀ (s : scan_state), (phase4_getc s).2.fuel ≤ s.fuel ∧
      ((phase4_getc s).1 ≠ none → (phase4_getc s).2.fuel < s.fuel)) ∧
    (∀ (s : scan_state), (phase5_get s).2.fuel ≤ s.fuel ∧
      ((phase5_get s).1.type ≠ token_type_eof → (phase5_get s).2.fuel < s.fuel)) ∧
    (∀ (s : scan_state), (phase6_get s).2.fuel ≤ s.fuel ∧
      ((phase6_get s).1.type ≠ token_type_eof → (phase6_get s).2.fuel < s.fuel)) ∧
    (∀ (k : keyword_state) (s : scan_state), (x_arma_lex k s).2.fuel ≤ s.fuel ∧
      ((x_arma_lex k s).1.type ≠ xgettext_token_type_eof → (x_arma_lex k s).2.fuel < s.fuel)) ∧
    (∀ (k : keyword_state) (fuel argparser : Nat) (arg : Int) (state : Bool)
        (next_shapes : Option callshapes) (e : extract_state),
      (extract_parenthesized_loop k fuel argparser arg state next_shapes e).2.scan.fuel ≤
          e.scan.fuel ∧
        ((extract_parenthesized_loop k fuel argparser arg state next_shapes e).1 = false →
          (extract_parenthesized_loop k fuel argparser arg state next_shapes e).2.scan.fuel <
            e.scan.fuel)) ∧
    (∀ (k : keyword_state) (fuel argparser : Nat) (arg : Int) (state : Bool)
        (next_shapes : Option callshapes) (e : extract_state), e.scan.fuel ≤ fuel →
      extract_parenthesized_depth k fuel argparser arg state next_shapes e ≤
        opening_tokens (scan_tokens k e.scan)) ∧
    (∀ (k : keyword_state) (fuel : Nat) (e : extract_state),
      extract_whole_file_loop k (fuel + 1) e =
        if (extract_parenthesized k (arglist_parser_alloc none e).2.scan.fuel
            (arglist_parser_alloc none e).1 (arglist_parser_alloc none e).2).1 = true
        then (extract_parenthesized k (arglist_parser_alloc none e).2.scan.fuel
            (arglist_parser_alloc none e).1 (arglist_parser_alloc none e).2).2
        else extract_whole_file_loop k fuel
          (extract_parenthesized k (arglist_parser_alloc none e).2.scan.fuel
            (arglist_parser_alloc none e).1 (arglist_parser_alloc none e).2).2) := by
  refine ⟨extract_whole_file_in_fuel, x_arma_lex_in_fuel, phase4_getc_fuel, phase5_get_fuel,
    phase6_get_fuel, x_arma_lex_fuel, extract_parenthesized_loop_fuel,
    extract_parenthesized_depth_le, ?_⟩
  intro k fuel e
  rw [extract_whole_file_loop]

theorem C35_whole_file_scan_terminates_witness :
    (scan_state.initial "a [ b ( c ] d ) [[[]]] ) e".toList []).fuel ≤ 27 ∧
    extract_parenthesized_depth keyword_state.initial 27 0 1 false none
        { scan := scan_state.initial "a [ b ( c ] d ) [[[]]] ) e".toList [], calls := [],
          allocated := 1 } ≤
      opening_tokens (scan_tokens keyword_state.initial
        (scan_state.initial "a [ b ( c ] d ) [[[]]] ) e".toList [])) ∧
    extract_parenthesized_depth keyword_state.initial 27 0 1 false none
        { scan := scan_state.initial "a [ b ( c ] d ) [[[]]] ) e".toList [], calls := [],
          allocated := 1 } = 3 ∧
    opening_tokens (scan_tokens keyword_state.initial
        (scan_state.initial "a [ b ( c ] d ) [[[]]] ) e".toList [])) = 5 :=
  ⟨by decide,
    C35_whole_file_scan_terminates.2.2.2.2.2.2.2.1 keyword_state.initial 27 0 1 false none
      { scan := scan_state.initial "a [ b ( c ] d ) [[[]]] ) e".toList [], calls := [],
        allocated := 1 } (by decide),
    by decide, by decide⟩

/-! ### The literal concatenator: what it never delivers -/

theorem phase4_getc_ready (s : scan_state) (h : s.ready 2) : (phase4_getc s).2.ready 1 :=
  (phase4_getc_pending s h).1

theorem phase4_ungetc_ready (c : Option Char) (s : scan_state) (h : s.ready 1) :
    (phase4_ungetc c s).ready 2 :=
  (phase3_ungetc_pending c s (by decide) h).1

theorem phase5_get_white_space_ready : ∀ (fuel : Nat) (s : scan_state), s.ready 2 →
    (phase5_get_white_space fuel s).ready 2 := by
  intro fuel
  induction fuel with
  | zero => intro s h; exact h
  | succ fuel ih =>
    intro s h
    have h0 := phase4_getc_ready s h
    unfold phase5_get_white_space
    dsimp only
    split_ifs with c1
    · exact ih _ (h0.relax (by decide))
    · exact phase4_ungetc_ready _ _ h0

theorem phase5_get_name_ready : ∀ (fuel : Nat) (buffer : List Char) (c : Char)
    (s : scan_state), s.ready 2 → (phase5_get_name fuel buffer c s).2.ready 2 := by
  intro fuel
  induction fuel with
  | zero => intro _ _ s h; exact h
  | succ fuel ih =>
    intro buffer c s h
    have h0 := phase4_getc_ready s h
    unfold phase5_get_name
    dsimp only
    cases hc : (phase4_getc s).1 with
    | none => exact phase4_ungetc_ready _ _ h0
    | some c1 =>
      dsimp only
      split_ifs
      · exact ih _ _ _ (h0.relax (by decide))
      · exact phase4_ungetc_ready _ _ h0

theorem phase5_get_dollar_ready : ∀ (fuel : Nat) (buffer : List Char)
    (s : scan_state), s.ready 2 → (phase5_get_dollar fuel buffer s).2.ready 2 := by
  intro fuel
  induction fuel with
  | zero => intro _ s h; exact h
  | succ fuel ih =>
    intro buffer s h
    have h0 := phase4_getc_ready s h
    unfold phase5_get_dollar
    dsimp only
    cases hc : (phase4_getc s).1 with
    | none => exact phase4_ungetc_ready _ _ h0
    | some c1 =>
      dsimp only
      split_ifs
      · exact ih _ _ (h0.relax (by decide))
      · exact phase4_ungetc_ready _ _ h0

theorem phase5_get_dollar_start_ready (s : scan_state) (h : s.ready 2) :
    (phase5_get_dollar_start s).2.ready 2 := by
  have h0 := phase4_getc_ready s h
  unfold phase5_get_dollar_start
  dsimp only
  split
  · split_ifs
    · exact phase5_get_dollar_ready _ _ _ (h0.relax (by decide))
    · exact phase4_ungetc_ready _ _ h0
  · exact phase4_ungetc_ready _ _ h0

theorem phase5_get_number_ready : ∀ (fuel : Nat) (buffer : List Char) (c : Char)
    (s : scan_state), s.ready 2 → (phase5_get_number fuel buffer c s).2.ready 2 := by
  intro fuel
  induction fuel with
  | zero => intro _ _ s h; exact h
  | succ fuel ih =>
    intro buffer c s h
    have h0 := phase4_getc_ready s h
    have h1 := phase4_getc_ready _ (h0.relax (by decide))
    unfold phase5_get_number
    dsimp only
    cases hc : (phase4_getc s).1 with
    | none => exact phase4_ungetc_ready _ _ h0
    | some c1 =>
      dsimp only
      split_ifs
      · cases hc2 : (phase4_getc (phase4_getc s).2).1 with
        | none => exact phase4_ungetc_ready _ _ h1
        | some c2 =>
          dsimp only
          split_ifs
          · exact phase4_ungetc_ready _ _ h1
          · exact ih _ _ _ (h1.relax (by decide))
      · exact ih _ _ _ (h0.relax (by decide))
      · exact phase4_ungetc_ready _ _ h0

theorem phase5_get_string_ready : ∀ (fuel : Nat) (cquot : Char) (buffer : List Char)
    (s : scan_state), s.ready 2 → (phase5_get_string fuel cquot buffer s).2.ready 2 := by
  intro fuel
  induction fuel with
  | zero => intro _ _ s h; exact h
  | succ fuel ih =>
    intro cquot buffer s h
    have h0 : (phase3_getc s).2.ready 1 := (phase3_getc_pending s h).1
    have h1 : (phase3_getc (phase3_getc s).2).2.ready 0 := (phase3_getc_pending _ h0).1
    have hu := (phase3_ungetc_pending (phase3_getc (phase3_getc s).2).1 _ (by decide) h1).1
    unfold phase5_get_string
    dsimp only
    split_ifs with c1 c2
    · exact ih _ _ _ (h1.relax (by decide))
    · exact hu.relax (by decide)
    · cases hc : (phase3_getc s).1 with
      | none => exact h0.relax (by decide)
      | some c =>
        dsimp only
        split_ifs
        · exact (phase3_ungetc_pending (some '\n')
            { (phase3_getc s).2 with
              warnings := (phase3_getc s).2.warnings ++ [(phase3_getc s).2.line_number - 1] }
            (by decide : 1 < 2) h0).1
        · exact ih _ _ _ (h0.relax (by decide))
theorem phase5_get_ready (s : scan_state) (h : s.ready 2)
    (h5 : ∀ t ∈ s.phase5_pushback, t.type ≠ token_type_eof) :
    (phase5_get s).2.ready 2 ∧
      ((phase5_get s).1.type = token_type_eof → (phase5_get s).2.pending = []) := by
  cases hp : s.phase5_pushback with
  | cons t rest =>
    rw [phase5_get_pushback s t rest hp]
    exact ⟨h, fun e => absurd e (h5 t (by rw [hp]; exact List.mem_cons_self t rest))⟩
  | nil =>
    obtain ⟨p1, p2, p3⟩ := phase4_getc_pending s h
    have h0 := phase4_getc_ready s h
    have h0r : (phase4_getc s).2.ready 2 := h0.relax (by decide)
    have h1 := phase4_getc_ready _ h0r
    have hu := phase4_ungetc_ready (phase4_getc (phase4_getc s).2).1 _ h1
    unfold phase5_get
    rw [hp]
    dsimp only
    cases hc : (phase4_getc s).1 with
    | none =>
      refine ⟨h0r, fun _ => ?_⟩
      rw [hc] at p2
      have e : s.pending = [] := by
        cases hq : s.pending with
        | nil => rfl
        | cons c rest =>
          rw [hq, phase4_view] at p2
          split_ifs at p2
      rw [p3, e]
      rfl
    | some c =>
      dsimp only
      by_cases c1 : c = '\n'
      · rw [if_pos c1]; exact ⟨h0r, fun e => absurd e (by simp)⟩
      rw [if_neg c1]
      by_cases c2 : c = ' ' ∨ c = '\x0c' ∨ c = '\t'
      · rw [if_pos c2]
        exact ⟨phase5_get_white_space_ready _ _ h0r, fun e => absurd e (by simp)⟩
      rw [if_neg c2]
      by_cases c3 : is_name_start c = true
      · rw [if_pos c3]
        exact ⟨phase5_get_name_ready _ _ _ _ h0r, fun e => absurd e (by simp)⟩
      rw [if_neg c3]
      by_cases c4 : c = '$'
      · rw [if_pos c4]
        split_ifs <;>
          exact ⟨phase5_get_dollar_start_ready _ h0r, fun e => absurd e (by simp)⟩
      rw [if_neg c4]
      by_cases c5 : c = '.'
      · rw [if_pos c5]
        split_ifs
        · exact ⟨phase5_get_number_ready _ _ _ _ hu, fun e => absurd e (by simp)⟩
        · exact ⟨hu, fun e => absurd e (by simp)⟩
      rw [if_neg c5]
      by_cases c6 : c_isdigit c = true
      · rw [if_pos c6]
        exact ⟨phase5_get_number_ready _ _ _ _ h0r, fun e => absurd e (by simp)⟩
      rw [if_neg c6]
      by_cases c7 : c = '"' ∨ c = '\''
      · rw [if_pos c7]
        exact ⟨phase5_get_string_ready _ _ _ _ h0r, fun e => absurd e (by simp)⟩
      rw [if_neg c7]
      by_cases c8 : c = '('
      · rw [if_pos c8]; exact ⟨h0r, fun e => absurd e (by simp)⟩
      rw [if_neg c8]
      by_cases c9 : c = ')'
      · rw [if_pos c9]; exact ⟨h0r, fun e => absurd e (by simp)⟩
      rw [if_neg c9]
      by_cases c10 : c = '['
      · rw [if_pos c10]; exact ⟨h0r, fun e => absurd e (by simp)⟩
      rw [if_neg c10]
      by_cases c11 : c = ']'
      · rw [if_pos c11]; exact ⟨h0r, fun e => absurd e (by simp)⟩
      rw [if_neg c11]
      by_cases c12 : c = ','
      · rw [if_pos c12]; exact ⟨h0r, fun e => absurd e (by simp)⟩
      rw [if_neg c12]
      by_cases c13 : c = '#'
      · rw [if_pos c13]; exact ⟨h0r, fun e => absurd e (by simp)⟩
      rw [if_neg c13]
      by_cases c14 : c = ':'
      · rw [if_pos c14]; exact ⟨h0r, fun e => absurd e (by simp)⟩
      rw [if_neg c14]
      by_cases c15 : c = '\\'
      · rw [if_pos c15]
        split_ifs
        · exact ⟨h1.relax (by decide), fun e => absurd e (by simp)⟩
        · exact ⟨hu, fun e => absurd e (by simp)⟩
      rw [if_neg c15]
      exact ⟨h0r, fun e => absurd e (by simp)⟩

theorem phase5_unget_ready {n3 : Nat} (tp : token_ty) (s : scan_state) (h : s.ready n3) :
    (phase5_unget tp s).ready n3 ∧ (phase5_unget tp s).pending = s.pending ∧
      (∀ t ∈ (phase5_unget tp s).phase5_pushback,
        t.type = token_type_eof → t ∈ s.phase5_pushback) := by
  unfold phase5_unget
  split_ifs with c1 c2
  · exact ⟨h, rfl, fun t ht _ => ht⟩
  · refine ⟨h, rfl, fun t ht e => ?_⟩
    rcases List.mem_cons.mp ht with j | j
    · rw [j] at e
      exact absurd e c1
    · exact j
  · exact ⟨h, rfl, fun t ht _ => ht⟩
theorem phaseX_get_ready {n6 : Nat} (s : scan_state) (h : s.ready 2)
    (hw : pushback_within 1 2 1 n6 s)
    (h5 : ∀ t ∈ s.phase5_pushback, t.type ≠ token_type_eof) :
    (phaseX_get s).2.ready 2 ∧
      (∀ t ∈ (phaseX_get s).2.phase5_pushback, t.type ≠ token_type_eof) ∧
      ((phaseX_get s).1.type = token_type_eof →
        (phaseX_get s).2.pending = [] ∧ (phaseX_get s).2.phase5_pushback = []) := by
  obtain ⟨a1, a2⟩ := phase5_get_ready s h h5
  have aw := phase5_get_within s hw
  have a5 : (phase5_get s).2.phase5_pushback = [] :=
    List.length_eq_zero.mp (Nat.le_zero.mp aw.2.2.1)
  obtain ⟨b1, b2⟩ := phase5_get_ready (phase5_get s).2 a1 (by rw [a5]; simp)
  have bw := phase5_get_within (phase5_get s).2
    (aw.widen (Nat.le_refl 1) (Nat.le_refl 2) (Nat.zero_le 1) (Nat.le_refl n6))
  have b5 : (phase5_get (phase5_get s).2).2.phase5_pushback = [] :=
    List.length_eq_zero.mp (Nat.le_zero.mp bw.2.2.1)
  obtain ⟨u1, u2, u3⟩ := phase5_unget_ready (phase5_get (phase5_get s).2).1 _ b1
  unfold phaseX_get
  dsimp only
  by_cases c1 : (phase5_get s).1.type = token_type_eoln ∨ (phase5_get s).1.type = token_type_eof
  · rw [if_pos c1]
    exact ⟨a1, fun t ht => absurd ht (by rw [show ({ (phase5_get s).2 with middle := false } :
        scan_state).phase5_pushback = (phase5_get s).2.phase5_pushback from rfl, a5]; simp),
      fun e => ⟨a2 e, a5⟩⟩
  rw [if_neg c1]
  have ne : (phase5_get s).1.type ≠ token_type_eof := fun e => c1 (Or.inr e)
  by_cases c2 : (phase5_get s).2.middle = true
  · rw [if_pos c2]
    refine ⟨a1, fun t ht => absurd ht (by rw [a5]; simp), fun e => ?_⟩
    dsimp only at e
    split_ifs at e
    exact absurd e ne
  rw [if_neg c2]
  by_cases c3 : (phase5_get s).1.type = token_type_white_space
  · rw [if_pos c3]
    by_cases c4 : (phase5_get (phase5_get s).2).1.type = token_type_hash
    · rw [if_pos c4]
      refine ⟨b1, fun t ht => absurd ht (by
        rw [show ({ (phase5_get (phase5_get s).2).2 with middle := true } :
          scan_state).phase5_pushback = (phase5_get (phase5_get s).2).2.phase5_pushback from rfl,
          b5]; simp), fun e => ?_⟩
      dsimp only at e
      rw [c4] at e
      exact absurd e (by simp)
    · rw [if_neg c4]
      refine ⟨u1, fun t ht e => ?_, fun e => absurd e ne⟩
      have m := u3 t ht e
      rw [b5] at m
      exact absurd m (by simp)
  rw [if_neg c3]
  exact ⟨a1, fun t ht => absurd ht (by rw [show ({ (phase5_get s).2 with middle := true } :
      scan_state).phase5_pushback = (phase5_get s).2.phase5_pushback from rfl, a5]; simp),
    fun e => absurd e ne⟩
theorem scan_state.settled.carry {n6 : Nat} {s s1 : scan_state} (h : s.settled n6)
    (e : s1.fp = s.fp ∧ s1.phase1_pushback = s.phase1_pushback ∧
      s1.phase2_pushback = s.phase2_pushback ∧ s1.phase3_pushback = s.phase3_pushback ∧
      s1.phase5_pushback = s.phase5_pushback ∧ s1.phase6_pushback = s.phase6_pushback ∧
      s1.aborted = s.aborted) :
    s1.settled n6 ∧ s1.pending = s.pending := by
  obtain ⟨e0, e1, e2, e3, e5, e6, ea⟩ := e
  refine ⟨⟨?_, h.2.1.keep e2 e3 e5 e6 ea, ?_⟩, ?_⟩
  · unfold scan_state.ready
    rw [e1, e2, e3]
    exact h.1
  · rw [e5]
    exact h.2.2
  · unfold scan_state.pending
    rw [e0, e2, e3]

theorem phase6_apply_directive_same (buf : List token_ty) (s : scan_state) :
    (phase6_apply_directive buf s).fp = s.fp ∧
      (phase6_apply_directive buf s).phase1_pushback = s.phase1_pushback ∧
      (phase6_apply_directive buf s).phase2_pushback = s.phase2_pushback ∧
      (phase6_apply_directive buf s).phase3_pushback = s.phase3_pushback ∧
      (phase6_apply_directive buf s).phase5_pushback = s.phase5_pushback ∧
      (phase6_apply_directive buf s).phase6_pushback = s.phase6_pushback ∧
      (phase6_apply_directive buf s).aborted = s.aborted := by
  have a : ∀ s1 : scan_state, (phase6_apply_line buf s1).fp = s1.fp ∧
      (phase6_apply_line buf s1).phase1_pushback = s1.phase1_pushback ∧
      (phase6_apply_line buf s1).phase2_pushback = s1.phase2_pushback ∧
      (phase6_apply_line buf s1).phase3_pushback = s1.phase3_pushback ∧
      (phase6_apply_line buf s1).phase5_pushback = s1.phase5_pushback ∧
      (phase6_apply_line buf s1).phase6_pushback = s1.phase6_pushback ∧
      (phase6_apply_line buf s1).aborted = s1.aborted := by
    intro s1
    unfold phase6_apply_line
    split
    · split_ifs
      · exact ⟨rfl, rfl, rfl, rfl, rfl, rfl, rfl⟩
      · exact ⟨rfl, rfl, rfl, rfl, rfl, rfl, rfl⟩
    · exact ⟨rfl, rfl, rfl, rfl, rfl, rfl, rfl⟩
  have b : ∀ s1 : scan_state, (phase6_apply_number buf s1).fp = s1.fp ∧
      (phase6_apply_number buf s1).phase1_pushback = s1.phase1_pushback ∧
      (phase6_apply_number buf s1).phase2_pushback = s1.phase2_pushback ∧
      (phase6_apply_number buf s1).phase3_pushback = s1.phase3_pushback ∧
      (phase6_apply_number buf s1).phase5_pushback = s1.phase5_pushback ∧
      (phase6_apply_number buf s1).phase6_pushback = s1.phase6_pushback ∧
      (phase6_apply_number buf s1).aborted = s1.aborted := by
    intro s1
    unfold phase6_apply_number
    split
    · split_ifs
      · exact ⟨rfl, rfl, rfl, rfl, rfl, rfl, rfl⟩
      · exact ⟨rfl, rfl, rfl, rfl, rfl, rfl, rfl⟩
    · exact ⟨rfl, rfl, rfl, rfl, rfl, rfl, rfl⟩
  unfold phase6_apply_directive
  obtain ⟨a0, a1, a2, a3, a5, a6, aa⟩ := a s
  obtain ⟨b0, b1, b2, b3, b5, b6, ba⟩ := b (phase6_apply_line buf s)
  exact ⟨b0.trans a0, b1.trans a1, b2.trans a2, b3.trans a3, b5.trans a5, b6.trans a6,
    ba.trans aa⟩

theorem phaseX_get_settled {n6 : Nat} (s : scan_state) (h : s.settled n6) :
    (phaseX_get s).2.settled n6 ∧
      ((phaseX_get s).1.type = token_type_eof → (phaseX_get s).2.at_end) := by
  obtain ⟨a1, a2, a3⟩ := phaseX_get_ready s h.1 h.2.1 h.2.2
  exact ⟨⟨a1, phaseX_get_within s h.2.1, a2⟩, a3⟩

theorem phase6_get_directive_settled {n6 : Nat} :
    ∀ (fuel : Nat) (buf : List token_ty) (s : scan_state), s.settled n6 →
      (phase6_get_directive fuel buf s).2.2.settled n6 ∧
      ∀ tp, (phase6_get_directive fuel buf s).1 = some tp → tp.type = token_type_name := by
  intro fuel
  induction fuel with
  | zero =>
    intro buf s h
    exact ⟨(h.carry ⟨rfl, rfl, rfl, rfl, rfl, rfl, rfl⟩).1, fun tp e => absurd e (by
      simp [phase6_get_directive])⟩
  | succ fuel ih =>
    intro buf s h
    obtain ⟨h0, _⟩ := phaseX_get_settled s h
    unfold phase6_get_directive
    dsimp only
    split_ifs with c1 c2 c3
    · exact ⟨h0, fun tp e => absurd e (by simp)⟩
    · refine ⟨h0, fun tp e => ?_⟩
      simp only [Option.some.injEq] at e
      rw [← e]
      exact c3.2.1
    · exact ih _ _ h0
    · exact ih _ _ h0

theorem phase6_get_loop_settled {n6 : Nat} : ∀ (fuel : Nat) (s : scan_state),
    s.settled n6 → s.fuel ≤ fuel →
    (phase6_get_loop fuel s).2.settled n6 ∧
      (phase6_get_loop fuel s).1.type ≠ token_type_hash ∧
      ((phase6_get_loop fuel s).1.type = token_type_eof → (phase6_get_loop fuel s).2.at_end) := by
  intro fuel
  induction fuel with
  | zero => intro s _ hf; have := s.fuel_pos; omega
  | succ fuel ih =>
    intro s h hf
    obtain ⟨h0, h1⟩ := phaseX_get_settled s h
    have f0 := phaseX_get_fuel s
    obtain ⟨hd, hn⟩ := phase6_get_directive_settled (phaseX_get s).2.fuel [] _ h0
    have fd := phase6_get_directive_fuel (phaseX_get s).2.fuel [] (phaseX_get s).2
    unfold phase6_get_loop
    dsimp only
    split_ifs with c1
    · exact ⟨h0, c1, h1⟩
    · have e1 : (phaseX_get s).1.type = token_type_hash := by simpa using c1
      have g0 := f0.2 (by rw [e1]; simp)
      split
      · rename_i tp htp
        have t := hn tp htp
        exact ⟨hd, by rw [t]; simp, fun e => absurd e (by rw [t]; simp)⟩
      · have k1 := (hd.carry (phase6_apply_directive_same
          (phase6_get_directive (phaseX_get s).2.fuel [] (phaseX_get s).2).2.1
          (phase6_get_directive (phaseX_get s).2.fuel [] (phaseX_get s).2).2.2)).1
        have k2 : (savable_comment_reset (phase6_apply_directive
            (phase6_get_directive (phaseX_get s).2.fuel [] (phaseX_get s).2).2.1
            (phase6_get_directive (phaseX_get s).2.fuel [] (phaseX_get s).2).2.2)).settled n6 :=
          (k1.carry ⟨rfl, rfl, rfl, rfl, rfl, rfl, rfl⟩).1
        exact ih _ k2 (by rw [savable_comment_reset_fuel, phase6_apply_directive_fuel]; omega)
theorem scan_state.settled.pb6_nil {s : scan_state} (h : s.settled 0) :
    s.phase6_pushback = [] :=
  List.length_eq_zero.mp (Nat.le_zero.mp h.2.1.2.2.2.1)

theorem scan_state.settled.raise {n6 m6 : Nat} {s : scan_state} (h : s.settled n6)
    (hm : n6 ≤ m6) : s.settled m6 :=
  ⟨h.1, h.2.1.widen (Nat.le_refl 1) (Nat.le_refl 2) (Nat.le_refl 1) hm, h.2.2⟩

theorem phase6_get_settled (s : scan_state) (h : s.settled 0) :
    (phase6_get s).2.settled 0 ∧ (phase6_get s).1.type ≠ token_type_hash ∧
      ((phase6_get s).1.type = token_type_eof → (phase6_get s).2.at_end) := by
  have e : phase6_get s = phase6_get_loop s.fuel s := by
    unfold phase6_get
    rw [h.pb6_nil]
  rw [e]
  exact phase6_get_loop_settled _ s h (Nat.le_refl _)

theorem phase8a_get_loop_settled : ∀ (fuel : Nat) (s : scan_state),
    s.settled 0 → s.fuel ≤ fuel →
    (phase8a_get_loop fuel s).2.settled 0 ∧
      (phase8a_get_loop fuel s).1.type ≠ token_type_hash ∧
      ((phase8a_get_loop fuel s).1.type = token_type_eof →
        (phase8a_get_loop fuel s).2.at_end) := by
  intro fuel
  induction fuel with
  | zero => intro s _ hf; have := s.fuel_pos; omega
  | succ fuel ih =>
    intro s h hf
    obtain ⟨h0, h1, h2⟩ := phase6_get_settled s h
    have f0 := phase6_get_fuel s
    unfold phase8a_get_loop
    dsimp only
    split_ifs with c1 c2 c3
    · exact ih _ h0 (by have := f0.2 (by rw [c1]; simp); omega)
    · exact ih _ (h0.carry ⟨rfl, rfl, rfl, rfl, rfl, rfl, rfl⟩).1 (by
        have := f0.2 (by rw [c2]; simp)
        rw [savable_comment_reset_fuel, fuel_newline_count]
        omega)
    · exact ih _ (h0.carry ⟨rfl, rfl, rfl, rfl, rfl, rfl, rfl⟩).1 (by
        have := f0.2 (by rw [c2]; simp)
        rw [fuel_newline_count]
        omega)
    · exact ⟨h0, h1, h2⟩

theorem phase8a_get_pushed_back (s : scan_state) (t : token_ty) (rest : List token_ty)
    (hp : s.phase6_pushback = t :: rest) (h1 : t.type ≠ token_type_white_space)
    (h2 : t.type ≠ token_type_eoln) :
    phase8a_get s = (t, { s with phase6_pushback := rest }) := by
  have e : phase6_get s = (t, { s with phase6_pushback := rest }) := by
    unfold phase6_get
    rw [hp]
  obtain ⟨n, hn⟩ : ∃ n, s.fuel = n + 1 := ⟨s.fuel - 1, by have := s.fuel_pos; omega⟩
  unfold phase8a_get
  rw [hn, phase8a_get_loop]
  dsimp only
  rw [e]
  dsimp only
  rw [if_neg h1, if_neg h2]

/-- Between two calls of `phase8_get`, `phase8a_get` delivers a token that is
neither white space, nor an end of line, nor a leading hash; it leaves the
pushback of phase 6 empty, and nothing to read when it delivers the end of
the file. -/
theorem phase8a_get_settled (s : scan_state) (h : s.concat_ready) :
    (phase8a_get s).2.settled 0 ∧ (phase8a_get s).1.type ≠ token_type_hash ∧
      (phase8a_get s).1.type ≠ token_type_white_space ∧
      (phase8a_get s).1.type ≠ token_type_eoln ∧
      ((phase8a_get s).1.type = token_type_eof → (phase8a_get s).2.at_end) := by
  obtain ⟨t1, t2⟩ := phase8a_get_loop_type s.fuel s
  cases hp : s.phase6_pushback with
  | nil =>
    have h0 : s.settled 0 :=
      ⟨h.1.1, ⟨h.1.2.1.1, h.1.2.1.2.1, h.1.2.1.2.2.1, by rw [hp]; exact Nat.le_refl _,
        h.1.2.1.2.2.2.2⟩, h.1.2.2⟩
    obtain ⟨a1, a2, a3⟩ := phase8a_get_loop_settled s.fuel s h0 (Nat.le_refl _)
    exact ⟨a1, a2, t1, t2, a3⟩
  | cons t rest =>
    have pl := h.2 t (by rw [hp]; exact List.mem_cons_self t rest)
    have hl : rest = [] := by
      have := h.1.2.1.2.2.2.1
      rw [hp] at this
      simp only [List.length_cons] at this
      exact List.length_eq_zero.mp (by omega)
    rw [phase8a_get_pushed_back s t rest hp pl.2.1 pl.2.2.1]
    refine ⟨?_, pl.2.2.2.1, pl.2.1, pl.2.2.1, fun e => absurd e pl.1⟩
    refine ⟨h.1.1, ⟨h.1.2.1.1, h.1.2.1.2.1, h.1.2.1.2.2.1, ?_, h.1.2.1.2.2.2.2⟩, h.1.2.2⟩
    rw [hl]
    exact Nat.le_refl _
theorem scan_state.settled.to_concat {s : scan_state} (h : s.settled 0) :
    s.concat_ready :=
  ⟨h.raise (Nat.zero_le 1), fun t ht => absurd ht (by rw [h.pb6_nil]; simp)⟩

theorem phase8a_unget_after_literal (tp : token_ty) (s : scan_state) (h : s.settled 0)
    (h1 : tp.type ≠ token_type_hash) (h2 : tp.type ≠ token_type_white_space)
    (h3 : tp.type ≠ token_type_eoln) (h4 : tp.type ≠ token_type_string_literal)
    (h5 : tp.type ≠ token_type_eoln_explicit) (he : tp.type = token_type_eof → s.at_end) :
    (phase8a_unget tp s).after_literal := by
  have hp := h.pb6_nil
  unfold phase8a_unget phase6_unget
  by_cases c1 : tp.type = token_type_eof
  · rw [if_neg (by simpa using c1)]
    exact ⟨h.to_concat, fun _ => he c1⟩
  · rw [if_pos c1, if_neg (by rw [hp]; simp)]
    refine ⟨⟨⟨h.1, ⟨h.2.1.1, h.2.1.2.1, h.2.1.2.2.1, ?_, h.2.1.2.2.2.2⟩, h.2.2⟩, ?_⟩, ?_⟩
    · show (tp :: s.phase6_pushback).length ≤ 1
      rw [hp]
      exact Nat.le_refl _
    · intro t ht
      have ht1 : t ∈ tp :: s.phase6_pushback := ht
      rw [hp] at ht1
      rw [List.mem_singleton.mp ht1]
      exact ⟨c1, h2, h3, h1, h4, h5⟩
    · intro e
      exact absurd (show tp :: s.phase6_pushback = [] from e) (by simp)

theorem phase8_get_loop_literal : ∀ (fuel : Nat) (tp : token_ty) (s : scan_state),
    s.settled 0 → s.fuel ≤ fuel →
    (tp.type = token_type_string_literal ∨ tp.type = token_type_eoln_explicit) →
    (phase8_get_loop fuel tp s).1.type = token_type_string_literal ∧
      (phase8_get_loop fuel tp s).2.after_literal := by
  intro fuel
  induction fuel with
  | zero => intro _ s _ hf; have := s.fuel_pos; omega
  | succ fuel ih =>
    intro tp s h hf ht
    obtain ⟨a1, a2, a3, a4, a5⟩ := phase8a_get_settled s h.to_concat
    have f := phase8a_get_fuel s
    rw [phase8_get_loop]
    by_cases c1 : (phase8a_get s).1.type ≠ token_type_string_literal ∧
        (phase8a_get s).1.type ≠ token_type_eoln_explicit
    · rw [if_pos c1]
      refine ⟨?_, phase8a_unget_after_literal _ _ a1 a2 a3 a4 c1.1 c1.2 a5⟩
      dsimp only
      split_ifs with c2
      · rfl
      · rcases ht with j | j
        · exact j
        · exact absurd j c2
    · rw [if_neg c1]
      have hne : (phase8a_get s).1.type ≠ token_type_eof := by
        intro e
        apply c1
        rw [e]
        exact ⟨by decide, by decide⟩
      exact ih _ _ a1 (by have := f.2 hne; omega) (Or.inl rfl)

/-- What `phase8_get` delivers between two of its calls: never white space, an
end of line, a leading hash or an explicit newline; and after a string literal
the token read ahead is pushed back or the end of the file was reached. -/
theorem phase8_get_concat_ready (s : scan_state) (h : s.concat_ready) :
    (phase8_get s).2.concat_ready ∧
      (phase8_get s).1.type ≠ token_type_white_space ∧
      (phase8_get s).1.type ≠ token_type_eoln ∧
      (phase8_get s).1.type ≠ token_type_hash ∧
      (phase8_get s).1.type ≠ token_type_eoln_explicit ∧
      ((phase8_get s).1.type = token_type_string_literal → (phase8_get s).2.after_literal) := by
  obtain ⟨a1, a2, a3, a4, a5⟩ := phase8a_get_settled s h
  unfold phase8_get
  dsimp only
  by_cases c1 : (phase8a_get s).1.type ≠ token_type_string_literal ∧
      (phase8a_get s).1.type ≠ token_type_eoln_explicit
  · rw [if_pos c1]
    exact ⟨a1.to_concat, a3, a4, a2, c1.2, fun e => absurd e c1.1⟩
  · rw [if_neg c1]
    have ht : (phase8a_get s).1.type = token_type_string_literal ∨
        (phase8a_get s).1.type = token_type_eoln_explicit := by
      by_cases j : (phase8a_get s).1.type = token_type_string_literal
      · exact Or.inl j
      · by_cases j2 : (phase8a_get s).1.type = token_type_eoln_explicit
        · exact Or.inr j2
        · exact absurd ⟨j, j2⟩ c1
    obtain ⟨b1, b2⟩ := phase8_get_loop_literal (phase8a_get s).2.fuel (phase8a_get s).1
      (phase8a_get s).2 a1 (Nat.le_refl _) ht
    exact ⟨b2.1, by rw [b1]; simp, by rw [b1]; simp, by rw [b1]; simp, by rw [b1]; simp,
      fun _ => b2⟩

/-- After a string literal, `phase8_get` delivers a token of another type. -/
theorem phase8_get_after_literal (s : scan_state) (h : s.after_literal) :
    (phase8_get s).1.type ≠ token_type_string_literal := by
  cases hp : s.phase6_pushback with
  | nil =>
    obtain ⟨e1, e2⟩ := h.2 hp
    have hw : pushback_within 1 2 0 0 s :=
      ⟨h.1.1.2.1.1, h.1.1.2.1.2.1, by rw [e2]; exact Nat.le_refl _, by rw [hp]; exact Nat.le_refl _,
        h.1.1.2.1.2.2.2.2⟩
    have a := (phase8a_get_at_end s h.1.1.1 hw e1).1
    have e : phase8_get s = phase8a_get s := by
      unfold phase8_get
      dsimp only
      rw [if_pos (by rw [a]; simp)]
    rw [e, a]
    simp
  | cons t rest =>
    have pl := h.1.2 t (by rw [hp]; exact List.mem_cons_self t rest)
    have a := phase8a_get_pushed_back s t rest hp pl.2.1 pl.2.2.1
    unfold phase8_get
    dsimp only
    rw [a]
    dsimp only
    rw [if_pos ⟨pl.2.2.2.2.1, pl.2.2.2.2.2⟩]
    exact pl.2.2.2.2.1
theorem scan_state.concat_ready.with_line {s : scan_state} (h : s.concat_ready) (x : Int) :
    ({ s with last_non_comment_line := x } : scan_state).concat_ready :=
  ⟨(h.1.carry ⟨rfl, rfl, rfl, rfl, rfl, rfl, rfl⟩).1, h.2⟩

theorem scan_state.after_literal.mark_line {s : scan_state} (h : s.after_literal) (x : Int) :
    ({ s with last_non_comment_line := x } : scan_state).after_literal :=
  ⟨h.1.with_line x, fun e => h.2 e⟩

theorem x_arma_lex_string (k : keyword_state) (s : scan_state) :
    ((x_arma_lex k s).1.type = xgettext_token_type_string_literal ↔
      (phase8_get s).1.type = token_type_string_literal) ∧
    ((x_arma_lex k s).2 = (phase8_get s).2 ∨
      (x_arma_lex k s).2 =
        { (phase8_get s).2 with last_non_comment_line := (phase8_get s).2.newline_count }) := by
  unfold x_arma_lex
  dsimp only
  cases ht : (phase8_get s).1.type
  case token_type_name =>
    dsimp only
    split
    · exact ⟨by simp, Or.inr rfl⟩
    · exact ⟨by simp [xgettext_token_of_type], Or.inr rfl⟩
  case token_type_eof => exact ⟨by simp [xgettext_token_of_type], Or.inl rfl⟩
  all_goals exact ⟨by simp [xgettext_token_of_type], Or.inr rfl⟩

theorem x_arma_lex_concat_ready (k : keyword_state) (s : scan_state) (h : s.concat_ready) :
    (x_arma_lex k s).2.concat_ready ∧
      ((x_arma_lex k s).1.type = xgettext_token_type_string_literal →
        (x_arma_lex k s).2.after_literal) := by
  obtain ⟨a1, _, _, _, _, a6⟩ := phase8_get_concat_ready s h
  obtain ⟨b1, b2⟩ := x_arma_lex_string k s
  rcases b2 with b2 | b2
  · rw [b2]
    exact ⟨a1, fun e => a6 (b1.mp e)⟩
  · rw [b2]
    exact ⟨a1.with_line _, fun e => (a6 (b1.mp e)).mark_line _⟩

theorem x_arma_lex_after_literal (k : keyword_state) (s : scan_state) (h : s.after_literal) :
    (x_arma_lex k s).1.type ≠ xgettext_token_type_string_literal :=
  fun e => phase8_get_after_literal s h ((x_arma_lex_string k s).1.mp e)

theorem phase8_get_many_chain : ∀ (n : Nat) (s : scan_state), s.concat_ready →
    (∀ t ∈ phase8_get_many n s, t.type ≠ token_type_white_space ∧ t.type ≠ token_type_eoln ∧
      t.type ≠ token_type_hash ∧ t.type ≠ token_type_eoln_explicit) ∧
    List.Chain' (fun a b : token_ty => ¬ (a.type = token_type_string_literal ∧
      b.type = token_type_string_literal)) (phase8_get_many n s) ∧
    (s.after_literal → ∀ t ∈ (phase8_get_many n s).head?,
      t.type ≠ token_type_string_literal) := by
  intro n
  induction n with
  | zero =>
    intro s _
    exact ⟨fun t ht => absurd ht (by simp [phase8_get_many]), List.chain'_nil,
      fun _ t ht => absurd ht (by simp [phase8_get_many])⟩
  | succ n ih =>
    intro s h
    obtain ⟨a1, a2, a3, a4, a5, a6⟩ := phase8_get_concat_ready s h
    obtain ⟨i1, i2, i3⟩ := ih (phase8_get s).2 a1
    rw [phase8_get_many]
    refine ⟨fun t ht => ?_, ?_, fun ha t ht => ?_⟩
    · rcases List.mem_cons.mp ht with j | j
      · rw [j]
        exact ⟨a2, a3, a4, a5⟩
      · exact i1 t j
    · rw [List.chain'_cons']
      exact ⟨fun b hb e => i3 (a6 e.1) b hb e.2, i2⟩
    · simp only [List.head?_cons, Option.mem_def, Option.some.injEq] at ht
      rw [← ht]
      exact phase8_get_after_literal s ha

theorem x_arma_lex_many_chain (k : keyword_state) : ∀ (n : Nat) (s : scan_state),
    s.concat_ready →
    List.Chain' (fun a b : xgettext_token_ty => ¬ (a.type = xgettext_token_type_string_literal ∧
      b.type = xgettext_token_type_string_literal)) (x_arma_lex_many k n s) ∧
    (s.after_literal → ∀ t ∈ (x_arma_lex_many k n s).head?,
      t.type ≠ xgettext_token_type_string_literal) := by
  intro n
  induction n with
  | zero =>
    intro s _
    exact ⟨List.chain'_nil, fun _ t ht => absurd ht (by simp [x_arma_lex_many])⟩
  | succ n ih =>
    intro s h
    obtain ⟨a1, a6⟩ := x_arma_lex_concat_ready k s h
    obtain ⟨i2, i3⟩ := ih (x_arma_lex k s).2 a1
    rw [x_arma_lex_many]
    refine ⟨?_, fun ha t ht => ?_⟩
    · rw [List.chain'_cons']
      exact ⟨fun b hb e => i3 (a6 e.1) b hb e.2, i2⟩
    · simp only [List.head?_cons, Option.mem_def, Option.some.injEq] at ht
      rw [← ht]
      exact x_arma_lex_after_literal k s ha

theorem scan_state.initial_concat_ready (f logical_filename : List Char) :
    (scan_state.initial f logical_filename).concat_ready :=
  ⟨⟨⟨rfl, Nat.zero_le _, Nat.zero_le _⟩,
    ⟨Nat.zero_le _, Nat.zero_le _, Nat.zero_le _, Nat.zero_le _, rfl⟩,
    fun t ht => absurd ht (by simp [scan_state.initial])⟩,
    fun t ht => absurd ht (by simp [scan_state.initial])⟩

/-- C36: in the sequence of tokens that successive calls of the literal
concatenator `phase8_get` deliver for a file, no white-space, end-of-line,
leading-hash or explicit-newline token appears and no string-literal token is
directly followed by another string-literal token; hence no string-literal
token of the high-level token stream of `x_arma_lex` is directly followed by
another one either.  An explicit newline without a successor is delivered as a
string literal. -/
theorem C36_concatenated_token_stream :
    (∀ (f logical_filename : List Char) (n : Nat),
      (∀ t ∈ phase8_get_many n (scan_state.initial f logical_filename),
        t.type ≠ token_type_white_space ∧ t.type ≠ token_type_eoln ∧
        t.type ≠ token_type_hash ∧ t.type ≠ token_type_eoln_explicit) ∧
      List.Chain' (fun a b : token_ty => ¬ (a.type = token_type_string_literal ∧
        b.type = token_type_string_literal))
        (phase8_get_many n (scan_state.initial f logical_filename))) ∧
    (∀ (k : keyword_state) (f logical_filename : List Char) (n : Nat),
      List.Chain' (fun a b : xgettext_token_ty =>
        ¬ (a.type = xgettext_token_type_string_literal ∧
          b.type = xgettext_token_type_string_literal))
        (x_arma_lex_many k n (scan_state.initial f logical_filename))) ∧
    (phase8_get_many 7
        (scan_state.initial "\"a\" \\n\n# x \"q\"\n \"b\" , \\n c \"d\"".toList [])).map
        (fun t => (t.type, t.string)) =
      [(token_type_string_literal, "a\nb".toList), (token_type_comma, []),
        (token_type_string_literal, "\n".toList), (token_type_name, "c".toList),
        (token_type_string_literal, "d".toList), (token_type_eof, []),
        (token_type_eof, [])] := by
  refine ⟨fun f logical_filename n => ?_, fun k f logical_filename n => ?_, by decide⟩
  · obtain ⟨a, b, _⟩ := phase8_get_many_chain n _
      (scan_state.initial_concat_ready f logical_filename)
    exact ⟨a, b⟩
  · exact (x_arma_lex_many_chain k n _ (scan_state.initial_concat_ready f logical_filename)).1

theorem C36_concatenated_token_stream_witness :
    ({ type := token_type_string_literal, string := "ab".toList, comment := none, number := 0,
        line_number := 1 } : token_ty) ∈
      phase8_get_many 4 (scan_state.initial "\"a\" \"b\" x".toList []) ∧
    (token_type_string_literal ≠ token_type_white_space ∧
      token_type_string_literal ≠ token_type_eoln ∧
      token_type_string_literal ≠ token_type_hash ∧
      token_type_string_literal ≠ token_type_eoln_explicit) :=
  ⟨by decide,
    (C36_concatenated_token_stream.1 "\"a\" \"b\" x".toList [] 4).1
      { type := token_type_string_literal, string := "ab".toList, comment := none, number := 0,
        line_number := 1 } (by decide)⟩

end Arma
